import Mathlib

/-!
# Calibration-range propagation of the TopToTpu lowering pass

A shallow embedding of `lib/Conversion/TopToTpu/TopToTpuPass.cpp`.

* A graph is the list of its operations in program order; the value produced by
  an operation (its result 0) is named by the operation's position, so every
  value has exactly one producer by construction.
* `double` and `float` quantities (calibrated bounds, constants, weights) are
  embedded as rationals: comparisons, `std::min`, `std::max`, `std::abs` and
  copies are exact.  Where `KeepSignPattern`, `set_add_before_softmax_fp32` and
  `do_cast` store a value in a `float`, the value is rounded as IEEE 754
  prescribes (`toFloat`, with the `double` operation before it rounded by
  `toDouble`); a value outside the range of the format has no embedding.  In
  the other patterns a product with `0.1` is the exact tenth.
* A rewrite pattern returns `success` or `failure` together with the graph it
  leaves behind (the patterns edit types in place, so a pattern that reports
  failure may still have edited the graph), or stops the program.
-/

namespace TpuMlir

/-! ## Types -/

/-- Element kinds that a tensor stores or expresses. -/
inductive StorageKind where
  | f32 | f16 | bf16 | f8e4m3 | f8e5m2 | i32 | i16 | u16 | i8 | u8 | i4 | u4 | none
  deriving DecidableEq, Repr

/-- The parameters of a `quant::CalibratedQuantizedType`. -/
structure CalibratedType where
  expressed : StorageKind
  min : ℚ
  max : ℚ
  deriving DecidableEq, Repr

/-- The element type of a ranked tensor: the three representations of §3. -/
inductive ElemType where
  | plain (storage : StorageKind)
  | calibrated (q : CalibratedType)
  | uniform (storage : StorageKind) (scale : ℚ) (zeroPoint : Int)
  deriving DecidableEq, Repr

/-- A `RankedTensorType`: a shape and an element type. -/
structure TensorType where
  shape : List Int
  elem : ElemType
  deriving DecidableEq, Repr

/-- The type of a `top.None` result and of values that are absent. -/
def noneType : TensorType := { shape := [], elem := .plain .none }

/-! ## Binary floating point -/

/-- The power `2^e` as a rational. -/
def pow2 (e : Int) : ℚ :=
  if 0 ≤ e then ((2 ^ e.toNat : Nat) : ℚ) else 1 / ((2 ^ (-e).toNat : Nat) : ℚ)

/-- The number of binary digits of `n`, by halving; `fuel` bounds the number
of digits counted (`fuel = n` is enough). -/
def bitLength : Nat → Nat → Nat
  | 0, _ => 0
  | fuel + 1, n => if n = 0 then 0 else bitLength fuel (n / 2) + 1

/-- The binade of a non-zero rational `x`: the exponent `e` with
`2^e ≤ |x| < 2^(e+1)`. -/
def binade (x : ℚ) : Int :=
  let e0 : Int := (bitLength x.num.natAbs x.num.natAbs : Int) - (bitLength x.den x.den : Int)
  if pow2 e0 ≤ |x| then e0 else e0 - 1

/-- Rounding of a rational to the nearest integer, a tie going to the even
one. -/
def roundHalfEven (q : ℚ) : Int :=
  let f := ⌊q⌋
  if q - f < 1 / 2 then f
  else if 1 / 2 < q - f then f + 1
  else if f % 2 = 0 then f else f + 1

/-- IEEE 754 rounding to nearest, ties to even, into a binary format with
`prec` significand bits and least normal exponent `emin` (below it the
subnormal numbers share the spacing of that exponent); the exponent is not
bounded above. -/
def roundBinary (prec : Nat) (emin : Int) (x : ℚ) : ℚ :=
  if x = 0 then 0
  else
    let ulp := pow2 (max (binade x) emin - ((prec : Int) - 1))
    (roundHalfEven (x / ulp) : ℚ) * ulp

/-- The value a `float` (binary32) takes when the real value `x` is stored in
it; `none` when `x` rounds to a magnitude of `2^128` or more, which is outside
the range of `float` (an infinity under IEEE 754, undefined behaviour as a
narrowing conversion).  The sign of a zero is not told apart. -/
def toFloat (x : ℚ) : Option ℚ :=
  let r := roundBinary 24 (-126) x
  if |r| < pow2 128 then some r else none

/-- The value a `double` (binary64) takes as the result of an arithmetic
operation whose exact result is `x`; `none` when `x` rounds to a magnitude of
`2^1024` or more. -/
def toDouble (x : ℚ) : Option ℚ :=
  let r := roundBinary 53 (-1022) x
  if |r| < pow2 1024 then some r else none

/-- The `double` literal `0.1`: the binary64 number nearest to one tenth. -/
def tenth : ℚ := 3602879701896397 / 36028797018963968

/-- The statement `float min = -out_max * 0.1;` of `KeepSignPattern`
(line 166): the product of two `double`s, stored in a `float`. -/
def floatNegTenth (out_max : ℚ) : Option ℚ :=
  (toDouble (-out_max * tenth)).bind toFloat

/-! ## Machine integers -/

/-- The conversion of an `int64_t` to `int` (32 bits, two's complement). -/
def toInt32 (x : Int) : Int :=
  (x + 2147483648) % 4294967296 - 2147483648

/-- The result of an arithmetic operation on `int`s whose exact result is `x`:
`none` when `x` leaves the range of `int` (signed overflow, undefined
behaviour). -/
def intResult (x : Int) : Option Int :=
  if -2147483648 ≤ x ∧ x ≤ 2147483647 then some x else none

/-- The result of an arithmetic operation on `int64_t`s whose exact result is
`x`: `none` when `x` leaves the range of `int64_t`. -/
def int64Result (x : Int) : Option Int :=
  if -9223372036854775808 ≤ x ∧ x ≤ 9223372036854775807 then some x else none

/-- Modelled from the spec: the closed set of operation kinds is declared by the
dialect, outside the sources at hand.  Listed are the `top` operations the
propagator and the mixed-precision matchers name, and `Other` for every
operation they do not tell apart. -/
inductive OpKind where
  | Input | Weight | None | Return
  | Reshape | Permute | Depth2Space | Tile | Pad | Slice | Squeeze | Unsqueeze
  | Reverse | Upsample | MaxUnpool
  | AvgPool | MaxPool | MaxPoolWithMask
  | Relu | Abs | PRelu | LeakyRelu | ScatterND
  | MinConst | MaxConst | MulConst | SubConst
  | Add | Mul | Min | Max | Concat | Compare | Where | MaskedFill
  | Arg | Reduce | LayerNorm | MatMul | Attention | Other
  deriving DecidableEq, Repr

/-- An operation: kind, name, operands (positions of the producing operations),
the type of its result, and the attributes the propagator reads. -/
structure Op where
  kind : OpKind
  name : String := ""
  operands : List Nat := []
  type : TensorType := noneType
  /-- The type of `top.Arg`'s second result `values`. -/
  values : TensorType := noneType
  /-- The optional `coeff` array of `top.Add`. -/
  coeff : Option (List ℚ) := none
  /-- The `const_val` of `MulConst`, `SubConst` and `MaskedFill`. -/
  const_val : ℚ := 0
  x_is_const : Bool := false
  y_is_const : Bool := false
  x_const_val : ℚ := 0
  y_const_val : ℚ := 0
  /-- The `mode` string of `top.Reduce`. -/
  mode : String := ""
  /-- The contents of a `top.Weight`. -/
  data : List ℚ := []
  /-- The `tile` array of `top.Tile`. -/
  tile : List Int := []
  deriving DecidableEq, Repr

/-- The function body: operations in program order. -/
abbrev Graph := List Op

/-- Modelled from the spec: `module::Mode` is declared outside the sources at
hand; the execution modes are the mode keywords of §6. -/
inductive Mode where
  | F32 | F16 | BF16 | INT8 | UINT8 | INT4 | F8E4M3 | F8E5M2
  | W8F16 | W4F16 | W8BF16 | W4BF16
  deriving DecidableEq, Repr

/-- The result of `matchAndRewrite`.  `success g` and `failure g` carry the graph
as the pattern left it; `fatal` is `llvm_unreachable`; `undefined` is reading a
calibrated range off a value that has none, an operand that is not there, or a
value stored in a `float` whose range it leaves. -/
inductive RewriteResult where
  | success (g : Graph)
  | failure (g : Graph)
  | fatal
  | undefined
  deriving DecidableEq, Repr

/-! ## Accessors of `module::` -/

/-- Modelled from the spec: `module::isCalibratedType` is declared outside the
sources at hand; a value is calibrated when its representation is
`Calibrated`. -/
def ElemType.isCalibrated : ElemType → Bool
  | .calibrated _ => true
  | _ => false

/-- Modelled from the spec: `module::getCalibratedType`, the calibrated range of
an element type when it has one. -/
def ElemType.getCalibrated : ElemType → Option CalibratedType
  | .calibrated q => some q
  | _ => none

/-- Modelled from the spec: `module::getStorageType`; for a calibrated value it
is the expressed type. -/
def ElemType.getStorageType : ElemType → StorageKind
  | .plain k => k
  | .calibrated q => q.expressed
  | .uniform k _ _ => k

/-- The type of value `v` (`noneType` for a position outside the graph). -/
def typeOf (g : Graph) (v : Nat) : TensorType :=
  match g[v]? with
  | some o => o.type
  | none => noneType

/-- The test `module::isCalibratedType(v)`. -/
def isCalibratedType (g : Graph) (v : Nat) : Bool :=
  (typeOf g v).elem.isCalibrated

/-- The call `module::getCalibratedType(v)`. -/
def getCalibratedType (g : Graph) (v : Nat) : Option CalibratedType :=
  (typeOf g v).elem.getCalibrated

/-- The call `v.setType(t)`. -/
def setType (g : Graph) (v : Nat) (t : TensorType) : Graph :=
  match g[v]? with
  | some o => g.set v { o with type := t }
  | none => g

/-- The uses of value `v`: for every operand slot holding `v`, the position of
the operation owning the slot (`Value::getUsers`, one entry per use). -/
def users (g : Graph) (v : Nat) : List Nat :=
  (List.range g.length).flatMap fun j =>
    match g[j]? with
    | some o => List.replicate (o.operands.count v) j
    | none => []

/-- The test `v.hasOneUse()`. -/
def hasOneUse (g : Graph) (v : Nat) : Bool :=
  (users g v).length == 1

/-! ## Forward and Backward helpers (lines 19-55) -/

/-- The helper `ForwardOp(op)`: the result of `op` takes the element type of `op`'s input
(operand 0) and keeps its own shape. -/
def ForwardOp (g : Graph) (op : Nat) : Graph :=
  match g[op]? with
  | none => g
  | some o =>
    match o.operands[0]? with
    | none => g
    | some i => setType g op { shape := o.type.shape, elem := (typeOf g i).elem }

/-- The body of the loop of `Forward`: a user that is a Reshape or a Permute is
re-typed by `ForwardOp`. -/
def forwardStep (g : Graph) (user : Nat) : Graph :=
  match g[user]? with
  | some o => if o.kind = .Reshape ∨ o.kind = .Permute then ForwardOp g user else g
  | none => g

/-- The helper `Forward(out)`: every Reshape or Permute using `out` is re-typed by
`ForwardOp`, one level deep. -/
def Forward (g : Graph) (out : Nat) : Graph :=
  (users g out).foldl forwardStep g

/-- The helper `BackwardOp(op)`: the input (operand 0) of `op` takes the element type of
`op`'s result and keeps its own shape. -/
def BackwardOp (g : Graph) (op : Nat) : Graph :=
  match g[op]? with
  | none => g
  | some o =>
    match o.operands[0]? with
    | none => g
    | some i => setType g i { shape := (typeOf g i).shape, elem := o.type.elem }

/-- The helper `Backward(in)`: when `in` is produced by a Reshape, Permute or Depth2Space,
that producer's input is re-typed by `BackwardOp`. -/
def Backward (g : Graph) (v : Nat) : Graph :=
  match g[v]? with
  | some o =>
    if o.kind = .Reshape ∨ o.kind = .Permute ∨ o.kind = .Depth2Space then BackwardOp g v else g
  | none => g

/-! ## Rewrite patterns -/

/-- The tail of `ForwardCalibartion`: the result takes the input's calibrated
type, keeps its shape, and the change is forwarded one level. -/
def forwardRange (g : Graph) (op : Nat) (o : Op) (in_qtype : CalibratedType) : RewriteResult :=
  .success (Forward (setType g op { shape := o.type.shape, elem := .calibrated in_qtype }) op)

/-- Embedding of `ForwardCalibartion<TyOp>::matchAndRewrite` (lines 57-87). -/
def ForwardCalibartion (g : Graph) (op : Nat) : RewriteResult :=
  match g[op]? with
  | none => .undefined
  | some o =>
    if o.kind = .Reduce ∧ o.mode ≠ "ReduceMax" ∧ o.mode ≠ "ReduceMin" then .failure g
    else
      match o.operands[0]? with
      | none => .undefined
      | some i =>
        match getCalibratedType g i with
        | none => .failure g
        | some in_qtype =>
          match o.type.elem.getCalibrated with
          | some out_qtype =>
            if in_qtype.max = out_qtype.max ∧ in_qtype.min = out_qtype.min then .failure g
            else forwardRange g op o in_qtype
          | none => forwardRange g op o in_qtype

/-- The tail of the sign patterns: the result of `op` is re-typed to the
calibrated range `[lo, hi]` over its storage type, and forwarded. -/
def setOutRange (g : Graph) (op : Nat) (o : Op) (lo hi : ℚ) : RewriteResult :=
  .success (Forward (setType g op
    { shape := o.type.shape
      elem := .calibrated { expressed := o.type.elem.getStorageType, min := lo, max := hi } }) op)

/-- The output range `ForwardMulConst` computes (lines 100-108): the input
bounds, swapped for a negative constant, and scaled unless the constant is
zero.  Returns `(out_min, out_max)`. -/
def mulConstRange (const_v : ℚ) (in_qtype : CalibratedType) : ℚ × ℚ :=
  let out_max := if const_v ≥ 0 then in_qtype.max else in_qtype.min
  let out_min := if const_v ≥ 0 then in_qtype.min else in_qtype.max
  if const_v ≠ 0 then (out_min * const_v, out_max * const_v) else (out_min, out_max)

/-- Embedding of `ForwardMulConst::matchAndRewrite` (lines 89-122). -/
def ForwardMulConst (g : Graph) (op : Nat) : RewriteResult :=
  match g[op]? with
  | none => .undefined
  | some o =>
    match o.operands[0]? with
    | none => .undefined
    | some i =>
      match getCalibratedType g i with
      | none => .failure g
      | some in_qtype =>
        let r := mulConstRange o.const_val in_qtype
        match o.type.elem.getCalibrated with
        | some out_qtype =>
          if r.2 = out_qtype.max ∧ r.1 = out_qtype.min then .failure g
          else setOutRange g op o r.1 r.2
        | none => setOutRange g op o r.1 r.2

/-- Embedding of `ForwardArg::matchAndRewrite` (lines 124-151).  The pattern re-types the
second result `values`, which no operand of the embedding refers to, so the
closing `Forward(out)` has no user to visit. -/
def ForwardArg (g : Graph) (op : Nat) : RewriteResult :=
  match g[op]? with
  | none => .undefined
  | some o =>
    if o.values = noneType then .failure g
    else
      match o.operands[0]? with
      | none => .undefined
      | some i =>
        match getCalibratedType g i with
        | none => .failure g
        | some in_qtype =>
          let g' := g.set op { o with values := { shape := o.values.shape, elem := .calibrated in_qtype } }
          match o.values.elem.getCalibrated with
          | some out_qtype =>
            if in_qtype.max = out_qtype.max ∧ in_qtype.min = out_qtype.min then .failure g
            else .success g'
          | none => .success g'

/-- Embedding of `KeepSignPattern<TyOp>::matchAndRewrite` (lines 153-186).  The
new minimum is held in the local `float min` before it enters the new type. -/
def KeepSignPattern (g : Graph) (op : Nat) : RewriteResult :=
  match g[op]? with
  | none => .undefined
  | some o =>
    match o.operands[0]? with
    | none => .undefined
    | some i =>
      match getCalibratedType g i, o.type.elem.getCalibrated with
      | some in_qtype, some out_qtype =>
        if in_qtype.min < 0 then
          if out_qtype.min < 0 then .failure g
          else
            match floatNegTenth out_qtype.max with
            | none => .undefined
            | some min => setOutRange g op o min out_qtype.max
        else
          if out_qtype.min ≥ 0 then .failure g
          else setOutRange g op o 0 out_qtype.max
      | _, _ => .failure g

/-- How `KeepMulSignPattern` classifies one operand. -/
inductive MulOperand where
  | signed (s : Bool)
  | decline
  | undefined
  deriving DecidableEq, Repr

/-- The body of the operand loop of `KeepMulSignPattern` (lines 206-221): a
weight is classified by its single element (a weight of any other size makes
the pattern decline), every other operand by its calibrated minimum. -/
def mulOperandSign (g : Graph) (i : Nat) : MulOperand :=
  match g[i]? with
  | none => .undefined
  | some p =>
    if p.kind = .Weight then
      match p.data with
      | [w] => .signed (¬ (w ≥ 0))
      | _ => .decline
    else
      match p.type.elem.getCalibrated with
      | some in_qtype => .signed (¬ (in_qtype.min ≥ 0))
      | none => .undefined

/-- The dispatch of `KeepMulSignPattern` on the three sign flags
(lines 223-251). -/
def mulDispatch (g : Graph) (op : Nat) (o : Op) (out_qtype : CalibratedType)
    (s0 s1 : Bool) : RewriteResult :=
  let out_signed : Bool := out_qtype.min < 0
  if s0 = out_signed then .failure g
  else if s1 = out_signed then
    .success (g.set op { o with operands := o.operands.reverse })
  else if s0 then setOutRange g op o (-out_qtype.max * (1 / 10)) out_qtype.max
  else .fatal

/-- Embedding of `KeepMulSignPattern<TyOp>::matchAndRewrite` (lines 188-253). -/
def KeepMulSignPattern (g : Graph) (op : Nat) : RewriteResult :=
  match g[op]? with
  | none => .undefined
  | some o =>
    match o.operands with
    | [a, b] =>
      match o.type.elem.getCalibrated with
      | none => .failure g
      | some out_qtype =>
        match mulOperandSign g a with
        | .decline => .failure g
        | .undefined => .undefined
        | .signed s0 =>
          match mulOperandSign g b with
          | .decline => .failure g
          | .undefined => .undefined
          | .signed s1 => mulDispatch g op o out_qtype s0 s1
    | _ => .failure g

/-- The outcome of the operand loop of `KeepAddSignPattern`. -/
inductive AddScan where
  | sign (is_sign : Bool)
  | decline
  | undefined
  deriving DecidableEq, Repr

/-- The operand loop of `KeepAddSignPattern` (lines 263-274) over the inputs
and their coefficients. -/
def addScan (g : Graph) : List Nat → List ℚ → AddScan
  | [], _ => .sign false
  | _ :: _, [] => .undefined
  | i :: rest, coeff :: coeffs =>
    match getCalibratedType g i with
    | none => .decline
    | some in_qtype =>
      if in_qtype.min * coeff < 0 ∨ in_qtype.max * coeff < 0 then .sign true
      else addScan g rest coeffs

/-- Modelled from the spec: `module::getF64Array(attr, n, 1.0)` is declared
outside the sources at hand; an absent coefficient array reads as `n` times
the default. -/
def getF64Array (attr : Option (List ℚ)) (n : Nat) (dflt : ℚ) : List ℚ :=
  match attr with
  | some l => l
  | none => List.replicate n dflt

/-- Embedding of `KeepAddSignPattern::matchAndRewrite` (lines 255-293). -/
def KeepAddSignPattern (g : Graph) (op : Nat) : RewriteResult :=
  match g[op]? with
  | none => .undefined
  | some o =>
    match addScan g o.operands (getF64Array o.coeff o.operands.length 1) with
    | .decline => .failure g
    | .undefined => .undefined
    | .sign is_sign =>
      match o.type.elem.getCalibrated with
      | none => .undefined
      | some out_qtype =>
        if is_sign = true ∧ out_qtype.min ≥ 0 then
          setOutRange g op o (-out_qtype.max * (1 / 10)) out_qtype.max
        else if is_sign = false ∧ out_qtype.min < 0 then
          setOutRange g op o 0 out_qtype.max
        else .failure g

/-- Embedding of `SetSubConstSignPattern::matchAndRewrite` (lines 295-324). -/
def SetSubConstSignPattern (g : Graph) (op : Nat) : RewriteResult :=
  match g[op]? with
  | none => .undefined
  | some o =>
    match o.operands[0]? with
    | none => .undefined
    | some i =>
      match getCalibratedType g i, o.type.elem.getCalibrated with
      | some in_qtype, some out_qtype =>
        if in_qtype.min ≥ 0 ∧ out_qtype.min ≥ 0 then
          setOutRange g op o (out_qtype.max * (-(1 / 10))) out_qtype.max
        else .failure g
      | _, _ => .failure g

/-- Embedding of `BackwardCalibartion<TyOp, KeepMin>::matchAndRewrite` (lines 326-360). -/
def BackwardCalibartion (keepMin : Bool) (g : Graph) (op : Nat) : RewriteResult :=
  match g[op]? with
  | none => .undefined
  | some o =>
    match o.operands[0]? with
    | none => .undefined
    | some i =>
      match o.type.elem.getCalibrated with
      | none => .failure g
      | some out_qtype =>
        if hasOneUse g i = false then .failure g
        else
          match getCalibratedType g i with
          | some in_qtype =>
            if in_qtype.max = out_qtype.max ∧ (keepMin = true ∨ in_qtype.min = out_qtype.min) then
              .failure g
            else if keepMin then
              .success (Backward (setType g i
                { shape := (typeOf g i).shape
                  elem := .calibrated
                    { expressed := o.type.elem.getStorageType
                      min := in_qtype.min
                      max := out_qtype.max } }) i)
            else
              .success (Backward (setType g i
                { shape := (typeOf g i).shape, elem := .calibrated out_qtype }) i)
          | none =>
            if keepMin then .undefined
            else
              .success (Backward (setType g i
                { shape := (typeOf g i).shape, elem := .calibrated out_qtype }) i)

/-- Embedding of `CompareCalibartion::matchAndRewrite` (lines 391-419). -/
def CompareCalibartion (g : Graph) (op : Nat) : RewriteResult :=
  match g[op]? with
  | none => .undefined
  | some o =>
    match o.operands[0]?, o.operands[1]? with
    | some l, some r =>
      match getCalibratedType g l, getCalibratedType g r with
      | some l_ctype, some r_ctype =>
        if l_ctype.max = r_ctype.max ∧ l_ctype.min = r_ctype.min then .failure g
        else
          let new_ctype : CalibratedType :=
            { expressed := (typeOf g l).elem.getStorageType
              min := min l_ctype.min r_ctype.min
              max := max l_ctype.max r_ctype.max }
          let g1 := setType g l { shape := (typeOf g l).shape, elem := .calibrated new_ctype }
          .success (setType g1 r { shape := (typeOf g r).shape, elem := .calibrated new_ctype })
      | _, _ => .failure g
    | _, _ => .undefined

/-- The first loop of `BackwardMutiInSingleOut` (lines 428-440): every input is
calibrated and is used once, or only by MaxPool operations and by `op`. -/
def inputsAdmissible (g : Graph) (op : Nat) (inputs : List Nat) : Bool :=
  inputs.all fun i =>
    isCalibratedType g i &&
      (hasOneUse g i ||
        (users g i).all fun u =>
          (match g[u]? with
            | some uo => decide (uo.kind = .MaxPool)
            | none => false) || decide (u = op))

/-- The edit `v.setType(RankedTensorType::get(shape of v, q))`. -/
def retypeAt (q : CalibratedType) (g : Graph) (v : Nat) : Graph :=
  setType g v { shape := (typeOf g v).shape, elem := .calibrated q }

/-- The body of the last loop of `BackwardMutiInSingleOut`: the input takes the
output's calibrated type and is sent through `Backward`. -/
def pushStep (out_qtype : CalibratedType) (g : Graph) (i : Nat) : Graph :=
  Backward (retypeAt out_qtype g i) i

/-- The last loop of `BackwardMutiInSingleOut` (lines 481-486): each input in
turn takes the output's calibrated type and is sent through `Backward`. -/
def pushToInputs (g : Graph) (out_qtype : CalibratedType) (inputs : List Nat) : Graph :=
  inputs.foldl (pushStep out_qtype) g

/-- The sign loop of `BackwardMutiInSingleOut` (lines 450-456): some later
input has another polarity than the first. -/
def polarityMismatch (g : Graph) (un_signed : Bool) (rest : List Nat) : Bool :=
  rest.any fun i =>
    match getCalibratedType g i with
    | some qtype => un_signed != decide (qtype.min ≥ 0)
    | none => false

/-- The comparison loop of `BackwardMutiInSingleOut` (lines 460-468): every later
input has the minimum and maximum of the first. -/
def sameAsFirst (g : Graph) (in_0_qtype : CalibratedType) (rest : List Nat) : Bool :=
  rest.all fun i =>
    match getCalibratedType g i with
    | some qtype => decide (qtype.min = in_0_qtype.min) && decide (qtype.max = in_0_qtype.max)
    | none => true

/-- Embedding of `BackwardMutiInSingleOut<TyOp>::matchAndRewrite` (lines 421-489). -/
def BackwardMutiInSingleOut (g : Graph) (op : Nat) : RewriteResult :=
  match g[op]? with
  | none => .undefined
  | some o =>
    if inputsAdmissible g op o.operands = false then .failure g
    else
      match o.type.elem.getCalibrated with
      | none => .failure g
      | some out_qtype =>
        match o.operands with
        | [] => .undefined
        | in_0 :: rest =>
          match getCalibratedType g in_0 with
          | none => .undefined
          | some in_0_qtype =>
            if polarityMismatch g (decide (in_0_qtype.min ≥ 0)) rest = true ∧ o.kind = .Concat then
              .failure g
            else if sameAsFirst g in_0_qtype rest = true then
              if out_qtype.min = in_0_qtype.min ∧ out_qtype.max = in_0_qtype.max then .failure g
              else .success (setType g op { shape := o.type.shape, elem := .calibrated in_0_qtype })
            else .success (pushToInputs g out_qtype o.operands)

/-! ## The override map and the selective patterns -/

/-- Modelled from the spec: `LoweringConfig::quantize_map` is declared outside
the sources at hand; it maps operation names to a forced mode. -/
abbrev QuantizeMap := List (String × Mode)

/-- The lookup `quantize_map.find(name)`. -/
def QuantizeMap.find (m : QuantizeMap) (name : String) : Option Mode :=
  match List.find? (fun e => e.1 == name) m with
  | some e => some e.2
  | none => none

/-- The flag `float_where` / `float_mf` (lines 530-541, 630-641): the operation
is in the override map with mode F32 or F16. -/
def pinnedFloat (m : QuantizeMap) (name : String) : Bool :=
  match m.find name with
  | some mode => decide (mode = .F32) || decide (mode = .F16)
  | none => false

/-- The constant magnitude and sign that `SelectiveWhere` collects
(lines 501-512). -/
def whereConst (o : Op) : ℚ × Bool :=
  let s0 : ℚ × Bool := if o.y_is_const then (|o.y_const_val|, decide (o.y_const_val < 0)) else (0, false)
  if o.x_is_const then (max |o.x_const_val| s0.1, s0.2 || decide (o.x_const_val < 0)) else s0

/-- The widening step shared by `SelectiveWhere` and `SelectiveMaskedFill`
(lines 517-528, 615-626): when the output maximum is below the constant
magnitude the output is re-typed to include it.  Returns the graph and the flag
`out_to_constv`. -/
def widenToConst (g : Graph) (op : Nat) (o : Op) (out_qtype : CalibratedType)
    (const_v : ℚ) (const_signed : Bool) : Graph × Bool :=
  if out_qtype.max < const_v then
    (setType g op
      { shape := o.type.shape
        elem := .calibrated
          { expressed := out_qtype.expressed
            min := if const_signed = true ∨ out_qtype.min < 0 then -const_v * (1 / 10) else 0
            max := const_v } }, true)
  else (g, false)

/-- One of the two input blocks of `SelectiveWhere` (lines 547-562, 563-578):
`none` is the early `return failure()` on an input that is not calibrated,
otherwise the graph and whether the input was re-typed. -/
def followOutput (g : Graph) (v : Nat) (out_qtype : CalibratedType) : Option (Graph × Bool) :=
  match getCalibratedType g v with
  | none => none
  | some in_qtype =>
    if in_qtype.min ≠ out_qtype.min ∨ in_qtype.max ≠ out_qtype.max then
      some (setType g v
        { shape := (typeOf g v).shape
          elem := .calibrated
            { expressed := in_qtype.expressed, min := out_qtype.min, max := out_qtype.max } }, true)
    else some (g, false)

/-- Embedding of `SelectiveWhere::matchAndRewrite` (lines 491-584).  Operands are
`cond`, `tbrn`, `fbrn`. -/
def SelectiveWhere (m : QuantizeMap) (g : Graph) (op : Nat) : RewriteResult :=
  match g[op]? with
  | none => .undefined
  | some o =>
    match o.type.elem.getCalibrated with
    | none => .failure g
    | some out_qtype =>
      let c := whereConst o
      let w := widenToConst g op o out_qtype c.1 c.2
      let float_where := pinnedFloat m o.name
      let skip : Bool := w.2 || float_where
      let afterX : Option (Option (Graph × Bool)) :=
        if o.x_is_const = false ∧ skip = false then
          match o.operands[1]? with
          | none => none
          | some tbrn => some (followOutput w.1 tbrn out_qtype)
        else some (some (w.1, false))
      match afterX with
      | none => .undefined
      | some none => .failure w.1
      | some (some (g1, changed1)) =>
        let afterY : Option (Option (Graph × Bool)) :=
          if o.y_is_const = false ∧ skip = false then
            match o.operands[2]? with
            | none => none
            | some fbrn => some (followOutput g1 fbrn out_qtype)
          else some (some (g1, false))
        match afterY with
        | none => .undefined
        | some none => .failure g1
        | some (some (g2, changed2)) =>
          if changed1 || changed2 then .success g2 else .failure g2

/-- Embedding of `SelectiveMaskedFill::matchAndRewrite` (lines 586-661). -/
def SelectiveMaskedFill (m : QuantizeMap) (g : Graph) (op : Nat) : RewriteResult :=
  match g[op]? with
  | none => .undefined
  | some o =>
    if (o.operands.all fun i => isCalibratedType g i && hasOneUse g i) = false then .failure g
    else
      match o.type.elem.getCalibrated with
      | none => .failure g
      | some out_qtype =>
        let w := widenToConst g op o out_qtype |o.const_val| (decide (o.const_val < 0))
        let float_mf := pinnedFloat m o.name
        match o.operands[1]? with
        | none => .undefined
        | some i =>
          match getCalibratedType w.1 i with
          | none => .undefined
          | some in_qtype =>
            if (in_qtype.min ≠ out_qtype.min ∨ in_qtype.max ≠ out_qtype.max) ∧
                w.2 = false ∧ float_mf = false then
              .success (setType w.1 i
                { shape := (typeOf w.1 i).shape
                  elem := .calibrated
                    { expressed := in_qtype.expressed, min := out_qtype.min, max := out_qtype.max } })
            else .failure w.1

/-! ## The pattern driver and `calibration_process` -/

/-- Modelled from the spec: `module::Chip`, the hardware family selector, is
declared outside the sources at hand. -/
inductive Chip where
  | BM1684 | BM1684X | BM1688 | CV186X | SG2260 | CV180x | CV181x | CV182x | CV183x
  deriving DecidableEq, Repr

/-- Modelled from the spec: `module::isCV18xx` is declared outside the sources
at hand; the CV18xx hardware family. -/
def isCV18xx (c : Chip) : Bool :=
  decide (c = .CV180x ∨ c = .CV181x ∨ c = .CV182x ∨ c = .CV183x)

/-- Modelled from the spec: `module::isBM1684Family`, the BM1684 hardware
family. -/
def isBM1684Family (c : Chip) : Bool :=
  decide (c = .BM1684)

/-- Modelled from the spec: `module::isF8Modes`, the 8-bit floating global
modes. -/
def isF8Modes (m : Mode) : Bool :=
  decide (m = .F8E4M3 ∨ m = .F8E5M2)

/-- Modelled from the spec: `module::State` is declared outside the sources at
hand; the states are those the pass names. -/
inductive State where
  | TOP_F32 | TOP_CALIBRATED | TOP_QUANTIZED | TPU_LOWERED
  deriving DecidableEq, Repr

/-- Modelled from the spec: the settings of the pattern driver
(`GreedyRewriteConfig`) that decide how often and in which order it visits the
operations. -/
structure GreedyRewriteConfig where
  maxIterations : Nat := 10
  useTopDownTraversal : Bool := false
  deriving DecidableEq, Repr

/-- What the pass reads from its environment. -/
structure Module where
  state : State
  chip : Chip
  mode : Mode
  quantize_map : QuantizeMap := []
  greedy : GreedyRewriteConfig := {}
  deriving DecidableEq, Repr

/-- The rewrite patterns of the propagator, each with the operation kind it is
instantiated for. -/
inductive Pattern where
  | ForwardCalibartion (root : OpKind)
  | ForwardMulConst
  | ForwardArg
  | KeepSignPattern (root : OpKind)
  | KeepMulSignPattern (root : OpKind)
  | KeepAddSignPattern
  | SetSubConstSignPattern
  | BackwardCalibartion (root : OpKind) (keepMin : Bool)
  | CompareCalibartion
  | BackwardMutiInSingleOut (root : OpKind)
  | SelectiveWhere
  | SelectiveMaskedFill
  deriving DecidableEq, Repr

/-- The operation kind a pattern is rooted at (`OpRewritePattern<TyOp>`). -/
def Pattern.root : Pattern → OpKind
  | .ForwardCalibartion k => k
  | .ForwardMulConst => .MulConst
  | .ForwardArg => .Arg
  | .KeepSignPattern k => k
  | .KeepMulSignPattern k => k
  | .KeepAddSignPattern => .Add
  | .SetSubConstSignPattern => .SubConst
  | .BackwardCalibartion k _ => k
  | .CompareCalibartion => .Compare
  | .BackwardMutiInSingleOut k => k
  | .SelectiveWhere => .Where
  | .SelectiveMaskedFill => .MaskedFill

/-- The `matchAndRewrite` of a pattern. -/
def Pattern.matchAndRewrite (m : QuantizeMap) : Pattern → Graph → Nat → RewriteResult
  | .ForwardCalibartion _ => TpuMlir.ForwardCalibartion
  | .ForwardMulConst => TpuMlir.ForwardMulConst
  | .ForwardArg => TpuMlir.ForwardArg
  | .KeepSignPattern _ => TpuMlir.KeepSignPattern
  | .KeepMulSignPattern _ => TpuMlir.KeepMulSignPattern
  | .KeepAddSignPattern => TpuMlir.KeepAddSignPattern
  | .SetSubConstSignPattern => TpuMlir.SetSubConstSignPattern
  | .BackwardCalibartion _ keepMin => TpuMlir.BackwardCalibartion keepMin
  | .CompareCalibartion => TpuMlir.CompareCalibartion
  | .BackwardMutiInSingleOut _ => TpuMlir.BackwardMutiInSingleOut
  | .SelectiveWhere => TpuMlir.SelectiveWhere m
  | .SelectiveMaskedFill => TpuMlir.SelectiveMaskedFill m

/-- Modelled from the spec: the pattern driver behind
`applyPatternsAndFoldGreedily` is library code outside the sources at hand.
On one operation the patterns rooted at its kind are tried in turn until one
reports success; a pattern that reports failure hands the graph on as it left
it. -/
def applyPatterns (m : QuantizeMap) : List Pattern → Graph → Nat → RewriteResult
  | [], g, _ => .failure g
  | p :: ps, g, op =>
    match g[op]? with
    | none => .failure g
    | some o =>
      if o.kind = p.root then
        match p.matchAndRewrite m g op with
        | .failure g' => applyPatterns m ps g' op
        | r => r
      else applyPatterns m ps g op

/-- The state of a driver run. -/
inductive Run where
  | done (g : Graph)
  | fatal
  | undefined
  deriving DecidableEq, Repr

/-- Modelled from the spec: one pass of the worklist over the listed operations;
returns the graph and whether some pattern reported a change. -/
def sweep (m : QuantizeMap) (ps : List Pattern) : List Nat → Graph → Bool → Run × Bool
  | [], g, changed => (.done g, changed)
  | op :: rest, g, changed =>
    match applyPatterns m ps g op with
    | .success g' => sweep m ps rest g' true
    | .failure g' => sweep m ps rest g' changed
    | .fatal => (.fatal, changed)
    | .undefined => (.undefined, changed)

/-- The order in which one pass visits the operations. -/
def worklist (c : GreedyRewriteConfig) (g : Graph) : List Nat :=
  if c.useTopDownTraversal then List.range g.length else (List.range g.length).reverse

/-- Modelled from the spec: "repeated application of local rewrite rules until
no rule produces further change", bounded by the driver's iteration limit. -/
def greedyLoop (m : QuantizeMap) (c : GreedyRewriteConfig) (ps : List Pattern) : Nat → Graph → Run
  | 0, g => .done g
  | k + 1, g =>
    match sweep m ps (worklist c g) g false with
    | (.done g', true) => greedyLoop m c ps k g'
    | (r, _) => r

/-- The call `applyPatternsAndFoldGreedily(module_, patterns)`. -/
def applyPatternsAndFoldGreedily (md : Module) (ps : List Pattern) (g : Graph) : Run :=
  greedyLoop md.quantize_map md.greedy ps md.greedy.maxIterations g

/-- Sequencing of phases: a stopped run stays stopped. -/
def Run.andThen (r : Run) (f : Graph → Run) : Run :=
  match r with
  | .done g => f g
  | .fatal => .fatal
  | .undefined => .undefined

/-- The pattern set of the pooling and subtract-by-constant sign phase
(lines 1018-1019, 1097-1099). -/
def keepSignPatterns : List Pattern :=
  [.KeepSignPattern .AvgPool, .KeepSignPattern .MaxPool, .SetSubConstSignPattern]

/-- The pattern set of the backward phase (lines 1033-1049). -/
def backwardPatterns (md : Module) : List Pattern :=
  [.BackwardCalibartion .Relu false, .BackwardCalibartion .MaxPool false,
   .BackwardCalibartion .MaxPoolWithMask false, .BackwardCalibartion .Depth2Space false,
   .BackwardCalibartion .Abs false] ++
  (if isCV18xx md.chip = false then
    [.BackwardCalibartion .PRelu true, .BackwardCalibartion .LeakyRelu true]
  else
    [.BackwardCalibartion .LeakyRelu false, .BackwardCalibartion .ScatterND false])

/-- The pattern set of the extended forward phase (lines 1061-1092). -/
def forwardPatterns (md : Module) : List Pattern :=
  [.ForwardCalibartion .Relu, .ForwardCalibartion .MaxPool, .ForwardCalibartion .MinConst,
   .ForwardCalibartion .MaxConst, .ForwardCalibartion .MaxPoolWithMask,
   .ForwardCalibartion .MaxUnpool, .ForwardCalibartion .Reshape, .ForwardCalibartion .Unsqueeze,
   .ForwardCalibartion .Squeeze, .ForwardCalibartion .Slice, .ForwardCalibartion .Tile,
   .ForwardCalibartion .Pad, .ForwardCalibartion .Permute, .ForwardCalibartion .Reverse,
   .ForwardCalibartion .Upsample, .ForwardCalibartion .LeakyRelu, .ForwardCalibartion .Abs,
   .ForwardMulConst, .ForwardArg] ++
  (if isCV18xx md.chip = false then [.ForwardCalibartion .PRelu] else [.ForwardCalibartion .Reduce]) ++
  (if isBM1684Family md.chip then [.ForwardCalibartion .AvgPool] else [])

/-- Embedding of `ConvertTopToTpu::calibration_process` (lines 1006-1105). -/
def calibration_process (md : Module) (g : Graph) : Run :=
  if md.state ≠ .TOP_CALIBRATED then .done g
  else
    (applyPatternsAndFoldGreedily md [.ForwardCalibartion .Reshape, .ForwardCalibartion .Permute] g).andThen fun g =>
    (applyPatternsAndFoldGreedily md keepSignPatterns g).andThen fun g =>
    (if isCV18xx md.chip = false ∧ isF8Modes md.mode = false then
      applyPatternsAndFoldGreedily md [.KeepMulSignPattern .Mul, .SetSubConstSignPattern] g
     else .done g).andThen fun g =>
    (applyPatternsAndFoldGreedily md
      [.BackwardMutiInSingleOut .Concat, .BackwardMutiInSingleOut .Min,
       .BackwardMutiInSingleOut .Max] g).andThen fun g =>
    (applyPatternsAndFoldGreedily md (backwardPatterns md) g).andThen fun g =>
    (applyPatternsAndFoldGreedily md [.CompareCalibartion] g).andThen fun g =>
    (if isF8Modes md.mode = false then
      applyPatternsAndFoldGreedily md [.SelectiveWhere, .SelectiveMaskedFill] g
     else .done g).andThen fun g =>
    (applyPatternsAndFoldGreedily md (forwardPatterns md) g).andThen fun g =>
    (applyPatternsAndFoldGreedily md keepSignPatterns g).andThen fun g =>
    applyPatternsAndFoldGreedily md [.SelectiveWhere, .SelectiveMaskedFill] g

/-- Whether a run of the pattern driver ended because a pass reported no change
(the `LogicalResult` that `applyPatternsAndFoldGreedily` returns and
`calibration_process` drops): `false` when the iteration limit ended the loop
or the run stopped. -/
def greedyConverged (m : QuantizeMap) (c : GreedyRewriteConfig) (ps : List Pattern) :
    Nat → Graph → Bool
  | 0, _ => false
  | k + 1, g =>
    match sweep m ps (worklist c g) g false with
    | (.done g', true) => greedyConverged m c ps k g'
    | (.done _, false) => true
    | _ => false

/-- The phases of `calibration_process` that come before the extended forward
phase (lines 1008-1060). -/
def calibration_process.beforeForward (md : Module) (g : Graph) : Run :=
  (applyPatternsAndFoldGreedily md [.ForwardCalibartion .Reshape, .ForwardCalibartion .Permute] g).andThen fun g =>
  (applyPatternsAndFoldGreedily md keepSignPatterns g).andThen fun g =>
  (if isCV18xx md.chip = false ∧ isF8Modes md.mode = false then
    applyPatternsAndFoldGreedily md [.KeepMulSignPattern .Mul, .SetSubConstSignPattern] g
   else .done g).andThen fun g =>
  (applyPatternsAndFoldGreedily md
    [.BackwardMutiInSingleOut .Concat, .BackwardMutiInSingleOut .Min,
     .BackwardMutiInSingleOut .Max] g).andThen fun g =>
  (applyPatternsAndFoldGreedily md (backwardPatterns md) g).andThen fun g =>
  (applyPatternsAndFoldGreedily md [.CompareCalibartion] g).andThen fun g =>
  (if isF8Modes md.mode = false then
    applyPatternsAndFoldGreedily md [.SelectiveWhere, .SelectiveMaskedFill] g
   else .done g)

/-- The phases of `calibration_process` that come after the extended forward
phase (lines 1094-1104). -/
def calibration_process.afterForward (md : Module) (g : Graph) : Run :=
  (applyPatternsAndFoldGreedily md keepSignPatterns g).andThen fun g =>
  applyPatternsAndFoldGreedily md [.SelectiveWhere, .SelectiveMaskedFill] g

/-- The patterns of all phases of `calibration_process` (lines 1008-1104). -/
def calibration_process.patterns (md : Module) : List Pattern :=
  [.ForwardCalibartion .Reshape, .ForwardCalibartion .Permute] ++ keepSignPatterns ++
  [.KeepMulSignPattern .Mul, .SetSubConstSignPattern] ++
  [.BackwardMutiInSingleOut .Concat, .BackwardMutiInSingleOut .Min,
   .BackwardMutiInSingleOut .Max] ++
  backwardPatterns md ++ [.CompareCalibartion] ++ [.SelectiveWhere, .SelectiveMaskedFill] ++
  forwardPatterns md

/-! ## Properties the claims speak of -/

/-- The operation at `n` is the only one of the graph that some pattern of
`calibration_process` is rooted at: every other operation has a kind the
propagator has no rule for (a graph input, a weight, a convolution, ...). -/
def OthersUnrooted (md : Module) (g : Graph) (n : Nat) : Prop :=
  ∀ j, j < g.length → j ≠ n →
    ∀ o ∈ g[j]?, ∀ p ∈ calibration_process.patterns md, o.kind ≠ p.root

instance (md : Module) (g : Graph) (n : Nat) : Decidable (OthersUnrooted md g n) := by
  unfold OthersUnrooted; infer_instance

/-- Program order: every operand of an operation is produced earlier in the
body (SSA dominance inside one block). -/
def SSA (g : Graph) : Prop :=
  ∀ n, n < g.length → ∀ o ∈ g[n]?, ∀ v ∈ o.operands, v < n

/-- The calibrated range of a value as the pair `(min, max)`. -/
def rangeOf (g : Graph) (v : Nat) : Option (ℚ × ℚ) :=
  match getCalibratedType g v with
  | some q => some (q.min, q.max)
  | none => none

/-- A calibrated element type has `min ≤ max`; any other element type is in
order. -/
def ElemType.RangeOk : ElemType → Prop
  | .calibrated q => q.min ≤ q.max
  | _ => True

instance (e : ElemType) : Decidable e.RangeOk := by
  cases e <;> unfold ElemType.RangeOk <;> infer_instance

/-- The range invariant of §3: every calibrated type in the graph has
`min ≤ max`. -/
def RangeInvariant (g : Graph) : Prop :=
  ∀ o ∈ g, o.type.elem.RangeOk ∧ o.values.elem.RangeOk

instance (g : Graph) : Decidable (RangeInvariant g) := by
  unfold RangeInvariant; infer_instance

/-- The classification of a multiply operand as non-negative: a single-element
weight whose value is at least zero, or a value that is not a weight and whose
calibrated minimum is at least zero. -/
def classifiedNonNegative (g : Graph) (v : Nat) : Prop :=
  ∃ p, g[v]? = some p ∧
    ((p.kind = .Weight ∧ ∃ w, p.data = [w] ∧ w ≥ 0) ∨
     (p.kind ≠ .Weight ∧ ∃ q, p.type.elem = .calibrated q ∧ q.min ≥ 0))

/-- Every operand of `o` is in the graph and is a weight or calibrated. -/
def operandsClassifiable (g : Graph) (o : Op) : Prop :=
  ∀ v ∈ o.operands, ∃ p, g[v]? = some p ∧ (p.kind ≠ .Weight → p.type.elem.isCalibrated = true)

/-! ## Concrete graphs -/

/-- A calibrated f32 tensor type. -/
def calF32 (shape : List Int) (lo hi : ℚ) : TensorType :=
  { shape := shape, elem := .calibrated { expressed := .f32, min := lo, max := hi } }

/-- An AvgPool whose input is calibrated `[-1,1]` and whose output is calibrated
`[0,0]`. -/
def poolZeroGraph : Graph :=
  [ { kind := .Input, name := "x", type := calF32 [1, 1, 4, 4] (-1) 1 },
    { kind := .AvgPool, name := "pool", operands := [0], type := calF32 [1, 1, 2, 2] 0 0 },
    { kind := .Return, operands := [1] } ]

/-- An AvgPool whose input is calibrated `[-1,1]` and whose output is calibrated
`[0,d]`. -/
def poolMaxGraph (d : ℚ) : Graph :=
  [ { kind := .Input, name := "x", type := calF32 [1, 1, 4, 4] (-1) 1 },
    { kind := .AvgPool, name := "pool", operands := [0], type := calF32 [1, 1, 2, 2] 0 d },
    { kind := .Return, operands := [1] } ]

/-- An AvgPool whose input is calibrated `[-1,1]` and whose output is calibrated
`[0,10]`. -/
def poolGraph : Graph :=
  [ { kind := .Input, name := "x", type := calF32 [1, 1, 4, 4] (-1) 1 },
    { kind := .AvgPool, name := "pool", operands := [0], type := calF32 [1, 1, 2, 2] 0 10 },
    { kind := .Return, operands := [1] } ]

/-- A SubConst with input `[0,10]` and output `[0,10]` (the scenario of §8). -/
def subConstGraph : Graph :=
  [ { kind := .Input, name := "x", type := calF32 [1, 8] 0 10 },
    { kind := .SubConst, name := "sub", operands := [0], const_val := 3, type := calF32 [1, 8] 0 10 },
    { kind := .Return, operands := [1] } ]

/-- A SubConst with input `[0,1]` and output `[0,0]`. -/
def subConstZeroGraph : Graph :=
  [ { kind := .Input, name := "x", type := calF32 [1, 8] 0 1 },
    { kind := .SubConst, name := "sub", operands := [0], const_val := 3, type := calF32 [1, 8] 0 0 },
    { kind := .Return, operands := [1] } ]

/-- An Add of `[0,5]` and `[-3,3]` with default coefficients and output
calibrated `[1,10]` (the operands of the scenario of §8). -/
def addGraph : Graph :=
  [ { kind := .Input, name := "a", type := calF32 [1, 8] 0 5 },
    { kind := .Input, name := "b", type := calF32 [1, 8] (-3) 3 },
    { kind := .Add, name := "add", operands := [0, 1], type := calF32 [1, 8] 1 10 },
    { kind := .Return, operands := [2] } ]

/-- A calibrated module on BM1684X in INT8 mode with the driver's defaults. -/
def int8Module : Module :=
  { state := .TOP_CALIBRATED, chip := .BM1684X, mode := .INT8 }

/-- The same module with a top-down traversal. -/
def int8ModuleTopDown : Module :=
  { state := .TOP_CALIBRATED, chip := .BM1684X, mode := .INT8,
    greedy := { useTopDownTraversal := true } }

/-- The closure property of the shape-preserving operations: every Reshape,
Permute, Tile, Pad and Slice whose input is calibrated has an output with the
calibrated range of its input. -/
def ShapePreservingClosure (g : Graph) : Prop :=
  ∀ n o i, g[n]? = some o →
    (o.kind = .Reshape ∨ o.kind = .Permute ∨ o.kind = .Tile ∨ o.kind = .Pad ∨ o.kind = .Slice) →
    o.operands[0]? = some i → isCalibratedType g i = true → rangeOf g n = rangeOf g i

/-- A Slice of an AvgPool of a Relu: the input `x` (also returned, so used
twice) is calibrated `[-1,1]`, the Relu `[0,1]`, the AvgPool and the Slice
`[0,10]`. -/
def sliceGraph : Graph :=
  [ { kind := .Input, name := "x", type := calF32 [1, 1, 4, 4] (-1) 1 },
    { kind := .Relu, name := "relu", operands := [0], type := calF32 [1, 1, 4, 4] 0 1 },
    { kind := .AvgPool, name := "pool", operands := [1], type := calF32 [1, 1, 2, 2] 0 10 },
    { kind := .Slice, name := "slice", operands := [2], type := calF32 [1, 1, 1, 2] 0 10 },
    { kind := .Return, operands := [3, 0] } ]

/-- The graph `calibration_process` leaves of `sliceGraph`: the extended forward
phase has given the Relu the range of `x`, and the sign phase after it has
given the AvgPool the minimum `-1`; the Slice still has `[0,10]`. -/
def sliceAfter : Graph :=
  [ { kind := .Input, name := "x", type := calF32 [1, 1, 4, 4] (-1) 1 },
    { kind := .Relu, name := "relu", operands := [0], type := calF32 [1, 1, 4, 4] (-1) 1 },
    { kind := .AvgPool, name := "pool", operands := [1], type := calF32 [1, 1, 2, 2] (-1) 10 },
    { kind := .Slice, name := "slice", operands := [2], type := calF32 [1, 1, 1, 2] 0 10 },
    { kind := .Return, operands := [3, 0] } ]

/-- A chain of eleven Slices behind the input `x`: `x` is calibrated `[-1,1]`
and every Slice `[0,10]`; the last Slice is returned. -/
def sliceChainGraph : Graph :=
  { kind := .Input, name := "x", type := calF32 [1, 16] (-1) 1 } ::
    ((List.range 11).map fun k =>
      ({ kind := .Slice, name := "slice", operands := [k], type := calF32 [1, 16] 0 10 } : Op)) ++
    [{ kind := .Return, operands := [11] }]

/-- The graph `calibration_process` leaves of `sliceChainGraph` with the
driver's defaults: the first ten Slices have the range of `x`, the last one
still has `[0,10]`. -/
def sliceChainAfter : Graph :=
  { kind := .Input, name := "x", type := calF32 [1, 16] (-1) 1 } ::
    ((List.range 10).map fun k =>
      ({ kind := .Slice, name := "slice", operands := [k], type := calF32 [1, 16] (-1) 1 } : Op)) ++
    [{ kind := .Slice, name := "slice", operands := [10], type := calF32 [1, 16] 0 10 },
     { kind := .Return, operands := [11] }]

/-- A Reshape whose input and output are both calibrated `[-1,1]`. -/
def reshapeGraph : Graph :=
  [ { kind := .Input, name := "x", type := calF32 [1, 6] (-1) 1 },
    { kind := .Reshape, name := "r", operands := [0], type := calF32 [2, 3] (-1) 1 },
    { kind := .Return, operands := [1] } ]

/-- A pattern that leaves the graph untouched whenever it reports failure. -/
def Pattern.PureOnFailure (m : QuantizeMap) (p : Pattern) : Prop :=
  ∀ g n g', p.matchAndRewrite m g n = .failure g' → g' = g

/-- The graph a pattern leaves behind when it returns. -/
def RewriteResult.Leaves (r : RewriteResult) (g' : Graph) : Prop :=
  r = .success g' ∨ r = .failure g'

/-- The condition under which a pattern keeps the range invariant: the two
patterns that clamp a negative output minimum to zero need an output maximum
that is not negative, and the keep-min backward pattern needs the input minimum
not to exceed the output maximum. -/
def ClampSafe (p : Pattern) (g : Graph) (n : Nat) : Prop :=
  match p with
  | .KeepSignPattern _ => ∀ q, getCalibratedType g n = some q → 0 ≤ q.max
  | .KeepAddSignPattern => ∀ q, getCalibratedType g n = some q → 0 ≤ q.max
  | .BackwardCalibartion _ true =>
    ∀ o i qin qout, g[n]? = some o → o.operands[0]? = some i →
      getCalibratedType g i = some qin → getCalibratedType g n = some qout →
      qin.min ≤ qout.max
  | _ => True

/-- A MaxPool with a non-negative input `[0,1]` and the output `[-5,-1]`. -/
def poolNegativeGraph : Graph :=
  [ { kind := .Input, name := "x", type := calF32 [1, 1, 4, 4] 0 1 },
    { kind := .MaxPool, name := "pool", operands := [0], type := calF32 [1, 1, 2, 2] (-5) (-1) },
    { kind := .Return, operands := [1] } ]

/-- The graph `KeepSignPattern` leaves of `poolNegativeGraph`. -/
def poolNegativeAfter : Graph :=
  [ { kind := .Input, name := "x", type := calF32 [1, 1, 4, 4] 0 1 },
    { kind := .MaxPool, name := "pool", operands := [0], type := calF32 [1, 1, 2, 2] 0 (-1) },
    { kind := .Return, operands := [1] } ]

/-- A PRelu with input `[5,10]` and output `[1,2]`. -/
def preluGraph : Graph :=
  [ { kind := .Input, name := "x", type := calF32 [1, 8] 5 10 },
    { kind := .PRelu, name := "prelu", operands := [0], type := calF32 [1, 8] 1 2 },
    { kind := .Return, operands := [1] } ]

/-- The graph the keep-min `BackwardCalibartion` leaves of `preluGraph`. -/
def preluAfter : Graph :=
  [ { kind := .Input, name := "x", type := calF32 [1, 8] 5 2 },
    { kind := .PRelu, name := "prelu", operands := [0], type := calF32 [1, 8] 1 2 },
    { kind := .Return, operands := [1] } ]

/-- An Add of two non-negative inputs with the output `[-5,-1]`. -/
def addNegativeGraph : Graph :=
  [ { kind := .Input, name := "a", type := calF32 [1, 8] 0 1 },
    { kind := .Input, name := "b", type := calF32 [1, 8] 0 1 },
    { kind := .Add, name := "add", operands := [0, 1], type := calF32 [1, 8] (-5) (-1) },
    { kind := .Return, operands := [2] } ]

/-- The graph `KeepAddSignPattern` leaves of `addNegativeGraph`. -/
def addNegativeAfter : Graph :=
  [ { kind := .Input, name := "a", type := calF32 [1, 8] 0 1 },
    { kind := .Input, name := "b", type := calF32 [1, 8] 0 1 },
    { kind := .Add, name := "add", operands := [0, 1], type := calF32 [1, 8] 0 (-1) },
    { kind := .Return, operands := [2] } ]

/-- An operation re-typed to the calibrated type `q`, with its shape kept. -/
def retype (q : CalibratedType) (o : Op) : Op :=
  { o with type := { shape := o.type.shape, elem := .calibrated q } }

/-- Every operation of `acc` is the operation of `g` at the same place, as it
was or re-typed to `q`. -/
def RetypedFrom (q : CalibratedType) (g acc : Graph) : Prop :=
  ∀ w : Nat, acc[w]? = g[w]? ∨ acc[w]? = (g[w]?).map (retype q)

instance (g : Graph) : Decidable (SSA g) := by
  unfold SSA; infer_instance

/-- A Max of `[0,5]` and `[-5,5]` with output calibrated `[0,4]`. -/
def maxGraph : Graph :=
  [ { kind := .Input, name := "a", type := calF32 [1, 8] 0 5 },
    { kind := .Input, name := "b", type := calF32 [1, 8] (-5) 5 },
    { kind := .Max, name := "max", operands := [0, 1], type := calF32 [1, 8] 0 4 },
    { kind := .Return, operands := [2] } ]

/-- A Concat of `[0,5]` and `[-5,5]` (the scenario of §8). -/
def concatGraph : Graph :=
  [ { kind := .Input, name := "a", type := calF32 [1, 8] 0 5 },
    { kind := .Input, name := "b", type := calF32 [1, 8] (-5) 5 },
    { kind := .Concat, name := "cat", operands := [0, 1], type := calF32 [2, 8] (-5) 5 },
    { kind := .Return, operands := [2] } ]

/-- A Compare of `[0,5]` with `[-3,3]`. -/
def compareGraph : Graph :=
  [ { kind := .Input, name := "a", type := calF32 [1, 8] 0 5 },
    { kind := .Input, name := "b", type := calF32 [1, 8] (-3) 3 },
    { kind := .Compare, name := "cmp", operands := [0, 1], type := calF32 [1, 8] 0 1 },
    { kind := .Return, operands := [2] } ]

/-- A Mul of two non-negative inputs whose output is calibrated `[-1,2]`. -/
def mulGraph : Graph :=
  [ { kind := .Input, name := "a", type := calF32 [1, 8] 0 1 },
    { kind := .Weight, name := "w", data := [2], type := { shape := [1], elem := .plain .f32 } },
    { kind := .Mul, name := "mul", operands := [0, 1], type := calF32 [1, 8] (-1) 2 },
    { kind := .Return, operands := [2] } ]

/-- The Where scenario of §8: the output is calibrated `[-10,10]`, the false
branch is the constant `Y = -50`, the true branch is a graph input calibrated
`[a,b]`. -/
def whereGraph (a b : ℚ) : Graph :=
  [ { kind := .Input, name := "cond", type := { shape := [1, 8], elem := .plain .f32 } },
    { kind := .Input, name := "x", type := calF32 [1, 8] a b },
    { kind := .None },
    { kind := .Where, name := "where", operands := [0, 1, 2], y_is_const := true,
      y_const_val := -50, type := calF32 [1, 8] (-10) 10 },
    { kind := .Return, operands := [3] } ]

/-- The scenario after the output has been widened to the constant. -/
def whereGraphWidened (a b : ℚ) : Graph :=
  [ { kind := .Input, name := "cond", type := { shape := [1, 8], elem := .plain .f32 } },
    { kind := .Input, name := "x", type := calF32 [1, 8] a b },
    { kind := .None },
    { kind := .Where, name := "where", operands := [0, 1, 2], y_is_const := true,
      y_const_val := -50, type := calF32 [1, 8] (-5) 50 },
    { kind := .Return, operands := [3] } ]

/-- The Where scenario with a Relu behind the Where: the Relu reads the result
of the Where and is calibrated `[0,100]`. -/
def whereReluGraph : Graph :=
  [ { kind := .Input, name := "cond", type := { shape := [1, 8], elem := .plain .f32 } },
    { kind := .Input, name := "x", type := calF32 [1, 8] (-1) 1 },
    { kind := .None },
    { kind := .Where, name := "where", operands := [0, 1, 2], y_is_const := true,
      y_const_val := -50, type := calF32 [1, 8] (-10) 10 },
    { kind := .Relu, name := "relu", operands := [3], type := calF32 [1, 8] 0 100 },
    { kind := .Return, operands := [4] } ]

/-- The graph `calibration_process` leaves of `whereReluGraph` in INT8 mode:
the backward phase has given the Where the range of the Relu, and the
selective phase has passed it on to `x`. -/
def whereReluAfter : Graph :=
  [ { kind := .Input, name := "cond", type := { shape := [1, 8], elem := .plain .f32 } },
    { kind := .Input, name := "x", type := calF32 [1, 8] 0 100 },
    { kind := .None },
    { kind := .Where, name := "where", operands := [0, 1, 2], y_is_const := true,
      y_const_val := -50, type := calF32 [1, 8] 0 100 },
    { kind := .Relu, name := "relu", operands := [3], type := calF32 [1, 8] 0 100 },
    { kind := .Return, operands := [4] } ]

/-- A calibrated module on BM1684X in F8E4M3 mode with the driver's defaults. -/
def f8Module : Module :=
  { state := .TOP_CALIBRATED, chip := .BM1684X, mode := .F8E4M3 }

/-- The same module with a top-down traversal. -/
def f8ModuleTopDown : Module :=
  { state := .TOP_CALIBRATED, chip := .BM1684X, mode := .F8E4M3,
    greedy := { useTopDownTraversal := true } }

/-! ### GatherElements / ScatterElements coefficient synthesis
(`OptimizeBM1684X.cpp`, lines 981-1172) -/

/-- Outcome of the coefficient synthesis of `GatherElementsPattern` and
`ScatterElementsPattern`: the pattern declines (`failure`), writes outside its
eight-entry shape arrays or lets an `int` overflow (`undefined`), or creates
the coefficient weight `indices_coeff` with the given data. -/
inductive Synth where
  | failure
  | undefined
  | created (indices_coeff : List Int)
  deriving DecidableEq, Repr

/-- A loop `for (int i = 0; i < n; ++i)` whose body appends entries to
`indices_coeff`: the entries of all turns in order, `none` when a turn is
undefined. -/
def forInt (n : Int) (body : Int → Option (List Int)) : Option (List Int) :=
  ((List.range n.toNat).mapM fun (i : Nat) => body (i : Int)).map List.flatten

/-- The head of one loop of the nest (for instance lines 1023-1025):
`int tmpk = tmp; tmpk += axis == k ? 0 : ik; tmpk *= input_shape8[k+1];`, on
`int`s; `none` is a signed overflow. -/
def loopLevel (axis k : Nat) (tmp ik next : Int) : Option Int :=
  (intResult (tmp + (if axis = k then 0 else ik))).bind fun t => intResult (t * next)

/-- Embedding of the eight nested loops of `GatherElementsPattern`
(lines 1021-1064); `indices_shape8` and `input_shape8` are the two local `int`
arrays, read at positions `0..7`, and the accumulators are `int`s. -/
def GatherElementsPattern.loops (axis : Nat) (indices_shape8 input_shape8 : Nat → Int) :
    Option (List Int) :=
  forInt (indices_shape8 0) fun i0 =>
  (loopLevel axis 0 0 i0 (input_shape8 1)).bind fun tmp0 =>
  forInt (indices_shape8 1) fun i1 =>
  (loopLevel axis 1 tmp0 i1 (input_shape8 2)).bind fun tmp1 =>
  forInt (indices_shape8 2) fun i2 =>
  (loopLevel axis 2 tmp1 i2 (input_shape8 3)).bind fun tmp2 =>
  forInt (indices_shape8 3) fun i3 =>
  (loopLevel axis 3 tmp2 i3 (input_shape8 4)).bind fun tmp3 =>
  forInt (indices_shape8 4) fun i4 =>
  (loopLevel axis 4 tmp3 i4 (input_shape8 5)).bind fun tmp4 =>
  forInt (indices_shape8 5) fun i5 =>
  (loopLevel axis 5 tmp4 i5 (input_shape8 6)).bind fun tmp5 =>
  forInt (indices_shape8 6) fun i6 =>
  (loopLevel axis 6 tmp5 i6 (input_shape8 7)).bind fun tmp6 =>
  forInt (indices_shape8 7) fun i7 =>
  (intResult (tmp6 + i7)).map fun tmp7 => [tmp7]

/-- Embedding of `GatherElementsPattern::matchAndRewrite` as far as the
coefficient weight is concerned (lines 994-1067).  The entries of the shapes
are reduced to 32 bits when they are stored in the `int` arrays;
`axis == indices_dims - 1` is an unsigned comparison, so it is written
`axis + 1 = indices_dims`; `coeff_is_none` says whether the `indices_coeff`
operand is still `NoneType`; the counter `tmp`, raised once for every entry,
overflows when there are `2^31` entries or more. -/
def GatherElementsPattern (axis : Nat) (indices_shape input_shape : List Nat)
    (coeff_is_none : Bool) : Synth :=
  let indices_dims := indices_shape.length
  if axis + 1 = indices_dims then .failure
  else if !coeff_is_none then .failure
  else if 8 < indices_dims ∨ input_shape.length < indices_dims then .undefined
  else
    let indices_shape8 : Nat → Int := fun i =>
      if i < indices_dims then toInt32 (indices_shape.getD i 1 : Nat) else 1
    let input_shape8 : Nat → Int := fun i =>
      if i < indices_dims then toInt32 (input_shape.getD i 1 : Nat) else 1
    match GatherElementsPattern.loops axis indices_shape8 input_shape8 with
    | none => .undefined
    | some indices_coeff =>
      if indices_coeff.length > 2147483647 then .undefined else .created indices_coeff

/-- Embedding of the eight nested loops of `ScatterElementsPattern`
(lines 1115-1158). -/
def ScatterElementsPattern.loops (axis : Nat) (indices_shape8 input_shape8 : Nat → Int) :
    Option (List Int) :=
  forInt (indices_shape8 0) fun i0 =>
  (loopLevel axis 0 0 i0 (input_shape8 1)).bind fun tmp0 =>
  forInt (indices_shape8 1) fun i1 =>
  (loopLevel axis 1 tmp0 i1 (input_shape8 2)).bind fun tmp1 =>
  forInt (indices_shape8 2) fun i2 =>
  (loopLevel axis 2 tmp1 i2 (input_shape8 3)).bind fun tmp2 =>
  forInt (indices_shape8 3) fun i3 =>
  (loopLevel axis 3 tmp2 i3 (input_shape8 4)).bind fun tmp3 =>
  forInt (indices_shape8 4) fun i4 =>
  (loopLevel axis 4 tmp3 i4 (input_shape8 5)).bind fun tmp4 =>
  forInt (indices_shape8 5) fun i5 =>
  (loopLevel axis 5 tmp4 i5 (input_shape8 6)).bind fun tmp5 =>
  forInt (indices_shape8 6) fun i6 =>
  (loopLevel axis 6 tmp5 i6 (input_shape8 7)).bind fun tmp6 =>
  forInt (indices_shape8 7) fun i7 =>
  (intResult (tmp6 + i7)).map fun tmp7 => [tmp7]

/-- Embedding of `ScatterElementsPattern::matchAndRewrite` as far as the
coefficient weight is concerned (lines 1087-1161). -/
def ScatterElementsPattern (axis : Nat) (indices_shape input_shape : List Nat)
    (coeff_is_none : Bool) : Synth :=
  let indices_dims := indices_shape.length
  if axis + 1 = indices_dims then .failure
  else if !coeff_is_none then .failure
  else if 8 < indices_dims ∨ input_shape.length < indices_dims then .undefined
  else
    let indices_shape8 : Nat → Int := fun i =>
      if i < indices_dims then toInt32 (indices_shape.getD i 1 : Nat) else 1
    let input_shape8 : Nat → Int := fun i =>
      if i < indices_dims then toInt32 (input_shape.getD i 1 : Nat) else 1
    match ScatterElementsPattern.loops axis indices_shape8 input_shape8 with
    | none => .undefined
    | some indices_coeff =>
      if indices_coeff.length > 2147483647 then .undefined else .created indices_coeff

/-- Row-major linear offset of the position `idx` in a tensor of shape
`shape`: the sum of `idx[k] * prod_{j>k} shape[j]`. -/
def rowMajor : List Nat → List Nat → Nat
  | _ :: ds, i :: is => i * ds.prod + rowMajor ds is
  | _, _ => 0

/-- A position `idx` lies inside a tensor of shape `shape`: same rank, every
coordinate below its dimension. -/
def InShape (idx shape : List Nat) : Prop :=
  List.Forall₂ (fun i d => i < d) idx shape

/-- The loop nest of the coefficient synthesis in natural numbers for an
arbitrary number of levels: level `k` ranges over the head of `ds`, adds its
index unless `k` is the axis, and multiplies by the next input dimension (one
when there is none).  Used to reason about the eight literal loops when no
`int` overflows. -/
def loopNest (axis : Nat) : Nat → List Nat → List Nat → Nat → List Nat
  | _, [], _, acc => [acc]
  | k, d :: ds, ss, acc =>
    (List.range d).flatMap fun i =>
      loopNest axis (k + 1) ds ss.tail ((acc + (if axis = k then 0 else i)) * ss.tail.headD 1)

/-- The loop nest on `int`s for an arbitrary number of levels, built from the
steps of the eight literal loops; used to reason about them. -/
def loopNestInt (axis : Nat) : Nat → List Int → List Int → Int → Option (List Int)
  | _, [], _, acc => some [acc]
  | k, d :: ds, ss, acc =>
    forInt d fun i =>
      (loopLevel axis k acc i (ss.tail.headD 1)).bind fun tmp =>
        loopNestInt axis (k + 1) ds ss.tail tmp

/-- A bound on every `int` of the loop nest: the product over the levels of the
larger of the indices extent and the input extent (at least 1). -/
def nestBound : List Nat → List Nat → Nat
  | [], _ => 1
  | d :: ds, ss => max 1 (max d (ss.headD 1)) * nestBound ds ss.tail

/-- The sum over the levels `k, k+1, ...` other than the axis of
`idx * prod of the later input dimensions`. -/
def offsetSkipAxis (axis : Nat) : Nat → List Nat → List Nat → Nat
  | k, _ :: ss, i :: is => (if axis = k then 0 else i * ss.prod) + offsetSkipAxis axis (k + 1) ss is
  | _, _, _ => 0

/-! ### Results of the `tpu` rewrite patterns -/

/-- The result of a `tpu` pattern's `matchAndRewrite` over a state `σ`:
`success s` and `failure s` carry the state as the pattern left it, `fatal` is
`llvm_unreachable`, `undefined` is an access outside a buffer or to an operand
that is not there, a signed overflow, or the erasure of an operation that is
still in use. -/
inductive PatternResult (σ : Type) where
  | success (s : σ)
  | failure (s : σ)
  | fatal
  | undefined
  deriving DecidableEq, Repr

/-! ### GroupConv2NormalConv (`OptimizeBM1684X.cpp`, lines 401-461) -/

/-- The fields of `conv_attr_t` that `GroupConv2NormalConv` reads.  The
structure is declared outside the sources at hand; its fields are 64-bit
integers, as the entries of a shape are, and are held here as natural
numbers. -/
structure conv_attr_t where
  ic : Nat
  oc : Nat
  kh : Nat
  kw : Nat
  groups : Nat
  deriving DecidableEq, Repr

/-- A `tpu.Conv2D` together with its filter operand: the attributes and the
filter weight that `GroupConv2NormalConv` reads and writes.  Filter elements
are integers holding the stored bit pattern. -/
structure Conv2DOp where
  ic : Nat
  oc : Nat
  kh : Nat
  kw : Nat
  group : Nat
  kernel_zp : Int := 0
  filter_is_weight : Bool := true
  filter_stype : StorageKind
  filter_shape : List Nat
  filter_data : List Int
  deriving DecidableEq, Repr

/-- Modelled from the spec: `tpu::Conv2DOp::parseParam` is declared outside the
sources at hand; the channel counts, the kernel size and the group count of the
convolution. -/
def Conv2DOp.parseParam (op : Conv2DOp) : conv_attr_t :=
  { ic := op.ic, oc := op.oc, kh := op.kh, kw := op.kw, groups := op.group }

/-- Modelled from the spec: `module::isBM1684XFamily`, the BM1684X hardware
family. -/
def isBM1684XFamily (c : Chip) : Bool :=
  decide (c = .BM1684X ∨ c = .BM1688 ∨ c = .CV186X)

/-- Modelled from the spec: `module::isSG2260Family`, the SG2260 hardware
family. -/
def isSG2260Family (c : Chip) : Bool :=
  decide (c = .SG2260)

/-- The conversion of the 64-bit `kernel_zp` to the element type `T` that
`updateFilter<T>` is instantiated with (`uint8_t`, `int8_t` or `uint16_t`). -/
def StorageKind.convertZp (k : StorageKind) (z : Int) : Int :=
  match k with
  | .u8 => z % 256
  | .i8 => (z + 128) % 256 - 128
  | _ => z % 65536

/-- The bit width of a storage type (`getIntOrFloatBitWidth`). -/
def StorageKind.getIntOrFloatBitWidth : StorageKind → Nat
  | .f32 | .i32 => 32
  | .f16 | .bf16 | .i16 | .u16 => 16
  | .f8e4m3 | .f8e5m2 | .i8 | .u8 => 8
  | .i4 | .u4 => 4
  | .none => 0

/-- The call `std::copy(begin, end, to)` with `begin = filter_data + b`,
`end = begin + n`, `to = new_data + t`, on offsets that are natural numbers;
`none` when it would read or write outside a buffer. -/
def copyRow (filter_data : List Int) (b n : Nat) (new_data : List Int) (t : Nat) :
    Option (List Int) :=
  if b + n ≤ filter_data.length ∧ t + n ≤ new_data.length then
    some (new_data.take t ++ ((filter_data.drop b).take n ++ new_data.drop (t + n)))
  else none

/-- The call `std::copy(begin, end, to)` of line 453 with the `int` offsets of
lines 449-452: `none` when an offset or the length is negative or the copy
would read or write outside a buffer. -/
def copyRowInt (filter_data : List Int) (b n : Int) (new_data : List Int) (t : Int) :
    Option (List Int) :=
  if 0 ≤ b ∧ 0 ≤ n ∧ 0 ≤ t then copyRow filter_data b.toNat n.toNat new_data t.toNat
  else none

/-- The body of the loop of `updateFilter` (lines 448-454) for the row `i`:
the products `old_ic_num * i`, `new_ic_num * i` and `old_ic_num * group_idx`
are products of `int`s; `none` when one of them overflows, the division is by
zero, or the copy leaves a buffer. -/
def updateFilter.row (filter_data : List Int) (old_ic_num new_ic_num goc : Int)
    (nd : List Int) (i : Nat) : Option (List Int) :=
  if goc = 0 then none
  else
    match intResult (old_ic_num * i), intResult (new_ic_num * i),
        intResult (old_ic_num * Int.tdiv i goc) with
    | some b, some t1, some t2 => copyRowInt filter_data b old_ic_num nd (t1 + t2)
    | _, _, _ => none

/-- The local `int old_ic_num = gic * p.kh * p.kw` of `updateFilter`
(lines 439-441), with `int gic = p.ic / p.groups`: the product is one of 64-bit
integers (`none` when it overflows) and is reduced to 32 bits when stored. -/
def updateFilter.old_ic_num (p : conv_attr_t) : Option Int :=
  ((int64Result (toInt32 (p.ic / p.groups : Nat) * p.kh)).bind
    fun x => int64Result (x * p.kw)).map toInt32

/-- The local `int new_ic_num = p.ic * p.kh * p.kw` of `updateFilter`
(line 442). -/
def updateFilter.new_ic_num (p : conv_attr_t) : Option Int :=
  ((int64Result ((p.ic : Int) * p.kh)).bind fun x => int64Result (x * p.kw)).map toInt32

/-- The allocation of the new filter and the loop of `updateFilter`
(lines 445-454); `none` when the counter `i` overflows or a row does. -/
def updateFilter.loop (op : Conv2DOp) (p : conv_attr_t) (goc old_ic_num new_ic_num : Int) :
    Option (List Int) :=
  if p.oc > 2147483647 then none
  else
    (List.range p.oc).foldlM (updateFilter.row op.filter_data old_ic_num new_ic_num goc)
      (List.replicate (op.filter_data.length * p.groups % 18446744073709551616)
        (op.filter_stype.convertZp op.kernel_zp))

/-- Embedding of `GroupConv2NormalConv::updateFilter` (lines 437-460): the data
of the new filter.  The locals `gic`, `goc`, `old_ic_num`, `new_ic_num` and the
loop counter are `int`s: a 64-bit value stored in one of them is reduced to 32
bits, and `none` is a signed overflow, a division by zero or a copy that leaves
a buffer.  The size of the new vector is a product of unsigned 64-bit
numbers. -/
def updateFilter (op : Conv2DOp) (p : conv_attr_t) : Option (List Int) :=
  if p.groups = 0 then none
  else
    match updateFilter.old_ic_num p, updateFilter.new_ic_num p with
    | some old_ic_num, some new_ic_num =>
      updateFilter.loop op p (toInt32 (p.oc / p.groups : Nat)) old_ic_num new_ic_num
    | _, _ => none

/-- No `int` of `updateFilter` overflows: the input and output channel counts,
the products `ic*kh` and `ic*kh*kw` (the length of a row of the new filter) and
the size `oc*ic*kh*kw` of the new filter are below `2^31`. -/
def conv_attr_t.FitsInt (p : conv_attr_t) : Prop :=
  p.ic < 2147483648 ∧ p.oc < 2147483648 ∧ p.ic * p.kh < 2147483648 ∧
    p.ic * p.kh * p.kw < 2147483648 ∧ p.oc * (p.ic * p.kh * p.kw) < 2147483648

instance (p : conv_attr_t) : Decidable p.FitsInt := by
  unfold conv_attr_t.FitsInt; infer_instance

/-- The computation of `updateFilter` in natural numbers, as it runs when no
`int` overflows; used to reason about the embedding. -/
def updateFilter.exact (op : Conv2DOp) (p : conv_attr_t) : Option (List Int) :=
  if p.groups = 0 then none
  else
    let gic := p.ic / p.groups
    let goc := p.oc / p.groups
    let old_ic_num := gic * p.kh * p.kw
    let new_ic_num := p.ic * p.kh * p.kw
    let filter_size := op.filter_data.length
    let new_data :=
      List.replicate (filter_size * p.groups) (op.filter_stype.convertZp op.kernel_zp)
    (List.range p.oc).foldlM
      (fun nd i =>
        if goc = 0 then none
        else
          let group_idx := i / goc
          copyRow op.filter_data (old_ic_num * i) old_ic_num nd
            (new_ic_num * i + old_ic_num * group_idx))
      new_data

/-- Embedding of `GroupConv2NormalConv::matchAndRewrite` (lines 406-434);
`ic_num` is `BM168x::ic_num`, declared outside the sources at hand. -/
def GroupConv2NormalConv (chip : Chip) (ic_num : Nat → Nat) (op : Conv2DOp) :
    PatternResult Conv2DOp :=
  if !(isBM1684XFamily chip || isSG2260Family chip) || !op.filter_is_weight then .failure op
  else
    let data_type := op.filter_stype
    if !(data_type = .bf16 ∨ data_type = .f16 ∨ data_type = .i8 ∨ data_type = .u8) then
      .failure op
    else
      let attrs := op.parseParam
      if attrs.groups = 1 then .failure op
      else
        let ic_parallel := ic_num (data_type.getIntOrFloatBitWidth / 8)
        if attrs.ic > ic_parallel then .failure op
        else
          match updateFilter op attrs with
          | none => .undefined
          | some new_data =>
            .success { op with
              filter_data := new_data
              filter_shape := [attrs.oc, attrs.ic, attrs.kh, attrs.kw]
              group := 1 }

/-- A grouped convolution with a non-zero kernel zero point: two groups, two
input and two output channels, a 1x1 kernel. -/
def groupConvZp : Conv2DOp :=
  { ic := 2, oc := 2, kh := 1, kw := 1, group := 2, kernel_zp := 3,
    filter_stype := .i8, filter_shape := [2, 1, 1, 1], filter_data := [10, 20] }

/-- A grouped convolution with `2^32` output channels: two groups, two input
channels, a 1x1 kernel, and a filter of `2^32` rows of one value. -/
def groupConvHuge : Conv2DOp :=
  { ic := 2, oc := 4294967296, kh := 1, kw := 1, group := 2, filter_stype := .i8,
    filter_shape := [4294967296, 1, 1, 1], filter_data := List.replicate 4294967296 0 }

/-- A MaskedFill whose constant lies outside the output range: the output is
calibrated `[-10,10]`, the fill constant is `-50`, both operands are calibrated
graph inputs with one use. -/
def maskedFillGraph : Graph :=
  [ { kind := .Input, name := "cond", type := calF32 [1, 8] 0 1 },
    { kind := .Input, name := "x", type := calF32 [1, 8] (-1) 1 },
    { kind := .MaskedFill, name := "mf", operands := [0, 1], const_val := -50,
      type := calF32 [1, 8] (-10) 10 },
    { kind := .Return, operands := [2] } ]

/-- The MaskedFill scenario after the output has been widened to the
constant. -/
def maskedFillGraphWidened : Graph :=
  [ { kind := .Input, name := "cond", type := calF32 [1, 8] 0 1 },
    { kind := .Input, name := "x", type := calF32 [1, 8] (-1) 1 },
    { kind := .MaskedFill, name := "mf", operands := [0, 1], const_val := -50,
      type := calF32 [1, 8] (-5) 50 },
    { kind := .Return, operands := [2] } ]

/-! ### The override table (`TopToTpuPass.cpp`, lines 2035-2112) -/

/-- The assignment `quantize_map[name] = mode`: the entry for `name` is
overwritten when there is one and added otherwise. -/
def QuantizeMap.set (m : QuantizeMap) (name : String) (mode : Mode) : QuantizeMap :=
  if (m.find name).isSome then m.map fun e => if e.1 == name then (e.1, mode) else e
  else m ++ [(name, mode)]

/-- The call `quantize_map.insert({name, mode})`: an entry for `name` that is
already there is kept. -/
def QuantizeMap.insert (m : QuantizeMap) (name : String) (mode : Mode) : QuantizeMap :=
  if (m.find name).isSome then m else m ++ [(name, mode)]

/-- Modelled from the spec: `module::isF16Modes` is declared outside the
sources at hand; the global modes that compute in F16. -/
def isF16Modes (m : Mode) : Bool :=
  decide (m = .F16 ∨ m = .W8F16 ∨ m = .W4F16)

/-- Modelled from the spec: `module::isBF16Modes` is declared outside the
sources at hand; the global modes that compute in BF16. -/
def isBF16Modes (m : Mode) : Bool :=
  decide (m = .BF16 ∨ m = .W8BF16 ∨ m = .W4BF16)

/-- Modelled from the spec: the mode keywords of §6, spelled in upper case,
with the modes they name. -/
def modeKeywords : List (String × Mode) :=
  [("F32", .F32), ("F16", .F16), ("BF16", .BF16), ("INT8", .INT8), ("UINT8", .UINT8),
   ("INT4", .INT4), ("F8E4M3", .F8E4M3), ("F8E5M2", .F8E5M2), ("W8F16", .W8F16),
   ("W4F16", .W4F16), ("W8BF16", .W8BF16), ("W4BF16", .W4BF16)]

/-- Modelled from the spec: `module::symbolizeMode` is declared outside the
sources at hand; it reads a mode keyword spelled in upper case. -/
def symbolizeMode (s : String) : Option Mode :=
  match modeKeywords.find? fun e => e.1 == s with
  | some e => some e.2
  | none => none

/-- The call `StringRef(s).upper()`: the letters `a`-`z` become `A`-`Z`. -/
def upper (s : String) : String :=
  String.mk (s.data.map Char.toUpper)

/-- Embedding of `qmode` (lines 2035-2044); `none` is
`llvm_unreachable("Unknown quantize mode")`. -/
def qmode (mode : String) : Option Mode :=
  let tmp := upper mode
  symbolizeMode tmp

/-- The white-space characters of the classic locale, which the class `\s` of
`std::regex` and the extraction `iss >> token` both use: space and the
characters 9 to 13. -/
def isSpace (c : Char) : Bool :=
  decide (c.toNat = 32 ∨ (9 ≤ c.toNat ∧ c.toNat ≤ 13))

/-- The characters that `.` of an ECMAScript `std::regex` does not match: line
feed and carriage return. -/
def isLineTerminator (c : Char) : Bool :=
  decide (c.toNat = 10 ∨ c.toNat = 13)

/-- The test `std::regex_match(line, empty_pattern)` for `^\s*$`. -/
def regex_match_empty (line : List Char) : Bool :=
  line.all isSpace

/-- The test `std::regex_match(line, info_pattern)` for `#.*`. -/
def regex_match_info (line : List Char) : Bool :=
  match line with
  | c :: rest => decide (c = '#') && rest.all fun c => !isLineTerminator c
  | [] => false

/-- The test `std::regex_match(line, map_pattern)` for `\S+\s+\S+`: the two
classes are disjoint, so the three runs are found by scanning. -/
def regex_match_map (line : List Char) : Bool :=
  let t1 := line.takeWhile fun c => !isSpace c
  let r1 := line.dropWhile fun c => !isSpace c
  let ws := r1.takeWhile isSpace
  let t2 := r1.dropWhile isSpace
  !t1.isEmpty && !ws.isEmpty && !t2.isEmpty && t2.all fun c => !isSpace c

/-- The test `std::regex_match(line, name_pattern)` for `\S+`. -/
def regex_match_name (line : List Char) : Bool :=
  !line.isEmpty && line.all fun c => !isSpace c

/-- The extraction `iss >> token`: leading white space is skipped, the token
runs to the next white space; returns the token and the rest of the stream. -/
def extractToken (stream : List Char) : List Char × List Char :=
  let s := stream.dropWhile isSpace
  (s.takeWhile fun c => !isSpace c, s.dropWhile fun c => !isSpace c)

/-- The statement `if (line.back() == '\r') line.pop_back()` (lines 2072-2074);
an empty line is left as it is. -/
def stripCR (line : List Char) : List Char :=
  match line.getLast? with
  | some c => if c.toNat = 13 then line.dropLast else line
  | none => line

/-- Embedding of the body of the `while` loop of `init_qtable`
(lines 2072-2110) for one line of the table; `none` is a fatal error
(`llvm_unreachable` or `assert(false)`). -/
def init_qtable.line (md : Module) (m : QuantizeMap) (line0 : String) : Option QuantizeMap :=
  let line := stripCR line0.data
  if regex_match_empty line then some m
  else if regex_match_info line then some m
  else if regex_match_map line then
    let t1 := extractToken line
    let name := String.mk t1.1
    let t2 := extractToken t1.2
    let mode := String.mk t2.1
    let src_mode := upper mode
    let mode := if isCV18xx md.chip ∧ (src_mode = "F32" ∨ src_mode = "F16") then "BF16" else mode
    if (src_mode = "W8F16" ∨ src_mode = "W4F16") ∧ isBF16Modes md.mode then none
    else if (src_mode = "W8BF16" ∨ src_mode = "W4BF16") ∧ isF16Modes md.mode then none
    else
      match qmode mode with
      | some q => some (m.set name q)
      | none => none
  else if regex_match_name line then some m
  else none

/-- The override table handed to the pass: no table (`qtable.empty()`), a file
that cannot be opened, or the lines of the file. -/
inductive QTable where
  | absent
  | unreadable
  | lines (ls : List String)
  deriving DecidableEq, Repr

/-- The names of the `top.AvgPool` operations in walk order. -/
def avgPoolNames (g : Graph) : List String :=
  (g.filter fun o => decide (o.kind = .AvgPool)).map Op.name

/-- Embedding of `init_qtable` (lines 2045-2112); `none` is a fatal error. -/
def init_qtable (md : Module) (ignore_f16_overflow : Bool) (g : Graph) (qtable : QTable) :
    Option QuantizeMap :=
  let m0 : QuantizeMap := []
  let m1 : QuantizeMap :=
    if ignore_f16_overflow = false ∧ isF16Modes md.mode then
      (avgPoolNames g).foldl (fun m name => m.set name .F32) m0
    else m0
  match qtable with
  | .absent => some m1
  | .unreadable => none
  | .lines ls => ls.foldlM (init_qtable.line md) m1
/-- A blank line: empty or white space only. -/
def Blank (l : List Char) : Prop :=
  ∀ c ∈ l, isSpace c = true

/-- A comment line: it begins with `#` and holds no line feed or carriage
return after it. -/
def Comment (l : List Char) : Prop :=
  ∃ rest, l = '#' :: rest ∧ ∀ c ∈ rest, isLineTerminator c = false

/-- A bare token: one or more characters, none of them white space. -/
def Token (t : List Char) : Prop :=
  t ≠ [] ∧ ∀ c ∈ t, isSpace c = false

/-- A line of the form `<name><white space><keyword>`. -/
def PairForm (l name kw : List Char) : Prop :=
  Token name ∧ Token kw ∧ ∃ ws, ws ≠ [] ∧ (∀ c ∈ ws, isSpace c = true) ∧ l = name ++ (ws ++ kw)

/-- The mode an override line stores for the keyword mode `q`: on a CV18xx
target F32 and F16 are replaced by BF16. -/
def storedMode (chip : Chip) (q : Mode) : Mode :=
  if isCV18xx chip = true ∧ (q = .F32 ∨ q = .F16) then .BF16 else q

/-- The keyword mode `q` is a weight-only F16 mode under a global BF16 mode, or
a weight-only BF16 mode under a global F16 mode. -/
def ModeClash (global q : Mode) : Prop :=
  ((q = .W8F16 ∨ q = .W4F16) ∧ isBF16Modes global = true) ∨
  ((q = .W8BF16 ∨ q = .W4BF16) ∧ isF16Modes global = true)

instance (global q : Mode) : Decidable (ModeClash global q) := by
  unfold ModeClash
  infer_instance

/-- A module on the CV183x chip in INT8 mode. -/
def cv18Module : Module :=
  { state := .TOP_CALIBRATED, chip := .CV183x, mode := .INT8 }

/-- A module on BM1684X in the global mode BF16. -/
def bf16Module : Module :=
  { state := .TOP_CALIBRATED, chip := .BM1684X, mode := .BF16 }

/-! ### The mixed-precision matchers (`TopToTpuPass.cpp`, lines 1412-1508 and
1796-1908) -/

/-- The guarded insertion the matchers use (for instance lines 1432-1437):
`if (quantize_map.find(name) == end()) quantize_map.insert({name, mode})`. -/
def insertIfAbsent (m : QuantizeMap) (name : String) (mode : Mode) : QuantizeMap :=
  if (m.find name).isNone then m.insert name mode else m

/-- The read-only topology scans (`match_bert_ffn`, `match_bert_mha`,
`match_attention`, `match_vit_mlp`, `match_vit_mha`, `match_vit_mha1`; lines
1219-1410 and 1526-1794).  Each walks the graph and appends operations to a
vector; none reads or writes the override map or edits the graph.  What they
return is left open: they are arbitrary functions of the graph. -/
structure TopologyScans where
  match_bert_ffn : Graph → List Nat
  match_bert_mha : Graph → List Nat
  match_attention : Graph → List Nat
  match_vit_mlp : Graph → List Nat
  match_vit_mha : Graph → List Nat
  match_vit_mha1 : Graph → List Nat

/-- Sequencing inside a matcher: a statement block yields the map and whether
control goes on (`false` after `return false`); `none` is undefined behaviour
or a failed assertion.  What follows runs only when control goes on. -/
def andThenB (r : Option (QuantizeMap × Bool))
    (next : QuantizeMap → Option (QuantizeMap × Bool)) : Option (QuantizeMap × Bool) :=
  match r with
  | none => none
  | some (m1, true) => next m1
  | some (m1, false) => some (m1, false)

/-- A range-`for` loop over `xs` whose body may leave the enclosing function
with `return false`. -/
def forEach {α : Type} (body : α → QuantizeMap → Option (QuantizeMap × Bool)) :
    List α → QuantizeMap → Option (QuantizeMap × Bool)
  | [], m => some (m, true)
  | x :: xs, m => andThenB (body x m) (forEach body xs)

/-- The expression
`dyn_cast_or_null<top::AddOp>(dyn_cast<top::LayerNormOp>(op).getInput().getDefiningOp())`
(lines 1428-1429, 1442-1443): `none` when `op` is no LayerNorm (the inner cast
is null and is dereferenced), `some none` when the input is not produced by
an Add. -/
def addBeforeLayerNorm (g : Graph) (op : Nat) : Option (Option Op) :=
  match g[op]? with
  | none => none
  | some ln =>
    if ln.kind ≠ .LayerNorm then none
    else
      match ln.operands[0]? with
      | none => none
      | some i =>
        match g[i]? with
        | none => none
        | some a => if a.kind = .Add then some (some a) else some none

/-- The loop over the operands of `addop` that pins the MatMul producers
(lines 1452-1464, 1839-1851); `skip` is the condition under which a MatMul is
passed over. -/
def pinMatMulOperands (g : Graph) (skip : Bool) (addop : Op) :
    QuantizeMap → Option (QuantizeMap × Bool) :=
  forEach (fun i m =>
    match g[i]? with
    | none => none
    | some p =>
      if p.kind = .MatMul then
        if skip then some (m, true)
        else some (insertIfAbsent m p.name .F16, true)
      else some (m, true)) addop.operands

/-- The loop over the users of a value that pins the Add users
(lines 1473-1483, 1815-1824). -/
def pinAddUsers (g : Graph) (v : Nat) : QuantizeMap → Option (QuantizeMap × Bool) :=
  forEach (fun u m =>
    match g[u]? with
    | none => none
    | some p =>
      if p.kind = .Add then some (insertIfAbsent m p.name .F16, true)
      else some (m, true)) (users g v)

/-- The loop over `attention` of `bert_mix_precision` (lines 1467-1484, and
again 1486-1503). -/
def pinAttention (g : Graph) : List Nat → QuantizeMap → Option (QuantizeMap × Bool) :=
  forEach fun op m =>
    match g[op]? with
    | none => none
    | some atenop =>
      if atenop.kind ≠ .Attention then none
      else
        match atenop.operands[0]? with
        | none => none
        | some i =>
          match g[i]? with
          | none => none
          | some lnop =>
            if lnop.kind ≠ .LayerNorm then some (m, false)
            else pinAddUsers g i m

/-- The file-level constant `partial_float_bert_ffn` (line 1412). -/
def partial_float_bert_ffn : Int := -1

/-- Embedding of `bert_mix_precision` (lines 1413-1508): the map it leaves and
its return value; `none` is undefined behaviour or a failed assertion. -/
def bert_mix_precision (s : TopologyScans) (g : Graph) (m : QuantizeMap) :
    Option (QuantizeMap × Bool) :=
  let ffn := s.match_bert_ffn g
  let mha := s.match_bert_mha g
  let attention := s.match_attention g
  if ffn.length > 0 ∧ (mha.length > 0 ∨ attention.length > 0) then
    andThenB
      (forEach (fun op m =>
        match addBeforeLayerNorm g op with
        | none => none
        | some none => some (m, false)
        | some (some addop) => some (insertIfAbsent m addop.name .F16, true)) mha m)
      fun m1 =>
    andThenB
      (forEach (fun (x : Nat × Nat) m =>
        let cnt := x.1 + 1
        match addBeforeLayerNorm g x.2 with
        | none => none
        | some none => some (m, false)
        | some (some addop) =>
          pinMatMulOperands g (decide (cnt ≥ 5 ∧ partial_float_bert_ffn > 0)) addop
            (insertIfAbsent m addop.name .F16)) ffn.enum m1)
      fun m2 =>
    andThenB (pinAttention g attention m2) fun m3 =>
    pinAttention g attention m3
  else some (m, false)

/-- Modelled from the spec: `swin_t_mix_precision` is called by
`qtable_process` (line 1905) and is declared outside the sources at hand.  As
a matcher it is a read-only scan whose matches enter the map under the
first-writer-wins policy; `swin g` are the entries it proposes for the graph. -/
def swin_t_mix_precision (swin : Graph → List (String × Mode)) (g : Graph)
    (m : QuantizeMap) : QuantizeMap :=
  (swin g).foldl (fun m e => insertIfAbsent m e.1 e.2) m

/-- Embedding of `vit_mix_precision` (lines 1796-1856). -/
def vit_mix_precision (s : TopologyScans) (g : Graph) (m : QuantizeMap) :
    Option (QuantizeMap × Bool) :=
  let mlp := s.match_vit_mlp g
  let mha0 := s.match_vit_mha g
  let mha := if mha0.length = 0 then mha0 ++ s.match_vit_mha1 g else mha0
  if mlp.length > 0 ∧ mha.length > 0 ∧ mlp.length = mha.length then
    andThenB
      (forEach (fun op m =>
        match g[op]? with
        | none => none
        | some addop =>
          if addop.kind ≠ .Add then some (m, false)
          else pinAddUsers g op (insertIfAbsent m addop.name .F16)) mha m)
      fun m1 =>
    let total_blk : Int := mlp.length
    forEach (fun (x : Nat × Nat) m =>
      let idx : Int := x.1 + 1
      match g[x.2]? with
      | none => none
      | some addop =>
        if addop.kind ≠ .Add then some (m, false)
        else
          pinMatMulOperands g (!decide (idx ≥ total_blk - 3 ∧ total_blk > 18)) addop
            (insertIfAbsent m addop.name .F16)) mlp.enum m1
  else some (m, false)

/-- The `double` literal `1e-8`: the binary64 number nearest to `10^-8`. -/
def oneE8 : ℚ := 3022314549036573 / 302231454903657293676544

/-- The test `a / b > c` of line 1892 on two positive `float`s: the quotient
is a `float`, and a quotient beyond the range of `float` is `+inf`, which is
greater than `c`. -/
def floatQuotientExceeds (a b c : ℚ) : Bool :=
  match toFloat (a / b) with
  | some r => decide (r > c)
  | none => true

/-- The bound `set_add_before_softmax_fp32` writes to the `float` array `th`
for a calibrated input (lines 1873-1886): for a Weight the largest absolute
value of the data, which `read<float>` hands out as `float`s (`none` when the
weight is empty and `at(0)` throws); otherwise the larger of `|min|` and `|max|`
of the calibrated range, a `double` stored in a `float` (`none` when it leaves
the range of `float`). -/
def addInputBound (g : Graph) (v : Nat) : Option ℚ :=
  match g[v]? with
  | none => none
  | some p =>
    if p.kind = .Weight then
      match p.data with
      | [] => none
      | w :: _ => some (p.data.foldl (fun absmax x => if |x| > absmax then |x| else absmax) |w|)
    else
      match p.type.elem.getCalibrated with
      | none => none
      | some in_type => toFloat (max |in_type.min| |in_type.max|)

/-- The loop over the inputs of an Add (lines 1870-1889) with the counter
`idx` and the array `th`: the outer `none` is a write outside `th`, a thrown
exception or a bound outside the range of `float`, the inner `none` is a
`return`. -/
def thLoop (g : Graph) : List Nat → Nat → ℚ × ℚ → Option (Option (ℚ × ℚ))
  | [], _, th => some (some th)
  | v :: rest, idx, th =>
    if isCalibratedType g v = false then some none
    else
      match addInputBound g v with
      | none => none
      | some t =>
        if idx = 0 then thLoop g rest 1 (t, th.2)
        else if idx = 1 then thLoop g rest 2 (th.1, t)
        else none

/-- The body of the walk of `set_add_before_softmax_fp32` (lines 1860-1899) for
one operation.  The two bounds are `float`s: each is compared with the `double`
`1e-8`, and the quotients compared with 64 are `float` quotients. -/
def set_add_before_softmax_fp32.visit (g : Graph) (m : QuantizeMap) (o : Op) :
    Option QuantizeMap :=
  if o.kind = .Add then
    if (m.find o.name).isSome then some m
    else
      match thLoop g o.operands 0 (0, 0) with
      | none => none
      | some none => some m
      | some (some th) =>
        if th.1 < oneE8 ∨ th.2 < oneE8 then some m
        else if floatQuotientExceeds th.1 th.2 64 = true ∨
            floatQuotientExceeds th.2 th.1 64 = true then
          some (insertIfAbsent m o.name .F32)
        else some m
  else some m

/-- Embedding of `set_add_before_softmax_fp32` (lines 1858-1901): the walk over
the operations in program order. -/
def set_add_before_softmax_fp32 (g : Graph) (m : QuantizeMap) : Option QuantizeMap :=
  g.foldlM (set_add_before_softmax_fp32.visit g) m

/-- Embedding of `qtable_process` (lines 1903-1908). -/
def qtable_process (s : TopologyScans) (swin : Graph → List (String × Mode)) (g : Graph)
    (m : QuantizeMap) : Option QuantizeMap :=
  match bert_mix_precision s g m with
  | none => none
  | some (m1, _) =>
    let m2 := swin_t_mix_precision swin g m1
    match vit_mix_precision s g m2 with
    | none => none
    | some (m3, _) => set_add_before_softmax_fp32 g m3

/-- The map `m'` extends `m`: every key of `m` is in `m'` with the same
mode. -/
def QuantizeMap.Extends (m m' : QuantizeMap) : Prop :=
  ∀ k x, m.find k = some x → m'.find k = some x

/-- A map transformer that only adds keys and that leaves every extension of
its result as it is, with the same return value. -/
def StableB (f : QuantizeMap → Option (QuantizeMap × Bool)) : Prop :=
  ∀ m r b, f m = some (r, b) → m.Extends r ∧ ∀ M, r.Extends M → f M = some (M, b)

/-- A graph with one Add whose operands are calibrated `[-100,100]` and
`[-1,1]`. -/
def addRatioGraph : Graph :=
  [ { kind := .Input, name := "x", type := calF32 [1, 8] (-100) 100 },
    { kind := .Input, name := "y", type := calF32 [1, 8] (-1) 1 },
    { kind := .Add, name := "add", operands := [0, 1], type := calF32 [1, 8] (-101) 101 },
    { kind := .Return, operands := [2] } ]

/-- A graph with one Add whose operands are calibrated `[-x,x]` and
`[-y,y]`. -/
def addBoundsGraph (x y : ℚ) : Graph :=
  [ { kind := .Input, name := "x", type := calF32 [1, 8] (-x) x },
    { kind := .Input, name := "y", type := calF32 [1, 8] (-y) y },
    { kind := .Add, name := "add", operands := [0, 1], type := calF32 [1, 8] (-101) 101 },
    { kind := .Return, operands := [2] } ]

/-- Topology scans that find nothing. -/
def noScans : TopologyScans :=
  { match_bert_ffn := fun _ => [], match_bert_mha := fun _ => [],
    match_attention := fun _ => [], match_vit_mlp := fun _ => [],
    match_vit_mha := fun _ => [], match_vit_mha1 := fun _ => [] }


/-- An Add of a calibrated input `[-1,1]` and a Weight whose type is calibrated
`[-100,100]` and whose data is `[1]`. -/
def addWeightGraph : Graph :=
  [ { kind := .Input, name := "x", type := calF32 [1, 8] (-1) 1 },
    { kind := .Weight, name := "w", data := [1], type := calF32 [1, 8] (-100) 100 },
    { kind := .Add, name := "add", operands := [0, 1], type := calF32 [1, 8] (-101) 101 },
    { kind := .Return, operands := [2] } ]

/-! ## The `tpu` graph of the insertion engine and the structural rewriter -/

/-- Modelled from the spec: the operation kinds of the lowered graph are
declared by the dialects, outside the sources at hand.  Listed are the
operations that `do_cast` and the structural rewrites embedded here name, and
`Other` for every other operation. -/
inductive TpuKind where
  | Input | Weight | None | Return
  | Permute | Reshape | MatMul | Conv2D
  | Cast | ShapeCast | GenericCpu | RequantFp | MulConst
  | Softmax | Add
  | Other
  deriving DecidableEq, Repr

/-- An operation of the lowered graph: kind, operands (positions of the
producing operations), the type of its result, and the attributes read or
written by the embedded code. -/
structure TpuOp where
  kind : TpuKind
  name : String := ""
  operands : List Nat := []
  type : TensorType := noneType
  /-- The `order` of a `tpu.Permute`. -/
  order : List Int := []
  /-- The attributes of a `tpu.MatMul`. -/
  hdim_is_batch : Bool := false
  left_transpose : Bool := false
  right_transpose : Bool := false
  left_reuse : Int := 0
  /-- The contents of a `top.Weight`, as stored bit patterns. -/
  data : List Int := []
  /-- The `cpu_op_name` of a `tpu.GenericCpu`. -/
  cpu_op_name : String := ""
  /-- The depthwise flag that `getConv2DParam` reports for a `tpu.Conv2D`. -/
  is_dw : Bool := false
  /-- The operation carries the trait `ShapeProducer`. -/
  shape_producer : Bool := false
  /-- The `const_val` of a `tpu.MulConst`. -/
  const_val : ℚ := 0
  /-- The `scale` of a `tpu.RequantFp`. -/
  scale : ℚ := 0
  /-- The operation carries the attribute `quant_inner_requant`. -/
  quant_inner_requant : Bool := false
  deriving DecidableEq, Repr

/-- The function body of the lowered graph.  A value is the position of its
producing operation; an erased operation leaves `none` behind, so positions
stay fixed, and a created operation is appended (the place where the builder
inserts it plays no role in what is embedded here). -/
abbrev TpuGraph := List (Option TpuOp)

/-- The operation at position `i`, when it is there and not erased. -/
def TpuGraph.op (g : TpuGraph) (i : Nat) : Option TpuOp :=
  match g[i]? with
  | some (some o) => some o
  | _ => none

/-- The edit of one operation in place (`setAttr`, `setOperand`, `setType`). -/
def TpuGraph.modify (g : TpuGraph) (i : Nat) (f : TpuOp → TpuOp) : TpuGraph :=
  match g.op i with
  | some o => g.set i (some (f o))
  | none => g

/-- The call `rewriter.eraseOp(op)`. -/
def TpuGraph.eraseOp (g : TpuGraph) (i : Nat) : TpuGraph :=
  g.set i none

/-- The call `builder.create<...>(...)`: the new operation and its position. -/
def TpuGraph.create (g : TpuGraph) (o : TpuOp) : TpuGraph × Nat :=
  (g ++ [some o], g.length)

/-- The call `op->setOperand(idx, v)`. -/
def TpuGraph.setOperand (g : TpuGraph) (i idx v : Nat) : TpuGraph :=
  g.modify i fun o => { o with operands := o.operands.set idx v }

/-- The call `module::setShape(v, shape)`. -/
def TpuGraph.setShape (g : TpuGraph) (v : Nat) (shape : List Int) : TpuGraph :=
  g.modify v fun o => { o with type := { o.type with shape := shape } }

/-- The call `a.replaceAllUsesWith(b)`. -/
def TpuGraph.replaceAllUsesWith (g : TpuGraph) (a b : Nat) : TpuGraph :=
  g.map (Option.map fun o => { o with operands := o.operands.map fun v => if v = a then b else v })

/-- The call `a.replaceAllUsesExcept(b, except)`. -/
def TpuGraph.replaceAllUsesExcept (g : TpuGraph) (a b except : Nat) : TpuGraph :=
  (List.range g.length).map fun j =>
    match g.op j with
    | some o =>
      if j = except then some o
      else some { o with operands := o.operands.map fun v => if v = a then b else v }
    | none => none

/-- The uses of value `v`: for every operand slot holding `v`, the position of
the operation owning the slot, in program order. -/
def TpuGraph.users (g : TpuGraph) (v : Nat) : List Nat :=
  (List.range g.length).flatMap fun j =>
    match g.op j with
    | some o => List.replicate (o.operands.count v) j
    | none => []

/-- The test `v.hasOneUse()`, also `op->hasOneUse()` of the operation that
produces `v`. -/
def TpuGraph.hasOneUse (g : TpuGraph) (v : Nat) : Bool :=
  (g.users v).length == 1

/-- The call `rewriter.eraseOp(op)` together with what the rewriter requires of
it: the operation must have no use left (`eraseOp` is declared outside the
sources at hand; it asserts `op->use_empty()`, and an operation destroyed
while in use leaves its users with a dangling operand).  The result is `none`
when a use is left. -/
def TpuGraph.eraseUnused (g : TpuGraph) (i : Nat) : Option TpuGraph :=
  if g.users i = [] then some (g.eraseOp i) else none

/-- The shape of value `v` (`module::getShape`). -/
def TpuGraph.shape (g : TpuGraph) (v : Nat) : List Int :=
  match g.op v with
  | some o => o.type.shape
  | none => []

/-- Modelled from the spec: `module::getNoneOp` is declared outside the sources
at hand; it hands out the `None` operation of the function and creates it
when there is none yet. -/
def TpuGraph.getNoneOp (g : TpuGraph) : TpuGraph × Nat :=
  match (List.range g.length).find? fun j =>
      match g.op j with
      | some o => decide (o.kind = .None)
      | none => false with
  | some j => (g, j)
  | none => g.create { kind := .None }
/-! ### PermuteFuse (`OptimizeBM1684X.cpp`, lines 893-979) -/

/-- The outcome of a search inside a pattern: the value found, or the
pattern's `return failure()`, or undefined behaviour. -/
inductive Found (α : Type) where
  | ok (a : α)
  | failure
  | undefined
  deriving DecidableEq, Repr

/-- The first part of `PermuteFuse::matchAndRewrite` (lines 900-913): the
permute that feeds `op`, directly or through one reshape, every link having
one use. -/
def PermuteFuse.permute_op (g : TpuGraph) (op : Nat) : Found Nat :=
  match g.op op with
  | none => .undefined
  | some o =>
    match o.operands[0]? with
    | none => .undefined
    | some in0 =>
      if g.hasOneUse in0 = false then .failure
      else
        match g.op in0 with
        | none => .undefined
        | some d =>
          if d.kind = .Reshape then
            match d.operands[0]? with
            | none => .undefined
            | some in1 =>
              if g.hasOneUse in1 = false then .failure
              else
                match g.op in1 with
                | none => .undefined
                | some p => if p.kind = .Permute then .ok in1 else .failure
          else if d.kind = .Permute then .ok in0 else .failure

/-- The loop over `to_dim` of lines 926-941, from `to_dim` up to 5:
`permute_reset` is declared outside the sources at hand and is a parameter; it
returns the rank-normalised shape and order, or `none` for `false`. -/
def PermuteFuse.normalise (permute_reset : List Int → List Int → Nat → Option (List Int × List Int))
    (in0_shape in0_order in1_shape in1_order : List Int) :
    Nat → Nat → Option (Nat × (List Int × List Int) × (List Int × List Int))
  | 0, _ => none
  | fuel + 1, to_dim =>
    if to_dim > 5 then none
    else
      match permute_reset in0_shape in0_order to_dim with
      | none => PermuteFuse.normalise permute_reset in0_shape in0_order in1_shape in1_order
          fuel (to_dim + 1)
      | some fix0 =>
        match permute_reset in1_shape in1_order to_dim with
        | none => PermuteFuse.normalise permute_reset in0_shape in0_order in1_shape in1_order
            fuel (to_dim + 1)
        | some fix1 => some (to_dim, fix0, fix1)

/-- The loop `for (auto o : order) out.push_back(data[o])` (lines 942-944,
954-956, 958-960); `none` when an index lies outside `data`. -/
def gatherBy (data order : List Int) : Option (List Int) :=
  order.mapM fun o => if 0 ≤ o then data[o.toNat]? else none

/-- The simulation of lines 949-960 on the vector `0, ..., to_dim - 1`: the
result of applying the first and then the second order. -/
def PermuteFuse.simulate (in0_order_fix in1_order_fix : List Int) (to_dim : Nat) :
    Option (List Int) :=
  let origin_data : List Int := (List.range to_dim).map Int.ofNat
  match gatherBy origin_data in0_order_fix with
  | none => none
  | some result0_data => gatherBy result0_data in1_order_fix

/-- Embedding of `PermuteFuse::matchAndRewrite` (lines 898-978).  The three
calls of `rewriter.eraseOp` are made with the rewriter's requirement that the
erased operation has no use; where one is left the outcome is `undefined`. -/
def PermuteFuse (permute_reset : List Int → List Int → Nat → Option (List Int × List Int))
    (g : TpuGraph) (op : Nat) : PatternResult TpuGraph :=
  match PermuteFuse.permute_op g op with
  | .undefined => .undefined
  | .failure => .failure g
  | .ok permute_op =>
    match g.op op, g.op permute_op with
    | some o, some p =>
      match o.operands[0]?, p.operands[0]? with
      | some in1, some in0 =>
        let in0_shape := g.shape in0
        let in1_shape := g.shape in1
        let out1_shape := o.type.shape
        match PermuteFuse.normalise permute_reset in0_shape p.order in1_shape o.order 4 2 with
        | none => .failure g
        | some (to_dim, (in0_shape_fix, in0_order_fix), (in1_shape_fix, in1_order_fix)) =>
          match gatherBy in0_shape_fix in0_order_fix with
          | none => .undefined
          | some out0_shape_fix =>
            if in1_shape_fix ≠ out0_shape_fix then .failure g
            else
              match PermuteFuse.simulate in0_order_fix in1_order_fix to_dim with
              | none => .undefined
              | some result1_data =>
                if result1_data ≠ (List.range to_dim).map Int.ofNat then .failure g
                else if out1_shape = in0_shape then
                  match (g.replaceAllUsesWith op in0).eraseUnused op with
                  | none => .undefined
                  | some g1 =>
                    match g1.eraseUnused permute_op with
                    | none => .undefined
                    | some g2 => .success g2
                else
                  let rs := g.create { kind := .Reshape, type := o.type, operands := [in0] }
                  match (rs.1.replaceAllUsesWith op rs.2).eraseUnused op with
                  | none => .undefined
                  | some g1 => .success g1
      | _, _ => .undefined
    | _, _ => .undefined

/-- A `permute_reset` that accepts a rank-4 shape at `to_dim = 4` as it is and
nothing else. -/
def rank4Only (shape order : List Int) (to_dim : Nat) : Option (List Int × List Int) :=
  if to_dim = 4 ∧ shape.length = 4 ∧ order.length = 4 then some (shape, order) else none

/-- Two permutes `[0,2,1,3]` in a row on a `[2,3,4,5]` tensor, the second one
read by the return. -/
def permutePairGraph : TpuGraph :=
  [ some { kind := .Input, type := { shape := [2, 3, 4, 5], elem := .plain .f16 } },
    some { kind := .None },
    some { kind := .Permute, operands := [0, 1], order := [0, 2, 1, 3],
           type := { shape := [2, 4, 3, 5], elem := .plain .f16 } },
    some { kind := .Permute, operands := [2, 1], order := [0, 2, 1, 3],
           type := { shape := [2, 3, 4, 5], elem := .plain .f16 } },
    some { kind := .Return, operands := [3] } ]

/-- Two permutes `[0,2,1,3]` on a `[2,3,4,5]` tensor with a reshape between
them that keeps the shape `[2,4,3,5]`; every link has one use and the second
permute is read by the return. -/
def permuteReshapeGraph : TpuGraph :=
  [ some { kind := .Input, type := { shape := [2, 3, 4, 5], elem := .plain .f16 } },
    some { kind := .None },
    some { kind := .Permute, operands := [0, 1], order := [0, 2, 1, 3],
           type := { shape := [2, 4, 3, 5], elem := .plain .f16 } },
    some { kind := .Reshape, operands := [2],
           type := { shape := [2, 4, 3, 5], elem := .plain .f16 } },
    some { kind := .Permute, operands := [3, 1], order := [0, 2, 1, 3],
           type := { shape := [2, 3, 4, 5], elem := .plain .f16 } },
    some { kind := .Return, operands := [4] } ]

/-! ### The insertion engine: `do_cast` and `cast_process`
(`TopToTpuPass.cpp`, lines 1132-1194 and 1910-2033) -/

/-- The enumeration `TypeCastMode`. -/
inductive TypeCastMode where
  | DO_NOTHING | DO_CAST | DO_QUANTIZE | DO_DEQUANTIZE
  deriving DecidableEq, Repr

/-- The helpers of the insertion engine that are declared outside the sources
at hand, taken as parameters: `type_need_cast`, the type verification of an
operand (`TypeInterface::type_verify`, `type_verify_case_same`,
`type_verify_case_type`), which yields the target type and the cast mode, the
quantized types of a value (given its type), `get_f8e4m3_max` and
`module::isAsymmetric`. -/
structure CastEnv where
  type_need_cast : TensorType → ElemType → Bool
  type_verify : TpuGraph → Nat → Nat → ElemType × TypeCastMode
  getQuantInt8Type : TensorType → Bool → TensorType
  getQuantInt4Type : TensorType → Bool → TensorType
  getQuantF8E4M3Type : TensorType → TensorType
  getQuantF8E5M2Type : TensorType → TensorType
  get_f8e4m3_max : ℚ
  isAsymmetric : Bool

/-- The type of value `v` in the lowered graph. -/
def TpuGraph.typeOf (g : TpuGraph) (v : Nat) : TensorType :=
  match g.op v with
  | some o => o.type
  | none => noneType

/-- The test of lines 1915-1922 on one user of the value: it is a `tpu.Cast`, or
a `tpu.GenericCpu` named `quant`, and its result needs no cast to `to`. -/
def do_cast.reusable (env : CastEnv) (g : TpuGraph) (to_type : ElemType) (user : Nat) : Bool :=
  match g.op user with
  | some uo =>
    (decide (uo.kind = .Cast) || (decide (uo.kind = .GenericCpu) && uo.cpu_op_name == "quant")) &&
      !env.type_need_cast uo.type to_type
  | none => false

/-- The loop of lines 1928-1938: every user of `v` is a `tpu.MatMul` or a
`tpu.Conv2D` that is not depthwise. -/
def do_cast.all_next_layer_is_int4 (g : TpuGraph) (v : Nat) : Bool :=
  (g.users v).all fun user =>
    match g.op user with
    | some uo => decide (uo.kind = .MatMul) || (decide (uo.kind = .Conv2D) && !uo.is_dw)
    | none => false

/-- Modelled from the spec: `do_requantFp` is declared outside the sources at
hand; it inserts a scale-only requantization (`tpu.RequantFp`) of `v` with the
given scale and result type. -/
def do_requantFp (g : TpuGraph) (v : Nat) (scale : ℚ) (to_type : TensorType) : TpuGraph × Nat :=
  g.create { kind := .RequantFp, operands := [v], type := to_type, scale := scale }

/-- Embedding of `insert_18xx_cpu_cast` (lines 2014-2033). -/
def insert_18xx_cpu_cast (g : TpuGraph) (v : Nat) (newType : TensorType) : TpuGraph × Nat :=
  let scale : ℚ :=
    match newType.elem with
    | .uniform _ s _ => 1 / s
    | _ => 0
  g.create { kind := .GenericCpu, cpu_op_name := "quant", operands := [v], type := newType,
             scale := scale }

/-- The cases `DO_DEQUANTIZE` and `DO_CAST` of `do_cast` (lines 1949-1975);
`module::getOriValue` is the value itself inside one function.  `none` is the
reading of a calibrated range off a value that has none. -/
def do_cast.cast (env : CastEnv) (g : TpuGraph) (v : Nat) (to_type : ElemType) :
    Option (TpuGraph × Nat) :=
  let to_stype := to_type.getStorageType
  let newType : TensorType := { shape := g.shape v, elem := .plain to_stype }
  match g.op v with
  | none => none
  | some vo =>
    if vo.shape_producer then
      some (g.create { kind := .ShapeCast, operands := [v], type := newType })
    else if vo.type.elem.getStorageType = .f8e4m3 then
      match vo.type.elem.getCalibrated with
      | none => none
      | some q =>
        let const_v := q.max / env.get_f8e4m3_max
        let mulOp := g.create { kind := .MulConst, operands := [v], type := newType,
                                const_val := const_v }
        some (mulOp.1.replaceAllUsesExcept v mulOp.2 mulOp.2, mulOp.2)
    else
      some (g.create { kind := .Cast, operands := [v], type := newType })

/-- The scan of lines 1914-1923: the first user of `v` whose result can be
reused.  Users are visited in program order. -/
def do_cast.scan (env : CastEnv) (g : TpuGraph) (v : Nat) (to_type : ElemType) : Option Nat :=
  (g.users v).find? (do_cast.reusable env g to_type)

/-- The statement `float scale = get_f8e4m3_max() / max;` of line 1985: the
quotient of two `double`s, stored in a `float`.  `none` when `max` is zero (the
quotient is then an infinity or not a number) or when the quotient leaves the
range of `float`. -/
def floatQuotient (a b : ℚ) : Option ℚ :=
  if b = 0 then none else (toDouble (a / b)).bind toFloat

/-- Embedding of `do_cast` (lines 1910-2012): the graph and the value returned.
`none` is `llvm_unreachable`, undefined behaviour, or a requantization scale
that is not a finite number.  The names given to the new operations are left
out. -/
def do_cast (env : CastEnv) (md : Module) (g : TpuGraph) (v : Nat) (to_type : ElemType)
    (mode : TypeCastMode) (_user_op : Option Nat := none) : Option (TpuGraph × Nat) :=
  match do_cast.scan env g v to_type with
  | some user => some (g, user)
  | none =>
    let all_next_layer_is_int4 : Bool :=
      decide (md.mode = .INT4) && do_cast.all_next_layer_is_int4 g v
    match mode with
    | .DO_DEQUANTIZE | .DO_CAST => do_cast.cast env g v to_type
    | .DO_QUANTIZE =>
      match (g.typeOf v).elem.getCalibrated with
      | none => none
      | some q =>
        if to_type = .plain .f8e4m3 then
          match floatQuotient env.get_f8e4m3_max q.max with
          | none => none
          | some scale => some (do_requantFp g v scale (env.getQuantF8E4M3Type (g.typeOf v)))
        else if to_type = .plain .f8e5m2 then
          let to5 := (env.getQuantF8E5M2Type (g.typeOf v)).elem
          match do_cast.scan env g v to5 with
          | some user => some (g, user)
          | none => do_cast.cast env g v to5
        else
          let newType :=
            if all_next_layer_is_int4 then env.getQuantInt4Type (g.typeOf v) env.isAsymmetric
            else env.getQuantInt8Type (g.typeOf v) env.isAsymmetric
          match g.op v with
          | none => none
          | some parentOp =>
            if isCV18xx md.chip ∧ parentOp.kind = .Input then
              some (insert_18xx_cpu_cast g v newType)
            else some (g.create { kind := .Cast, operands := [v], type := newType })
    | .DO_NOTHING => some (g, v)

/-- The lambda `defByWeight` of lines 1157-1165: the value is produced by a
Weight, possibly through reshapes.  The recursion is bounded by `fuel`. -/
def defByWeight (g : TpuGraph) : Nat → Nat → Bool
  | 0, _ => false
  | fuel + 1, v =>
    match g.op v with
    | none => false
    | some o =>
      if o.kind = .Weight then true
      else if o.kind ≠ .Reshape then false
      else
        match o.operands[0]? with
        | some i => defByWeight g fuel i
        | none => false

/-- The operands that `cast_process` passes over (lines 1166-1173): those
produced by a Weight or a None, or by a Weight through reshapes, and all
operands of an operation that carries `quant_inner_requant`. -/
def cast_process.skip (g : TpuGraph) (o : TpuOp) (opd : Nat) : Bool :=
  (match g.op opd with
    | some d => decide (d.kind = .Weight ∨ d.kind = .None)
    | none => false) || defByWeight g g.length opd || o.quant_inner_requant

/-- Embedding of the body of the operand loop of `cast_process`
(lines 1156-1190) for operand `idx` of the operation `op`. -/
def cast_process.operand (env : CastEnv) (md : Module) (g : TpuGraph) (op idx : Nat) :
    Option TpuGraph :=
  match g.op op with
  | none => none
  | some o =>
    match o.operands[idx]? with
    | none => none
    | some opd =>
      if cast_process.skip g o opd then some g
      else
        let tv := env.type_verify g op idx
        if tv.2 ≠ .DO_NOTHING then
          match do_cast env md g opd tv.1 tv.2 (some op) with
          | none => none
          | some (g1, castOp) => some (g1.setOperand op idx castOp)
        else some g

/-- Modelled from the spec: `type_need_cast` is declared outside the sources at
hand; a result is reused when it is of the exact needed target type, that is,
when its storage type is the target's. -/
def type_need_cast (t : TensorType) (to_type : ElemType) : Bool :=
  decide (t.elem.getStorageType ≠ to_type.getStorageType)

/-- An environment in which every operand of the operations 1 and 2 is to be
cast to F32 and nothing else is cast. -/
def castToF32Env : CastEnv :=
  { type_need_cast := type_need_cast
    type_verify := fun _ op _ =>
      if op = 1 ∨ op = 2 then (.plain .f32, .DO_CAST) else (.plain .f32, .DO_NOTHING)
    getQuantInt8Type := fun t _ => { t with elem := .uniform .i8 1 0 }
    getQuantInt4Type := fun t _ => { t with elem := .uniform .i4 1 0 }
    getQuantF8E4M3Type := fun t => { t with elem := .plain .f8e4m3 }
    getQuantF8E5M2Type := fun t => { t with elem := .plain .f8e5m2 }
    get_f8e4m3_max := 448
    isAsymmetric := false }

/-- A value with two consumers; `producer` says whether it comes from a shape
producer. -/
def twoConsumers (producer : Bool) : TpuGraph :=
  [ some { kind := .Other, name := "v", shape_producer := producer,
           type := { shape := [4], elem := .plain .f16 } },
    some { kind := .Other, name := "a", operands := [0],
           type := { shape := [4], elem := .plain .f32 } },
    some { kind := .Other, name := "b", operands := [0],
           type := { shape := [4], elem := .plain .f32 } },
    some { kind := .Return, operands := [1, 2] } ]

/-- The graph `twoConsumers true` after `cast_process` has handled both
consumers: each reads a `tpu.ShapeCast` of its own. -/
def shapeCastTwice : TpuGraph :=
  [ some { kind := .Other, name := "v", shape_producer := true,
           type := { shape := [4], elem := .plain .f16 } },
    some { kind := .Other, name := "a", operands := [4],
           type := { shape := [4], elem := .plain .f32 } },
    some { kind := .Other, name := "b", operands := [5],
           type := { shape := [4], elem := .plain .f32 } },
    some { kind := .Return, operands := [1, 2] },
    some { kind := .ShapeCast, operands := [0], type := { shape := [4], elem := .plain .f32 } },
    some { kind := .ShapeCast, operands := [0], type := { shape := [4], elem := .plain .f32 } } ]

/-! ### MatMulHdimBatchPattern (`OptimizeBM1684X.cpp`, lines 19-326) -/

/-- The test `order->size() == 4 && order->at(0) == 0 && order->at(1) == 2`
(lines 78-80, 118-119, 192-193, 240-241). -/
def orderOk (order : List Int) : Bool :=
  decide (order.length = 4) && decide (order[0]? = some 0) && decide (order[1]? = some 2)

/-- The update `if (order->at(2) == 3 && order->at(3) == 1) t = !t`
(lines 85-90, 126-128, 213-215, 246-251). -/
def toggle (t : Bool) (order : List Int) : Bool :=
  if order[2]? = some 3 ∧ order[3]? = some 1 then !t else t

/-- The three attribute writes shared by all cases (lines 95-97, 169-171,
218-220, 292-294). -/
def setMatMulAttrs (g : TpuGraph) (op : Nat) (hdim l_trans r_trans : Bool) : TpuGraph :=
  g.modify op fun o =>
    { o with hdim_is_batch := hdim, left_transpose := l_trans, right_transpose := r_trans }

/-- Case 1 of `MatMulHdimBatchPattern` (lines 66-101): both operands are
produced by permutes, `lo` at `l` and `ro` at `r`. -/
def MatMulHdimBatchPattern.case1 (g : TpuGraph) (op : Nat) (o : TpuOp) (l r : Nat)
    (lo ro : TpuOp) : PatternResult TpuGraph :=
  if !g.hasOneUse l || !g.hasOneUse r then .failure g
  else if (orderOk lo.order && orderOk ro.order) = false then .failure g
  else
    let l_trans := toggle o.left_transpose lo.order
    let r_trans := toggle o.right_transpose ro.order
    if l_trans = true ∧ r_trans = false then .failure g
    else
      match lo.operands[0]?, ro.operands[0]? with
      | some l_in, some r_in =>
        let g1 := setMatMulAttrs g op (!o.hdim_is_batch) l_trans r_trans
        let g2 := (g1.setOperand op 0 l_in).setOperand op 1 r_in
        .success ((g2.eraseOp l).eraseOp r)
      | _, _ => .undefined

/-- The loop of lines 155-165: the batch dimensions of the two inputs, read
from the third-last dimension backwards, must be equal or one. -/
def broadcastOk (ls_shape r_in_shape : List Int) : Nat → Option Bool
  | 0 => some true
  | n + 1 =>
    match broadcastOk ls_shape r_in_shape n with
    | none => none
    | some false => some false
    | some true =>
      match ls_shape[ls_shape.length - 3 - n]?, r_in_shape[r_in_shape.length - 3 - n]? with
      | some ls, some rs => some (decide (ls = rs ∨ ls = 1 ∨ rs = 1))
      | _, _ => none

/-- The edits of case 2 (lines 168-176) on the graph `g0`. -/
def MatMulHdimBatchPattern.case2.fold (g0 : TpuGraph) (op : Nat) (o : TpuOp)
    (l r l_in r_in : Nat) (remove_reshape r_trans : Bool) : TpuGraph :=
  let g1 := setMatMulAttrs g0 op (!o.hdim_is_batch) false r_trans
  let g2 := if remove_reshape then (g1.setOperand op 0 l_in).eraseOp l else g1
  (g2.setOperand op 1 r_in).eraseOp r

/-- Lines 155-177 of case 2: the broadcast check over the batch dimensions and
the edits, on the graph `g0` that the reshape check left. -/
def MatMulHdimBatchPattern.case2.broadcast (g0 : TpuGraph) (op : Nat) (o : TpuOp)
    (l r l_in r_in : Nat) (l_in_shape r_in_shape l_out_shape : List Int)
    (remove_reshape r_trans : Bool) : PatternResult TpuGraph :=
  let ls_shape := if remove_reshape then l_in_shape else l_out_shape
  let checked : Option Bool :=
    if o.hdim_is_batch = false ∧ l_in_shape.length > 2 ∧ r_in_shape.length > 2 then
      broadcastOk ls_shape r_in_shape (min ls_shape.length r_in_shape.length - 2)
    else some true
  match checked with
  | none => .undefined
  | some false => .failure g0
  | some true =>
    .success (MatMulHdimBatchPattern.case2.fold g0 op o l r l_in r_in remove_reshape r_trans)

/-- The index `l_K_dim` of lines 135-136. -/
def MatMulHdimBatchPattern.case2.l_K_dim (o : TpuOp) (l_in_shape : List Int) : Int :=
  let hdim : Int := if o.hdim_is_batch then 1 else 0
  let l_trans : Int := if o.left_transpose then 1 else 0
  l_in_shape.length - 1 - l_trans - l_trans * hdim

/-- The index `r_K_dim` of lines 137-138. -/
def MatMulHdimBatchPattern.case2.r_K_dim (o : TpuOp) (r_in_shape : List Int)
    (r_trans_b : Bool) : Int :=
  let hdim : Int := if o.hdim_is_batch then 1 else 0
  let r_trans : Int := if r_trans_b then 1 else 0
  r_in_shape.length - 2 + r_trans + r_trans * hdim - hdim

/-- Lines 129-177 of case 2, entered once the permute order and the shapes
have passed the test of lines 118-121: `a` is `l_out_shape[1]` and `d` is
`l_out_shape[2]`. -/
def MatMulHdimBatchPattern.case2.dims (g : TpuGraph) (op : Nat) (o : TpuOp)
    (l r l_in r_in : Nat) (l_in_shape r_in_shape l_out_shape : List Int) (a d : Int)
    (r_trans_b : Bool) : PatternResult TpuGraph :=
  let remove_reshape := decide (l_in_shape.length = l_out_shape.length)
  if ¬ (l_in_shape.length ≥ 2 ∧ r_in_shape.length ≥ 2) then .failure g
  else
    let l_K_dim := MatMulHdimBatchPattern.case2.l_K_dim o l_in_shape
    let r_K_dim := MatMulHdimBatchPattern.case2.r_K_dim o r_in_shape r_trans_b
    if l_K_dim < 0 ∨ r_K_dim < 0 then .undefined
    else
      match l_in_shape[l_K_dim.toNat]?, r_in_shape[r_K_dim.toNat]? with
      | some lk, some rk =>
        if lk ≠ rk then
          if l_out_shape.length = 4 ∧ d = 1 then
            let new_l_shape := (l_out_shape.set 2 a).set 1 1
            MatMulHdimBatchPattern.case2.broadcast (g.setShape l new_l_shape) op o l r l_in r_in
              l_in_shape r_in_shape new_l_shape false r_trans_b
          else .failure g
        else
          MatMulHdimBatchPattern.case2.broadcast g op o l r l_in r_in l_in_shape r_in_shape
            l_out_shape remove_reshape r_trans_b
      | _, _ => .undefined

/-- Case 2 of `MatMulHdimBatchPattern` (lines 102-177): the left operand is
produced by the reshape `lo`, the right one by the permute `ro`. -/
def MatMulHdimBatchPattern.case2 (g : TpuGraph) (op : Nat) (o : TpuOp) (l r : Nat)
    (lo ro : TpuOp) : PatternResult TpuGraph :=
  if !g.hasOneUse l || !g.hasOneUse r then .failure g
  else
    match lo.operands[0]?, ro.operands[0]? with
    | some l_in, some r_in =>
      let r_shape := ro.type.shape
      let r_in_shape := g.shape r_in
      let l_in_shape := g.shape l_in
      let l_out_shape := lo.type.shape
      if orderOk ro.order = false then .failure g
      else
        match l_out_shape[1]?, r_shape[1]? with
        | some a, some b =>
          if a ≠ b then .failure g
          else
            match l_in_shape[1]?, l_out_shape[2]? with
            | some c, some d =>
              if c ≠ d then .failure g
              else
                MatMulHdimBatchPattern.case2.dims g op o l r l_in r_in l_in_shape r_in_shape
                  l_out_shape a d (toggle o.right_transpose ro.order)
            | _, _ => .undefined
        | _, _ => .undefined
    | _, _ => .undefined

/-- Case 3 of `MatMulHdimBatchPattern` (lines 178-224): the left operand is
produced by `lo`, which is no permute, the right one by the permute `ro`;
`left` is the first operand of the MatMul as it was before the swap of
lines 61-64. -/
def MatMulHdimBatchPattern.case3 (g : TpuGraph) (op : Nat) (o : TpuOp) (left l r : Nat)
    (lo ro : TpuOp) : PatternResult TpuGraph :=
  if !g.hasOneUse l || !g.hasOneUse r then .failure g
  else
    let r_shape := ro.type.shape
    let l_shape := lo.type.shape
    if orderOk ro.order = false then .failure g
    else
      match l_shape[1]?, r_shape[1]? with
      | some a, some b =>
        if a ≠ b then .failure g
        else
          match l_shape[0]?, l_shape[2]?, l_shape[3]?, ro.operands[0]? with
          | some s0, some s2, some s3, some r_in =>
            let l_trans_type : TensorType :=
              { shape := [s0, s2, a, s3], elem := (g.typeOf left).elem }
            let none_op := g.getNoneOp
            let new_l_trans_op := none_op.1.create
              { kind := .Permute, order := [0, 2, 1, 3], type := l_trans_type,
                operands := [l, none_op.2] }
            let r_trans := toggle o.right_transpose ro.order
            let g1 := setMatMulAttrs new_l_trans_op.1 op (!o.hdim_is_batch) false r_trans
            let g2 := (g1.setOperand op 0 new_l_trans_op.2).setOperand op 1 r_in
            .success (g2.eraseOp r)
          | _, _, _, _ => .undefined
      | _, _ => .undefined

/-- The weight case of `MatMulHdimBatchPattern` (lines 225-297): exactly one
operand is a Weight.  `function_permute` is declared outside the sources at
hand and is a parameter: the data of a tensor of the given shape permuted by
the given order. -/
def MatMulHdimBatchPattern.weightCase
    (function_permute : List Int → List Int → List Int → List Int)
    (g : TpuGraph) (op : Nat) (o : TpuOp) (left right : Nat) (l_op r_op : TpuOp) :
    PatternResult TpuGraph :=
  let l_is_weight := decide (l_op.kind = .Weight)
  let r_is_weight := decide (r_op.kind = .Weight)
  let trans := if r_is_weight then left else right
  let trans_op := if r_is_weight then l_op else r_op
  let weight := if l_is_weight then left else right
  let weight_op := if l_is_weight then l_op else r_op
  if !g.hasOneUse weight then .failure g
  else if !(decide (trans_op.kind = .Permute) && g.hasOneUse trans) then .failure g
  else if orderOk trans_op.order = false then .failure g
  else
    let l_trans :=
      if r_is_weight then toggle o.left_transpose trans_op.order else o.left_transpose
    let r_trans :=
      if l_is_weight then toggle o.right_transpose trans_op.order else o.right_transpose
    if l_trans = true ∧ r_trans = false then .failure g
    else
      let weight_type := weight_op.type.elem
      let weight_shape := weight_op.type.shape
      if weight_type = .plain .i8 ∨ weight_type = .plain .u8 ∨ weight_type = .plain .f16 ∨
          weight_type = .plain .bf16 then
        match weight_shape[0]?, weight_shape[1]?, weight_shape[2]?, weight_shape[3]?,
            trans_op.operands[0]? with
        | some s0, some s1, some s2, some s3, some t_in =>
          let weight_trans := function_permute weight_op.data weight_shape [0, 2, 1, 3]
          let new_weight := g.create
            { kind := .Weight, data := weight_trans,
              type := { shape := [s0, s2, s1, s3], elem := weight_type } }
          let g1 := new_weight.1.setOperand op 0 (if l_is_weight then new_weight.2 else t_in)
          let g2 := g1.setOperand op 1 (if r_is_weight then new_weight.2 else t_in)
          let g3 := setMatMulAttrs g2 op (!o.hdim_is_batch) l_trans r_trans
          .success ((g3.eraseOp trans).eraseOp weight)
        | _, _, _, _, _ => .undefined
      else .fatal

/-- Steps 4 and 5 of `MatMulHdimBatchPattern` (lines 302-324): dimensions 1
and 2 of the declared output shape are swapped and a `[0,2,1,3]` permute is
appended, which takes over all uses of the MatMul. -/
def MatMulHdimBatchPattern.finish (g : TpuGraph) (op : Nat) : PatternResult TpuGraph :=
  match g.op op with
  | none => .undefined
  | some o =>
    let trans_type := o.type
    let out_shape := o.type.shape
    match out_shape[0]?, out_shape[1]?, out_shape[2]?, out_shape[3]? with
    | some s0, some s1, some s2, some s3 =>
      let g1 := g.setShape op [s0, s2, s1, s3]
      let none_op := g1.getNoneOp
      let trans_op := none_op.1.create
        { kind := .Permute, order := [0, 2, 1, 3], type := trans_type,
          operands := [op, none_op.2] }
      .success (trans_op.1.replaceAllUsesExcept op trans_op.2 trans_op.2)
    | _, _, _, _ => .undefined

/-- Step 3 of `MatMulHdimBatchPattern` when neither operand is a Weight
(lines 55-224): the swap of lines 61-64 and the dispatch on the three cases.
When none of them applies nothing is done and control goes on. -/
def MatMulHdimBatchPattern.tensors (g : TpuGraph) (op : Nat) (o : TpuOp) (left right : Nat)
    (l_op r_op : TpuOp) : PatternResult TpuGraph :=
  let swap : Option Bool :=
    if l_op.kind = .Permute ∧ r_op.kind ≠ .Permute then
      match l_op.type.shape[2]?, r_op.type.shape[2]? with
      | some a, some b => some (decide (a = b))
      | _, _ => none
    else some false
  match swap with
  | none => .undefined
  | some sw =>
    let l := if sw then right else left
    let lo := if sw then r_op else l_op
    let r := if sw then left else right
    let ro := if sw then l_op else r_op
    if lo.kind = .Permute ∧ ro.kind = .Permute then
      MatMulHdimBatchPattern.case1 g op o l r lo ro
    else if lo.kind = .Reshape ∧ ro.kind = .Permute then
      MatMulHdimBatchPattern.case2 g op o l r lo ro
    else if lo.kind ≠ .Permute ∧ ro.kind = .Permute then
      MatMulHdimBatchPattern.case3 g op o left l r lo ro
    else .success g

/-- Embedding of `MatMulHdimBatchPattern::matchAndRewrite` (lines 25-325). -/
def MatMulHdimBatchPattern (function_permute : List Int → List Int → List Int → List Int)
    (g : TpuGraph) (op : Nat) : PatternResult TpuGraph :=
  match g.op op with
  | none => .undefined
  | some o =>
    match o.operands[0]?, o.operands[1]? with
    | some left, some right =>
      let stype := (g.typeOf left).elem.getStorageType
      if stype = .f32 ∨ o.hdim_is_batch = true then .failure g
      else
        match g.op left, g.op right with
        | some l_op, some r_op =>
          let l_is_weight := decide (l_op.kind = .Weight)
          let r_is_weight := decide (r_op.kind = .Weight)
          if l_is_weight && r_is_weight then .failure g
          else if l_op.kind ≠ .Permute ∧ r_op.kind ≠ .Permute then .failure g
          else
            let folded :=
              if !l_is_weight && !r_is_weight then
                MatMulHdimBatchPattern.tensors g op o left right l_op r_op
              else
                MatMulHdimBatchPattern.weightCase function_permute g op o left right l_op r_op
            match folded with
            | .success g1 => MatMulHdimBatchPattern.finish g1 op
            | other => other
        | _, _ => .undefined
    | _, _ => .undefined

/-- The attributes `hdim_is_batch`, `left_transpose` and `right_transpose` of
the MatMul at `op`. -/
def TpuGraph.matmulAttrs (g : TpuGraph) (op : Nat) : Option (Bool × Bool × Bool) :=
  (g.op op).map fun o => (o.hdim_is_batch, o.left_transpose, o.right_transpose)

/-- The property `P` holds of the graph a pattern returns with `success`. -/
def PatternResult.OnSuccess {σ : Type} (P : σ → Prop) : PatternResult σ → Prop
  | .success s => P s
  | _ => True

/-- A MatMul on two one-use permutes, the left one of order `lorder`, the
right one of order `rorder`. -/
def matmulPermutesGraph (lorder rorder : List Int) : TpuGraph :=
  [ some { kind := .Input, type := { shape := [1, 4, 2, 8], elem := .plain .f16 } },
    some { kind := .Input, type := { shape := [1, 4, 2, 8], elem := .plain .f16 } },
    some { kind := .None },
    some { kind := .Permute, operands := [0, 2], order := lorder,
           type := { shape := [1, 2, 4, 8], elem := .plain .f16 } },
    some { kind := .Permute, operands := [1, 2], order := rorder,
           type := { shape := [1, 2, 8, 4], elem := .plain .f16 } },
    some { kind := .MatMul, operands := [3, 4],
           type := { shape := [1, 2, 4, 4], elem := .plain .f16 } },
    some { kind := .Return, operands := [5] } ]

/-- The graph `MatMulHdimBatchPattern` makes of `matmulPermutesGraph [0,2,1,3] [0,2,3,1]`. -/
def matmulFoldedGraph : TpuGraph :=
  [ some { kind := .Input, type := { shape := [1, 4, 2, 8], elem := .plain .f16 } },
    some { kind := .Input, type := { shape := [1, 4, 2, 8], elem := .plain .f16 } },
    some { kind := .None },
    none,
    none,
    some { kind := .MatMul, operands := [0, 1], hdim_is_batch := true, right_transpose := true,
           type := { shape := [1, 4, 2, 4], elem := .plain .f16 } },
    some { kind := .Return, operands := [7] },
    some { kind := .Permute, operands := [5, 2], order := [0, 2, 1, 3],
           type := { shape := [1, 2, 4, 4], elem := .plain .f16 } } ]

/-! ### MatMulLeftReusePattern and PermuteFuseAddSoftmax
(`OptimizeBM1684X.cpp`, lines 328-341 and 1176-1282) -/

/-- Embedding of `MatMulLeftReusePattern::matchAndRewrite` (lines 331-340). -/
def MatMulLeftReusePattern (g : TpuGraph) (op : Nat) : PatternResult TpuGraph :=
  match g.op op with
  | none => .undefined
  | some o =>
    match o.operands[0]? with
    | none => .undefined
    | some input =>
      match g.op input with
      | none => .undefined
      | some _ =>
        if g.hasOneUse input then .failure (g.modify op fun x => { x with left_reuse := 0 })
        else .failure (g.modify op fun x => { x with left_reuse := 1 })

/-- The operations that `PermuteFuseAddSoftmax` finds above the permute it is
applied to (lines 1189-1218). -/
structure SoftmaxChain where
  cast_bottom_op : Nat
  softmax_op : Nat
  cast_top_op : Nat
  add_op : Nat
  mul_const_op : Option Nat
  permute_op : Nat
  deriving DecidableEq, Repr

/-- The step `dyn_cast<K>(v.getOperand(0).getDefiningOp())`: the producer of
operand 0 of `v` when it is of kind `k`. -/
def producerOfKind (g : TpuGraph) (v : Nat) (k : TpuKind) : Found Nat :=
  match g.op v with
  | none => .undefined
  | some o =>
    match o.operands[0]? with
    | none => .undefined
    | some i =>
      match g.op i with
      | none => .undefined
      | some p => if p.kind = k then .ok i else .failure

/-- The test of lines 1221-1223 and 1226-1228: the order is `[0,2,1,3]`. -/
def isOrder0213 (order : List Int) : Bool :=
  decide (order.length = 4) && decide (order[0]? = some 0) && decide (order[1]? = some 2) &&
    decide (order[2]? = some 1) && decide (order[3]? = some 3)

/-- The search for the permute above the Add (lines 1208-1218): directly, or
through a MulConst. -/
def PermuteFuseAddSoftmax.top (g : TpuGraph) (add_op : Nat) : Found (Option Nat × Nat) :=
  match producerOfKind g add_op .MulConst with
  | .undefined => .undefined
  | .ok m =>
    match producerOfKind g m .Permute with
    | .undefined => .undefined
    | .failure => .failure
    | .ok p => .ok (some m, p)
  | .failure =>
    match producerOfKind g add_op .Permute with
    | .undefined => .undefined
    | .failure => .failure
    | .ok p => .ok (none, p)

/-- The tests of `PermuteFuseAddSoftmax::matchAndRewrite` that come before its
first edit (lines 1181-1230). -/
def PermuteFuseAddSoftmax.chain (g : TpuGraph) (op : Nat) : Found SoftmaxChain :=
  match g.op op with
  | none => .undefined
  | some o =>
    match o.operands[0]? with
    | none => .undefined
    | some input =>
      if g.hasOneUse input = false then .failure
      else if g.hasOneUse op = false then .failure
      else
        match producerOfKind g op .Cast with
        | .undefined => .undefined
        | .failure => .failure
        | .ok cast_bottom_op =>
          match producerOfKind g cast_bottom_op .Softmax with
          | .undefined => .undefined
          | .failure => .failure
          | .ok softmax_op =>
            match producerOfKind g softmax_op .Cast with
            | .undefined => .undefined
            | .failure => .failure
            | .ok cast_top_op =>
              match producerOfKind g cast_top_op .Add with
              | .undefined => .undefined
              | .failure => .failure
              | .ok add_op =>
                match PermuteFuseAddSoftmax.top g add_op with
                | .undefined => .undefined
                | .failure => .failure
                | .ok (mul_const_op, permute_op) =>
                  match g.op permute_op with
                  | none => .undefined
                  | some p =>
                    if isOrder0213 p.order = false then .failure
                    else if isOrder0213 o.order = false then .failure
                    else
                      .ok { cast_bottom_op := cast_bottom_op, softmax_op := softmax_op,
                            cast_top_op := cast_top_op, add_op := add_op,
                            mul_const_op := mul_const_op, permute_op := permute_op }

/-- The shape writes of lines 1232-1249: the permute's output shape is given to
the values between the two permutes. -/
def PermuteFuseAddSoftmax.setShapes (g : TpuGraph) (c : SoftmaxChain) (ori_shape : List Int) :
    TpuGraph :=
  let g1 :=
    match c.mul_const_op with
    | some m => (g.setShape c.permute_op ori_shape).setShape m ori_shape
    | none => g
  let add_in := match c.mul_const_op with
    | some m => m
    | none => c.permute_op
  let g2 := (g1.setShape add_in ori_shape).setShape c.add_op ori_shape
  let g3 := (g2.setShape c.add_op ori_shape).setShape c.cast_top_op ori_shape
  let g4 := (g3.setShape c.cast_top_op ori_shape).setShape c.softmax_op ori_shape
  (g4.setShape c.softmax_op ori_shape).setShape c.cast_bottom_op ori_shape

/-- The part of `PermuteFuseAddSoftmax::matchAndRewrite` from its first edit on
(lines 1231-1280), for the chain `c` found above the permute `op`. -/
def PermuteFuseAddSoftmax.rewrite (g : TpuGraph) (op : Nat) (c : SoftmaxChain) :
    PatternResult TpuGraph :=
  match g.op op, g.op c.add_op, g.op c.permute_op with
  | some o, some add, some p =>
    let g1 := PermuteFuseAddSoftmax.setShapes g c o.type.shape
    match add.operands[1]?, p.operands[0]?, o.operands[0]? with
    | some mask, some p_in, some input =>
      let mask_shape := g1.shape mask
      match mask_shape[1]? with
      | none => .undefined
      | some m1 =>
        if m1 ≠ 1 then .failure g1
        else
          match mask_shape[0]?, mask_shape[2]?, mask_shape[3]? with
          | some m0, some m2, some m3 =>
            let g2 :=
              if m2 = 1 then g1
              else
                let reshape_op := g1.create
                  { kind := .Reshape, name := ((g1.op mask).map TpuOp.name).getD "" ++ "_reshape",
                    operands := [mask], type := { shape := [m0, m2, m1, m3], elem := o.type.elem } }
                reshape_op.1.setOperand c.add_op 1 reshape_op.2
            let g3 :=
              match c.mul_const_op with
              | some m => g2.setOperand m 0 p_in
              | none => g2.setOperand c.add_op 0 p_in
            let g4 := g3.eraseOp c.permute_op
            match (g4.users op).head? with
            | none => .undefined
            | some next_op => .success ((g4.setOperand next_op 0 input).eraseOp op)
          | _, _, _ => .undefined
    | _, _, _ => .undefined
  | _, _, _ => .undefined

/-- Embedding of `PermuteFuseAddSoftmax::matchAndRewrite` (lines 1179-1281). -/
def PermuteFuseAddSoftmax (g : TpuGraph) (op : Nat) : PatternResult TpuGraph :=
  match PermuteFuseAddSoftmax.chain g op with
  | .undefined => .undefined
  | .failure => .failure g
  | .ok c => PermuteFuseAddSoftmax.rewrite g op c

/-- The property `P` holds of the graph a pattern returns with `failure`. -/
def PatternResult.OnFailure {σ : Type} (P : σ → Prop) : PatternResult σ → Prop
  | .failure s => P s
  | _ => True

/-- A MatMul whose left operand has a second consumer. -/
def matmulSharedInput : TpuGraph :=
  [ some { kind := .Input, type := { shape := [4, 8], elem := .plain .f16 } },
    some { kind := .Weight, type := { shape := [8, 8], elem := .plain .f16 } },
    some { kind := .MatMul, operands := [0, 1], type := { shape := [4, 8], elem := .plain .f16 } },
    some { kind := .Return, operands := [2, 0] } ]

/-- A MatMul whose left operand is a reshape to `[2,3,1,16]` and whose right
operand is a `[0,2,1,3]` permute: the K dimensions differ (16 and 3) and the
batch dimensions (2 and 5) do not broadcast. -/
def matmulReshapeGraph : TpuGraph :=
  [ some { kind := .Input, type := { shape := [6, 1, 16], elem := .plain .f16 } },
    some { kind := .Input, type := { shape := [5, 4, 3, 16], elem := .plain .f16 } },
    some { kind := .None },
    some { kind := .Reshape, operands := [0],
           type := { shape := [2, 3, 1, 16], elem := .plain .f16 } },
    some { kind := .Permute, operands := [1, 2], order := [0, 2, 1, 3],
           type := { shape := [5, 3, 4, 16], elem := .plain .f16 } },
    some { kind := .MatMul, operands := [3, 4],
           type := { shape := [2, 3, 1, 4], elem := .plain .f16 } },
    some { kind := .Return, operands := [5] } ]

/-- The chain permute, Add, Cast, Softmax, Cast, permute, with a mask of shape
`[1,2,8,8]` as second operand of the Add. -/
def softmaxChainGraph : TpuGraph :=
  [ some { kind := .Input, type := { shape := [1, 8, 12, 8], elem := .plain .f16 } },
    some { kind := .Input, name := "mask", type := { shape := [1, 2, 8, 8], elem := .plain .f16 } },
    some { kind := .None },
    some { kind := .Permute, operands := [0, 2], order := [0, 2, 1, 3],
           type := { shape := [1, 12, 8, 8], elem := .plain .f16 } },
    some { kind := .Add, operands := [3, 1],
           type := { shape := [1, 12, 8, 8], elem := .plain .f16 } },
    some { kind := .Cast, operands := [4],
           type := { shape := [1, 12, 8, 8], elem := .plain .f32 } },
    some { kind := .Softmax, operands := [5],
           type := { shape := [1, 12, 8, 8], elem := .plain .f32 } },
    some { kind := .Cast, operands := [6],
           type := { shape := [1, 12, 8, 8], elem := .plain .f16 } },
    some { kind := .Permute, operands := [7, 2], order := [0, 2, 1, 3],
           type := { shape := [1, 8, 12, 8], elem := .plain .f16 } },
    some { kind := .Return, operands := [8] } ]

/-- A calibrated value `[-2,d]` with one consumer. -/
def calibratedMaxGraph (d : ℚ) : TpuGraph :=
  [ some { kind := .Other, name := "v",
           type := { shape := [4], elem := .calibrated { expressed := .f32, min := -2, max := d } } },
    some { kind := .Other, name := "a", operands := [0],
           type := { shape := [4], elem := .plain .f8e5m2 } },
    some { kind := .Return, operands := [1] } ]

/-- A calibrated value `[-2,4]` with one consumer. -/
def calibratedValueGraph : TpuGraph :=
  [ some { kind := .Other, name := "v",
           type := { shape := [4], elem := .calibrated { expressed := .f32, min := -2, max := 4 } } },
    some { kind := .Other, name := "a", operands := [0],
           type := { shape := [4], elem := .plain .f8e5m2 } },
    some { kind := .Return, operands := [1] } ]

/-- A calibrated value `[-2,4]` that a `tpu.Cast` to F8E4M3 already reads. -/
def calibratedCastGraph : TpuGraph :=
  [ some { kind := .Other, name := "v",
           type := { shape := [4], elem := .calibrated { expressed := .f32, min := -2, max := 4 } } },
    some { kind := .Cast, name := "c", operands := [0],
           type := { shape := [4], elem := .plain .f8e4m3 } },
    some { kind := .Return, operands := [1] } ]

/-- The name that a line of the override table gives a mode to: the first token
of a line that is neither blank nor a comment and has the form
`<name> <keyword>` (lines 2078-2086). -/
def init_qtable.lineName (line0 : String) : Option String :=
  let line := stripCR line0.data
  if regex_match_empty line then none
  else if regex_match_info line then none
  else if regex_match_map line then some (String.mk (extractToken line).1)
  else none

/-- A module on BM1684X in the global mode F16. -/
def f16Module : Module :=
  { state := .TOP_CALIBRATED, chip := .BM1684X, mode := .F16 }

/-- A graph with one AvgPool, named `pool`. -/
def avgPoolGraph : Graph :=
  [ { kind := .Input, name := "x", type := calF32 [1, 1, 4, 4] (-1) 1 },
    { kind := .AvgPool, name := "pool", operands := [0], type := calF32 [1, 1, 2, 2] (-1) 1 },
    { kind := .Return, operands := [1] } ]

/-- A Slice whose input is calibrated `[-1,1]` and whose output is calibrated
`[0,10]`. -/
def sliceRangeGraph : Graph :=
  [ { kind := .Input, name := "x", type := calF32 [1, 1, 4, 4] (-1) 1 },
    { kind := .Slice, name := "slice", operands := [0], type := calF32 [1, 1, 1, 2] 0 10 },
    { kind := .Return, operands := [1] } ]

/-- A Relu whose input is calibrated `[-1,1]` and whose output is calibrated
`[0,10]`; the input has no other consumer. -/
def reluRangeGraph : Graph :=
  [ { kind := .Input, name := "x", type := calF32 [1, 1, 4, 4] (-1) 1 },
    { kind := .Relu, name := "relu", operands := [0], type := calF32 [1, 1, 4, 4] 0 10 },
    { kind := .Return, operands := [1] } ]

/-- A Mul of a signed input `[-1,1]` and a non-negative input `[0,2]` whose
output is calibrated `[0,2]`: only operand 1 has the polarity of the output. -/
def mulSwapGraph : Graph :=
  [ { kind := .Input, name := "a", type := calF32 [1, 8] (-1) 1 },
    { kind := .Input, name := "b", type := calF32 [1, 8] 0 2 },
    { kind := .Mul, name := "mul", operands := [0, 1], type := calF32 [1, 8] 0 2 },
    { kind := .Return, operands := [2] } ]

/-- A grouped convolution with 64 input channels in two groups, so 32 input
channels per group, two output channels and a 1x1 kernel. -/
def groupConvWide : Conv2DOp :=
  { ic := 64, oc := 2, kh := 1, kw := 1, group := 2, filter_stype := .i8,
    filter_shape := [2, 32, 1, 1], filter_data := List.replicate 64 1 }

/-! ### TryInsertTileBinaryPattern (`TopToTpuPass.cpp`, lines 697-803) -/

/-- Embedding of `can_be_merged` (lines 701-712). -/
def can_be_merged (a1 a2 b1 b2 : Int) : Bool :=
  if a1 = b1 ∧ a2 = b2 then true
  else if (a1 = b1 ∧ a2 ≠ b2 ∧ a1 = 1) ∨ (a1 ≠ b1 ∧ a2 = b2 ∧ a2 = 1) then true
  else if a1 ≠ b1 ∧ a2 ≠ b2 ∧ (a1 = a2 ∨ b1 = b2) then true
  else false

/-- The `while` loop of `canMergeTo4D` (lines 718-726) from the state
`(i, shape_dim)`: the value of `shape_dim` when the loop is left.  `none` is a
read outside a shape, or the end of the fuel. -/
def canMergeTo4D.loop (ashape bshape : List Int) : Nat → Nat → Nat → Option Nat
  | 0, _, _ => none
  | fuel + 1, i, shape_dim =>
    if i + 1 < shape_dim then
      match ashape[i]?, ashape[i + 1]?, bshape[i]?, bshape[i + 1]? with
      | some a1, some a2, some b1, some b2 =>
        let merged := can_be_merged a1 a2 b1 b2
        let shape_dim1 := if merged then shape_dim - 1 else shape_dim
        let i1 := if merged then i else i + 1
        if shape_dim1 = 4 then some shape_dim1
        else canMergeTo4D.loop ashape bshape fuel i1 shape_dim1
      | _, _, _, _ => none
    else some shape_dim

/-- Embedding of `canMergeTo4D` (lines 714-729).  Every turn of the loop
lowers `shape_dim` or raises `i`, so `2 * shape_dim` turns are enough. -/
def canMergeTo4D (ashape bshape : List Int) (shape_dim : Nat) : Option Bool :=
  if shape_dim > 4 then
    (canMergeTo4D.loop ashape bshape (2 * shape_dim) 0 shape_dim).map fun d => decide (d ≤ 4)
  else some true

/-- Embedding of `needBroadcast` (lines 731-744): the shapes, aligned at their
last dimension and padded with 1, differ in some dimension. -/
def needBroadcast (shape1 shape2 : List Int) : Bool :=
  let dim1 := shape1.length
  let dim2 := shape2.length
  (List.range (max dim1 dim2)).any fun k =>
    let i := k + 1
    let size1 := if i ≤ dim1 then toInt32 (shape1.getD (dim1 - i) 0) else 1
    let size2 := if i ≤ dim2 then toInt32 (shape2.getD (dim2 - i) 0) else 1
    decide (size1 ≠ size2 ∧ (size1 ≠ 1 ∨ size2 ≠ 1))

/-- Embedding of `try_insert_tile` (lines 746-770): a `top.Tile` of operand
`idx` of `op` is created and takes the operand's place; `none` is an operand
that is not there or an axis outside the shape. -/
def try_insert_tile (g : Graph) (op idx axis : Nat) (tile : Int) : Option Graph :=
  match g[op]? with
  | none => none
  | some o =>
    match o.operands[idx]? with
    | none => none
    | some opd =>
      match g[opd]? with
      | none => none
      | some def_op =>
        let input_shape := def_op.type.shape
        if axis < input_shape.length then
          let name := def_op.name ++ (if def_op.kind ≠ .Return then "_" ++ o.name else "") ++ "_tile"
          let weight_tile := (List.replicate input_shape.length (1 : Int)).set axis tile
          let tileOp : Op :=
            { kind := .Tile, name := name, operands := [opd], tile := weight_tile,
              type := { shape := input_shape.set axis tile,
                        elem := .plain def_op.type.elem.getStorageType } }
          some ((g ++ [tileOp]).set op { o with operands := o.operands.set idx g.length })
        else none

/-- The body of the loop of lines 790-798 for the dimension `i`. -/
def TryInsertTileBinaryPattern.step (shape1 shape2 : List Int) (op : Nat) (g : Graph)
    (i : Nat) : Option Graph :=
  match shape1[i]?, shape2[i]? with
  | some s1, some s2 =>
    if s1 = s2 then some g
    else if s1 = 1 then try_insert_tile g op 0 i (toInt32 s2)
    else if s2 = 1 then try_insert_tile g op 1 i (toInt32 s1)
    else some g
  | _, _ => none

/-- Embedding of `TryInsertTileBinaryPattern<TyOp>::matchAndRewrite`
(lines 772-802). -/
def TryInsertTileBinaryPattern (g : Graph) (op : Nat) : RewriteResult :=
  match g[op]? with
  | none => .undefined
  | some o =>
    if o.kind = .Return then .failure g
    else
      match o.operands with
      | [opd1, opd2] =>
        let shape1 := (typeOf g opd1).shape
        let shape2 := (typeOf g opd2).shape
        let shape_dim := max shape1.length shape2.length
        if needBroadcast shape1 shape2 then
          match canMergeTo4D shape1 shape2 shape_dim with
          | none => .undefined
          | some true => .failure g
          | some false =>
            match (List.range (shape_dim - 4)).foldlM
                (TryInsertTileBinaryPattern.step shape1 shape2 op) g with
            | none => .undefined
            | some g1 => .success g1
        else .failure g
      | _ => .failure g

/-- The test `can_be_merged(a[i], a[i+1], b[i], b[i+1])` on two shapes. -/
def mergeableAt (a b : List Int) (i : Nat) : Bool :=
  can_be_merged (a.getD i 0) (a.getD (i + 1) 0) (b.getD i 0) (b.getD (i + 1) 0)

/-- An Add of two rank-5 inputs of shapes `[2,1,2,1,2]` and `[1,2,1,2,1]`. -/
def tileGraph : Graph :=
  [ { kind := .Input, name := "a", type := { shape := [2, 1, 2, 1, 2], elem := .plain .f32 } },
    { kind := .Input, name := "b", type := { shape := [1, 2, 1, 2, 1], elem := .plain .f32 } },
    { kind := .Add, name := "add", operands := [0, 1],
      type := { shape := [2, 2, 2, 2, 2], elem := .plain .f32 } },
    { kind := .Return, operands := [2] } ]

/-- The graph `TryInsertTileBinaryPattern` makes of `tileGraph`: operand 1 of
the Add is tiled along axis 0. -/
def tileGraphAfter : Graph :=
  [ { kind := .Input, name := "a", type := { shape := [2, 1, 2, 1, 2], elem := .plain .f32 } },
    { kind := .Input, name := "b", type := { shape := [1, 2, 1, 2, 1], elem := .plain .f32 } },
    { kind := .Add, name := "add", operands := [0, 4],
      type := { shape := [2, 2, 2, 2, 2], elem := .plain .f32 } },
    { kind := .Return, operands := [2] },
    { kind := .Tile, name := "b_add_tile", operands := [1], tile := [2, 1, 1, 1, 1],
      type := { shape := [2, 2, 1, 2, 1], elem := .plain .f32 } } ]

/-- A MatMul whose left operand is a `[0,2,1,3]` permute and whose right
operand is a graph input; dimension 2 of the two operand shapes differs (4 and
8). -/
def matmulLeftPermuteGraph : TpuGraph :=
  [ some { kind := .Input, type := { shape := [1, 4, 2, 8], elem := .plain .f16 } },
    some { kind := .Input, type := { shape := [1, 2, 8, 4], elem := .plain .f16 } },
    some { kind := .None },
    some { kind := .Permute, operands := [0, 2], order := [0, 2, 1, 3],
           type := { shape := [1, 2, 4, 8], elem := .plain .f16 } },
    some { kind := .MatMul, operands := [3, 1],
           type := { shape := [1, 2, 4, 4], elem := .plain .f16 } },
    some { kind := .Return, operands := [4] } ]

/-- The graph `MatMulHdimBatchPattern` makes of `matmulLeftPermuteGraph`: the
MatMul and its operands are as they were, its output shape has dimensions 1
and 2 swapped, and a permute follows it. -/
def matmulLeftPermuteAfter : TpuGraph :=
  [ some { kind := .Input, type := { shape := [1, 4, 2, 8], elem := .plain .f16 } },
    some { kind := .Input, type := { shape := [1, 2, 8, 4], elem := .plain .f16 } },
    some { kind := .None },
    some { kind := .Permute, operands := [0, 2], order := [0, 2, 1, 3],
           type := { shape := [1, 2, 4, 8], elem := .plain .f16 } },
    some { kind := .MatMul, operands := [3, 1],
           type := { shape := [1, 4, 2, 4], elem := .plain .f16 } },
    some { kind := .Return, operands := [6] },
    some { kind := .Permute, operands := [4, 2], order := [0, 2, 1, 3],
           type := { shape := [1, 2, 4, 4], elem := .plain .f16 } } ]

/-! ### `tpu::PermuteOp::canonicalize` (`Permute.cpp`, lines 61-98) -/

/-- The first `while` loop of `canonicalize` (lines 75-77) from `start`: the
value of `start` when the loop is left.  `none` is `order->at(start)` outside
the order, or the end of the fuel (`dim_size - start` turns are enough). -/
def PermuteOp.canonicalize.scanStart (order : List Int) (dim_size : Nat) : Nat → Nat → Option Nat
  | 0, start => if start < dim_size then none else some start
  | fuel + 1, start =>
    if start < dim_size then
      match order[start]? with
      | none => none
      | some o =>
        if (start : Int) = o then PermuteOp.canonicalize.scanStart order dim_size fuel (start + 1)
        else some start
    else some start

/-- The second `while` loop of `canonicalize` (lines 78-80) from `end`: the
value of `end` when the loop is left; `none` as for the first loop. -/
def PermuteOp.canonicalize.scanEnd (order : List Int) (start : Nat) : Nat → Int → Option Int
  | 0, e => if e > start then none else some e
  | fuel + 1, e =>
    if e > start then
      match order[e.toNat]? with
      | none => none
      | some o =>
        if e = o then PermuteOp.canonicalize.scanEnd order start fuel (e - 1)
        else some e
    else some e

/-- The `for` loop of `canonicalize` (lines 83-89) from `index` with the
product `sum`: the value of `do_reshape`.  `none` is a read outside the shape, a
product outside the range of `int64_t`, or the end of the fuel. -/
def PermuteOp.canonicalize.check (shape : List Int) : Nat → Nat → Int → Int → Option Bool
  | 0, index, e, _ => if (index : Int) ≤ e then none else some true
  | fuel + 1, index, e, sum =>
    if (index : Int) ≤ e then
      match shape[index]? with
      | none => none
      | some d =>
        let sum1 := sum * d
        if sum1 < -9223372036854775808 ∨ 9223372036854775807 < sum1 then none
        else if d ≠ 1 ∧ sum1 ≠ d then some false
        else PermuteOp.canonicalize.check shape fuel (index + 1) e sum1
    else some true

/-- Embedding of `tpu::PermuteOp::canonicalize` (lines 65-98):
`replaceOpWithNewOp<tpu::ReshapeOp>` creates the reshape with the permute's
result type and input, hands the permute's uses over to it and erases the
permute. -/
def PermuteOp.canonicalize (g : TpuGraph) (op : Nat) : PatternResult TpuGraph :=
  match g.op op with
  | none => .undefined
  | some o =>
    match o.operands[0]? with
    | none => .undefined
    | some input =>
      let shape := g.shape input
      let dim_size := shape.length
      match PermuteOp.canonicalize.scanStart o.order dim_size dim_size 0 with
      | none => .undefined
      | some start =>
        match PermuteOp.canonicalize.scanEnd o.order start dim_size ((dim_size : Int) - 1) with
        | none => .undefined
        | some e =>
          match PermuteOp.canonicalize.check shape dim_size start e 1 with
          | none => .undefined
          | some false => .failure g
          | some true =>
            let reshape := g.create { kind := .Reshape, operands := [input], type := o.type }
            .success ((reshape.1.replaceAllUsesWith op reshape.2).eraseOp op)

/-- The output shape of a permute, as `parseParam` computes it
(`Permute.cpp`, lines 30-32): `out_shape[i] = in_shape[order[i]]`. -/
def permuteOutShape (in_shape order : List Nat) : List Nat :=
  order.map fun o => in_shape.getD o 1

/-- The coordinates of the row-major position `p` in a tensor of shape
`shape`. -/
def unravel : List Nat → Nat → List Nat
  | [], _ => []
  | _ :: ds, p => p / ds.prod :: unravel ds (p % ds.prod)

/-- The row-major position in the input of the element that a permute by
`order` puts at the row-major position `p` of its output: the output
coordinate `i` is the input coordinate `order[i]`. -/
def permuteSource (in_shape order : List Nat) (p : Nat) : Nat :=
  let j := unravel (permuteOutShape in_shape order) p
  rowMajor in_shape ((List.range in_shape.length).map fun k => j.getD (order.indexOf k) 0)

/-- The row-major element sequence of the permuted tensor: the permute of the
tensor of shape `in_shape` whose row-major element sequence is `data`. -/
def permuteData {α : Type} (in_shape order : List Nat) (data : List α) : List α :=
  (List.range in_shape.prod).filterMap fun p => data[permuteSource in_shape order p]?

/-- Between the first and the last axis that the order moves, at most one
dimension has an extent other than 1: of two axes `m1 < m2` that lie between
two moved axes `a` and `b`, one has extent 1. -/
def AtMostOneBetweenMoved (dims ord : List Nat) : Prop :=
  ∀ a b m1 m2, ord.getD a 0 ≠ a → ord.getD b 0 ≠ b → a ≤ m1 → m1 < m2 → m2 ≤ b →
    b < dims.length → dims.getD m1 1 = 1 ∨ dims.getD m2 1 = 1

/-- A permute of a `[4,3,28,1]` tensor by `[0,1,3,2]` (the first example of the
comment at lines 62-64) with one consumer. -/
def permuteUnitGraph : TpuGraph :=
  [ some { kind := .Input, type := { shape := [4, 3, 28, 1], elem := .plain .f16 } },
    some { kind := .None },
    some { kind := .Permute, operands := [0, 1], order := [0, 1, 3, 2],
           type := { shape := [4, 3, 1, 28], elem := .plain .f16 } },
    some { kind := .Return, operands := [2] } ]

/-! ## Theorems -/

/-! ### Reading and writing types -/

theorem getElem?_setType (g : Graph) (v w : Nat) (t : TensorType) :
    (setType g v t)[w]? =
      if w = v then (g[v]?).map (fun o => { o with type := t }) else g[w]? := by
  unfold setType
  cases h : g[v]? with
  | none =>
    by_cases hw : w = v
    · subst hw; simp [h]
    · simp [hw]
  | some o =>
    have hlt : v < g.length := (List.getElem?_eq_some.mp h).1
    by_cases hw : w = v
    · subst hw; simp [List.getElem?_set_self hlt]
    · simp [hw, List.getElem?_set_ne (Ne.symm hw)]

theorem length_setType (g : Graph) (v : Nat) (t : TensorType) :
    (setType g v t).length = g.length := by
  unfold setType
  cases g[v]? <;> simp

theorem getElem?_setType_ne (g : Graph) {v w : Nat} (t : TensorType) (h : w ≠ v) :
    (setType g v t)[w]? = g[w]? := by
  simp [getElem?_setType, h]

theorem getElem?_setType_self (g : Graph) {v : Nat} {o : Op} (t : TensorType)
    (h : g[v]? = some o) : (setType g v t)[v]? = some { o with type := t } := by
  simp [getElem?_setType, h]

theorem typeOf_setType_ne (g : Graph) {v w : Nat} (t : TensorType) (h : w ≠ v) :
    typeOf (setType g v t) w = typeOf g w := by
  simp [typeOf, getElem?_setType_ne g t h]

theorem typeOf_setType_self (g : Graph) {v : Nat} {o : Op} (t : TensorType)
    (h : g[v]? = some o) : typeOf (setType g v t) v = t := by
  simp [typeOf, getElem?_setType_self g t h]

theorem mem_users {g : Graph} {v u : Nat} :
    u ∈ users g v ↔ ∃ o, g[u]? = some o ∧ v ∈ o.operands := by
  unfold users
  simp only [List.mem_flatMap, List.mem_range]
  constructor
  · rintro ⟨j, hj, hu⟩
    cases ho : g[j]? with
    | none => simp [ho] at hu
    | some o =>
      simp only [ho, List.mem_replicate] at hu
      obtain ⟨hc, rfl⟩ := hu
      exact ⟨o, ho, List.count_pos_iff.mp (Nat.pos_of_ne_zero hc)⟩
  · rintro ⟨o, ho, hv⟩
    refine ⟨u, (List.getElem?_eq_some.mp ho).1, ?_⟩
    simp only [ho, List.mem_replicate]
    exact ⟨Nat.pos_iff_ne_zero.mp (List.count_pos_iff.mpr hv), trivial⟩

theorem SSA.operand_lt {g : Graph} (h : SSA g) {n v : Nat} {o : Op}
    (hn : g[n]? = some o) (hv : v ∈ o.operands) : v < n :=
  h n (List.getElem?_eq_some.mp hn).1 o (by simpa using hn) v hv

theorem SSA.lt_of_mem_users {g : Graph} (h : SSA g) {v u : Nat} (hu : u ∈ users g v) : v < u := by
  obtain ⟨o, ho, hv⟩ := mem_users.mp hu
  exact h.operand_lt ho hv

theorem typeOf_congr {g g' : Graph} {v : Nat} (h : g'[v]? = g[v]?) : typeOf g' v = typeOf g v := by
  unfold typeOf
  rw [h]

theorem getCalibratedType_congr {g g' : Graph} {v : Nat} (h : g'[v]? = g[v]?) :
    getCalibratedType g' v = getCalibratedType g v := by
  unfold getCalibratedType
  rw [typeOf_congr h]

theorem rangeOf_congr {g g' : Graph} {v : Nat} (h : g'[v]? = g[v]?) :
    rangeOf g' v = rangeOf g v := by
  unfold rangeOf
  rw [getCalibratedType_congr h]

theorem getCalibratedType_of_getElem? {g : Graph} {v : Nat} {o : Op} (h : g[v]? = some o) :
    getCalibratedType g v = o.type.elem.getCalibrated := by
  unfold getCalibratedType typeOf
  rw [h]

theorem rangeOf_of_getElem? {g : Graph} {v : Nat} {o : Op} {q : CalibratedType}
    (h : g[v]? = some o) (hq : o.type.elem = .calibrated q) :
    rangeOf g v = some (q.min, q.max) := by
  unfold rangeOf
  rw [getCalibratedType_of_getElem? h, hq]
  rfl

/-! ### What `Forward` and `Backward` touch -/

theorem ForwardOp_getElem?_ne (g : Graph) {u w : Nat} (h : w ≠ u) :
    (ForwardOp g u)[w]? = g[w]? := by
  unfold ForwardOp
  split
  · rfl
  · split
    · rfl
    · exact getElem?_setType_ne g _ h

theorem forwardStep_getElem?_ne (g : Graph) {u w : Nat} (h : w ≠ u) :
    (forwardStep g u)[w]? = g[w]? := by
  unfold forwardStep
  cases g[u]? with
  | none => rfl
  | some o =>
    by_cases hk : o.kind = .Reshape ∨ o.kind = .Permute
    · simp only [hk, if_true]; exact ForwardOp_getElem?_ne g h
    · simp only [hk, if_false]

theorem forwardStep_getElem?_kind (g : Graph) (u : Nat) {w : Nat} {o : Op}
    (hw : g[w]? = some o) (hk : ¬ (o.kind = .Reshape ∨ o.kind = .Permute)) :
    (forwardStep g u)[w]? = some o := by
  by_cases h : w = u
  · subst h
    unfold forwardStep
    simp only [hw, hk, if_false]
  · rw [forwardStep_getElem?_ne g h, hw]

theorem foldl_forwardStep_ne (us : List Nat) (g : Graph) {w : Nat} (h : ∀ u ∈ us, u ≠ w) :
    (us.foldl forwardStep g)[w]? = g[w]? := by
  induction us generalizing g with
  | nil => rfl
  | cons u us ih =>
    rw [List.foldl_cons, ih _ (fun x hx => h x (List.mem_cons_of_mem _ hx))]
    exact forwardStep_getElem?_ne g (Ne.symm (h u (List.mem_cons_self _ _)))

theorem foldl_forwardStep_kind (us : List Nat) (g : Graph) {w : Nat} {o : Op}
    (hw : g[w]? = some o) (hk : ¬ (o.kind = .Reshape ∨ o.kind = .Permute)) :
    (us.foldl forwardStep g)[w]? = some o := by
  induction us generalizing g with
  | nil => exact hw
  | cons u _ ih =>
    rw [List.foldl_cons]
    exact ih _ (forwardStep_getElem?_kind g u hw hk)

/-- The call `Forward(out)` leaves every operation that does not use `out` as it is. -/
theorem Forward_getElem?_of_not_user (g : Graph) {out w : Nat} (h : w ∉ users g out) :
    (Forward g out)[w]? = g[w]? :=
  foldl_forwardStep_ne _ g (fun _ hu huw => h (huw ▸ hu))

/-- The call `Forward(out)` leaves every operation that is neither a Reshape nor a Permute
as it is. -/
theorem Forward_getElem?_of_kind (g : Graph) (out : Nat) {w : Nat} {o : Op}
    (hw : g[w]? = some o) (hk : ¬ (o.kind = .Reshape ∨ o.kind = .Permute)) :
    (Forward g out)[w]? = some o :=
  foldl_forwardStep_kind _ g hw hk

theorem users_setType (g : Graph) (v : Nat) (t : TensorType) (x : Nat) :
    users (setType g v t) x = users g x := by
  unfold users
  rw [length_setType]
  congr 1
  funext j
  rw [getElem?_setType]
  by_cases hj : j = v
  · subst hj
    cases g[j]? <;> simp
  · simp [hj]

/-- After `out.setType(t); Forward(out)` an operation other than `out` that does
not use `out` is as before. -/
theorem Forward_setType_getElem?_of_not_user (g : Graph) {out w : Nat} (t : TensorType)
    (hne : w ≠ out) (h : w ∉ users g out) :
    (Forward (setType g out t) out)[w]? = g[w]? := by
  rw [Forward_getElem?_of_not_user _ (by rwa [users_setType]), getElem?_setType_ne g t hne]

/-- After `out.setType(t); Forward(out)` the operation `out` itself carries type
`t` when it is neither a Reshape nor a Permute. -/
theorem Forward_setType_getElem?_self (g : Graph) {out : Nat} {o : Op} (t : TensorType)
    (ho : g[out]? = some o) (hk : ¬ (o.kind = .Reshape ∨ o.kind = .Permute)) :
    (Forward (setType g out t) out)[out]? = some { o with type := t } :=
  Forward_getElem?_of_kind _ out (getElem?_setType_self g t ho) hk

/-! ### The range invariant under the primitive edits -/

theorem RangeInvariant.typeOf {g : Graph} (h : RangeInvariant g) (v : Nat) :
    (typeOf g v).elem.RangeOk := by
  unfold TpuMlir.typeOf
  cases ho : g[v]? with
  | none => simp [noneType, ElemType.RangeOk]
  | some o => exact (h o (List.mem_iff_getElem?.mpr ⟨v, ho⟩)).1

theorem RangeInvariant.getElem? {g : Graph} (h : RangeInvariant g) {v : Nat} {o : Op}
    (ho : g[v]? = some o) : o.type.elem.RangeOk :=
  (h o (List.mem_iff_getElem?.mpr ⟨v, ho⟩)).1

theorem RangeInvariant.getCalibratedType {g : Graph} (h : RangeInvariant g) {v : Nat}
    {q : CalibratedType} (hq : getCalibratedType g v = some q) : q.min ≤ q.max := by
  have := h.typeOf v
  unfold TpuMlir.getCalibratedType at hq
  cases he : (TpuMlir.typeOf g v).elem with
  | calibrated q' =>
    rw [he] at hq this
    have : q' = q := by simpa [ElemType.getCalibrated] using hq
    subst this
    assumption
  | plain k => rw [he] at hq; cases hq
  | uniform k s z => rw [he] at hq; cases hq

theorem RangeInvariant.of_getCalibrated {g : Graph} (h : RangeInvariant g) {v : Nat} {o : Op}
    {q : CalibratedType} (ho : g[v]? = some o) (hq : o.type.elem.getCalibrated = some q) :
    q.min ≤ q.max :=
  h.getCalibratedType ((getCalibratedType_of_getElem? ho).trans hq)

theorem RangeInvariant.set {g : Graph} (h : RangeInvariant g) (v : Nat) (o' : Op)
    (ht : o'.type.elem.RangeOk) (hv : o'.values.elem.RangeOk) : RangeInvariant (g.set v o') := by
  intro x hx
  rcases List.mem_or_eq_of_mem_set hx with hmem | rfl
  · exact h x hmem
  · exact ⟨ht, hv⟩

theorem RangeInvariant.setType {g : Graph} (h : RangeInvariant g) (v : Nat) (t : TensorType)
    (ht : t.elem.RangeOk) : RangeInvariant (setType g v t) := by
  unfold TpuMlir.setType
  cases ho : g[v]? with
  | none => exact h
  | some o => exact h.set v _ ht (h o (List.mem_iff_getElem?.mpr ⟨v, ho⟩)).2

theorem RangeInvariant.ForwardOp {g : Graph} (h : RangeInvariant g) (u : Nat) :
    RangeInvariant (ForwardOp g u) := by
  unfold TpuMlir.ForwardOp
  split
  · exact h
  · split
    · exact h
    · exact h.setType u _ (h.typeOf _)

theorem RangeInvariant.forwardStep {g : Graph} (h : RangeInvariant g) (u : Nat) :
    RangeInvariant (forwardStep g u) := by
  unfold TpuMlir.forwardStep
  cases g[u]? with
  | none => exact h
  | some o =>
    by_cases hk : o.kind = .Reshape ∨ o.kind = .Permute
    · simp only [hk, if_true]; exact h.ForwardOp u
    · simp only [hk, if_false]; exact h

theorem RangeInvariant.Forward {g : Graph} (h : RangeInvariant g) (out : Nat) :
    RangeInvariant (Forward g out) := by
  unfold TpuMlir.Forward
  generalize users g out = us
  induction us generalizing g with
  | nil => exact h
  | cons u us ih => exact ih (h.forwardStep u)

theorem RangeInvariant.Backward {g : Graph} (h : RangeInvariant g) (v : Nat) :
    RangeInvariant (Backward g v) := by
  unfold TpuMlir.Backward
  cases ho : g[v]? with
  | none => exact h
  | some o =>
    by_cases hk : o.kind = .Reshape ∨ o.kind = .Permute ∨ o.kind = .Depth2Space
    · simp only [hk, if_true]
      unfold BackwardOp
      rw [ho]
      dsimp only
      split
      · exact h
      · exact h.setType _ _ (h.getElem? ho)
    · simp only [hk, if_false]; exact h

theorem RangeInvariant.pushToInputs {g : Graph} (h : RangeInvariant g) (q : CalibratedType)
    (hq : q.min ≤ q.max) (inputs : List Nat) : RangeInvariant (pushToInputs g q inputs) := by
  unfold TpuMlir.pushToInputs
  induction inputs generalizing g with
  | nil => exact h
  | cons i rest ih =>
    rw [List.foldl_cons]
    refine ih ?_
    unfold pushStep retypeAt
    exact (h.setType i { shape := (TpuMlir.typeOf g i).shape, elem := .calibrated q } hq).Backward i

/-! ### KeepMulSignPattern -/

theorem getCalibrated_eq_some {e : ElemType} {q : CalibratedType} :
    e.getCalibrated = some q ↔ e = .calibrated q := by
  cases e <;> simp [ElemType.getCalibrated]

theorem getCalibrated_eq_none {e : ElemType} :
    e.getCalibrated = none ↔ e.isCalibrated = false := by
  cases e <;> simp [ElemType.getCalibrated, ElemType.isCalibrated]

theorem mulOperandSign_unsigned_iff (g : Graph) (v : Nat) :
    mulOperandSign g v = .signed false ↔ classifiedNonNegative g v := by
  unfold mulOperandSign classifiedNonNegative
  cases hp : g[v]? with
  | none => simp
  | some p =>
    by_cases hk : p.kind = .Weight
    · simp only [hk, if_true, Option.some.injEq, exists_eq_left', true_and, ne_eq,
        not_true_eq_false, false_and, or_false]
      split
      · rename_i w hw
        simp [hw]
      · rename_i hne
        constructor
        · intro h; cases h
        · rintro ⟨w, hw, _⟩; exact absurd hw (hne w)
    · simp only [hk, if_false, Option.some.injEq, exists_eq_left', false_and, ne_eq,
        not_false_eq_true, true_and, false_or]
      cases he : p.type.elem.getCalibrated with
      | none =>
        have := getCalibrated_eq_none.mp he
        constructor
        · intro h; cases h
        · rintro ⟨q, hq, _⟩; rw [hq] at this; cases this
      | some q =>
        have hq := getCalibrated_eq_some.mp he
        simp [hq]

theorem mulOperandSign_defined {g : Graph} {v : Nat} {p : Op} (hp : g[v]? = some p)
    (hc : p.kind ≠ .Weight → p.type.elem.isCalibrated = true) :
    mulOperandSign g v ≠ .undefined := by
  unfold mulOperandSign
  rw [hp]
  by_cases hk : p.kind = .Weight
  · simp only [hk, if_true]
    split <;> simp
  · simp only [hk, if_false]
    cases he : p.type.elem.getCalibrated with
    | none =>
      have := getCalibrated_eq_none.mp he
      rw [hc hk] at this; cases this
    | some q => simp

theorem mulDispatch_fatal_iff (g : Graph) (op : Nat) (o : Op) (q : CalibratedType) (s0 s1 : Bool) :
    mulDispatch g op o q s0 s1 = .fatal ↔ s0 = false ∧ s1 = false ∧ q.min < 0 := by
  unfold mulDispatch setOutRange
  by_cases hq : q.min < 0 <;> cases s0 <;> cases s1 <;> simp [hq]

theorem mulDispatch_returns (g : Graph) (op : Nat) (o : Op) (q : CalibratedType) (s0 s1 : Bool)
    (h : mulDispatch g op o q s0 s1 ≠ .fatal) :
    ∃ g', mulDispatch g op o q s0 s1 = .success g' ∨ mulDispatch g op o q s0 s1 = .failure g' := by
  unfold mulDispatch setOutRange at *
  by_cases hq : q.min < 0 <;> cases s0 <;> cases s1 <;> simp [hq] at h ⊢

/-- C7: on a multiply whose operands are weights or calibrated values,
`KeepMulSignPattern` stops with the fatal error exactly when there are two operands, the
calibrated output has a negative minimum and both operands are classified non-negative;
in every other case it returns success or failure. -/
theorem KeepMulSignPattern_fatal_iff (g : Graph) (n : Nat) (o : Op) (hn : g[n]? = some o)
    (hdef : operandsClassifiable g o) :
    (KeepMulSignPattern g n = .fatal ↔
      ∃ a b q, o.operands = [a, b] ∧ o.type.elem = .calibrated q ∧ q.min < 0 ∧
        classifiedNonNegative g a ∧ classifiedNonNegative g b) ∧
    (KeepMulSignPattern g n ≠ .fatal →
      ∃ g', KeepMulSignPattern g n = .success g' ∨ KeepMulSignPattern g n = .failure g') := by
  unfold KeepMulSignPattern
  rw [hn]
  dsimp only
  split
  · rename_i a b hab
    have ha : a ∈ o.operands := by rw [hab]; simp
    have hb : b ∈ o.operands := by rw [hab]; simp
    obtain ⟨pa, hpa, hca⟩ := hdef a ha
    obtain ⟨pb, hpb, hcb⟩ := hdef b hb
    have hda := mulOperandSign_defined hpa hca
    have hdb := mulOperandSign_defined hpb hcb
    cases he : o.type.elem.getCalibrated with
    | none =>
      have hnc := getCalibrated_eq_none.mp he
      refine ⟨⟨(fun h => by cases h), ?_⟩, fun _ => ⟨g, Or.inr rfl⟩⟩
      rintro ⟨a', b', q, _, hq, _⟩
      rw [hq] at hnc; cases hnc
    | some out_qtype =>
      have hq := getCalibrated_eq_some.mp he
      dsimp only
      cases h0 : mulOperandSign g a with
      | undefined => exact absurd h0 hda
      | decline =>
        refine ⟨⟨(fun h => by cases h), ?_⟩, fun _ => ⟨g, Or.inr rfl⟩⟩
        rintro ⟨a', b', q, hops, _, _, hna, _⟩
        have : a' = a := by rw [hab] at hops; simp at hops; exact hops.1.symm
        subst this
        rw [(mulOperandSign_unsigned_iff g a').mpr hna] at h0; cases h0
      | signed s0 =>
        dsimp only
        cases h1 : mulOperandSign g b with
        | undefined => exact absurd h1 hdb
        | decline =>
          refine ⟨⟨(fun h => by cases h), ?_⟩, fun _ => ⟨g, Or.inr rfl⟩⟩
          rintro ⟨a', b', q, hops, _, _, _, hnb⟩
          have : b' = b := by rw [hab] at hops; simp at hops; exact hops.2.symm
          subst this
          rw [(mulOperandSign_unsigned_iff g b').mpr hnb] at h1; cases h1
        | signed s1 =>
          dsimp only
          refine ⟨?_, mulDispatch_returns g n o out_qtype s0 s1⟩
          rw [mulDispatch_fatal_iff]
          constructor
          · rintro ⟨rfl, rfl, hlt⟩
            exact ⟨a, b, out_qtype, hab, hq, hlt,
              (mulOperandSign_unsigned_iff g a).mp h0, (mulOperandSign_unsigned_iff g b).mp h1⟩
          · rintro ⟨a', b', q, hops, hq', hlt, hna, hnb⟩
            rw [hab] at hops
            simp at hops
            obtain ⟨rfl, rfl⟩ := hops
            rw [hq] at hq'
            have hqq : out_qtype = q := by simpa using hq'
            subst hqq
            rw [(mulOperandSign_unsigned_iff g a).mpr hna] at h0
            rw [(mulOperandSign_unsigned_iff g b).mpr hnb] at h1
            simp at h0 h1
            exact ⟨h0, h1, hlt⟩
  · rename_i hne
    refine ⟨⟨(fun h => by cases h), ?_⟩, fun _ => ⟨g, Or.inr rfl⟩⟩
    rintro ⟨a, b, q, hops, _⟩
    exact (hne a b hops).elim

/-! ### BackwardMutiInSingleOut on a Concat of mixed polarity -/

theorem polarityMismatch_of_mem {g : Graph} {un_signed : Bool} {rest : List Nat} {v : Nat}
    {q : CalibratedType} (hv : v ∈ rest) (hq : getCalibratedType g v = some q)
    (hne : un_signed ≠ decide (q.min ≥ 0)) : polarityMismatch g un_signed rest = true := by
  unfold polarityMismatch
  rw [List.any_eq_true]
  exact ⟨v, hv, by simp [hq, hne]⟩

/-- C8: a Concat whose first input is calibrated and has a later calibrated input of the
other sign polarity makes `BackwardMutiInSingleOut` report failure and leave the graph as
it is. -/
theorem BackwardMutiInSingleOut_concat_mismatch (g : Graph) (n : Nat) (o : Op) (in_0 : Nat)
    (rest : List Nat) (q0 : CalibratedType) (hn : g[n]? = some o) (hk : o.kind = .Concat)
    (hops : o.operands = in_0 :: rest) (h0 : getCalibratedType g in_0 = some q0)
    (hmis : ∃ v ∈ rest, ∃ q, getCalibratedType g v = some q ∧
      decide (q0.min ≥ 0) ≠ decide (q.min ≥ 0)) :
    BackwardMutiInSingleOut g n = .failure g := by
  obtain ⟨v, hv, q, hq, hne⟩ := hmis
  have hpm := polarityMismatch_of_mem hv hq hne
  unfold BackwardMutiInSingleOut
  rw [hn]
  dsimp only
  split
  · rfl
  · split
    · rfl
    · rw [hops]
      dsimp only
      rw [h0]
      dsimp only
      rw [if_pos ⟨hpm, hk⟩]

/-! ### CompareCalibartion -/

theorem getElem?_setType_operands (g : Graph) (v : Nat) (t : TensorType) {w : Nat} {o : Op}
    (h : g[w]? = some o) :
    ∃ o', (setType g v t)[w]? = some o' ∧ o'.operands = o.operands ∧ o'.kind = o.kind := by
  rw [getElem?_setType]
  by_cases hw : w = v
  · subst hw
    simp [h]
  · simp [hw, h]

theorem getCalibratedType_setType_self (g : Graph) {v : Nat} (t : TensorType)
    (h : v < g.length) : getCalibratedType (setType g v t) v = t.elem.getCalibrated := by
  obtain ⟨o, ho⟩ : ∃ o, g[v]? = some o := ⟨g[v], List.getElem?_eq_getElem h⟩
  unfold getCalibratedType
  rw [typeOf_setType_self g t ho]

theorem getCalibratedType_setType_ne (g : Graph) {v w : Nat} (t : TensorType) (h : w ≠ v) :
    getCalibratedType (setType g v t) w = getCalibratedType g w := by
  unfold getCalibratedType
  rw [typeOf_setType_ne g t h]

theorem lt_length_of_getCalibratedType {g : Graph} {v : Nat} {q : CalibratedType}
    (h : getCalibratedType g v = some q) : v < g.length := by
  unfold getCalibratedType typeOf at h
  by_contra hlt
  rw [List.getElem?_eq_none (Nat.le_of_not_lt hlt)] at h
  simp [noneType, ElemType.getCalibrated] at h

/-- C9: on a Compare whose operands are calibrated with ranges `[a,b]` and `[c,d]`,
`CompareCalibartion` declines iff `a = c` and `b = d`; otherwise it succeeds, both operands
get the range `[min a c, max b d]`, which contains both original ranges, and applying the
pattern again declines. -/
theorem CompareCalibartion_union (g : Graph) (n : Nat) (o : Op) (l r : Nat)
    (ql qr : CalibratedType) (hn : g[n]? = some o) (hl : o.operands[0]? = some l)
    (hr : o.operands[1]? = some r) (hql : getCalibratedType g l = some ql)
    (hqr : getCalibratedType g r = some qr) :
    (CompareCalibartion g n = .failure g ↔ ql.min = qr.min ∧ ql.max = qr.max) ∧
    (¬ (ql.min = qr.min ∧ ql.max = qr.max) →
      ∃ g', CompareCalibartion g n = .success g' ∧
        rangeOf g' l = some (min ql.min qr.min, max ql.max qr.max) ∧
        rangeOf g' r = some (min ql.min qr.min, max ql.max qr.max) ∧
        (min ql.min qr.min ≤ ql.min ∧ ql.max ≤ max ql.max qr.max) ∧
        (min ql.min qr.min ≤ qr.min ∧ qr.max ≤ max ql.max qr.max) ∧
        CompareCalibartion g' n = .failure g') := by
  have hstep : CompareCalibartion g n =
      if ql.max = qr.max ∧ ql.min = qr.min then .failure g
      else .success (setType (setType g l
        { shape := (typeOf g l).shape
          elem := .calibrated
            { expressed := (typeOf g l).elem.getStorageType
              min := min ql.min qr.min, max := max ql.max qr.max } }) r
        { shape := (typeOf g r).shape
          elem := .calibrated
            { expressed := (typeOf g l).elem.getStorageType
              min := min ql.min qr.min, max := max ql.max qr.max } }) := by
    unfold CompareCalibartion
    rw [hn]
    dsimp only
    rw [hl, hr]
    dsimp only
    rw [hql, hqr]
  constructor
  · rw [hstep]
    by_cases h : ql.max = qr.max ∧ ql.min = qr.min
    · simp [h]
    · rw [if_neg h]
      constructor
      · intro h'; cases h'
      · intro h'; exact absurd ⟨h'.2, h'.1⟩ h
  · intro hne
    have h : ¬ (ql.max = qr.max ∧ ql.min = qr.min) := fun h' => hne ⟨h'.2, h'.1⟩
    have hlr : l ≠ r := by
      rintro rfl
      rw [hql] at hqr
      have : ql = qr := by simpa using hqr
      exact hne (by rw [this]; exact ⟨rfl, rfl⟩)
    have hllt := lt_length_of_getCalibratedType hql
    have hrlt := lt_length_of_getCalibratedType hqr
    rw [hstep, if_neg h]
    refine ⟨_, rfl, ?_, ?_, ⟨min_le_left _ _, le_max_left _ _⟩,
      ⟨min_le_right _ _, le_max_right _ _⟩, ?_⟩
    · unfold rangeOf
      rw [getCalibratedType_setType_ne _ _ hlr, getCalibratedType_setType_self _ _ hllt]
      rfl
    · unfold rangeOf
      rw [getCalibratedType_setType_self _ _ (by rw [length_setType]; exact hrlt)]
      rfl
    · obtain ⟨o1, ho1, hops1, _⟩ := getElem?_setType_operands g l
        { shape := (typeOf g l).shape
          elem := .calibrated
            { expressed := (typeOf g l).elem.getStorageType
              min := min ql.min qr.min, max := max ql.max qr.max } } hn
      obtain ⟨o2, ho2, hops2, _⟩ := getElem?_setType_operands _ r
        { shape := (typeOf g r).shape
          elem := .calibrated
            { expressed := (typeOf g l).elem.getStorageType
              min := min ql.min qr.min, max := max ql.max qr.max } } ho1
      unfold CompareCalibartion
      rw [ho2]
      dsimp only
      rw [hops2, hops1, hl, hr]
      dsimp only
      rw [getCalibratedType_setType_ne _ _ hlr, getCalibratedType_setType_self _ _ hllt,
        getCalibratedType_setType_self _ _ (by rw [length_setType]; exact hrlt)]
      simp [ElemType.getCalibrated]

/-! ### Rounding keeps the sign -/

theorem pow2_pos (e : Int) : 0 < pow2 e := by
  unfold pow2
  split
  · push_cast
    positivity
  · have h : (0 : ℚ) < ((2 ^ (-e).toNat : Nat) : ℚ) := by
      push_cast
      positivity
    positivity

theorem roundHalfEven_nonpos {q : ℚ} (hq : q ≤ 0) : roundHalfEven q ≤ 0 := by
  have hf : ⌊q⌋ ≤ 0 := Int.floor_nonpos hq
  have hf1 : (1 / 2 : ℚ) ≤ q - ⌊q⌋ → ⌊q⌋ + 1 ≤ 0 := by
    intro h
    by_contra hcon
    have h0 : ⌊q⌋ = 0 := by omega
    rw [h0] at h
    norm_num at h
    linarith
  unfold roundHalfEven
  dsimp only
  split
  · exact hf
  · rename_i h1
    split
    · exact hf1 (by linarith)
    · split
      · exact hf
      · exact hf1 (by linarith)

theorem roundBinary_nonpos (prec : Nat) (emin : Int) {x : ℚ} (hx : x ≤ 0) :
    roundBinary prec emin x ≤ 0 := by
  unfold roundBinary
  split
  · exact le_refl 0
  · dsimp only
    have hu := pow2_pos (max (binade x) emin - ((prec : Int) - 1))
    have hq : x / pow2 (max (binade x) emin - ((prec : Int) - 1)) ≤ 0 :=
      div_nonpos_of_nonpos_of_nonneg hx (le_of_lt hu)
    have hr : ((roundHalfEven (x / pow2 (max (binade x) emin - ((prec : Int) - 1))) : Int) : ℚ)
        ≤ 0 := by
      exact_mod_cast roundHalfEven_nonpos hq
    exact mul_nonpos_of_nonpos_of_nonneg hr (le_of_lt hu)

theorem toFloat_nonpos {x m : ℚ} (hx : x ≤ 0) (h : toFloat x = some m) : m ≤ 0 := by
  unfold toFloat at h
  dsimp only at h
  split at h
  · cases h
    exact roundBinary_nonpos 24 (-126) hx
  · cases h

theorem toDouble_nonpos {x m : ℚ} (hx : x ≤ 0) (h : toDouble x = some m) : m ≤ 0 := by
  unfold toDouble at h
  dsimp only at h
  split at h
  · cases h
    exact roundBinary_nonpos 53 (-1022) hx
  · cases h

theorem floatNegTenth_nonpos {d m : ℚ} (hd : 0 ≤ d) (h : floatNegTenth d = some m) : m ≤ 0 := by
  unfold floatNegTenth at h
  cases hx : toDouble (-d * tenth) with
  | none => rw [hx] at h; cases h
  | some x =>
    rw [hx] at h
    have ht : (0 : ℚ) ≤ tenth := by unfold tenth; norm_num
    have hx0 : x ≤ 0 := toDouble_nonpos (by nlinarith) hx
    exact toFloat_nonpos hx0 h

/-! ### The pooling and subtract-by-constant sign patterns -/

/-- The input of an operation is not among the users of the operation's result
in a body in program order. -/
theorem SSA.input_not_user {g : Graph} (h : SSA g) {n i : Nat} {o : Op}
    (hn : g[n]? = some o) (hi : o.operands[0]? = some i) : i ≠ n ∧ i ∉ users g n := by
  have hlt : i < n := h.operand_lt hn (List.mem_iff_getElem?.mpr ⟨0, hi⟩)
  exact ⟨Nat.ne_of_lt hlt, fun hu => absurd (h.lt_of_mem_users hu) (by omega)⟩

/-- What `setOutRange` leaves behind at the operation itself and at a value that
is neither the operation nor one of its users. -/
theorem setOutRange_spec (g : Graph) {n : Nat} {o : Op} (lo hi : ℚ)
    (hn : g[n]? = some o) (hk : ¬ (o.kind = .Reshape ∨ o.kind = .Permute)) :
    ∃ g', setOutRange g n o lo hi = .success g' ∧
      g'[n]? = some { o with type :=
        { shape := o.type.shape
          elem := .calibrated { expressed := o.type.elem.getStorageType, min := lo, max := hi } } } ∧
      ∀ w, w ≠ n → w ∉ users g n → g'[w]? = g[w]? :=
  ⟨_, rfl, Forward_setType_getElem?_self g _ hn hk,
    fun _ hne hu => Forward_setType_getElem?_of_not_user g _ hne hu⟩

/-- C2 (amended): on an AvgPool or MaxPool with calibrated input `[a,b]` and
output `[c,d]`, `KeepSignPattern` declines without change when the polarities
agree.  When they differ and `a ≥ 0` it keeps `d`, sets the output minimum to
`0` and leaves the input as it is; input and output are then both
non-negative.  When they differ and `a < 0` the new minimum is the `float` that
the `double` product `-d * 0.1` is stored in (`floatNegTenth d`): when that
product leaves the range of `float` the pattern has no defined result;
otherwise it keeps `d`, sets the output minimum to that `float` `m`, which is
not positive when `d ≥ 0`, leaves the input as it is, and input and output have
the same polarity afterwards exactly when `m` is negative. -/
theorem KeepSignPattern_polarity (g : Graph) (n : Nat) (o : Op) (i : Nat)
    (qin qout : CalibratedType) (hssa : SSA g) (hn : g[n]? = some o)
    (hk : o.kind = .AvgPool ∨ o.kind = .MaxPool) (hi : o.operands[0]? = some i)
    (hin : getCalibratedType g i = some qin) (hout : o.type.elem = .calibrated qout) :
    ((qin.min ≥ 0 ↔ qout.min ≥ 0) → KeepSignPattern g n = .failure g) ∧
    (qin.min ≥ 0 → qout.min < 0 →
      ∃ g', KeepSignPattern g n = .success g' ∧
        rangeOf g' n = some (0, qout.max) ∧ rangeOf g' i = some (qin.min, qin.max)) ∧
    (qin.min < 0 → qout.min ≥ 0 →
      (floatNegTenth qout.max = none → KeepSignPattern g n = .undefined) ∧
      ∀ m, floatNegTenth qout.max = some m →
        ∃ g', KeepSignPattern g n = .success g' ∧
          rangeOf g' n = some (m, qout.max) ∧ rangeOf g' i = some (qin.min, qin.max) ∧
          (0 ≤ qout.max → m ≤ 0) ∧
          ((qin.min ≥ 0 ↔ m ≥ 0) ↔ m < 0)) := by
  have hkind : ¬ (o.kind = .Reshape ∨ o.kind = .Permute) := by
    rcases hk with hk | hk <;> simp [hk]
  obtain ⟨hine, hiu⟩ := hssa.input_not_user hn hi
  have hstep : KeepSignPattern g n =
      if qin.min < 0 then
        if qout.min < 0 then .failure g
        else
          match floatNegTenth qout.max with
          | none => .undefined
          | some min => setOutRange g n o min qout.max
      else
        if qout.min ≥ 0 then .failure g
        else setOutRange g n o 0 qout.max := by
    unfold KeepSignPattern
    rw [hn]
    dsimp only
    rw [hi]
    dsimp only
    rw [hin, hout]
    rfl
  have hri : rangeOf g i = some (qin.min, qin.max) := by
    unfold rangeOf; rw [hin]
  rw [hstep]
  refine ⟨?_, ?_, ?_⟩
  · intro hagree
    by_cases ha : qin.min < 0
    · have hc : qout.min < 0 := by
        by_contra hc
        exact absurd (hagree.mpr (not_lt.mp hc)) (not_le.mpr ha)
      simp [ha, hc]
    · have hc : qout.min ≥ 0 := hagree.mp (not_lt.mp ha)
      simp [ha, hc]
  · intro ha hc
    obtain ⟨g', hg', hself, hframe⟩ := setOutRange_spec g 0 qout.max hn hkind
    rw [if_neg (not_lt.mpr ha), if_neg (not_le.mpr hc)]
    exact ⟨g', hg', by rw [rangeOf_of_getElem? hself rfl],
      by rw [rangeOf_congr (hframe i hine hiu), hri]⟩
  · intro ha hc
    rw [if_pos ha, if_neg (not_lt.mpr hc)]
    refine ⟨fun hnone => by rw [hnone], ?_⟩
    intro m hm
    rw [hm]
    dsimp only
    obtain ⟨g', hg', hself, hframe⟩ := setOutRange_spec g m qout.max hn hkind
    refine ⟨g', hg', by rw [rangeOf_of_getElem? hself rfl],
      by rw [rangeOf_congr (hframe i hine hiu), hri],
      fun hd => floatNegTenth_nonpos hd hm, ?_⟩
    constructor
    · intro h
      by_contra hcon
      exact absurd (h.mpr (not_lt.mp hcon)) (not_le.mpr ha)
    · intro hlt
      exact ⟨fun h => absurd h (not_le.mpr ha), fun h => absurd h (not_le.mpr hlt)⟩

theorem ssa_poolGraph : SSA poolGraph := by
  intro n hn o ho v hv
  have hn' : n < 3 := hn
  interval_cases n <;> simp [poolGraph] at ho <;> subst ho <;> simp at hv <;> omega

/-- Witness of C2: on `poolGraph` (input `[-1,1]`, output `[0,10]`) the polarities differ;
the `float` of `-10 * 0.1` is `-1`, and the pattern leaves input `[-1,1]` and output
`[-1,10]`, both signed. -/
theorem KeepSignPattern_polarity_witness :
    ∃ g', KeepSignPattern poolGraph 1 = .success g' ∧
      rangeOf g' 1 = some (-1, 10) ∧ rangeOf g' 0 = some (-1, 1) := by
  obtain ⟨g', h1, h2, h3, _⟩ :=
    ((KeepSignPattern_polarity poolGraph 1 _ 0 ⟨.f32, -1, 1⟩ ⟨.f32, 0, 10⟩ ssa_poolGraph rfl
      (Or.inl rfl) rfl rfl rfl).2.2 (by norm_num) (by norm_num)).2 (-1) (by decide!)
  exact ⟨g', h1, h2, h3⟩

/-- C2 (counterexample): with input `[-1,1]` and output `[0,3]` the new minimum
is the `float` nearest to `-0.3`, which is `-10066330/2^25` and not `-0.1*3`;
with the output `[0, 2^-160]` the product rounds to zero, so the output stays
`[0, 2^-160]` and non-negative while the input is signed; and on
`poolZeroGraph` (output `[0,0]`) the output is `[0,0]` again. -/
theorem KeepSignPattern_rounding_counterexample :
    (KeepSignPattern (poolMaxGraph 3) 1 =
        .success [ { kind := .Input, name := "x", type := calF32 [1, 1, 4, 4] (-1) 1 },
          { kind := .AvgPool, name := "pool", operands := [0],
            type := calF32 [1, 1, 2, 2] (-(10066330 / 33554432)) 3 },
          { kind := .Return, operands := [1] } ] ∧
      (-(10066330 / 33554432) : ℚ) ≠ -(1 / 10) * 3) ∧
    (KeepSignPattern (poolMaxGraph (pow2 (-160))) 1 = .success (poolMaxGraph (pow2 (-160))) ∧
      rangeOf (poolMaxGraph (pow2 (-160))) 0 = some (-1, 1) ∧
      rangeOf (poolMaxGraph (pow2 (-160))) 1 = some (0, pow2 (-160)) ∧
      (0 : ℚ) < pow2 (-160)) ∧
    (KeepSignPattern poolZeroGraph 1 = .success poolZeroGraph ∧
      rangeOf poolZeroGraph 0 = some (-1, 1) ∧ rangeOf poolZeroGraph 1 = some (0, 0)) := by
  refine ⟨⟨by decide!, by norm_num⟩, ⟨by decide!, by decide!, by decide!, pow2_pos _⟩,
    by decide!⟩

theorem ssa_subConstGraph : SSA subConstGraph := by
  intro n hn o ho v hv
  have hn' : n < 3 := hn
  interval_cases n <;> simp [subConstGraph] at ho <;> subst ho <;> simp at hv <;> omega

theorem ForwardCalibartion_failure {g g' : Graph} {n : Nat}
    (h : ForwardCalibartion g n = .failure g') : g' = g := by
  unfold ForwardCalibartion forwardRange at h
  repeat' split at h
  all_goals first
    | (injection h with h; exact h.symm)
    | cases h

theorem ForwardMulConst_failure {g g' : Graph} {n : Nat}
    (h : ForwardMulConst g n = .failure g') : g' = g := by
  unfold ForwardMulConst setOutRange at h
  dsimp only at h
  generalize mulConstRange _ _ = r at h
  repeat' split at h
  all_goals first
    | (injection h with h; exact h.symm)
    | cases h

theorem ForwardArg_failure {g g' : Graph} {n : Nat}
    (h : ForwardArg g n = .failure g') : g' = g := by
  unfold ForwardArg at h
  dsimp only at h
  repeat' split at h
  all_goals first
    | (injection h with h; exact h.symm)
    | cases h

theorem forwardPatterns_pure (md : Module) (m : QuantizeMap) :
    ∀ p ∈ forwardPatterns md, p.PureOnFailure m := by
  intro p hp g n g' h
  have hcases : (∃ k, p = .ForwardCalibartion k) ∨ p = .ForwardMulConst ∨ p = .ForwardArg := by
    unfold forwardPatterns at hp
    simp only [List.mem_append, List.mem_cons, List.mem_singleton, List.not_mem_nil,
      or_false] at hp
    rcases hp with (hp | hp) | hp
    · rcases hp with hp | hp | hp | hp | hp | hp | hp | hp | hp | hp | hp | hp | hp | hp | hp |
        hp | hp | hp | hp
      all_goals first
        | exact Or.inl ⟨_, hp⟩
        | exact Or.inr (Or.inl hp)
        | exact Or.inr (Or.inr hp)
    · split at hp <;> simp at hp <;> exact Or.inl ⟨_, hp⟩
    · split at hp <;> simp at hp
      exact Or.inl ⟨_, hp⟩
  rcases hcases with ⟨k, rfl⟩ | rfl | rfl
  · exact ForwardCalibartion_failure h
  · exact ForwardMulConst_failure h
  · exact ForwardArg_failure h

theorem applyPatterns_failure {m : QuantizeMap} {ps : List Pattern}
    (hpure : ∀ p ∈ ps, p.PureOnFailure m) {g g' : Graph} {n : Nat}
    (h : applyPatterns m ps g n = .failure g') :
    g' = g ∧ ∀ p ∈ ps, ∀ o, g[n]? = some o → o.kind = p.root →
      p.matchAndRewrite m g n = .failure g := by
  induction ps with
  | nil =>
    unfold applyPatterns at h
    injection h with h
    exact ⟨h.symm, fun p hp => absurd hp (List.not_mem_nil p)⟩
  | cons p ps ih =>
    have ih' := ih (fun q hq => hpure q (List.mem_cons_of_mem _ hq))
    unfold applyPatterns at h
    cases ho : g[n]? with
    | none =>
      rw [ho] at h
      injection h with h
      exact ⟨h.symm, fun _ _ o ho' => by cases ho'⟩
    | some o =>
      rw [ho] at h
      dsimp only at h
      by_cases hk : o.kind = p.root
      · rw [if_pos hk] at h
        cases hr : p.matchAndRewrite m g n with
        | success g1 => rw [hr] at h; cases h
        | fatal => rw [hr] at h; cases h
        | undefined => rw [hr] at h; cases h
        | failure g1 =>
          rw [hr] at h
          dsimp only at h
          have hg1 : g1 = g := hpure p (List.mem_cons_self _ _) g n g1 hr
          subst hg1
          obtain ⟨hg', hall⟩ := ih' h
          refine ⟨hg', ?_⟩
          intro q hq o' ho' hk'
          rcases List.mem_cons.mp hq with rfl | hq
          · exact hr
          · exact hall q hq o' (ho.trans ho') hk'
      · rw [if_neg hk] at h
        obtain ⟨hg', hall⟩ := ih' h
        refine ⟨hg', ?_⟩
        intro q hq o' ho' hk'
        rcases List.mem_cons.mp hq with rfl | hq
        · injection ho' with ho'
          subst ho'
          exact absurd hk' hk
        · exact hall q hq o' (ho.trans ho') hk'

theorem sweep_changed (m : QuantizeMap) (ps : List Pattern) (order : List Nat) (g : Graph) :
    (sweep m ps order g true).2 = true := by
  induction order generalizing g with
  | nil => rfl
  | cons n rest ih =>
    unfold sweep
    cases applyPatterns m ps g n with
    | success g1 => exact ih g1
    | failure g1 => exact ih g1
    | fatal => rfl
    | undefined => rfl

/-- A pass of the driver that reports no change has left the graph as it was, and
every pattern has declined on every operation it visited. -/
theorem sweep_no_change {m : QuantizeMap} {ps : List Pattern}
    (hpure : ∀ p ∈ ps, p.PureOnFailure m) {order : List Nat} {g g' : Graph}
    (h : sweep m ps order g false = (.done g', false)) :
    g' = g ∧ ∀ n ∈ order, applyPatterns m ps g n = .failure g := by
  induction order generalizing g with
  | nil =>
    unfold sweep at h
    injection h with h1 _
    injection h1 with h1
    exact ⟨h1.symm, fun n hn => absurd hn (List.not_mem_nil n)⟩
  | cons n rest ih =>
    unfold sweep at h
    cases hr : applyPatterns m ps g n with
    | success g1 =>
      rw [hr] at h
      dsimp only at h
      have := sweep_changed m ps rest g1
      rw [h] at this
      cases this
    | fatal => rw [hr] at h; cases h
    | undefined => rw [hr] at h; cases h
    | failure g1 =>
      rw [hr] at h
      dsimp only at h
      have hg1 : g1 = g := (applyPatterns_failure hpure hr).1
      subst hg1
      obtain ⟨hg', hall⟩ := ih h
      refine ⟨hg', ?_⟩
      intro k hk
      rcases List.mem_cons.mp hk with rfl | hk
      · exact hr
      · exact hall k hk

theorem mem_worklist {c : GreedyRewriteConfig} {g : Graph} {n : Nat} :
    n ∈ worklist c g ↔ n < g.length := by
  unfold worklist
  split <;> simp

/-- Where `ForwardCalibartion` declines on an operation with a calibrated input
(other than a Reduce), the result has the input's calibrated range. -/
theorem ForwardCalibartion_declines {g g' : Graph} {n i : Nat} {o : Op}
    (hn : g[n]? = some o) (hk : o.kind ≠ .Reduce) (hi : o.operands[0]? = some i)
    (hcal : isCalibratedType g i = true) (h : ForwardCalibartion g n = .failure g') :
    rangeOf g n = rangeOf g i := by
  have hex : ∃ qin, getCalibratedType g i = some qin := by
    unfold isCalibratedType at hcal
    unfold getCalibratedType
    cases he : (typeOf g i).elem with
    | calibrated q => exact ⟨q, rfl⟩
    | plain k => rw [he] at hcal; cases hcal
    | uniform k s z => rw [he] at hcal; cases hcal
  obtain ⟨qin, hqin⟩ := hex
  unfold ForwardCalibartion forwardRange at h
  rw [hn] at h
  dsimp only at h
  rw [if_neg (fun hh => hk hh.1), hi] at h
  dsimp only at h
  rw [hqin] at h
  dsimp only at h
  cases he : o.type.elem.getCalibrated with
  | none => rw [he] at h; cases h
  | some qout =>
    rw [he] at h
    dsimp only at h
    by_cases heq : qin.max = qout.max ∧ qin.min = qout.min
    · unfold rangeOf
      rw [getCalibratedType_of_getElem? hn, he, hqin]
      simp [heq.1, heq.2]
    · rw [if_neg heq] at h
      cases h

theorem Run.andThen_assoc (r : Run) (f h : Graph → Run) :
    (r.andThen f).andThen h = r.andThen fun g => (f g).andThen h := by
  cases r <;> rfl

/-- The function `calibration_process` is its phases before the extended forward
phase, that phase, and the phases after it. -/
theorem calibration_process_phases (md : Module) (g : Graph) :
    calibration_process md g =
      if md.state ≠ .TOP_CALIBRATED then .done g
      else (calibration_process.beforeForward md g).andThen fun g0 =>
        (applyPatternsAndFoldGreedily md (forwardPatterns md) g0).andThen
          (calibration_process.afterForward md) := by
  unfold calibration_process calibration_process.beforeForward calibration_process.afterForward
  simp only [Run.andThen_assoc]

/-- A run of the driver that ends on a pass without a change returns a graph on
which every pattern declines on every operation. -/
theorem greedyConverged_done {m : QuantizeMap} {c : GreedyRewriteConfig} {ps : List Pattern}
    (hpure : ∀ p ∈ ps, p.PureOnFailure m) :
    ∀ (k : Nat) (g : Graph), greedyConverged m c ps k g = true →
      ∃ g1, greedyLoop m c ps k g = .done g1 ∧
        ∀ n, n < g1.length → applyPatterns m ps g1 n = .failure g1
  | 0, _, h => by simp [greedyConverged] at h
  | k + 1, g, h => by
    unfold greedyConverged at h
    unfold greedyLoop
    cases hs : sweep m ps (worklist c g) g false with
    | mk r b =>
      rw [hs] at h
      cases r with
      | done g' =>
        cases b with
        | true =>
          dsimp only at h ⊢
          exact greedyConverged_done hpure k g' h
        | false =>
          obtain ⟨hg', hall⟩ := sweep_no_change hpure hs
          subst hg'
          exact ⟨g', rfl, fun n hn => hall n (mem_worklist.mpr hn)⟩
      | fatal => simp at h
      | undefined => simp at h

/-- Where every pattern of the extended forward phase declines on every
operation, the shape-preserving operations have the range of their input. -/
theorem closure_of_declined (md : Module) (g : Graph)
    (hall : ∀ n, n < g.length →
      applyPatterns md.quantize_map (forwardPatterns md) g n = .failure g) :
    ShapePreservingClosure g := by
  intro n o i hn hk hi hcal
  have hlt : n < g.length := (List.getElem?_eq_some.mp hn).1
  have hfail := hall n hlt
  have hmem : Pattern.ForwardCalibartion o.kind ∈ forwardPatterns md := by
    unfold forwardPatterns
    rcases hk with hk | hk | hk | hk | hk <;> rw [hk] <;> simp
  have hdecl := (applyPatterns_failure (forwardPatterns_pure md md.quantize_map) hfail).2
    _ hmem o hn rfl
  have hkr : o.kind ≠ .Reduce := by
    rcases hk with hk | hk | hk | hk | hk <;> rw [hk] <;> simp
  exact ForwardCalibartion_declines hn hkr hi hcal hdecl

/-- C1 (amended): for a module in calibrated state, let `g0` be the graph on
which the extended forward phase of `calibration_process` starts.  When the
driver ends that phase on a pass that reports no change (and not at its
iteration limit), the phase returns a graph `g1` in which every Reshape,
Permute, Tile, Pad and Slice whose input is calibrated has an output with the
calibrated range of its input, and `calibration_process` goes on from `g1` with
the sign phase and the selective phase. -/
theorem forward_phase_fixpoint_closure (md : Module) (g g0 : Graph)
    (hstate : md.state = .TOP_CALIBRATED)
    (h0 : calibration_process.beforeForward md g = .done g0)
    (hconv : greedyConverged md.quantize_map md.greedy (forwardPatterns md)
      md.greedy.maxIterations g0 = true) :
    ∃ g1, applyPatternsAndFoldGreedily md (forwardPatterns md) g0 = .done g1 ∧
      ShapePreservingClosure g1 ∧
      calibration_process md g = calibration_process.afterForward md g1 := by
  obtain ⟨g1, hloop, hall⟩ :=
    greedyConverged_done (forwardPatterns_pure md md.quantize_map) _ g0 hconv
  refine ⟨g1, hloop, closure_of_declined md g1 hall, ?_⟩
  rw [calibration_process_phases, if_neg (by simp [hstate]), h0]
  have hloop' : applyPatternsAndFoldGreedily md (forwardPatterns md) g0 = .done g1 := hloop
  show (applyPatternsAndFoldGreedily md (forwardPatterns md) g0).andThen _ = _
  rw [hloop']
  rfl

/-- Witness of C1: on `sliceGraph` the extended forward phase ends on a pass
without a change, and the graph it returns has the closure property (which the
sign phase then breaks). -/
theorem forward_phase_fixpoint_closure_witness :
    ∃ g1, applyPatternsAndFoldGreedily int8Module (forwardPatterns int8Module) sliceGraph =
        .done g1 ∧
      ShapePreservingClosure g1 ∧
      calibration_process int8Module sliceGraph =
        calibration_process.afterForward int8Module g1 :=
  forward_phase_fixpoint_closure int8Module sliceGraph sliceGraph (by decide) (by decide!)
    (by decide!)

/-- C1 (counterexample): `calibration_process` turns `sliceGraph` into
`sliceAfter`, where the Slice has the calibrated input `[-1,10]` and the output
`[0,10]`: the sign phase that follows the last forward phase re-types the
AvgPool, and `Forward` passes the change on to Reshape and Permute users only.
And on `sliceChainGraph` the extended forward phase itself, visiting the
operations from the last to the first, moves the range of `x` one Slice further
in every pass and stops at the limit of ten passes without having reported "no
change": the graph it returns, which is also the final one, has the eleventh
Slice at `[0,10]` behind an input at `[-1,1]`. -/
theorem calibration_process_slice_counterexample :
    (calibration_process int8Module sliceGraph = .done sliceAfter ∧
      calibration_process int8ModuleTopDown sliceGraph = .done sliceAfter ∧
      rangeOf sliceAfter 2 = some (-1, 10) ∧
      rangeOf sliceAfter 3 = some (0, 10) ∧
      ¬ ShapePreservingClosure sliceAfter) ∧
    (calibration_process.beforeForward int8Module sliceChainGraph = .done sliceChainGraph ∧
      greedyConverged int8Module.quantize_map int8Module.greedy (forwardPatterns int8Module)
        int8Module.greedy.maxIterations sliceChainGraph = false ∧
      applyPatternsAndFoldGreedily int8Module (forwardPatterns int8Module) sliceChainGraph =
        .done sliceChainAfter ∧
      calibration_process int8Module sliceChainGraph = .done sliceChainAfter ∧
      rangeOf sliceChainAfter 10 = some (-1, 1) ∧
      rangeOf sliceChainAfter 11 = some (0, 10) ∧
      ¬ ShapePreservingClosure sliceChainAfter) := by
  refine ⟨⟨by decide!, by decide!, by decide!, by decide!, ?_⟩,
    ⟨by decide!, by decide!, by decide!, by decide!, by decide!, by decide!, ?_⟩⟩
  · intro h
    have := h 3 _ 2 rfl (Or.inr (Or.inr (Or.inr (Or.inr rfl)))) rfl rfl
    revert this
    decide!
  · intro h
    have := h 11 _ 10 rfl (Or.inr (Or.inr (Or.inr (Or.inr rfl)))) rfl rfl
    revert this
    decide!

/-! ### The range invariant under the patterns -/

theorem Leaves_failure {g g' : Graph} (h : (RewriteResult.failure g).Leaves g') : g' = g := by
  rcases h with h | h
  · cases h
  · injection h with h; exact h.symm

theorem Leaves_success {g g' : Graph} (h : (RewriteResult.success g).Leaves g') : g' = g := by
  rcases h with h | h
  · injection h with h; exact h.symm
  · cases h

theorem Leaves_fatal {g' : Graph} (h : RewriteResult.fatal.Leaves g') : False := by
  rcases h with h | h <;> cases h

theorem Leaves_undefined {g' : Graph} (h : RewriteResult.undefined.Leaves g') : False := by
  rcases h with h | h <;> cases h

theorem RangeInvariant.of_failure {g g' : Graph} (hinv : RangeInvariant g)
    (h : (RewriteResult.failure g).Leaves g') : RangeInvariant g' :=
  Leaves_failure h ▸ hinv

theorem RangeInvariant.setOutRange {g g' : Graph} (hinv : RangeInvariant g) {n : Nat} {o : Op}
    {lo hi : ℚ} (hle : lo ≤ hi) (h : (setOutRange g n o lo hi).Leaves g') :
    RangeInvariant g' := by
  unfold TpuMlir.setOutRange at h
  rw [Leaves_success h]
  refine RangeInvariant.Forward (RangeInvariant.setType hinv n _ ?_) n
  exact hle

theorem RangeInvariant.forwardRange {g g' : Graph} (hinv : RangeInvariant g) {n : Nat} {o : Op}
    {q : CalibratedType} (hle : q.min ≤ q.max) (h : (forwardRange g n o q).Leaves g') :
    RangeInvariant g' := by
  unfold TpuMlir.forwardRange at h
  rw [Leaves_success h]
  refine RangeInvariant.Forward (RangeInvariant.setType hinv n _ ?_) n
  exact hle

theorem tenth_le {d : ℚ} (h : 0 ≤ d) : -d * (1 / 10) ≤ d := by nlinarith

theorem tenth_le' {d : ℚ} (h : 0 ≤ d) : d * (-(1 / 10)) ≤ d := by nlinarith

theorem ForwardCalibartion_inv {g g' : Graph} {n : Nat} (hinv : RangeInvariant g)
    (h : (ForwardCalibartion g n).Leaves g') : RangeInvariant g' := by
  unfold ForwardCalibartion at h
  split at h
  · exact (Leaves_undefined h).elim
  · split at h
    · exact hinv.of_failure h
    · split at h
      · exact (Leaves_undefined h).elim
      · split at h
        · exact hinv.of_failure h
        · rename_i in_qtype hin
          have hle := hinv.getCalibratedType hin
          split at h
          · split at h
            · exact hinv.of_failure h
            · exact hinv.forwardRange hle h
          · exact hinv.forwardRange hle h

theorem mulConstRange_le (c : ℚ) {q : CalibratedType} (hle : q.min ≤ q.max) :
    (mulConstRange c q).1 ≤ (mulConstRange c q).2 := by
  unfold mulConstRange
  by_cases hc : c ≥ 0
  · by_cases h0 : c ≠ 0
    · simp only [hc, h0, if_true, ne_eq, not_false_eq_true]
      exact mul_le_mul_of_nonneg_right hle hc
    · simp only [hc, h0, if_true, if_false]
      exact hle
  · have hneg : c < 0 := not_le.mp hc
    have h0 : c ≠ 0 := ne_of_lt hneg
    simp only [hc, h0, if_true, if_false, ne_eq, not_false_eq_true]
    exact mul_le_mul_of_nonpos_right hle (le_of_lt hneg)

theorem ForwardMulConst_inv {g g' : Graph} {n : Nat} (hinv : RangeInvariant g)
    (h : (ForwardMulConst g n).Leaves g') : RangeInvariant g' := by
  unfold ForwardMulConst at h
  cases ho : g[n]? with
  | none => rw [ho] at h; exact (Leaves_undefined h).elim
  | some o =>
    rw [ho] at h
    dsimp only at h
    cases hi : o.operands[0]? with
    | none => rw [hi] at h; exact (Leaves_undefined h).elim
    | some i =>
      rw [hi] at h
      dsimp only at h
      cases hin : getCalibratedType g i with
      | none => rw [hin] at h; exact hinv.of_failure h
      | some in_qtype =>
        rw [hin] at h
        dsimp only at h
        have hrange := mulConstRange_le o.const_val (hinv.getCalibratedType hin)
        generalize mulConstRange o.const_val in_qtype = r at h hrange
        split at h
        · split at h
          · exact hinv.of_failure h
          · exact hinv.setOutRange hrange h
        · exact hinv.setOutRange hrange h

theorem ForwardArg_inv {g g' : Graph} {n : Nat} (hinv : RangeInvariant g)
    (h : (ForwardArg g n).Leaves g') : RangeInvariant g' := by
  unfold ForwardArg at h
  split at h
  · exact (Leaves_undefined h).elim
  · rename_i o ho
    split at h
    · exact hinv.of_failure h
    · split at h
      · exact (Leaves_undefined h).elim
      · split at h
        · exact hinv.of_failure h
        · rename_i in_qtype hin
          have hle := hinv.getCalibratedType hin
          have hset : RangeInvariant (g.set n
              { o with values := { shape := o.values.shape, elem := .calibrated in_qtype } }) := by
            refine RangeInvariant.set hinv n _ ?_ ?_
            · have := hinv.getElem? ho
              exact this
            · exact hle
          dsimp only at h
          split at h
          · split at h
            · exact hinv.of_failure h
            · rw [Leaves_success h]; exact hset
          · rw [Leaves_success h]; exact hset

theorem KeepSignPattern_inv {g g' : Graph} {n : Nat} (hinv : RangeInvariant g)
    (hsafe : ∀ q, getCalibratedType g n = some q → 0 ≤ q.max)
    (h : (KeepSignPattern g n).Leaves g') : RangeInvariant g' := by
  unfold KeepSignPattern at h
  split at h
  · exact (Leaves_undefined h).elim
  · rename_i o ho
    split at h
    · exact (Leaves_undefined h).elim
    · split at h
      · rename_i in_qtype out_qtype hin hout
        have hle := hinv.of_getCalibrated ho hout
        have hmax := hsafe out_qtype ((getCalibratedType_of_getElem? ho).trans hout)
        split at h
        · split at h
          · exact hinv.of_failure h
          · split at h
            · exact (Leaves_undefined h).elim
            · rename_i min hmin
              exact hinv.setOutRange (le_trans (floatNegTenth_nonpos hmax hmin) hmax) h
        · split at h
          · exact hinv.of_failure h
          · exact hinv.setOutRange hmax h
      · exact hinv.of_failure h

theorem KeepMulSignPattern_inv {g g' : Graph} {n : Nat} (hinv : RangeInvariant g)
    (h : (KeepMulSignPattern g n).Leaves g') : RangeInvariant g' := by
  unfold KeepMulSignPattern at h
  split at h
  · exact (Leaves_undefined h).elim
  · rename_i o ho
    split at h
    · split at h
      · exact hinv.of_failure h
      · rename_i out_qtype hout
        have hle := hinv.of_getCalibrated ho hout
        split at h
        · exact hinv.of_failure h
        · exact (Leaves_undefined h).elim
        · split at h
          · exact hinv.of_failure h
          · exact (Leaves_undefined h).elim
          · rename_i s0 _ s1 _
            unfold mulDispatch at h
            dsimp only at h
            split at h
            · exact hinv.of_failure h
            · rename_i hs0
              split at h
              · rw [Leaves_success h]
                refine RangeInvariant.set hinv n _ ?_ ?_
                · have := hinv.getElem? ho
                  exact this
                · exact (hinv o (List.mem_iff_getElem?.mpr ⟨n, ho⟩)).2
              · split at h
                · rename_i hs0t
                  have hmin : 0 ≤ out_qtype.min := by
                    by_contra hc
                    exact hs0 (by simp [hs0t, not_le.mp hc])
                  exact hinv.setOutRange (tenth_le (le_trans hmin hle)) h
                · exact (Leaves_fatal h).elim
    · exact hinv.of_failure h

theorem KeepAddSignPattern_inv {g g' : Graph} {n : Nat} (hinv : RangeInvariant g)
    (hsafe : ∀ q, getCalibratedType g n = some q → 0 ≤ q.max)
    (h : (KeepAddSignPattern g n).Leaves g') : RangeInvariant g' := by
  unfold KeepAddSignPattern at h
  split at h
  · exact (Leaves_undefined h).elim
  · rename_i o ho
    split at h
    · exact hinv.of_failure h
    · exact (Leaves_undefined h).elim
    · split at h
      · exact (Leaves_undefined h).elim
      · rename_i out_qtype hout
        have hmax := hsafe out_qtype ((getCalibratedType_of_getElem? ho).trans hout)
        split at h
        · exact hinv.setOutRange (tenth_le hmax) h
        · split at h
          · exact hinv.setOutRange hmax h
          · exact hinv.of_failure h

theorem SetSubConstSignPattern_inv {g g' : Graph} {n : Nat} (hinv : RangeInvariant g)
    (h : (SetSubConstSignPattern g n).Leaves g') : RangeInvariant g' := by
  unfold SetSubConstSignPattern at h
  split at h
  · exact (Leaves_undefined h).elim
  · rename_i o ho
    split at h
    · exact (Leaves_undefined h).elim
    · split at h
      · rename_i in_qtype out_qtype hin hout
        have hle := hinv.of_getCalibrated ho hout
        split at h
        · rename_i hc
          exact hinv.setOutRange (tenth_le' (le_trans hc.2 hle)) h
        · exact hinv.of_failure h
      · exact hinv.of_failure h

theorem RangeInvariant.setCalibrated {g : Graph} (h : RangeInvariant g) (v : Nat)
    (shape : List Int) {q : CalibratedType} (hq : q.min ≤ q.max) :
    RangeInvariant (TpuMlir.setType g v { shape := shape, elem := .calibrated q }) := by
  refine RangeInvariant.setType h v _ ?_
  exact hq

theorem BackwardCalibartion_inv {g g' : Graph} {n : Nat} (keepMin : Bool)
    (hinv : RangeInvariant g)
    (hsafe : keepMin = true → ∀ o i qin qout, g[n]? = some o → o.operands[0]? = some i →
      getCalibratedType g i = some qin → getCalibratedType g n = some qout →
      qin.min ≤ qout.max)
    (h : (BackwardCalibartion keepMin g n).Leaves g') : RangeInvariant g' := by
  unfold BackwardCalibartion at h
  cases ho : g[n]? with
  | none => rw [ho] at h; exact (Leaves_undefined h).elim
  | some o =>
    rw [ho] at h
    dsimp only at h
    cases hi : o.operands[0]? with
    | none => rw [hi] at h; exact (Leaves_undefined h).elim
    | some i =>
      rw [hi] at h
      dsimp only at h
      cases hout : o.type.elem.getCalibrated with
      | none => rw [hout] at h; exact hinv.of_failure h
      | some out_qtype =>
        rw [hout] at h
        dsimp only at h
        have hle := hinv.of_getCalibrated ho hout
        have hplain : RangeInvariant (Backward (setType g i
            { shape := (typeOf g i).shape, elem := .calibrated out_qtype }) i) :=
          (hinv.setCalibrated i _ hle).Backward i
        split at h
        · exact hinv.of_failure h
        · cases hin : getCalibratedType g i with
          | none =>
            rw [hin] at h
            dsimp only at h
            split at h
            · exact (Leaves_undefined h).elim
            · rw [Leaves_success h]; exact hplain
          | some in_qtype =>
            rw [hin] at h
            dsimp only at h
            split at h
            · exact hinv.of_failure h
            · split at h
              · rename_i hk
                rw [Leaves_success h]
                refine RangeInvariant.Backward (RangeInvariant.setType hinv i _ ?_) i
                exact hsafe hk o i in_qtype out_qtype ho hi hin
                  ((getCalibratedType_of_getElem? ho).trans hout)
              · rw [Leaves_success h]; exact hplain

theorem CompareCalibartion_inv {g g' : Graph} {n : Nat} (hinv : RangeInvariant g)
    (h : (CompareCalibartion g n).Leaves g') : RangeInvariant g' := by
  unfold CompareCalibartion at h
  split at h
  · exact (Leaves_undefined h).elim
  · split at h
    · split at h
      · rename_i l_ctype r_ctype hl hr
        have hle := hinv.getCalibratedType hl
        split at h
        · exact hinv.of_failure h
        · rw [Leaves_success h]
          have hrange : min l_ctype.min r_ctype.min ≤ max l_ctype.max r_ctype.max :=
            le_trans (min_le_left _ _) (le_trans hle (le_max_left _ _))
          refine RangeInvariant.setType (RangeInvariant.setType hinv _ _ ?_) _ _ ?_
          · exact hrange
          · exact hrange
      · exact hinv.of_failure h
    · exact (Leaves_undefined h).elim

theorem BackwardMutiInSingleOut_inv {g g' : Graph} {n : Nat} (hinv : RangeInvariant g)
    (h : (BackwardMutiInSingleOut g n).Leaves g') : RangeInvariant g' := by
  unfold BackwardMutiInSingleOut at h
  cases ho : g[n]? with
  | none => rw [ho] at h; exact (Leaves_undefined h).elim
  | some o =>
    rw [ho] at h
    dsimp only at h
    split at h
    · exact hinv.of_failure h
    · cases hout : o.type.elem.getCalibrated with
      | none => rw [hout] at h; exact hinv.of_failure h
      | some out_qtype =>
        rw [hout] at h
        dsimp only at h
        have hle := hinv.of_getCalibrated ho hout
        split at h
        · exact (Leaves_undefined h).elim
        · split at h
          · exact (Leaves_undefined h).elim
          · rename_i in_0_qtype hin0
            have hle0 := hinv.getCalibratedType hin0
            split at h
            · exact hinv.of_failure h
            · split at h
              · split at h
                · exact hinv.of_failure h
                · rw [Leaves_success h]
                  exact hinv.setCalibrated n _ hle0
              · rw [Leaves_success h]
                exact hinv.pushToInputs out_qtype hle _

theorem whereConst_nonneg (o : Op) : 0 ≤ (whereConst o).1 := by
  unfold whereConst
  dsimp only
  split
  · split
    · exact le_max_of_le_left (abs_nonneg _)
    · exact le_max_of_le_left (abs_nonneg _)
  · split
    · exact abs_nonneg _
    · exact le_refl _

theorem widenToConst_inv {g : Graph} (hinv : RangeInvariant g) (n : Nat) (o : Op)
    (out_qtype : CalibratedType) {const_v : ℚ} (hc : 0 ≤ const_v) (const_signed : Bool) :
    RangeInvariant (widenToConst g n o out_qtype const_v const_signed).1 := by
  unfold widenToConst
  split
  · refine RangeInvariant.setType hinv n _ ?_
    show (if const_signed = true ∨ out_qtype.min < 0 then -const_v * (1 / 10) else 0) ≤ const_v
    split
    · exact tenth_le hc
    · exact hc
  · exact hinv

theorem followOutput_inv {g g1 : Graph} (hinv : RangeInvariant g) {v : Nat}
    {out_qtype : CalibratedType} (hle : out_qtype.min ≤ out_qtype.max) {b : Bool}
    (h : followOutput g v out_qtype = some (g1, b)) : RangeInvariant g1 := by
  unfold followOutput at h
  split at h
  · cases h
  · split at h
    · injection h with h
      injection h with h _
      rw [← h]
      refine RangeInvariant.setType hinv v _ ?_
      exact hle
    · injection h with h
      injection h with h _
      rw [← h]
      exact hinv

theorem SelectiveWhere_inv {m : QuantizeMap} {g g' : Graph} {n : Nat}
    (hinv : RangeInvariant g) (h : (SelectiveWhere m g n).Leaves g') : RangeInvariant g' := by
  unfold SelectiveWhere at h
  cases ho : g[n]? with
  | none => rw [ho] at h; exact (Leaves_undefined h).elim
  | some o =>
    rw [ho] at h
    dsimp only at h
    cases hout : o.type.elem.getCalibrated with
    | none => rw [hout] at h; exact hinv.of_failure h
    | some out_qtype =>
      rw [hout] at h
      dsimp only at h
      have hle := hinv.of_getCalibrated ho hout
      have hw := widenToConst_inv hinv n o out_qtype (whereConst_nonneg o) (whereConst o).2
      generalize widenToConst g n o out_qtype (whereConst o).1 (whereConst o).2 = w at h hw
      have hX : ∀ g1 c1,
          (if o.x_is_const = false ∧ (w.2 || pinnedFloat m o.name) = false then
            match o.operands[1]? with
            | none => none
            | some tbrn => some (followOutput w.1 tbrn out_qtype)
          else some (some (w.1, false))) = some (some (g1, c1)) → RangeInvariant g1 := by
        intro g1 c1 hx
        split at hx
        · split at hx
          · cases hx
          · injection hx with hx
            exact followOutput_inv hw hle hx
        · injection hx with hx
          injection hx with hx
          injection hx with hx _
          exact hx ▸ hw
      split at h
      · exact (Leaves_undefined h).elim
      · rw [Leaves_failure h]; exact hw
      · rename_i g1 changed1 hx
        have hg1 := hX g1 changed1 hx
        have hY : ∀ g2 c2,
            (if o.y_is_const = false ∧ (w.2 || pinnedFloat m o.name) = false then
              match o.operands[2]? with
              | none => none
              | some fbrn => some (followOutput g1 fbrn out_qtype)
            else some (some (g1, false))) = some (some (g2, c2)) → RangeInvariant g2 := by
          intro g2 c2 hy
          split at hy
          · split at hy
            · cases hy
            · injection hy with hy
              exact followOutput_inv hg1 hle hy
          · injection hy with hy
            injection hy with hy
            injection hy with hy _
            exact hy ▸ hg1
        split at h
        · exact (Leaves_undefined h).elim
        · rw [Leaves_failure h]; exact hg1
        · rename_i g2 changed2 hy
          have hg2 := hY g2 changed2 hy
          split at h
          · rw [Leaves_success h]; exact hg2
          · rw [Leaves_failure h]; exact hg2

theorem SelectiveMaskedFill_inv {m : QuantizeMap} {g g' : Graph} {n : Nat}
    (hinv : RangeInvariant g) (h : (SelectiveMaskedFill m g n).Leaves g') :
    RangeInvariant g' := by
  unfold SelectiveMaskedFill at h
  cases ho : g[n]? with
  | none => rw [ho] at h; exact (Leaves_undefined h).elim
  | some o =>
    rw [ho] at h
    dsimp only at h
    split at h
    · exact hinv.of_failure h
    · cases hout : o.type.elem.getCalibrated with
      | none => rw [hout] at h; exact hinv.of_failure h
      | some out_qtype =>
        rw [hout] at h
        dsimp only at h
        have hle := hinv.of_getCalibrated ho hout
        have hw := widenToConst_inv hinv n o out_qtype (abs_nonneg o.const_val)
          (decide (o.const_val < 0))
        generalize widenToConst g n o out_qtype |o.const_val| (decide (o.const_val < 0)) = w
          at h hw
        split at h
        · exact (Leaves_undefined h).elim
        · split at h
          · exact (Leaves_undefined h).elim
          · split at h
            · rw [Leaves_success h]
              refine RangeInvariant.setType hw _ _ ?_
              exact hle
            · rw [Leaves_failure h]; exact hw

/-- C3 (amended): one application of a propagator pattern that returns (success or
failure) keeps the range invariant, provided that for `KeepSignPattern` and
`KeepAddSignPattern` the output maximum is not negative and for the keep-min
`BackwardCalibartion` the input minimum does not exceed the output maximum. -/
theorem patterns_preserve_RangeInvariant (m : QuantizeMap) (p : Pattern) (g g' : Graph)
    (n : Nat) (hinv : RangeInvariant g) (hsafe : ClampSafe p g n)
    (h : (p.matchAndRewrite m g n).Leaves g') : RangeInvariant g' := by
  cases p with
  | ForwardCalibartion k => exact ForwardCalibartion_inv hinv h
  | ForwardMulConst => exact ForwardMulConst_inv hinv h
  | ForwardArg => exact ForwardArg_inv hinv h
  | KeepSignPattern k => exact KeepSignPattern_inv hinv hsafe h
  | KeepMulSignPattern k => exact KeepMulSignPattern_inv hinv h
  | KeepAddSignPattern => exact KeepAddSignPattern_inv hinv hsafe h
  | SetSubConstSignPattern => exact SetSubConstSignPattern_inv hinv h
  | BackwardCalibartion k keepMin =>
    refine BackwardCalibartion_inv keepMin hinv ?_ h
    intro hk
    subst hk
    exact hsafe
  | CompareCalibartion => exact CompareCalibartion_inv hinv h
  | BackwardMutiInSingleOut k => exact BackwardMutiInSingleOut_inv hinv h
  | SelectiveWhere => exact SelectiveWhere_inv hinv h
  | SelectiveMaskedFill => exact SelectiveMaskedFill_inv hinv h

/-- Witness of C3: `KeepSignPattern` on `poolGraph` (output maximum 10) leaves a graph in
which the invariant holds. -/
theorem patterns_preserve_RangeInvariant_witness :
    ∃ g', KeepSignPattern poolGraph 1 = .success g' ∧ RangeInvariant g' := by
  have hs : ∃ g', KeepSignPattern poolGraph 1 = .success g' :=
    ⟨[ { kind := .Input, name := "x", type := calF32 [1, 1, 4, 4] (-1) 1 },
       { kind := .AvgPool, name := "pool", operands := [0], type := calF32 [1, 1, 2, 2] (-1) 10 },
       { kind := .Return, operands := [1] } ], by decide!⟩
  obtain ⟨g', hg'⟩ := hs
  refine ⟨g', hg', ?_⟩
  refine patterns_preserve_RangeInvariant [] (.KeepSignPattern .AvgPool) poolGraph g' 1
    (by decide!) ?_ (Or.inl hg')
  intro q hq
  have : q = ⟨.f32, 0, 10⟩ := by
    have h2 : getCalibratedType poolGraph 1 = some ⟨.f32, 0, 10⟩ := rfl
    rw [h2] at hq
    exact (Option.some.inj hq).symm
  rw [this]
  norm_num

/-- C3 (counterexample): the invariant holds of `poolNegativeGraph`, `addNegativeGraph` and
`preluGraph`, and one application of `KeepSignPattern`, of `KeepAddSignPattern` and of the
keep-min `BackwardCalibartion` leaves a value with range `[0,-1]`, `[0,-1]` and `[5,2]`. -/
theorem patterns_break_RangeInvariant_counterexample :
    (RangeInvariant poolNegativeGraph ∧
      KeepSignPattern poolNegativeGraph 1 = .success poolNegativeAfter ∧
      ¬ RangeInvariant poolNegativeAfter) ∧
    (RangeInvariant addNegativeGraph ∧
      KeepAddSignPattern addNegativeGraph 2 = .success addNegativeAfter ∧
      ¬ RangeInvariant addNegativeAfter) ∧
    (RangeInvariant preluGraph ∧
      BackwardCalibartion true preluGraph 1 = .success preluAfter ∧
      ¬ RangeInvariant preluAfter) := by
  decide!

/-! ### BackwardMutiInSingleOut -/

theorem getElem?_retypeAt (q : CalibratedType) (g : Graph) (v w : Nat) :
    (retypeAt q g v)[w]? = if w = v then (g[v]?).map (retype q) else g[w]? := by
  unfold retypeAt
  rw [getElem?_setType]
  by_cases hw : w = v
  · simp only [hw, if_true]
    cases ho : g[v]? with
    | none => rfl
    | some o => simp [retype, typeOf, ho]
  · simp only [hw, if_false]

theorem retype_retype (q : CalibratedType) (o : Op) : retype q (retype q o) = retype q o := rfl

theorem RetypedFrom.retypeAt {q : CalibratedType} {g acc : Graph} (h : RetypedFrom q g acc)
    (v : Nat) : RetypedFrom q g (TpuMlir.retypeAt q acc v) := by
  intro w
  rw [getElem?_retypeAt]
  by_cases hw : w = v
  · subst hw
    simp only [if_true]
    rcases h w with h' | h'
    · exact Or.inr (by rw [h'])
    · refine Or.inr ?_
      rw [h']
      cases g[w]? <;> rfl
  · simp only [hw, if_false]
    exact h w

theorem RetypedFrom.operands {q : CalibratedType} {g acc : Graph} (h : RetypedFrom q g acc)
    {w : Nat} {o : Op} (ho : acc[w]? = some o) :
    ∃ o0, g[w]? = some o0 ∧ o.operands = o0.operands ∧ o.kind = o0.kind := by
  rcases h w with h' | h'
  · exact ⟨o, h' ▸ ho, rfl, rfl⟩
  · rw [ho] at h'
    cases hg : g[w]? with
    | none => rw [hg] at h'; cases h'
    | some o0 =>
      rw [hg] at h'
      have : o = retype q o0 := by simpa using h'
      exact ⟨o0, rfl, by rw [this]; rfl, by rw [this]; rfl⟩

/-- The step `pushStep` is one or two re-typings: of the input, and of the input of the
input's producer when that is a Reshape, Permute or Depth2Space. -/
theorem pushStep_eq (q : CalibratedType) (acc : Graph) (i : Nat) :
    pushStep q acc i = retypeAt q acc i ∨
      ∃ o p, acc[i]? = some o ∧ o.operands[0]? = some p ∧
        pushStep q acc i = retypeAt q (retypeAt q acc i) p := by
  unfold pushStep Backward
  cases ho : acc[i]? with
  | none =>
    have : (retypeAt q acc i)[i]? = none := by rw [getElem?_retypeAt]; simp [ho]
    rw [this]
    exact Or.inl rfl
  | some o =>
    have hi : (retypeAt q acc i)[i]? = some (retype q o) := by
      rw [getElem?_retypeAt]; simp [ho]
    rw [hi]
    dsimp only
    split
    · unfold BackwardOp
      rw [hi]
      dsimp only
      cases hp : (retype q o).operands[0]? with
      | none => exact Or.inl rfl
      | some p => exact Or.inr ⟨o, p, rfl, hp, rfl⟩
    · exact Or.inl rfl

/-- The state of the last loop of `BackwardMutiInSingleOut` after some inputs: nothing
but re-typings to `q` have happened, the operation `n` is untouched, and the inputs
already visited are re-typed. -/
theorem pushToInputs_spec {q : CalibratedType} {g : Graph} (hssa : SSA g) {n : Nat}
    (inputs : List Nat) (hlt : ∀ i ∈ inputs, i < n) (acc : Graph)
    (hacc : RetypedFrom q g acc) (hn : acc[n]? = g[n]?) :
    RetypedFrom q g (inputs.foldl (pushStep q) acc) ∧
      (inputs.foldl (pushStep q) acc)[n]? = g[n]? ∧
      ∀ i ∈ inputs, (inputs.foldl (pushStep q) acc)[i]? = (g[i]?).map (retype q) := by
  induction inputs generalizing acc with
  | nil => exact ⟨hacc, hn, fun i hi => absurd hi (List.not_mem_nil i)⟩
  | cons i rest ih =>
    have hi_lt : i < n := hlt i (List.mem_cons_self _ _)
    have hrest : ∀ j ∈ rest, j < n := fun j hj => hlt j (List.mem_cons_of_mem _ hj)
    have h1 : RetypedFrom q g (retypeAt q acc i) := hacc.retypeAt i
    have hstep : RetypedFrom q g (pushStep q acc i) ∧ (pushStep q acc i)[n]? = g[n]? ∧
        (pushStep q acc i)[i]? = (g[i]?).map (retype q) := by
      have hdone : (retypeAt q acc i)[i]? = (g[i]?).map (retype q) := by
        rw [getElem?_retypeAt]
        simp only [if_true]
        rcases hacc i with h' | h'
        · rw [h']
        · rw [h']; cases g[i]? <;> rfl
      have hn1 : (retypeAt q acc i)[n]? = g[n]? := by
        rw [getElem?_retypeAt, if_neg (Nat.ne_of_gt hi_lt), hn]
      rcases pushStep_eq q acc i with heq | ⟨o, p, ho, hp, heq⟩
      · rw [heq]
        exact ⟨h1, hn1, hdone⟩
      · rw [heq]
        obtain ⟨o0, ho0, hops, _⟩ := hacc.operands ho
        have hp_lt : p < i := hssa.operand_lt ho0 (List.mem_iff_getElem?.mpr ⟨0, hops ▸ hp⟩)
        refine ⟨h1.retypeAt p, ?_, ?_⟩
        · rw [getElem?_retypeAt, if_neg (by omega), hn1]
        · rw [getElem?_retypeAt, if_neg (by omega), hdone]
    rw [List.foldl_cons]
    obtain ⟨hR, hN, hD⟩ := ih hrest (pushStep q acc i) hstep.1 hstep.2.1
    refine ⟨hR, hN, ?_⟩
    intro j hj
    rcases List.mem_cons.mp hj with rfl | hj
    · -- the input visited first stays re-typed
      have hkeep : ∀ (l : List Nat) (a : Graph), RetypedFrom q g a →
          a[j]? = (g[j]?).map (retype q) →
          (l.foldl (pushStep q) a)[j]? = (g[j]?).map (retype q) := by
        intro l
        induction l with
        | nil => intro a _ ha; exact ha
        | cons k l ihl =>
          intro a hRa ha
          rw [List.foldl_cons]
          have hk1 : RetypedFrom q g (retypeAt q a k) := hRa.retypeAt k
          have hd1 : (retypeAt q a k)[j]? = (g[j]?).map (retype q) := by
            rw [getElem?_retypeAt]
            by_cases hjk : j = k
            · subst hjk
              simp only [if_true]
              rw [ha]; cases g[j]? <;> rfl
            · simp only [hjk, if_false]; exact ha
          rcases pushStep_eq q a k with heq | ⟨o, p, _, _, heq⟩
          · rw [heq]; exact ihl _ hk1 hd1
          · rw [heq]
            refine ihl _ (hk1.retypeAt p) ?_
            rw [getElem?_retypeAt]
            by_cases hjp : j = p
            · subst hjp
              simp only [if_true]
              rw [hd1]; cases g[j]? <;> rfl
            · simp only [hjp, if_false]; exact hd1
      exact hkeep rest _ hstep.1 hstep.2.2
    · exact hD j hj

theorem inputsAdmissible_of {g : Graph} {n : Nat} {inputs : List Nat}
    (hcal : ∀ i ∈ inputs, isCalibratedType g i = true)
    (huse : ∀ i ∈ inputs, ∀ u ∈ users g i,
      u = n ∨ ∃ uo, g[u]? = some uo ∧ uo.kind = .MaxPool) :
    inputsAdmissible g n inputs = true := by
  unfold inputsAdmissible
  rw [List.all_eq_true]
  intro i hi
  rw [Bool.and_eq_true]
  refine ⟨hcal i hi, ?_⟩
  rw [Bool.or_eq_true]
  right
  rw [List.all_eq_true]
  intro u hu
  rcases huse i hi u hu with rfl | ⟨uo, huo, hk⟩
  · simp
  · simp [huo, hk]

theorem polarityMismatch_false {g : Graph} {un_signed : Bool} {rest : List Nat}
    (h : ∀ i ∈ rest, ∀ q, getCalibratedType g i = some q → un_signed = decide (q.min ≥ 0)) :
    polarityMismatch g un_signed rest = false := by
  unfold polarityMismatch
  rw [List.any_eq_false]
  intro i hi
  cases hq : getCalibratedType g i with
  | none => simp
  | some q => simp [h i hi q hq]

theorem rangeOf_eq_some_iff {g : Graph} {v : Nat} {lo hi : ℚ} :
    rangeOf g v = some (lo, hi) ↔ ∃ q, getCalibratedType g v = some q ∧ q.min = lo ∧ q.max = hi := by
  unfold rangeOf
  cases hq : getCalibratedType g v with
  | none => simp
  | some q => simp

theorem sameAsFirst_iff {g : Graph} {q0 : CalibratedType} {in_0 : Nat} {rest : List Nat}
    (h0 : getCalibratedType g in_0 = some q0)
    (hcal : ∀ i ∈ in_0 :: rest, isCalibratedType g i = true) :
    sameAsFirst g q0 rest = true ↔
      ∀ i ∈ in_0 :: rest, rangeOf g i = some (q0.min, q0.max) := by
  unfold sameAsFirst
  rw [List.all_eq_true]
  constructor
  · intro h i hi
    rcases List.mem_cons.mp hi with rfl | hi'
    · exact rangeOf_eq_some_iff.mpr ⟨q0, h0, rfl, rfl⟩
    · have := h i hi'
      cases hq : getCalibratedType g i with
      | none =>
        have hc := hcal i hi
        unfold isCalibratedType at hc
        unfold getCalibratedType at hq
        rw [getCalibrated_eq_none.mp hq] at hc
        cases hc
      | some q =>
        rw [hq] at this
        simp only [Bool.and_eq_true, decide_eq_true_eq] at this
        exact rangeOf_eq_some_iff.mpr ⟨q, hq, this.1, this.2⟩
  · intro h i hi
    obtain ⟨q, hq, h1, h2⟩ := rangeOf_eq_some_iff.mp (h i (List.mem_cons_of_mem _ hi))
    rw [hq]
    simp [h1, h2]

/-- C10: a Min or Max (or a Concat whose inputs share the polarity of the first) with all
inputs and the output calibrated and every input used only by this operation or by
MaxPool operations.  If all inputs have the range `R` of the first input,
`BackwardMutiInSingleOut` declines when the output already has range `R` and otherwise
gives the output the range `R` and changes no input; if not, it gives every input the
output's range and leaves the operation itself, hence its output type, unchanged. -/
theorem BackwardMutiInSingleOut_unify (g : Graph) (n : Nat) (o : Op) (in_0 : Nat)
    (rest : List Nat) (q0 qout : CalibratedType) (hssa : SSA g) (hn : g[n]? = some o)
    (hops : o.operands = in_0 :: rest)
    (hk : o.kind = .Min ∨ o.kind = .Max ∨
      (o.kind = .Concat ∧
        ∀ i ∈ rest, ∀ q, getCalibratedType g i = some q → (q.min ≥ 0 ↔ q0.min ≥ 0)))
    (hcal : ∀ i ∈ o.operands, isCalibratedType g i = true)
    (huse : ∀ i ∈ o.operands, ∀ u ∈ users g i,
      u = n ∨ ∃ uo, g[u]? = some uo ∧ uo.kind = .MaxPool)
    (h0 : getCalibratedType g in_0 = some q0) (hout : o.type.elem = .calibrated qout) :
    ((∀ i ∈ o.operands, rangeOf g i = some (q0.min, q0.max)) →
      ((qout.min = q0.min ∧ qout.max = q0.max) →
        BackwardMutiInSingleOut g n = .failure g) ∧
      (¬ (qout.min = q0.min ∧ qout.max = q0.max) →
        ∃ g', BackwardMutiInSingleOut g n = .success g' ∧
          rangeOf g' n = some (q0.min, q0.max) ∧ ∀ i ∈ o.operands, g'[i]? = g[i]?)) ∧
    (¬ (∀ i ∈ o.operands, rangeOf g i = some (q0.min, q0.max)) →
      ∃ g', BackwardMutiInSingleOut g n = .success g' ∧
        (∀ i ∈ o.operands, rangeOf g' i = some (qout.min, qout.max)) ∧ g'[n]? = g[n]?) := by
  have hadm := inputsAdmissible_of hcal huse
  have hpol : ¬ (polarityMismatch g (decide (q0.min ≥ 0)) rest = true ∧ o.kind = .Concat) := by
    rintro ⟨hpm, hkc⟩
    rcases hk with hk | hk | ⟨_, hk⟩
    · rw [hk] at hkc; cases hkc
    · rw [hk] at hkc; cases hkc
    · rw [polarityMismatch_false] at hpm
      · cases hpm
      · intro i hi q hq
        have := hk i hi q hq
        by_cases h1 : q0.min ≥ 0
        · simp [h1, this.mpr h1]
        · have h2 : ¬ q.min ≥ 0 := fun h2 => h1 (this.mp h2)
          simp only [h1, h2]
  have hcal' : ∀ i ∈ in_0 :: rest, isCalibratedType g i = true := hops ▸ hcal
  have hsame := sameAsFirst_iff h0 hcal'
  have hstep : BackwardMutiInSingleOut g n =
      if sameAsFirst g q0 rest = true then
        if qout.min = q0.min ∧ qout.max = q0.max then .failure g
        else .success (setType g n { shape := o.type.shape, elem := .calibrated q0 })
      else .success (pushToInputs g qout o.operands) := by
    unfold BackwardMutiInSingleOut
    rw [hn]
    dsimp only
    rw [if_neg (by simp [hadm]), hout]
    dsimp only [ElemType.getCalibrated]
    rw [hops]
    dsimp only
    rw [h0]
    dsimp only
    rw [if_neg hpol]
  rw [hstep]
  constructor
  · intro hall
    have hs : sameAsFirst g q0 rest = true := hsame.mpr (hops ▸ hall)
    rw [if_pos hs]
    constructor
    · intro heq
      rw [if_pos heq]
    · intro hne
      rw [if_neg hne]
      refine ⟨_, rfl, ?_, ?_⟩
      · exact rangeOf_of_getElem? (getElem?_setType_self g _ hn) rfl
      · intro i hi
        exact getElem?_setType_ne g _ (Nat.ne_of_lt (hssa.operand_lt hn hi))
  · intro hnall
    have hs : ¬ sameAsFirst g q0 rest = true := fun hs => hnall (hops ▸ hsame.mp hs)
    rw [if_neg hs]
    obtain ⟨_, hN, hD⟩ := pushToInputs_spec (q := qout) hssa o.operands
      (fun i hi => hssa.operand_lt hn hi) g (fun _ => Or.inl rfl) rfl
    refine ⟨_, rfl, ?_, hN⟩
    intro i hi
    have hex : ∃ oi, g[i]? = some oi := by
      have hc := hcal i hi
      unfold isCalibratedType typeOf at hc
      cases hg : g[i]? with
      | none => rw [hg] at hc; simp [noneType, ElemType.isCalibrated] at hc
      | some oi => exact ⟨oi, rfl⟩
    obtain ⟨oi, hoi⟩ := hex
    have := hD i hi
    rw [hoi] at this
    exact rangeOf_of_getElem? (q := qout) this rfl

/-- Witness of C10: on `maxGraph` the inputs `[0,5]` and `[-5,5]` differ, so both take the
output's range `[0,4]` and the Max itself is unchanged. -/
theorem BackwardMutiInSingleOut_unify_witness :
    ∃ g', BackwardMutiInSingleOut maxGraph 2 = .success g' ∧
      (∀ i ∈ [0, 1], rangeOf g' i = some (0, 4)) ∧ g'[2]? = maxGraph[2]? :=
  (BackwardMutiInSingleOut_unify maxGraph 2 _ 0 [1] ⟨.f32, 0, 5⟩ ⟨.f32, 0, 4⟩ (by decide) rfl rfl
    (Or.inr (Or.inl rfl)) (by decide) (by decide) rfl rfl).2 (by decide!)

/-- Witness of C8: on `concatGraph` (inputs `[0,5]` and `[-5,5]`) the pattern reports
failure and the graph is as before. -/
theorem BackwardMutiInSingleOut_concat_mismatch_witness :
    BackwardMutiInSingleOut concatGraph 2 = .failure concatGraph :=
  BackwardMutiInSingleOut_concat_mismatch concatGraph 2 _ 0 [1] ⟨.f32, 0, 5⟩ rfl rfl rfl rfl
    ⟨1, by decide, ⟨.f32, -5, 5⟩, rfl, by decide!⟩

/-- Witness of C9: on `compareGraph` the operands `[0,5]` and `[-3,3]` both end with
`[-3,5]`, and the pattern then declines. -/
theorem CompareCalibartion_union_witness :
    ∃ g', CompareCalibartion compareGraph 2 = .success g' ∧
      rangeOf g' 0 = some (-3, 5) ∧ rangeOf g' 1 = some (-3, 5) ∧
      CompareCalibartion g' 2 = .failure g' := by
  obtain ⟨g', h1, h2, h3, _, _, h6⟩ :=
    (CompareCalibartion_union compareGraph 2 _ 0 1 ⟨.f32, 0, 5⟩ ⟨.f32, -3, 3⟩ rfl rfl rfl rfl
      rfl).2 (by decide!)
  refine ⟨g', h1, ?_, ?_, h6⟩
  · rw [h2]; norm_num
  · rw [h3]; norm_num

/-- Witness of C7: on `mulGraph` both operands are classified non-negative (an input with
range `[0,1]` and the single-element weight 2) and the output `[-1,2]` is signed, so the
pattern stops with the fatal error. -/
theorem KeepMulSignPattern_fatal_iff_witness : KeepMulSignPattern mulGraph 2 = .fatal :=
  (KeepMulSignPattern_fatal_iff mulGraph 2 _ rfl (by
    intro v hv
    have hv' : v ∈ ([0, 1] : List Nat) := hv
    simp only [List.mem_cons, List.mem_singleton, List.not_mem_nil, or_false] at hv'
    rcases hv' with rfl | rfl
    · exact ⟨_, rfl, fun _ => rfl⟩
    · exact ⟨_, rfl, fun h => absurd rfl h⟩)).1.mpr
    ⟨0, 1, ⟨.f32, -1, 2⟩, rfl, rfl, by norm_num,
      ⟨_, rfl, Or.inr ⟨by decide, ⟨.f32, 0, 1⟩, rfl, le_refl _⟩⟩,
      ⟨_, rfl, Or.inl ⟨rfl, 2, rfl, by norm_num⟩⟩⟩

/-! ### The Where scenario through `calibration_process` -/

theorem applyPatterns_miss {m : QuantizeMap} {ps : List Pattern} {g : Graph} {n : Nat}
    (h : ∀ o, g[n]? = some o → ∀ p ∈ ps, o.kind ≠ p.root) :
    applyPatterns m ps g n = .failure g := by
  induction ps with
  | nil => rfl
  | cons p ps ih =>
    unfold applyPatterns
    cases ho : g[n]? with
    | none => rfl
    | some o =>
      dsimp only
      rw [if_neg (h o ho p (List.mem_cons_self _ _))]
      exact ih (fun o' ho' q hq => h o' ho' q (List.mem_cons_of_mem _ hq))

theorem sweep_miss {m : QuantizeMap} {ps : List Pattern} {g : Graph}
    (h : ∀ (n : Nat) (o : Op), g[n]? = some o → ∀ p ∈ ps, o.kind ≠ p.root) (order : List Nat) (ch : Bool) :
    sweep m ps order g ch = (.done g, ch) := by
  induction order with
  | nil => rfl
  | cons n rest ih =>
    unfold sweep
    rw [applyPatterns_miss (h n)]
    exact ih

/-- A phase none of whose patterns is rooted at a kind present in the graph leaves the
graph as it is. -/
theorem greedyLoop_miss {m : QuantizeMap} {ps : List Pattern} {g : Graph}
    (h : ∀ (n : Nat) (o : Op), g[n]? = some o → ∀ p ∈ ps, o.kind ≠ p.root) (c : GreedyRewriteConfig)
    (k : Nat) : greedyLoop m c ps k g = .done g := by
  cases k with
  | zero => rfl
  | succ k =>
    unfold greedyLoop
    rw [sweep_miss h]

/-- A pass that reports no change ends the phase. -/
theorem greedyLoop_stop {m : QuantizeMap} {ps : List Pattern} {c : GreedyRewriteConfig}
    {g g' : Graph} (h : sweep m ps (worklist c g) g false = (.done g', false)) (k : Nat) :
    greedyLoop m c ps (k + 1) g = .done g' := by
  unfold greedyLoop
  rw [h]

/-- A pass that reports a change, followed by a state in which a pass reports none, ends
the phase in that state. -/
theorem greedyLoop_change_stop {m : QuantizeMap} {ps : List Pattern}
    {c : GreedyRewriteConfig} {g g' : Graph}
    (h : sweep m ps (worklist c g) g false = (.done g', true))
    (h' : sweep m ps (worklist c g') g' false = (.done g', false)) (k : Nat) :
    greedyLoop m c ps (k + 1) g = .done g' := by
  unfold greedyLoop
  rw [h]
  dsimp only
  cases k with
  | zero => rfl
  | succ k => exact greedyLoop_stop h' k

theorem sweep_cons_failure {m : QuantizeMap} {ps : List Pattern} {g g' : Graph} {n : Nat}
    (h : applyPatterns m ps g n = .failure g') (rest : List Nat) (ch : Bool) :
    sweep m ps (n :: rest) g ch = sweep m ps rest g' ch := by
  rw [sweep, h]

theorem sweep_cons_success {m : QuantizeMap} {ps : List Pattern} {g g' : Graph} {n : Nat}
    (h : applyPatterns m ps g n = .success g') (rest : List Nat) (ch : Bool) :
    sweep m ps (n :: rest) g ch = sweep m ps rest g' true := by
  rw [sweep, h]

theorem backwardPatterns_root_miss (md : Module) :
    ∀ p ∈ backwardPatterns md, p.root ∉ [OpKind.Input, .Input, .None, .Where, .Return] := by
  unfold backwardPatterns
  cases md.chip <;> simp [isCV18xx, Pattern.root]

theorem forwardPatterns_root_miss (md : Module) :
    ∀ p ∈ forwardPatterns md, p.root ∉ [OpKind.Input, .Input, .None, .Where, .Return] := by
  unfold forwardPatterns
  cases md.chip <;> simp [isCV18xx, isBM1684Family, Pattern.root]

theorem sweep_miss_list {m : QuantizeMap} {ps : List Pattern} {g : Graph} :
    ∀ (order : List Nat), (∀ j ∈ order, applyPatterns m ps g j = .failure g) → ∀ ch,
      sweep m ps order g ch = (.done g, ch)
  | [], _, _ => rfl
  | a :: rest, h, ch => by
    rw [sweep_cons_failure (h a (List.mem_cons_self _ _))]
    exact sweep_miss_list rest (fun j hj => h j (List.mem_cons_of_mem _ hj)) ch

/-- A pass in which the patterns decline on every operation but `n`, where they
report failure and leave the graph `g1`. -/
theorem sweep_single_failure {m : QuantizeMap} {ps : List Pattern} {g g1 : Graph} {n : Nat}
    (hg : ∀ j, j ≠ n → applyPatterns m ps g j = .failure g)
    (hg1 : ∀ j, j ≠ n → applyPatterns m ps g1 j = .failure g1)
    (hn : applyPatterns m ps g n = .failure g1) :
    ∀ (order : List Nat), order.Nodup → n ∈ order → ∀ ch,
      sweep m ps order g ch = (.done g1, ch)
  | [], _, h, _ => absurd h (List.not_mem_nil n)
  | a :: rest, hnd, hmem, ch => by
    have hnd' := List.nodup_cons.mp hnd
    by_cases ha : a = n
    · subst ha
      rw [sweep_cons_failure hn]
      exact sweep_miss_list rest (fun j hj => hg1 j (fun h => hnd'.1 (h ▸ hj))) ch
    · rw [sweep_cons_failure (hg a ha)]
      have hmem' : n ∈ rest := by
        rcases List.mem_cons.mp hmem with h | h
        · exact absurd h.symm ha
        · exact h
      exact sweep_single_failure hg hg1 hn rest hnd'.2 hmem' ch

/-- A pass in which the patterns decline on every operation but `n`, where they
report success and leave the graph `g1`. -/
theorem sweep_single_success {m : QuantizeMap} {ps : List Pattern} {g g1 : Graph} {n : Nat}
    (hg : ∀ j, j ≠ n → applyPatterns m ps g j = .failure g)
    (hg1 : ∀ j, j ≠ n → applyPatterns m ps g1 j = .failure g1)
    (hn : applyPatterns m ps g n = .success g1) :
    ∀ (order : List Nat), order.Nodup → n ∈ order → ∀ ch,
      sweep m ps order g ch = (.done g1, true)
  | [], _, h, _ => absurd h (List.not_mem_nil n)
  | a :: rest, hnd, hmem, ch => by
    have hnd' := List.nodup_cons.mp hnd
    by_cases ha : a = n
    · subst ha
      rw [sweep_cons_success hn]
      exact sweep_miss_list rest (fun j hj => hg1 j (fun h => hnd'.1 (h ▸ hj))) true
    · rw [sweep_cons_failure (hg a ha)]
      have hmem' : n ∈ rest := by
        rcases List.mem_cons.mp hmem with h | h
        · exact absurd h.symm ha
        · exact h
      exact sweep_single_success hg hg1 hn rest hnd'.2 hmem' ch

theorem worklist_nodup (c : GreedyRewriteConfig) (g : Graph) : (worklist c g).Nodup := by
  unfold worklist
  split
  · exact List.nodup_range _
  · exact List.nodup_reverse.mpr (List.nodup_range _)

theorem map_kind_setType (g : Graph) (v : Nat) (t : TensorType) :
    (setType g v t).map Op.kind = g.map Op.kind := by
  apply List.ext_getElem?
  intro j
  rw [List.getElem?_map, List.getElem?_map, getElem?_setType]
  by_cases hj : j = v
  · subst hj
    rw [if_pos rfl]
    cases g[j]? <;> rfl
  · rw [if_neg hj]

theorem kind_of_map_kind {g h : Graph} (hk : h.map Op.kind = g.map Op.kind) {j : Nat} {o : Op}
    (ho : h[j]? = some o) : ∃ o0, g[j]? = some o0 ∧ o0.kind = o.kind := by
  have h1 : (h.map Op.kind)[j]? = some o.kind := by rw [List.getElem?_map, ho]; rfl
  rw [hk, List.getElem?_map] at h1
  cases hg : g[j]? with
  | none => rw [hg] at h1; cases h1
  | some o0 =>
    rw [hg] at h1
    exact ⟨o0, rfl, by simpa using h1⟩

/-- In a graph with the kinds of `g`, whose only rooted operation is the Where
at `n`, the patterns of a phase that has no rule for Where decline everywhere. -/
theorem unrooted_miss {md : Module} {g h : Graph} {n : Nat} {o : Op}
    (hn : g[n]? = some o) (hk : o.kind = .Where) (hothers : OthersUnrooted md g n)
    (hkinds : h.map Op.kind = g.map Op.kind) {ps : List Pattern}
    (hsub : ∀ p ∈ ps, p ∈ calibration_process.patterns md)
    (hw : ∀ p ∈ ps, p.root ≠ .Where) :
    ∀ (j : Nat) (oj : Op), h[j]? = some oj → ∀ p ∈ ps, oj.kind ≠ p.root := by
  intro j oj hj p hp
  obtain ⟨o0, ho0, hk0⟩ := kind_of_map_kind hkinds hj
  rw [← hk0]
  by_cases hjn : j = n
  · subst hjn
    rw [hn] at ho0
    cases ho0
    rw [hk]
    exact (hw p hp).symm
  · exact hothers j (List.getElem?_eq_some.mp ho0).1 hjn o0 (by simpa using ho0) p (hsub p hp)

/-- Away from the Where the selective patterns decline. -/
theorem selective_miss_at {md : Module} {g h : Graph} {n : Nat}
    (hothers : OthersUnrooted md g n) (hkinds : h.map Op.kind = g.map Op.kind)
    {j : Nat} (hjn : j ≠ n) :
    applyPatterns md.quantize_map [.SelectiveWhere, .SelectiveMaskedFill] h j = .failure h := by
  apply applyPatterns_miss
  intro oj hj p hp
  obtain ⟨o0, ho0, hk0⟩ := kind_of_map_kind hkinds hj
  rw [← hk0]
  refine hothers j (List.getElem?_eq_some.mp ho0).1 hjn o0 (by simpa using ho0) p ?_
  unfold calibration_process.patterns
  simp only [List.mem_append]
  exact Or.inl (Or.inr hp)

theorem selective_success {m : QuantizeMap} {g g1 : Graph} {n : Nat} {o : Op}
    (ho : g[n]? = some o) (hk : o.kind = .Where) (h : SelectiveWhere m g n = .success g1) :
    applyPatterns m [.SelectiveWhere, .SelectiveMaskedFill] g n = .success g1 := by
  unfold applyPatterns
  rw [ho]
  dsimp only
  rw [if_pos (by rw [hk]; rfl)]
  unfold Pattern.matchAndRewrite
  dsimp only
  rw [h]

theorem selective_failure {m : QuantizeMap} {g g1 : Graph} {n : Nat} {o o1 : Op}
    (ho : g[n]? = some o) (hk : o.kind = .Where) (ho1 : g1[n]? = some o1)
    (hk1 : o1.kind = .Where) (h : SelectiveWhere m g n = .failure g1) :
    applyPatterns m [.SelectiveWhere, .SelectiveMaskedFill] g n = .failure g1 := by
  unfold applyPatterns
  rw [ho]
  dsimp only
  rw [if_pos (by rw [hk]; rfl)]
  unfold Pattern.matchAndRewrite
  dsimp only
  rw [h]
  dsimp only
  unfold applyPatterns
  rw [ho1]
  dsimp only
  rw [if_neg (by rw [hk1]; decide)]
  rfl

/-- The first invocation of `SelectiveWhere` in the scenario: the output is
widened to the constant, the inputs are left alone, and the result is
`failure`. -/
theorem SelectiveWhere_widens (m : QuantizeMap) {g : Graph} {n : Nat} {o : Op} {e : StorageKind}
    (hn : g[n]? = some o)
    (hout : o.type.elem = .calibrated { expressed := e, min := -10, max := 10 })
    (hy : o.y_is_const = true) (hyv : o.y_const_val = -50) (hxc : o.x_is_const = false) :
    SelectiveWhere m g n = .failure (setType g n
      { shape := o.type.shape, elem := .calibrated { expressed := e, min := -5, max := 50 } }) := by
  have hc : whereConst o = (50, true) := by
    unfold whereConst
    rw [hy, hyv, hxc]
    norm_num [abs_of_neg]
  have hw : widenToConst g n o { expressed := e, min := -10, max := 10 } 50 true =
      (setType g n
        { shape := o.type.shape
          elem := .calibrated { expressed := e, min := -5, max := 50 } }, true) := by
    unfold widenToConst
    rw [if_pos (by norm_num)]
    norm_num
  unfold SelectiveWhere
  rw [hn]
  dsimp only
  rw [hout]
  dsimp only [ElemType.getCalibrated]
  rw [hc]
  dsimp only
  rw [hw]
  simp [hy, hxc]

/-- A later invocation of `SelectiveWhere` in the scenario: the output is
`[-5,50]` already, and the tensor input is made to follow it. -/
theorem SelectiveWhere_follows (m : QuantizeMap) {g : Graph} {n x : Nat} {o : Op}
    {e : StorageKind} {q : CalibratedType} (hn : g[n]? = some o)
    (hout : o.type.elem = .calibrated { expressed := e, min := -5, max := 50 })
    (hy : o.y_is_const = true) (hyv : o.y_const_val = -50) (hxc : o.x_is_const = false)
    (hpin : pinnedFloat m o.name = false) (hx : o.operands[1]? = some x)
    (hq : getCalibratedType g x = some q) :
    SelectiveWhere m g n =
      if q.min ≠ -5 ∨ q.max ≠ 50 then
        .success (setType g x
          { shape := (typeOf g x).shape
            elem := .calibrated { expressed := q.expressed, min := -5, max := 50 } })
      else .failure g := by
  have hc : whereConst o = (50, true) := by
    unfold whereConst
    rw [hy, hyv, hxc]
    norm_num [abs_of_neg]
  have hw : widenToConst g n o { expressed := e, min := -5, max := 50 } 50 true = (g, false) := by
    unfold widenToConst
    rw [if_neg (by norm_num)]
  have hf : followOutput g x { expressed := e, min := -5, max := 50 } =
      if q.min ≠ -5 ∨ q.max ≠ 50 then
        some (setType g x
          { shape := (typeOf g x).shape
            elem := .calibrated { expressed := q.expressed, min := -5, max := 50 } }, true)
      else some (g, false) := by
    unfold followOutput
    rw [hq]
  unfold SelectiveWhere
  rw [hn]
  dsimp only
  rw [hout]
  dsimp only [ElemType.getCalibrated]
  rw [hc]
  dsimp only
  rw [hw]
  dsimp only
  rw [hpin, hxc, hy, hx]
  simp only [Bool.or_false, and_self, if_true, Bool.true_eq_false, false_and, if_false]
  rw [hf]
  by_cases h : q.min ≠ -5 ∨ q.max ≠ 50
  · simp only [h, if_true, Bool.or_false]
  · simp only [h, if_false, Bool.or_false, Bool.false_eq_true]

theorem backwardPatterns_no_where (md : Module) : ∀ p ∈ backwardPatterns md, p.root ≠ .Where := by
  intro p hp h
  exact backwardPatterns_root_miss md p hp (by rw [h]; simp)

theorem forwardPatterns_no_where (md : Module) : ∀ p ∈ forwardPatterns md, p.root ≠ .Where := by
  intro p hp h
  exact forwardPatterns_root_miss md p hp (by rw [h]; simp)

/-- When the patterns of every phase without a rule for Where leave the graphs
`g` and `gW` as they are, `calibration_process` outside the 8-bit floating
modes is its two selective phases, one after the other. -/
theorem calibration_process_selective_only (md : Module) (g gW g' : Graph)
    (hstate : md.state = .TOP_CALIBRATED) (hmode : isF8Modes md.mode = false)
    (hg : ∀ (ps : List Pattern), (∀ p ∈ ps, p ∈ calibration_process.patterns md) →
      (∀ p ∈ ps, p.root ≠ .Where) → applyPatternsAndFoldGreedily md ps g = .done g)
    (hgW : ∀ (ps : List Pattern), (∀ p ∈ ps, p ∈ calibration_process.patterns md) →
      (∀ p ∈ ps, p.root ≠ .Where) → applyPatternsAndFoldGreedily md ps gW = .done gW)
    (hsel1 : applyPatternsAndFoldGreedily md [.SelectiveWhere, .SelectiveMaskedFill] g =
      .done gW)
    (hsel2 : applyPatternsAndFoldGreedily md [.SelectiveWhere, .SelectiveMaskedFill] gW =
      .done g') :
    calibration_process md g = .done g' := by
  have hin1 : ∀ p ∈ [Pattern.ForwardCalibartion .Reshape, .ForwardCalibartion .Permute],
      p ∈ calibration_process.patterns md := by
    intro p hp
    unfold calibration_process.patterns
    simp only [List.mem_append]
    tauto
  have hin2 : ∀ p ∈ keepSignPatterns, p ∈ calibration_process.patterns md := by
    intro p hp
    unfold calibration_process.patterns
    simp only [List.mem_append]
    tauto
  have hin3 : ∀ p ∈ [Pattern.KeepMulSignPattern .Mul, .SetSubConstSignPattern],
      p ∈ calibration_process.patterns md := by
    intro p hp
    unfold calibration_process.patterns
    simp only [List.mem_append]
    tauto
  have hin4 : ∀ p ∈ [Pattern.BackwardMutiInSingleOut .Concat, .BackwardMutiInSingleOut .Min,
      .BackwardMutiInSingleOut .Max], p ∈ calibration_process.patterns md := by
    intro p hp
    unfold calibration_process.patterns
    simp only [List.mem_append]
    tauto
  have hin5 : ∀ p ∈ backwardPatterns md, p ∈ calibration_process.patterns md := by
    intro p hp
    unfold calibration_process.patterns
    simp only [List.mem_append]
    tauto
  have hin6 : ∀ p ∈ [Pattern.CompareCalibartion], p ∈ calibration_process.patterns md := by
    intro p hp
    unfold calibration_process.patterns
    simp only [List.mem_append]
    tauto
  have hin7 : ∀ p ∈ forwardPatterns md, p ∈ calibration_process.patterns md := by
    intro p hp
    unfold calibration_process.patterns
    simp only [List.mem_append]
    tauto
  unfold calibration_process
  rw [if_neg (by rw [hstate]; decide)]
  rw [hg _ hin1 (by decide)]
  simp only [Run.andThen]
  rw [hg keepSignPatterns hin2 (by decide)]
  simp only [Run.andThen]
  have h3 : (if isCV18xx md.chip = false ∧ isF8Modes md.mode = false then
      applyPatternsAndFoldGreedily md [.KeepMulSignPattern .Mul, .SetSubConstSignPattern] g
      else .done g) = .done g := by
    split
    · exact hg _ hin3 (by decide)
    · rfl
  rw [h3]
  simp only [Run.andThen]
  rw [hg _ hin4 (by decide)]
  simp only [Run.andThen]
  rw [hg _ hin5 (backwardPatterns_no_where md)]
  simp only [Run.andThen]
  rw [hg [.CompareCalibartion] hin6 (by decide)]
  simp only [Run.andThen]
  rw [if_pos hmode, hsel1]
  simp only [Run.andThen]
  rw [hgW _ hin7 (forwardPatterns_no_where md)]
  simp only [Run.andThen]
  rw [hgW keepSignPatterns hin2 (by decide)]
  simp only [Run.andThen]
  exact hsel2

theorem flatMap_block {α : Type} (f : Nat → List α) (b : Nat) :
    ∀ (d : Nat), (∀ i, i < d → (f i).length = b) →
      ((List.range d).flatMap f).length = d * b ∧
      ∀ i j, i < d → j < b → ((List.range d).flatMap f)[i * b + j]? = (f i)[j]?
  | 0, _ => by simp
  | d + 1, h => by
    have ih := flatMap_block f b d (fun i hi => h i (by omega))
    have hlast := h d (by omega)
    rw [List.range_succ, List.flatMap_append]
    simp only [List.flatMap_cons, List.flatMap_nil, List.append_nil, List.length_append]
    refine ⟨by rw [ih.1, hlast]; ring, ?_⟩
    intro i j hi hj
    by_cases hid : i < d
    · have hlt : i * b + j < ((List.range d).flatMap f).length := by
        rw [ih.1]
        calc i * b + j < i * b + b := by omega
          _ = (i + 1) * b := by ring
          _ ≤ d * b := Nat.mul_le_mul_right b (by omega)
      rw [List.getElem?_append_left hlt]
      exact ih.2 i j hid hj
    · have hd : i = d := by omega
      subst hd
      rw [List.getElem?_append_right (by rw [ih.1]; omega), ih.1]
      congr 1
      omega

theorem toInt32_of_lt {x : Nat} (h : x < 2147483648) : toInt32 (x : Int) = x := by
  unfold toInt32
  omega

theorem intResult_of_lt {x : Nat} (h : x < 2147483648) : intResult (x : Int) = some (x : Int) := by
  unfold intResult
  rw [if_pos (by omega)]

theorem int64Result_of_lt {x : Nat} (h : x < 2147483648) :
    int64Result (x : Int) = some (x : Int) := by
  unfold int64Result
  rw [if_pos (by omega)]

theorem rowMajor_lt : ∀ (ds idx : List Nat), InShape idx ds → rowMajor ds idx < ds.prod
  | _, _, .nil => by simp [rowMajor]
  | _, _, @List.Forall₂.cons _ _ _ i d is ds hid h => by
    have ih := rowMajor_lt ds is h
    simp only [rowMajor, List.prod_cons]
    calc i * ds.prod + rowMajor ds is < i * ds.prod + ds.prod := by omega
      _ = (i + 1) * ds.prod := by ring
      _ ≤ d * ds.prod := Nat.mul_le_mul_right _ (by omega)

theorem loopNest_length (axis : Nat) :
    ∀ (ds ss : List Nat) (k acc : Nat), (loopNest axis k ds ss acc).length = ds.prod
  | [], _, _, _ => by simp [loopNest]
  | d :: ds, ss, k, acc => by
    simp only [loopNest, List.prod_cons]
    exact (flatMap_block _ ds.prod d (fun i _ => loopNest_length axis ds _ _ _)).1

theorem headD_mul_tail_prod (ss : List Nat) : ss.headD 1 * ss.tail.prod = ss.prod := by
  cases ss <;> simp

theorem loopNest_getElem? (axis : Nat) :
    ∀ (ds idx : List Nat), InShape idx ds → ∀ (ss : List Nat) (k acc : Nat),
      ss.length = ds.length →
      (loopNest axis k ds ss acc)[rowMajor ds idx]? =
        some (acc * ss.tail.prod + offsetSkipAxis axis k ss idx)
  | _, _, .nil, ss, k, acc, hs => by
    cases ss with
    | nil => simp [loopNest, rowMajor, offsetSkipAxis]
    | cons _ _ => simp at hs
  | _, _, @List.Forall₂.cons _ _ _ i d is ds hid h, ss, k, acc, hs => by
    cases ss with
    | nil => simp at hs
    | cons s ss =>
      have hs' : ss.length = ds.length := by simpa using hs
      simp only [loopNest, rowMajor, List.tail_cons]
      rw [(flatMap_block _ ds.prod d (fun i _ => loopNest_length axis ds _ _ _)).2 i _ hid
        (rowMajor_lt ds is h)]
      rw [loopNest_getElem? axis ds is h ss (k + 1) _ hs']
      simp only [offsetSkipAxis, Option.some.injEq]
      rw [mul_assoc, headD_mul_tail_prod]
      split <;> ring

theorem eight_eq (f : Nat → Nat) :
    ∀ (l : List Nat), l.length = 8 → (∀ i, i < 8 → l.getD i 0 = f i) →
      [f 0, f 1, f 2, f 3, f 4, f 5, f 6, f 7] = l
  | [a0, a1, a2, a3, a4, a5, a6, a7], _, h => by
    have h0 := h 0 (by omega)
    have h1 := h 1 (by omega)
    have h2 := h 2 (by omega)
    have h3 := h 3 (by omega)
    have h4 := h 4 (by omega)
    have h5 := h 5 (by omega)
    have h6 := h 6 (by omega)
    have h7 := h 7 (by omega)
    simp at h0 h1 h2 h3 h4 h5 h6 h7
    simp [h0, h1, h2, h3, h4, h5, h6, h7]

theorem getD_append_replicate (l : List Nat) (m i a : Nat) (hi : i < l.length + m) :
    (l ++ List.replicate m a).getD i 0 = if i < l.length then l.getD i a else a := by
  by_cases h : i < l.length
  · simp [h, List.getD_eq_getElem?_getD, List.getElem?_append_left h]
  · simp only [h, if_false, List.getD_eq_getElem?_getD]
    rw [List.getElem?_append_right (by omega)]
    have hlt : i - l.length < m := by omega
    simp [List.getElem?_replicate, hlt]

theorem InShape.length_eq {idx ds : List Nat} (h : InShape idx ds) : idx.length = ds.length :=
  List.Forall₂.length_eq h

theorem InShape.pad {idx ds : List Nat} (h : InShape idx ds) (m : Nat) :
    InShape (idx ++ List.replicate m 0) (ds ++ List.replicate m 1) := by
  induction h with
  | nil =>
    induction m with
    | zero => exact .nil
    | succ m ih => exact .cons (by omega) ih
  | cons hid _ ih => exact .cons hid ih

theorem rowMajor_replicate (m : Nat) :
    rowMajor (List.replicate m 1) (List.replicate m 0) = 0 := by
  induction m with
  | zero => rfl
  | succ m ih => simp [List.replicate_succ, rowMajor, ih]

theorem rowMajor_pad : ∀ (ds idx : List Nat), InShape idx ds → ∀ m,
    rowMajor (ds ++ List.replicate m 1) (idx ++ List.replicate m 0) = rowMajor ds idx
  | _, _, .nil, m => by simpa [rowMajor] using rowMajor_replicate m
  | _, _, @List.Forall₂.cons _ _ _ _ _ is ds _ h, m => by
    simp [rowMajor, rowMajor_pad ds is h m]

theorem offsetSkipAxis_replicate (axis m : Nat) : ∀ k,
    offsetSkipAxis axis k (List.replicate m 1) (List.replicate m 0) = 0 := by
  induction m with
  | zero => intro k; rfl
  | succ m ih => intro k; simp [List.replicate_succ, offsetSkipAxis, ih]

theorem offsetSkipAxis_pad (axis m : Nat) : ∀ (ss idx : List Nat), idx.length = ss.length →
    ∀ k, offsetSkipAxis axis k (ss ++ List.replicate m 1) (idx ++ List.replicate m 0) =
      offsetSkipAxis axis k ss idx
  | [], [], _, k => by simpa using offsetSkipAxis_replicate axis m k
  | s :: ss, i :: is, h, k => by
    have h' : is.length = ss.length := by simpa using h
    simp [offsetSkipAxis, offsetSkipAxis_pad axis m ss is h' (k + 1)]
  | [], _ :: _, h, _ => by simp at h
  | _ :: _, [], h, _ => by simp at h

theorem offsetSkipAxis_of_lt (axis : Nat) : ∀ (ss idx : List Nat) (k : Nat), axis < k →
    offsetSkipAxis axis k ss idx = rowMajor ss idx
  | [], _, _, _ => by simp [offsetSkipAxis, rowMajor]
  | _ :: _, [], _, _ => by simp [offsetSkipAxis, rowMajor]
  | s :: ss, i :: is, k, h => by
    have hne : axis ≠ k := by omega
    simp [offsetSkipAxis, rowMajor, hne, offsetSkipAxis_of_lt axis ss is (k + 1) (by omega)]

theorem offsetSkipAxis_eq_rowMajor (axis : Nat) : ∀ (ss idx : List Nat) (k : Nat), k ≤ axis →
    offsetSkipAxis axis k ss idx = rowMajor ss (idx.set (axis - k) 0)
  | [], _, _, _ => by simp [offsetSkipAxis, rowMajor]
  | _ :: _, [], _, _ => by simp [offsetSkipAxis, rowMajor]
  | s :: ss, i :: is, k, h => by
    by_cases hk : axis = k
    · subst hk
      simp [offsetSkipAxis, rowMajor, offsetSkipAxis_of_lt axis ss is (axis + 1) (by omega)]
    · have hsub : axis - k = (axis - (k + 1)) + 1 := by omega
      rw [hsub]
      simp [offsetSkipAxis, rowMajor, hk,
        offsetSkipAxis_eq_rowMajor axis ss is (k + 1) (by omega)]

theorem offsetSkipAxis_eq_sum (axis : Nat) : ∀ (ss idx : List Nat) (k : Nat),
    idx.length = ss.length →
    offsetSkipAxis axis k ss idx =
      ((List.range idx.length).map fun j =>
        if k + j = axis then 0 else idx.getD j 0 * (ss.drop (j + 1)).prod).sum
  | [], [], _, _ => by simp [offsetSkipAxis]
  | s :: ss, i :: is, k, h => by
    have h' : is.length = ss.length := by simpa using h
    rw [List.length_cons, List.range_succ_eq_map]
    simp only [offsetSkipAxis, List.map_cons, List.sum_cons, List.map_map,
      offsetSkipAxis_eq_sum axis ss is (k + 1) h']
    congr 1
    · simp [eq_comm]
    · congr 1
      apply List.map_congr_left
      intro j _
      simp [Nat.add_assoc, Nat.add_comm 1 j]
  | [], _ :: _, _, h => by simp at h
  | _ :: _, [], _, h => by simp at h

theorem pad8_eq (l : List Nat) (hl : l.length ≤ 8) :
    [(fun i => if i < l.length then l.getD i 1 else 1) 0,
     (fun i => if i < l.length then l.getD i 1 else 1) 1,
     (fun i => if i < l.length then l.getD i 1 else 1) 2,
     (fun i => if i < l.length then l.getD i 1 else 1) 3,
     (fun i => if i < l.length then l.getD i 1 else 1) 4,
     (fun i => if i < l.length then l.getD i 1 else 1) 5,
     (fun i => if i < l.length then l.getD i 1 else 1) 6,
     (fun i => if i < l.length then l.getD i 1 else 1) 7] =
      l ++ List.replicate (8 - l.length) 1 := by
  refine eight_eq (fun i => if i < l.length then l.getD i 1 else 1) _ ?_ ?_
  · simp; omega
  · intro i hi
    exact getD_append_replicate l _ i 1 (by omega)

theorem mapM_eq_some_map {α β : Type} (g : α → Option β) (h : α → β) :
    ∀ (l : List α), (∀ i ∈ l, g i = some (h i)) → l.mapM g = some (l.map h)
  | [], _ => rfl
  | a :: l, hl => by
    rw [List.mapM_cons, hl a (List.mem_cons_self _ _),
      mapM_eq_some_map g h l (fun i hi => hl i (List.mem_cons_of_mem _ hi))]
    rfl

theorem forInt_eq (n : Nat) (body : Int → Option (List Int)) (f : Nat → List Nat)
    (h : ∀ i, i < n → body (i : Int) = some ((f i).map Int.ofNat)) :
    forInt (n : Int) body = some (((List.range n).flatMap f).map Int.ofNat) := by
  unfold forInt
  rw [Int.toNat_ofNat, mapM_eq_some_map _ (fun i => (f i).map Int.ofNat) _
    (fun i hi => h i (List.mem_range.mp hi))]
  simp [List.flatMap, List.map_flatten, Function.comp_def]

theorem forInt_congr (n : Int) (f g : Int → Option (List Int))
    (h : ∀ i : Nat, (i : Int) < n → f i = g i) : forInt n f = forInt n g := by
  unfold forInt
  have key : ∀ (l : List Nat), (∀ i ∈ l, (i : Int) < n) →
      l.mapM (fun (i : Nat) => f (i : Int)) = l.mapM (fun (i : Nat) => g (i : Int)) := by
    intro l
    induction l with
    | nil => intro _; rfl
    | cons a l ih =>
      intro hl
      rw [List.mapM_cons, List.mapM_cons, h a (hl a (List.mem_cons_self _ _)),
        ih (fun i hi => hl i (List.mem_cons_of_mem _ hi))]
  rw [key _ (fun i hi => by have := List.mem_range.mp hi; omega)]

theorem one_le_nestBound : ∀ (ds ss : List Nat), 1 ≤ nestBound ds ss
  | [], _ => by simp [nestBound]
  | d :: ds, ss => by
    have ih := one_le_nestBound ds ss.tail
    simp only [nestBound]
    exact Nat.one_le_iff_ne_zero.mpr (Nat.mul_ne_zero (by omega) (by omega))

theorem headBound_le_nestBound (ds ss : List Nat) (h : ss.length = ds.length) :
    max 1 (max (ds.headD 1) (ss.headD 1)) ≤ nestBound ds ss := by
  cases ds with
  | nil =>
    cases ss with
    | nil => simp [nestBound]
    | cons _ _ => simp at h
  | cons d ds =>
    have ih := one_le_nestBound ds ss.tail
    simp only [nestBound, List.headD_cons]
    exact Nat.le_mul_of_pos_right _ (by omega)

theorem loopLevel_eq (axis k acc i s : Nat) (h1 : acc + i < 2147483648)
    (h2 : (acc + (if axis = k then 0 else i)) * s < 2147483648) :
    loopLevel axis k (acc : Int) (i : Int) (s : Int) =
      some (((acc + (if axis = k then 0 else i)) * s : Nat) : Int) := by
  unfold loopLevel
  have e1 : (acc : Int) + (if axis = k then 0 else (i : Int)) =
      ((acc + (if axis = k then 0 else i) : Nat) : Int) := by
    split <;> simp
  rw [e1, intResult_of_lt (by split <;> omega)]
  show intResult _ = _
  rw [← Nat.cast_mul, intResult_of_lt h2]

theorem loopNestInt_eq (axis : Nat) :
    ∀ (ds ss : List Nat) (k acc M : Nat), ss.length = ds.length →
      acc + max 1 (max (ds.headD 1) (ss.headD 1)) ≤
        M * max 1 (max (ds.headD 1) (ss.headD 1)) →
      M * nestBound ds ss < 2147483648 →
      loopNestInt axis k (ds.map Int.ofNat) (ss.map Int.ofNat) (acc : Int) =
        some ((loopNest axis k ds ss acc).map Int.ofNat)
  | [], _, _, _, _, _, _, _ => by simp [loopNestInt, loopNest]
  | d :: ds, [], _, _, _, h, _, _ => by simp at h
  | d :: ds, s :: ss, k, acc, M, hlen, hacc, hM => by
    have hlen' : ss.length = ds.length := by simpa using hlen
    simp only [List.headD_cons] at hacc
    simp only [nestBound, List.headD_cons, List.tail_cons] at hM
    have hhead := headBound_le_nestBound ds ss hlen'
    have hone := one_le_nestBound ds ss
    generalize hm : max 1 (max d s) = m at hacc hM
    generalize hm' : max 1 (max (ds.headD 1) (ss.headD 1)) = m' at hhead
    generalize hB : nestBound ds ss = B at hM hhead hone
    have hmd : d ≤ m := by omega
    have hm1 : 1 ≤ m := by omega
    have hs' : ss.headD 1 ≤ m' := by omega
    have hm1' : 1 ≤ m' := by omega
    have hMm : M * m < 2147483648 := by
      calc M * m ≤ M * (m * B) := Nat.mul_le_mul_left _ (Nat.le_mul_of_pos_right _ hone)
        _ < 2147483648 := hM
    have hMmm : M * m * m' < 2147483648 + 0 := by
      calc M * m * m' ≤ M * m * B := Nat.mul_le_mul_left _ hhead
        _ = M * (m * B) := Nat.mul_assoc _ _ _
        _ < 2147483648 + 0 := hM
    simp only [loopNestInt, loopNest, List.map_cons, List.tail_cons]
    show forInt ((d : Nat) : Int) _ = _
    apply forInt_eq
    intro i hi
    have ht : acc + (if axis = k then 0 else i) + 1 ≤ M * m := by
      split <;> omega
    have hmul : (acc + (if axis = k then 0 else i)) * ss.headD 1 + m' ≤ M * m * m' := by
      calc (acc + (if axis = k then 0 else i)) * ss.headD 1 + m'
          ≤ (acc + (if axis = k then 0 else i)) * m' + m' :=
            Nat.add_le_add_right (Nat.mul_le_mul_left _ hs') _
        _ = (acc + (if axis = k then 0 else i) + 1) * m' := by ring
        _ ≤ M * m * m' := Nat.mul_le_mul_right _ ht
    have hnext : (List.map Int.ofNat ss).headD 1 = ((ss.headD 1 : Nat) : Int) := by
      cases ss <;> rfl
    rw [hnext, loopLevel_eq axis k acc i (ss.headD 1) (by omega) (by omega)]
    show loopNestInt axis (k + 1) (ds.map Int.ofNat) (ss.map Int.ofNat) _ = _
    exact loopNestInt_eq axis ds ss (k + 1) _ (M * m) hlen' (by rw [hm']; exact hmul)
      (by rw [hB, Nat.mul_assoc]; exact hM)

theorem loops_eq_loopNestInt (axis : Nat) (d s : Nat → Int) (h7 : axis ≠ 7 ∨ d 7 = 1) :
    GatherElementsPattern.loops axis d s =
      loopNestInt axis 0 [d 0, d 1, d 2, d 3, d 4, d 5, d 6, d 7]
        [s 0, s 1, s 2, s 3, s 4, s 5, s 6, s 7] 0 := by
  have hlast : ∀ t : Int,
      forInt (d 7) (fun i7 => (intResult (t + i7)).map fun tmp7 => [tmp7]) =
        forInt (d 7) fun i => (loopLevel axis 7 t i 1).bind fun tmp => some [tmp] := by
    intro t
    apply forInt_congr
    intro i hi
    have e : (if axis = 7 then (0 : Int) else (i : Int)) = (i : Int) := by
      split
      · rcases h7 with h | h
        · exact absurd ‹axis = 7› h
        · omega
      · rfl
    unfold loopLevel
    rw [e]
    unfold intResult
    split
    · rename_i hr
      simp [hr]
    · rfl
  simp only [GatherElementsPattern.loops, loopNestInt, List.tail_cons, List.headD_cons, hlast,
    List.tail_nil, List.headD_nil]

theorem getD_le_nestBound : ∀ (ds ss : List Nat) (i : Nat), i < ds.length →
    ds.getD i 1 ≤ nestBound ds ss ∧ ss.getD i 1 ≤ nestBound ds ss
  | [], _, _, h => by simp at h
  | d :: ds, ss, 0, _ => by
    have h1 := one_le_nestBound ds ss.tail
    have hb : max 1 (max d (ss.headD 1)) ≤ nestBound (d :: ds) ss := by
      simp only [nestBound]
      exact Nat.le_mul_of_pos_right _ (by omega)
    have hs : ss.getD 0 1 = ss.headD 1 := by cases ss <;> rfl
    rw [hs, List.getD_cons_zero]
    omega
  | d :: ds, ss, i + 1, h => by
    have ih := getD_le_nestBound ds ss.tail i (by simpa using h)
    have hb : nestBound ds ss.tail ≤ nestBound (d :: ds) ss := by
      simp only [nestBound]
      exact Nat.le_mul_of_pos_left _ (by omega)
    have hs : ss.getD (i + 1) 1 = ss.tail.getD i 1 := by cases ss <;> simp
    rw [hs, List.getD_cons_succ]
    omega

theorem prod_le_nestBound : ∀ (ds ss : List Nat), ds.prod ≤ nestBound ds ss
  | [], _ => by simp [nestBound]
  | d :: ds, ss => by
    simp only [nestBound, List.prod_cons]
    exact Nat.mul_le_mul (by omega) (prod_le_nestBound ds ss.tail)

theorem nestBound_replicate (m : Nat) :
    nestBound (List.replicate m 1) (List.replicate m 1) = 1 := by
  induction m with
  | zero => rfl
  | succ m ih => simp [List.replicate_succ, nestBound, ih]

theorem nestBound_pad (m : Nat) : ∀ (ds ss : List Nat), ss.length = ds.length →
    nestBound (ds ++ List.replicate m 1) (ss ++ List.replicate m 1) = nestBound ds ss
  | [], [], _ => by simpa [nestBound] using nestBound_replicate m
  | d :: ds, s :: ss, h => by
    have h' : ss.length = ds.length := by simpa using h
    simp [nestBound, nestBound_pad m ds ss h']
  | [], _ :: _, h => by simp at h
  | _ :: _, [], h => by simp at h

theorem intResult_eq_some {x y : Int} (h : intResult x = some y) : y = x := by
  unfold intResult at h
  split at h
  · cases h; rfl
  · cases h

theorem loopLevel_sound {axis k acc i s : Nat} {t : Int}
    (h : loopLevel axis k (acc : Int) (i : Int) (s : Int) = some t) :
    t = (((acc + (if axis = k then 0 else i)) * s : Nat) : Int) := by
  unfold loopLevel at h
  cases h1 : intResult ((acc : Int) + (if axis = k then 0 else (i : Int))) with
  | none => rw [h1] at h; cases h
  | some u =>
    rw [h1] at h
    have hu := intResult_eq_some h1
    have ht := intResult_eq_some h
    rw [ht, hu]
    split <;> push_cast <;> ring

theorem mapM_sound {α β γ : Type} (g : α → Option β) (f : α → γ) (emb : γ → β) :
    ∀ (l : List α) (r : List β), l.mapM g = some r →
      (∀ a ∈ l, ∀ b, g a = some b → b = emb (f a)) → r = l.map fun a => emb (f a)
  | [], r, h, _ => by
    cases h
    rfl
  | a :: l, r, h, hs => by
    rw [List.mapM_cons] at h
    cases ha : g a with
    | none => rw [ha] at h; cases h
    | some b =>
      rw [ha] at h
      cases hl : l.mapM g with
      | none => rw [hl] at h; cases h
      | some r' =>
        rw [hl] at h
        cases h
        rw [hs a (List.mem_cons_self _ _) b ha,
          mapM_sound g f emb l r' hl (fun a' ha' => hs a' (List.mem_cons_of_mem _ ha'))]
        rfl

theorem forInt_sound (n : Nat) (body : Int → Option (List Int)) (f : Nat → List Nat)
    {l : List Int} (h : forInt (n : Int) body = some l)
    (hs : ∀ i, i < n → ∀ li, body (i : Int) = some li → li = (f i).map Int.ofNat) :
    l = ((List.range n).flatMap f).map Int.ofNat := by
  unfold forInt at h
  rw [Int.toNat_ofNat] at h
  cases hm : (List.range n).mapM (fun (i : Nat) => body (i : Int)) with
  | none => rw [hm] at h; cases h
  | some r =>
    rw [hm] at h
    cases h
    rw [mapM_sound (fun (i : Nat) => body (i : Int)) f (List.map Int.ofNat) _ r hm
      (fun i hi li hli => hs i (List.mem_range.mp hi) li hli)]
    simp [List.flatMap, List.map_flatten, Function.comp_def]

/-- Where the loop nest on `int`s runs without an overflow, its entries are
those of the loop nest in natural numbers. -/
theorem loopNestInt_sound (axis : Nat) :
    ∀ (ds ss : List Nat) (k acc : Nat) (l : List Int), ss.length = ds.length →
      loopNestInt axis k (ds.map Int.ofNat) (ss.map Int.ofNat) (acc : Int) = some l →
      l = (loopNest axis k ds ss acc).map Int.ofNat
  | [], _, _, _, l, _, h => by
    simp only [List.map_nil, loopNestInt, Option.some.injEq] at h
    rw [← h]
    rfl
  | d :: ds, [], _, _, _, h, _ => by simp at h
  | d :: ds, s :: ss, k, acc, l, hlen, h => by
    have hlen' : ss.length = ds.length := by simpa using hlen
    simp only [loopNestInt, List.map_cons, List.tail_cons] at h
    simp only [loopNest, List.tail_cons]
    have hnext : (List.map Int.ofNat ss).headD 1 = ((ss.headD 1 : Nat) : Int) := by
      cases ss <;> rfl
    rw [hnext] at h
    refine forInt_sound d _ _ h ?_
    intro i _ li hli
    cases ht : loopLevel axis k (acc : Int) (i : Int) ((ss.headD 1 : Nat) : Int) with
    | none =>
      rw [ht] at hli
      cases hli
    | some t =>
      rw [ht] at hli
      have htv := loopLevel_sound ht
      rw [htv] at hli
      exact loopNestInt_sound axis ds ss (k + 1) _ li hlen' hli

theorem getD_lt_of_forall {l : List Nat} {b : Nat} (h : ∀ d ∈ l, d < b) {i : Nat}
    (hi : i < l.length) : l.getD i 1 < b := by
  rw [List.getD_eq_getElem?_getD, List.getElem?_eq_getElem hi]
  exact h _ (List.getElem_mem _)

/-- With extents below `2^31` the pattern runs the loop nest on `int`s over
the two shapes, padded with ones to eight levels. -/
theorem GatherElementsPattern_eq_nest (axis : Nat) (indices_shape input_shape : List Nat)
    (hn : indices_shape.length ≤ 8) (hr : input_shape.length = indices_shape.length)
    (hax : axis + 1 ≠ indices_shape.length)
    (hd1 : ∀ d ∈ indices_shape, d < 2147483648) (hd2 : ∀ d ∈ input_shape, d < 2147483648) :
    GatherElementsPattern axis indices_shape input_shape true =
      match loopNestInt axis 0
          ((indices_shape ++ List.replicate (8 - indices_shape.length) 1).map Int.ofNat)
          ((input_shape ++ List.replicate (8 - indices_shape.length) 1).map Int.ofNat) 0 with
      | none => .undefined
      | some indices_coeff =>
        if indices_coeff.length > 2147483647 then .undefined else .created indices_coeff := by
  have hd : (fun i => if i < indices_shape.length
      then toInt32 (indices_shape.getD i 1 : Nat) else (1 : Int)) =
      fun i => ((if i < indices_shape.length then indices_shape.getD i 1 else 1 : Nat) : Int) := by
    funext i
    split
    · rename_i hi
      exact toInt32_of_lt (getD_lt_of_forall hd1 hi)
    · rfl
  have hs : (fun i => if i < indices_shape.length
      then toInt32 (input_shape.getD i 1 : Nat) else (1 : Int)) =
      fun i => ((if i < indices_shape.length then input_shape.getD i 1 else 1 : Nat) : Int) := by
    funext i
    split
    · rename_i hi
      exact toInt32_of_lt (getD_lt_of_forall hd2 (by omega))
    · rfl
  have h7 : axis ≠ 7 ∨ (fun i => ((if i < indices_shape.length
      then indices_shape.getD i 1 else 1 : Nat) : Int)) 7 = 1 := by
    by_cases h : axis = 7
    · right
      have : ¬ 7 < indices_shape.length := by omega
      simp [this]
    · exact Or.inl h
  have hpi := pad8_eq indices_shape hn
  have hps := pad8_eq input_shape (by omega)
  rw [hr] at hps
  have hloops : GatherElementsPattern.loops axis
      (fun i => if i < indices_shape.length
        then toInt32 (indices_shape.getD i 1 : Nat) else (1 : Int))
      (fun i => if i < indices_shape.length
        then toInt32 (input_shape.getD i 1 : Nat) else (1 : Int)) =
      loopNestInt axis 0
        ((indices_shape ++ List.replicate (8 - indices_shape.length) 1).map Int.ofNat)
        ((input_shape ++ List.replicate (8 - indices_shape.length) 1).map Int.ofNat) 0 := by
    rw [hd, hs, loops_eq_loopNestInt axis _ _ h7, ← hpi, ← hps]
    rfl
  simp only [GatherElementsPattern, hax, if_false, Bool.not_true, Bool.false_eq_true]
  rw [if_neg (by omega), hloops]

theorem ScatterElementsPattern_eq (axis : Nat) (indices_shape input_shape : List Nat)
    (coeff_is_none : Bool) :
    ScatterElementsPattern axis indices_shape input_shape coeff_is_none =
      GatherElementsPattern axis indices_shape input_shape coeff_is_none := rfl

/-- C17 (amended): for indices of rank `n ≤ 8`, an input of the same rank, an
axis other than `n - 1` and extents below `2^31`, `GatherElementsPattern` and
`ScatterElementsPattern` have the same outcome and do not decline.  Whenever
the synthesis runs without an overflow of an `int` (the outcome is a created
tensor), the tensor has one entry per index position (`prod indices_shape`
entries), and the entry at the row-major position of `idx` in the indices
shape is the row-major offset into the input of `idx` with its axis coordinate
replaced by `0`, which is the sum over `k ≠ axis` of
`idx[k] * prod_{j>k} input_shape[j]`.  No `int` overflows when the product
over the levels of the larger of the two extents is below `2^31`. -/
theorem indices_coeff_row_major (axis : Nat) (indices_shape input_shape : List Nat)
    (hn : indices_shape.length ≤ 8) (hr : input_shape.length = indices_shape.length)
    (hax : axis + 1 ≠ indices_shape.length)
    (hd1 : ∀ d ∈ indices_shape, d < 2147483648) (hd2 : ∀ d ∈ input_shape, d < 2147483648) :
    ScatterElementsPattern axis indices_shape input_shape true =
      GatherElementsPattern axis indices_shape input_shape true ∧
    GatherElementsPattern axis indices_shape input_shape true ≠ .failure ∧
    (∀ coeff, GatherElementsPattern axis indices_shape input_shape true = .created coeff →
      coeff.length = indices_shape.prod ∧
      ∀ idx, InShape idx indices_shape →
        coeff[rowMajor indices_shape idx]? =
          some ((rowMajor input_shape (idx.set axis 0) : Nat) : Int) ∧
        rowMajor input_shape (idx.set axis 0) =
          ((List.range indices_shape.length).map fun k =>
            if k = axis then 0 else idx.getD k 0 * (input_shape.drop (k + 1)).prod).sum) ∧
    (nestBound indices_shape input_shape < 2147483648 →
      ∃ coeff, GatherElementsPattern axis indices_shape input_shape true = .created coeff) := by
  have hrun := GatherElementsPattern_eq_nest axis indices_shape input_shape hn hr hax hd1 hd2
  refine ⟨ScatterElementsPattern_eq _ _ _ _, ?_, ?_, ?_⟩
  · rw [hrun]
    split
    · simp
    · split <;> simp
  · intro coeff hc
    rw [hrun] at hc
    cases hl : loopNestInt axis 0
        ((indices_shape ++ List.replicate (8 - indices_shape.length) 1).map Int.ofNat)
        ((input_shape ++ List.replicate (8 - indices_shape.length) 1).map Int.ofNat) 0 with
    | none => rw [hl] at hc; cases hc
    | some l =>
      rw [hl] at hc
      dsimp only at hc
      split at hc
      · cases hc
      · cases hc
        have hsound := loopNestInt_sound axis _ _ 0 0 coeff (by simp [hr]) hl
        subst hsound
        refine ⟨by rw [List.length_map, loopNest_length]; simp, ?_⟩
        intro idx hidx
        have hlen : idx.length = indices_shape.length := hidx.length_eq
        have hoff : offsetSkipAxis axis 0 input_shape idx =
            rowMajor input_shape (idx.set axis 0) :=
          offsetSkipAxis_eq_rowMajor axis input_shape idx 0 (Nat.zero_le _)
        refine ⟨?_, ?_⟩
        · rw [List.getElem?_map,
            ← rowMajor_pad indices_shape idx hidx (8 - indices_shape.length)]
          rw [loopNest_getElem? axis _ _ (hidx.pad _) _ 0 0 (by simp [hr])]
          rw [offsetSkipAxis_pad axis _ input_shape idx (by omega) 0, hoff]
          simp
        · rw [← hoff, offsetSkipAxis_eq_sum axis input_shape idx 0 (by omega), hlen]
          simp
  · intro hfit
    have hnest := loopNestInt_eq axis
      (indices_shape ++ List.replicate (8 - indices_shape.length) 1)
      (input_shape ++ List.replicate (8 - indices_shape.length) 1) 0 0 1 (by simp [hr])
      (by omega) (by rw [nestBound_pad _ _ _ hr]; omega)
    rw [hrun]
    have hnest' : loopNestInt axis 0
        ((indices_shape ++ List.replicate (8 - indices_shape.length) 1).map Int.ofNat)
        ((input_shape ++ List.replicate (8 - indices_shape.length) 1).map Int.ofNat) 0 =
        some ((loopNest axis 0 (indices_shape ++ List.replicate (8 - indices_shape.length) 1)
          (input_shape ++ List.replicate (8 - indices_shape.length) 1) 0).map Int.ofNat) :=
      hnest
    rw [hnest']
    dsimp only
    rw [if_neg]
    · exact ⟨_, rfl⟩
    · rw [List.length_map, loopNest_length]
      have := prod_le_nestBound indices_shape input_shape
      simp only [List.prod_append, List.prod_replicate, one_pow, mul_one]
      omega

/-- Witness of C17: indices of shape `[2,3]` into an input of shape `[4,3]`
along axis 0 give the six offsets `0, 1, 2, 0, 1, 2`. -/
theorem indices_coeff_row_major_witness :
    GatherElementsPattern 0 [2, 3] [4, 3] true = .created [0, 1, 2, 0, 1, 2] ∧
    ScatterElementsPattern 0 [2, 3] [4, 3] true = .created [0, 1, 2, 0, 1, 2] ∧
    ([0, 1, 2, 0, 1, 2] : List Int).length = [2, 3].prod ∧
    ∀ idx, InShape idx [2, 3] →
      ([0, 1, 2, 0, 1, 2] : List Int)[rowMajor [2, 3] idx]? =
        some ((rowMajor [4, 3] (idx.set 0 0) : Nat) : Int) := by
  have h := indices_coeff_row_major 0 [2, 3] [4, 3] (by decide) rfl (by decide) (by decide)
    (by decide)
  have hg : GatherElementsPattern 0 [2, 3] [4, 3] true = .created [0, 1, 2, 0, 1, 2] := by
    decide
  refine ⟨hg, by rw [h.1, hg], (h.2.2.1 _ hg).1, fun idx hidx => ((h.2.2.1 _ hg).2 idx hidx).1⟩

/-- C17 (as stated, refuted): for indices of shape `[2, 1, 1]` into an input of
shape `[2, 50000, 50000]` along axis 1 the second accumulator of the loops
would be `50000 * 50000`, beyond the range of `int`: the synthesis has no
defined result.  And an extent of `2^32 + 1` is stored in the `int` array as
`1`: for indices and input of shape `[2^32 + 1, 1]` along axis 0 the tensor
has one entry, not one per index position. -/
theorem indices_coeff_overflow_counterexample :
    (GatherElementsPattern 1 [2, 1, 1] [2, 50000, 50000] true = .undefined ∧
      ScatterElementsPattern 1 [2, 1, 1] [2, 50000, 50000] true = .undefined ∧
      ¬ nestBound [2, 1, 1] [2, 50000, 50000] < 2147483648) ∧
    (GatherElementsPattern 0 [4294967297, 1] [4294967297, 1] true = .created [0] ∧
      ([0] : List Int).length ≠ [4294967297, 1].prod) := by
  decide

/-! ### GroupConv2NormalConv -/

theorem copyRow_spec {src nd nd' : List Int} {b n t : Nat}
    (h : copyRow src b n nd t = some nd') :
    nd'.length = nd.length ∧
    ∀ p, nd'[p]? = if t ≤ p ∧ p < t + n then src[b + (p - t)]? else nd[p]? := by
  unfold copyRow at h
  split at h
  · rename_i hb
    cases h
    have hlen : ((src.drop b).take n).length = n := by
      simp; omega
    refine ⟨by simp; omega, ?_⟩
    intro p
    by_cases h1 : p < t
    · rw [List.getElem?_append_left (by simp; omega)]
      have hnot : ¬ (t ≤ p ∧ p < t + n) := by omega
      simp [List.getElem?_take, h1, hnot]
    · rw [List.getElem?_append_right (by simp; omega)]
      have ht : (List.take t nd).length = t := by simp; omega
      rw [ht]
      by_cases h2 : p < t + n
      · rw [List.getElem?_append_left (by rw [hlen]; omega)]
        have hin : t ≤ p ∧ p < t + n := by omega
        have hpn : p - t < n := by omega
        simp [List.getElem?_take, hin, hpn]
      · rw [List.getElem?_append_right (by rw [hlen]; omega), hlen]
        have hnot : ¬ (t ≤ p ∧ p < t + n) := by omega
        simp [hnot]
        congr 1
        omega
  · cases h

theorem row_block_lt {N i r j : Nat} (hir : i < r) (hj : j < N) : N * i + j < N * r := by
  calc N * i + j < N * i + N := by omega
    _ = N * (i + 1) := by ring
    _ ≤ N * r := Nat.mul_le_mul_left N (by omega)

theorem updateFilter_rows (src : List Int) (old g goc oc : Nat) (fill : Int)
    (hsrc : src.length = oc * old) (hoc : oc = g * goc) :
    ∀ r, r ≤ oc →
      ∃ nd, (List.range r).foldlM
          (fun nd i => copyRow src (old * i) old nd (old * g * i + old * (i / goc)))
          (List.replicate (src.length * g) fill) = some nd ∧
        nd.length = oc * (old * g) ∧
        ∀ i j, i < oc → j < old * g →
          nd[old * g * i + j]? =
            if i < r ∧ old * (i / goc) ≤ j ∧ j < old * (i / goc) + old
            then src[old * i + (j - old * (i / goc))]? else some fill := by
  intro r
  induction r with
  | zero =>
    intro _
    refine ⟨_, rfl, by simp [hsrc]; ring, ?_⟩
    intro i j hi hj
    have hlt : old * g * i + j < src.length * g := by
      rw [hsrc]
      calc old * g * i + j < old * g * oc := row_block_lt hi hj
        _ = oc * old * g := by ring
    simp [List.getElem?_replicate, hlt]
  | succ r ih =>
    intro hr
    obtain ⟨nd, hfold, hlen, hget⟩ := ih (by omega)
    have hrlt : r < oc := by omega
    have hgoc : 0 < goc := by
      rcases Nat.eq_zero_or_pos goc with h | h
      · subst h; omega
      · exact h
    have hgi : r / goc < g := by
      apply Nat.div_lt_of_lt_mul
      rw [Nat.mul_comm]; omega
    have hoff : old * (r / goc) + old ≤ old * g := by
      calc old * (r / goc) + old = old * (r / goc + 1) := by ring
        _ ≤ old * g := Nat.mul_le_mul_left old (by omega)
    have hb1 : old * r + old ≤ src.length := by
      rw [hsrc]
      calc old * r + old = (r + 1) * old := by ring
        _ ≤ oc * old := Nat.mul_le_mul_right old (by omega)
    have hb2 : old * g * r + old * (r / goc) + old ≤ nd.length := by
      rw [hlen]
      calc old * g * r + old * (r / goc) + old ≤ old * g * r + old * g := by omega
        _ = (r + 1) * (old * g) := by ring
        _ ≤ oc * (old * g) := Nat.mul_le_mul_right _ (by omega)
    have hcopy : ∃ nd', copyRow src (old * r) old nd (old * g * r + old * (r / goc)) = some nd' := by
      unfold copyRow
      rw [if_pos ⟨hb1, hb2⟩]
      exact ⟨_, rfl⟩
    obtain ⟨nd', hnd'⟩ := hcopy
    obtain ⟨hlen', hget'⟩ := copyRow_spec hnd'
    refine ⟨nd', ?_, by rw [hlen', hlen], ?_⟩
    · rw [List.range_succ, List.foldlM_append, hfold]
      simpa using hnd'
    · intro i j hi hj
      rw [hget', hget i j hi hj]
      rcases Nat.lt_trichotomy i r with hir | hir | hir
      · have h1 : old * g * i + j < old * g * r := row_block_lt hir hj
        have hnot : ¬ (old * g * r + old * (r / goc) ≤ old * g * i + j ∧
            old * g * i + j < old * g * r + old * (r / goc) + old) := by omega
        have hlt : i < r + 1 := by omega
        simp [hnot, hir, hlt]
      · subst hir
        by_cases hin : old * (i / goc) ≤ j ∧ j < old * (i / goc) + old
        · have hin' : old * g * i + old * (i / goc) ≤ old * g * i + j ∧
              old * g * i + j < old * g * i + old * (i / goc) + old := by omega
          have hsub : old * g * i + j - (old * g * i + old * (i / goc)) = j - old * (i / goc) := by
            omega
          simp [hin, hin', hsub]
        · have hin' : ¬ (old * g * i + old * (i / goc) ≤ old * g * i + j ∧
              old * g * i + j < old * g * i + old * (i / goc) + old) := by omega
          have hcond : ¬ (i < i + 1 ∧ old * (i / goc) ≤ j ∧ j < old * (i / goc) + old) := by
            intro h; exact hin h.2
          have hcond2 : ¬ (i < i ∧ old * (i / goc) ≤ j ∧ j < old * (i / goc) + old) := by
            intro h; omega
          rw [if_neg hin', if_neg hcond, if_neg hcond2]
      · have h1 : old * g * (r + 1) ≤ old * g * i := Nat.mul_le_mul_left _ (by omega)
        have h2 : old * g * (r + 1) = old * g * r + old * g := by ring
        have hnot : ¬ (old * g * r + old * (r / goc) ≤ old * g * i + j ∧
            old * g * i + j < old * g * r + old * (r / goc) + old) := by omega
        have hn1 : ¬ i < r := by omega
        have hn2 : ¬ i < r + 1 := by omega
        simp [hnot, hn1, hn2]

theorem foldlM_congr_range {α : Type} (f g : α → Nat → Option α) (n : Nat)
    (h : ∀ a i, i < n → f a i = g a i) (a : α) :
    (List.range n).foldlM f a = (List.range n).foldlM g a := by
  have key : ∀ (l : List Nat), (∀ i ∈ l, i < n) → ∀ a, l.foldlM f a = l.foldlM g a := by
    intro l
    induction l with
    | nil => intro _ a; rfl
    | cons i l ih =>
      intro hl a
      rw [List.foldlM_cons, List.foldlM_cons, h a i (hl i (by simp))]
      cases g a i with
      | none => rfl
      | some b => exact ih (fun j hj => hl j (by simp [hj])) b
  exact key _ (fun i hi => List.mem_range.mp hi) a

theorem updateFilter.row_eq (src nd : List Int) (old new goc i oc : Nat)
    (hi : i < oc) (hold : old ≤ new) (hsz : oc * new < 2147483648) :
    updateFilter.row src (old : Int) (new : Int) (goc : Int) nd i =
      if goc = 0 then none
      else copyRow src (old * i) old nd (new * i + old * (i / goc)) := by
  unfold updateFilter.row
  by_cases hz : goc = 0
  · rw [if_pos (by exact_mod_cast hz), if_pos hz]
  rw [if_neg (by exact_mod_cast hz), if_neg hz]
  have hni : new * i < 2147483648 := by
    calc new * i ≤ new * oc := Nat.mul_le_mul_left _ (by omega)
      _ = oc * new := Nat.mul_comm _ _
      _ < 2147483648 := hsz
  have hoi : old * i < 2147483648 := lt_of_le_of_lt (Nat.mul_le_mul_right _ hold) hni
  have hog : old * (i / goc) < 2147483648 :=
    lt_of_le_of_lt (Nat.mul_le_mul_left _ (Nat.div_le_self _ _)) hoi
  have h1 : intResult ((old : Int) * (i : Int)) = some ((old * i : Nat) : Int) := by
    rw [← Nat.cast_mul]
    exact intResult_of_lt hoi
  have h2 : intResult ((new : Int) * (i : Int)) = some ((new * i : Nat) : Int) := by
    rw [← Nat.cast_mul]
    exact intResult_of_lt hni
  have h3 : intResult ((old : Int) * Int.tdiv (i : Int) (goc : Int)) =
      some ((old * (i / goc) : Nat) : Int) := by
    have : Int.tdiv (i : Int) (goc : Int) = ((i / goc : Nat) : Int) := rfl
    rw [this, ← Nat.cast_mul]
    exact intResult_of_lt hog
  rw [h1, h2, h3]
  dsimp only
  unfold copyRowInt
  rw [if_pos ⟨by positivity, by positivity, by positivity⟩]
  have e1 : (((old * i : Nat) : Int)).toNat = old * i := Int.toNat_natCast _
  have e2 : ((old : Int)).toNat = old := Int.toNat_natCast _
  have e3 : (((new * i : Nat) : Int) + ((old * (i / goc) : Nat) : Int)).toNat =
      new * i + old * (i / goc) := by
    rw [← Nat.cast_add]
    exact Int.toNat_natCast _
  rw [e1, e2, e3]

theorem updateFilter_eq_exact (op : Conv2DOp) (p : conv_attr_t) (hfit : p.FitsInt)
    (hlen : op.filter_data.length * p.groups < 18446744073709551616) :
    updateFilter op p = updateFilter.exact op p := by
  obtain ⟨hic, hoc, hkh, hN, hsz⟩ := hfit
  unfold updateFilter updateFilter.exact
  by_cases hg : p.groups = 0
  · rw [if_pos hg, if_pos hg]
  rw [if_neg hg, if_neg hg]
  have hgic : p.ic / p.groups < 2147483648 := lt_of_le_of_lt (Nat.div_le_self _ _) hic
  have hgoc : p.oc / p.groups < 2147483648 := lt_of_le_of_lt (Nat.div_le_self _ _) hoc
  have hgkh : p.ic / p.groups * p.kh < 2147483648 :=
    lt_of_le_of_lt (Nat.mul_le_mul_right _ (Nat.div_le_self _ _)) hkh
  have hold_le : p.ic / p.groups * p.kh * p.kw ≤ p.ic * p.kh * p.kw :=
    Nat.mul_le_mul_right _ (Nat.mul_le_mul_right _ (Nat.div_le_self _ _))
  have hold : p.ic / p.groups * p.kh * p.kw < 2147483648 := lt_of_le_of_lt hold_le hN
  have ho : updateFilter.old_ic_num p = some ((p.ic / p.groups * p.kh * p.kw : Nat) : Int) := by
    unfold updateFilter.old_ic_num
    rw [toInt32_of_lt hgic, ← Nat.cast_mul, int64Result_of_lt hgkh]
    show (int64Result _).map toInt32 = _
    rw [← Nat.cast_mul, int64Result_of_lt hold]
    show some (toInt32 _) = _
    rw [toInt32_of_lt hold]
  have hn : updateFilter.new_ic_num p = some ((p.ic * p.kh * p.kw : Nat) : Int) := by
    unfold updateFilter.new_ic_num
    rw [← Nat.cast_mul, int64Result_of_lt hkh]
    show (int64Result _).map toInt32 = _
    rw [← Nat.cast_mul, int64Result_of_lt hN]
    show some (toInt32 _) = _
    rw [toInt32_of_lt hN]
  rw [ho, hn]
  show updateFilter.loop op p _ _ _ = _
  unfold updateFilter.loop
  rw [toInt32_of_lt hgoc, if_neg (by omega), Nat.mod_eq_of_lt hlen]
  apply foldlM_congr_range
  intro nd i hi
  rw [updateFilter.row_eq op.filter_data nd _ _ _ i p.oc hi hold_le hsz]

theorem updateFilter_of_rows (op : Conv2DOp) (hpos : 0 < op.group)
    (hic : op.group ∣ op.ic) (hfit : op.parseParam.FitsInt)
    (hsize : op.filter_data.length = op.oc * (op.ic / op.group * op.kh * op.kw))
    {nd : List Int}
    (hfold : (List.range op.oc).foldlM
      (fun nd i => copyRow op.filter_data (op.ic / op.group * op.kh * op.kw * i)
        (op.ic / op.group * op.kh * op.kw) nd
        (op.ic / op.group * op.kh * op.kw * op.group * i +
          op.ic / op.group * op.kh * op.kw * (i / (op.oc / op.group))))
      (List.replicate (op.filter_data.length * op.group)
        (op.filter_stype.convertZp op.kernel_zp)) = some nd)
    (hocg : op.oc = op.group * (op.oc / op.group)) :
    updateFilter op op.parseParam = some nd := by
  have hN : op.ic * op.kh * op.kw = op.ic / op.group * op.kh * op.kw * op.group := by
    conv_lhs => rw [← Nat.div_mul_cancel hic]
    ring
  have hlen : op.filter_data.length * op.parseParam.groups < 18446744073709551616 := by
    have h5 : op.oc * (op.ic * op.kh * op.kw) < 2147483648 := hfit.2.2.2.2
    have h6 : op.filter_data.length * op.group = op.oc * (op.ic * op.kh * op.kw) := by
      rw [hsize, hN]
      ring
    show op.filter_data.length * op.group < 18446744073709551616
    omega
  rw [updateFilter_eq_exact op op.parseParam hfit hlen]
  show updateFilter.exact op
    { ic := op.ic, oc := op.oc, kh := op.kh, kw := op.kw, groups := op.group } = some nd
  unfold updateFilter.exact
  rw [if_neg (Nat.pos_iff_ne_zero.mp hpos)]
  dsimp only
  rw [hN]
  by_cases hz : op.oc / op.group = 0
  · have hoc0 : op.oc = 0 := by rw [hocg, hz]; rfl
    rw [hoc0] at hfold ⊢
    exact hfold
  · simp only [hz, if_false]
    exact hfold

theorem updateFilter_groupConvHuge :
    updateFilter groupConvHuge groupConvHuge.parseParam = none := by
  unfold updateFilter
  have h1 : updateFilter.old_ic_num groupConvHuge.parseParam = some 1 := by decide
  have h2 : updateFilter.new_ic_num groupConvHuge.parseParam = some 2 := by decide
  rw [if_neg (by decide), h1, h2]
  show updateFilter.loop _ _ _ _ _ = none
  unfold updateFilter.loop
  rw [if_pos (by decide)]

/-- C16 (as stated, refuted): with a kernel zero point of 3 the positions of
the new filter outside the copied rows hold 3, not zero.  Two groups, two
input and output channels, a 1x1 kernel and the filter `[10, 20]` give the
new filter `[10, 3, 3, 20]`.  And with `2^32` output channels (two groups, two
input channels, a 1x1 kernel, a filter of `2^32` rows of one value) the `int`
counter of the loop cannot reach `oc`: the rewrite has no defined result. -/
theorem GroupConv2NormalConv_zero_fill_counterexample :
    (∃ op', GroupConv2NormalConv .BM1684X (fun b => 64 / b) groupConvZp = .success op' ∧
      op'.filter_data = [10, 3, 3, 20] ∧ op'.filter_data[1]? ≠ some 0) ∧
    (GroupConv2NormalConv .BM1684X (fun b => 64 / b) groupConvHuge = .undefined ∧
      groupConvHuge.group ∣ groupConvHuge.ic ∧ groupConvHuge.group ∣ groupConvHuge.oc ∧
      groupConvHuge.filter_data.length = groupConvHuge.oc *
        (groupConvHuge.ic / groupConvHuge.group * groupConvHuge.kh * groupConvHuge.kw) ∧
      ¬ groupConvHuge.parseParam.FitsInt) := by
  have hzp : ∃ op', GroupConv2NormalConv .BM1684X (fun b => 64 / b) groupConvZp =
      .success op' ∧ op'.filter_data = [10, 3, 3, 20] ∧ op'.filter_data[1]? ≠ some 0 :=
    ⟨{ groupConvZp with filter_data := [10, 3, 3, 20], filter_shape := [2, 2, 1, 1], group := 1 },
      by decide, rfl, by decide⟩
  refine ⟨hzp, ?_, by decide, by decide, ?_, by decide⟩
  · unfold GroupConv2NormalConv
    dsimp only
    rw [updateFilter_groupConvHuge]
    rfl
  · show (List.replicate 4294967296 (0 : Int)).length = _
    rw [List.length_replicate]
    rfl

/-- C16 (amended): for a grouped convolution the pattern accepts (supported
chip family, weight filter of a 16-bit float or 8-bit integer type, more than
one group, `ic` within the parallel width) with `group` dividing `ic` and `oc`,
a filter of `oc` rows of `(ic/group)*kh*kw` values and sizes within `int`
(`ic`, `oc`, `ic*kh*kw` and `oc*ic*kh*kw` below `2^31`), `GroupConv2NormalConv`
succeeds, every copy stays inside its buffers, the new filter has shape
`[oc, ic, kh, kw]` and `oc*ic*kh*kw` values, row `i` holds the original row `i`
at element offset `(i / (oc/group)) * (ic/group)*kh*kw` and the kernel zero
point (converted to the element type) at every other position, and the group
count becomes 1. -/
theorem GroupConv2NormalConv_layout (chip : Chip) (ic_num : Nat → Nat) (op : Conv2DOp)
    (hchip : isBM1684XFamily chip = true ∨ isSG2260Family chip = true)
    (hw : op.filter_is_weight = true)
    (hty : op.filter_stype = .bf16 ∨ op.filter_stype = .f16 ∨ op.filter_stype = .i8 ∨
      op.filter_stype = .u8)
    (hg : op.group ≠ 1) (hpos : 0 < op.group)
    (hpar : op.ic ≤ ic_num (op.filter_stype.getIntOrFloatBitWidth / 8))
    (hic : op.group ∣ op.ic) (hoc : op.group ∣ op.oc)
    (hsize : op.filter_data.length = op.oc * (op.ic / op.group * op.kh * op.kw))
    (hfit : op.parseParam.FitsInt) :
    ∃ op', GroupConv2NormalConv chip ic_num op = .success op' ∧
      op'.group = 1 ∧
      op'.filter_shape = [op.oc, op.ic, op.kh, op.kw] ∧
      op'.filter_data.length = op.oc * op.ic * op.kh * op.kw ∧
      ∀ i j, i < op.oc → j < op.ic * op.kh * op.kw →
        op'.filter_data[op.ic * op.kh * op.kw * i + j]? =
          if (i / (op.oc / op.group)) * (op.ic / op.group * op.kh * op.kw) ≤ j ∧
              j < (i / (op.oc / op.group)) * (op.ic / op.group * op.kh * op.kw) +
                op.ic / op.group * op.kh * op.kw
          then op.filter_data[op.ic / op.group * op.kh * op.kw * i +
            (j - (i / (op.oc / op.group)) * (op.ic / op.group * op.kh * op.kw))]?
          else some (op.filter_stype.convertZp op.kernel_zp) := by
  have hN : op.ic * op.kh * op.kw = op.ic / op.group * op.kh * op.kw * op.group := by
    conv_lhs => rw [← Nat.div_mul_cancel hic]
    ring
  have hocg : op.oc = op.group * (op.oc / op.group) := (Nat.mul_div_cancel' hoc).symm
  obtain ⟨nd, hfold, hlen, hget⟩ := updateFilter_rows op.filter_data
    (op.ic / op.group * op.kh * op.kw) op.group (op.oc / op.group) op.oc
    (op.filter_stype.convertZp op.kernel_zp) hsize hocg op.oc le_rfl
  have hupd : updateFilter op op.parseParam = some nd :=
    updateFilter_of_rows op hpos hic hfit hsize hfold hocg
  have hfam : (!(isBM1684XFamily chip || isSG2260Family chip) || !op.filter_is_weight) = false := by
    rcases hchip with h | h <;> simp [h, hw]
  refine ⟨{ op with filter_data := nd, filter_shape := [op.oc, op.ic, op.kh, op.kw], group := 1 },
    ?_, rfl, rfl, ?_, ?_⟩
  · unfold GroupConv2NormalConv
    rw [hfam]
    simp only [Bool.false_eq_true, if_false]
    rw [if_neg (by rw [Bool.not_eq_true', decide_eq_false_iff_not, not_not]; exact hty)]
    rw [if_neg (show ¬ op.parseParam.groups = 1 from hg),
      if_neg (show ¬ op.parseParam.ic > ic_num (op.filter_stype.getIntOrFloatBitWidth / 8) from
        by show ¬ op.ic > _; omega), hupd]
    rfl
  · show nd.length = _
    rw [hlen, ← hN]
    ring
  · intro i j hi hj
    show nd[_]? = _
    rw [hN] at hj ⊢
    rw [hget i j hi hj]
    have hc : ∀ a b : Nat, a * b = b * a := Nat.mul_comm
    simp only [hi, true_and, hc (i / (op.oc / op.group))]

theorem GroupConv2NormalConv_layout_witness :
    ∃ op', GroupConv2NormalConv .BM1684X (fun b => 64 / b) groupConvZp = .success op' ∧
      op'.group = 1 ∧
      op'.filter_shape = [groupConvZp.oc, groupConvZp.ic, groupConvZp.kh, groupConvZp.kw] ∧
      op'.filter_data.length = groupConvZp.oc * groupConvZp.ic * groupConvZp.kh * groupConvZp.kw ∧
      ∀ i j, i < groupConvZp.oc → j < groupConvZp.ic * groupConvZp.kh * groupConvZp.kw →
        op'.filter_data[groupConvZp.ic * groupConvZp.kh * groupConvZp.kw * i + j]? =
          if (i / (groupConvZp.oc / groupConvZp.group)) *
                (groupConvZp.ic / groupConvZp.group * groupConvZp.kh * groupConvZp.kw) ≤ j ∧
              j < (i / (groupConvZp.oc / groupConvZp.group)) *
                (groupConvZp.ic / groupConvZp.group * groupConvZp.kh * groupConvZp.kw) +
                groupConvZp.ic / groupConvZp.group * groupConvZp.kh * groupConvZp.kw
          then groupConvZp.filter_data[groupConvZp.ic / groupConvZp.group * groupConvZp.kh *
              groupConvZp.kw * i +
            (j - (i / (groupConvZp.oc / groupConvZp.group)) *
              (groupConvZp.ic / groupConvZp.group * groupConvZp.kh * groupConvZp.kw))]?
          else some (groupConvZp.filter_stype.convertZp groupConvZp.kernel_zp) :=
  GroupConv2NormalConv_layout .BM1684X (fun b => 64 / b) groupConvZp (by decide) rfl
    (by decide) (by decide) (by decide) (by decide) (by decide) (by decide) (by decide)
    (by decide)

/-! ### Failure after an edit -/

/-- C20 (the code departs from the claim): on a Where whose constant `-50`
exceeds the output maximum `10`, `SelectiveWhere` re-types the output from
`[-10,10]` to `[-5,50]` and then returns failure; `SelectiveMaskedFill` does the
same on a MaskedFill with fill constant `-50`.  An invocation that reports
failure has changed a value's range. -/
theorem Selective_failure_changes_range :
    SelectiveWhere [] (whereGraph (-1) 1) 3 = .failure (whereGraphWidened (-1) 1) ∧
    rangeOf (whereGraph (-1) 1) 3 = some (-10, 10) ∧
    rangeOf (whereGraphWidened (-1) 1) 3 = some (-5, 50) ∧
    SelectiveMaskedFill [] maskedFillGraph 2 = .failure maskedFillGraphWidened ∧
    rangeOf maskedFillGraph 2 = some (-10, 10) ∧
    rangeOf maskedFillGraphWidened 2 = some (-5, 50) := by
  refine ⟨by decide!, by decide!, by decide!, by decide!, by decide!, by decide!⟩

theorem KeepSignPattern_failure {g g' : Graph} {n : Nat}
    (h : KeepSignPattern g n = .failure g') : g' = g := by
  unfold KeepSignPattern setOutRange at h
  repeat' split at h
  all_goals cases h <;> rfl

theorem mulDispatch_failure {g g' : Graph} {n : Nat} {o : Op} {q : CalibratedType}
    {s0 s1 : Bool} (h : mulDispatch g n o q s0 s1 = .failure g') : g' = g := by
  simp only [mulDispatch, setOutRange] at h
  split_ifs at h
  cases h
  rfl

theorem KeepMulSignPattern_failure {g g' : Graph} {n : Nat}
    (h : KeepMulSignPattern g n = .failure g') : g' = g := by
  unfold KeepMulSignPattern at h
  repeat' split at h
  all_goals first
    | exact mulDispatch_failure h
    | (cases h <;> rfl)

theorem KeepAddSignPattern_failure {g g' : Graph} {n : Nat}
    (h : KeepAddSignPattern g n = .failure g') : g' = g := by
  unfold KeepAddSignPattern setOutRange at h
  repeat' split at h
  all_goals cases h <;> rfl

theorem SetSubConstSignPattern_failure {g g' : Graph} {n : Nat}
    (h : SetSubConstSignPattern g n = .failure g') : g' = g := by
  unfold SetSubConstSignPattern setOutRange at h
  repeat' split at h
  all_goals cases h <;> rfl

theorem BackwardCalibartion_failure {k : Bool} {g g' : Graph} {n : Nat}
    (h : BackwardCalibartion k g n = .failure g') : g' = g := by
  unfold BackwardCalibartion at h
  repeat' split at h
  all_goals cases h <;> rfl

theorem CompareCalibartion_failure {g g' : Graph} {n : Nat}
    (h : CompareCalibartion g n = .failure g') : g' = g := by
  unfold CompareCalibartion at h
  repeat' split at h
  all_goals cases h <;> rfl

theorem BackwardMutiInSingleOut_failure {g g' : Graph} {n : Nat}
    (h : BackwardMutiInSingleOut g n = .failure g') : g' = g := by
  unfold BackwardMutiInSingleOut at h
  repeat' split at h
  all_goals cases h <;> rfl

theorem pure_on_failure_of_not_selective (m : QuantizeMap) (p : Pattern)
    (hw : p ≠ .SelectiveWhere) (hm : p ≠ .SelectiveMaskedFill) : p.PureOnFailure m := by
  intro g n g' h
  cases p with
  | ForwardCalibartion r =>
    simp only [Pattern.matchAndRewrite] at h
    exact ForwardCalibartion_failure h
  | ForwardMulConst => exact ForwardMulConst_failure h
  | ForwardArg => exact ForwardArg_failure h
  | KeepSignPattern r => exact KeepSignPattern_failure h
  | KeepMulSignPattern r => exact KeepMulSignPattern_failure h
  | KeepAddSignPattern => exact KeepAddSignPattern_failure h
  | SetSubConstSignPattern => exact SetSubConstSignPattern_failure h
  | BackwardCalibartion r k => exact BackwardCalibartion_failure h
  | CompareCalibartion => exact CompareCalibartion_failure h
  | BackwardMutiInSingleOut r => exact BackwardMutiInSingleOut_failure h
  | SelectiveWhere => exact absurd rfl hw
  | SelectiveMaskedFill => exact absurd rfl hm

/-! ### The override table -/

theorem takeWhile_append_all {p : Char → Bool} :
    ∀ (a b : List Char), (∀ c ∈ a, p c = true) →
      (a ++ b).takeWhile p = a ++ b.takeWhile p ∧ (a ++ b).dropWhile p = b.dropWhile p
  | [], _, _ => by simp
  | x :: a, b, h => by
    have hx : p x = true := h x (by simp)
    have ih := takeWhile_append_all a b (fun c hc => h c (by simp [hc]))
    simp [List.takeWhile_cons, List.dropWhile_cons, hx, ih.1, ih.2]

theorem takeWhile_of_head_false {p : Char → Bool} {b : List Char}
    (h : ∀ c, b.head? = some c → p c = false) :
    b.takeWhile p = [] ∧ b.dropWhile p = b := by
  cases b with
  | nil => simp
  | cons x b =>
    have hx : p x = false := h x rfl
    simp [List.takeWhile_cons, List.dropWhile_cons, hx]

theorem takeWhile_all {p : Char → Bool} {a : List Char} (h : ∀ c ∈ a, p c = true) :
    a.takeWhile p = a ∧ a.dropWhile p = [] := by
  have := takeWhile_append_all a [] h
  simpa using this

theorem Token.head_not_space {t : List Char} (ht : Token t) :
    ∀ c, t.head? = some c → isSpace c = false := by
  intro c hc
  cases t with
  | nil => cases hc
  | cons x t =>
    simp only [List.head?_cons, Option.some.injEq] at hc
    subst hc
    exact ht.2 _ (by simp)

theorem Token.notSpace {t : List Char} (ht : Token t) :
    ∀ c ∈ t, (fun c => !isSpace c) c = true := by
  intro c hc
  simp [ht.2 c hc]

theorem PairForm.scan {l name kw : List Char} (h : PairForm l name kw) :
    ∃ ws, ws ≠ [] ∧ (∀ c ∈ ws, isSpace c = true) ∧ l = name ++ (ws ++ kw) ∧
      l.takeWhile (fun c => !isSpace c) = name ∧
      l.dropWhile (fun c => !isSpace c) = ws ++ kw ∧
      (ws ++ kw).takeWhile isSpace = ws ∧
      (ws ++ kw).dropWhile isSpace = kw ∧
      kw.takeWhile (fun c => !isSpace c) = kw ∧
      kw.dropWhile (fun c => !isSpace c) = [] := by
  obtain ⟨hn, hk, ws, hws, hsp, hl⟩ := h
  refine ⟨ws, hws, hsp, hl, ?_, ?_, ?_, ?_, ?_, ?_⟩
  · have h1 := (takeWhile_append_all (p := fun c => !isSpace c) name (ws ++ kw) hn.notSpace).1
    have h2 : (ws ++ kw).takeWhile (fun c => !isSpace c) = [] := by
      apply (takeWhile_of_head_false _).1
      intro c hc
      cases ws with
      | nil => exact absurd rfl hws
      | cons x ws =>
        simp only [List.cons_append, List.head?_cons, Option.some.injEq] at hc
        subst hc
        simp [hsp _ (List.mem_cons_self _ _)]
    rw [hl, h1, h2, List.append_nil]
  · have h1 := (takeWhile_append_all (p := fun c => !isSpace c) name (ws ++ kw) hn.notSpace).2
    have h2 : (ws ++ kw).dropWhile (fun c => !isSpace c) = ws ++ kw := by
      apply (takeWhile_of_head_false _).2
      intro c hc
      cases ws with
      | nil => exact absurd rfl hws
      | cons x ws =>
        simp only [List.cons_append, List.head?_cons, Option.some.injEq] at hc
        subst hc
        simp [hsp _ (List.mem_cons_self _ _)]
    rw [hl, h1, h2]
  · rw [(takeWhile_append_all ws kw hsp).1,
      (takeWhile_of_head_false (p := isSpace) hk.head_not_space).1, List.append_nil]
  · rw [(takeWhile_append_all ws kw hsp).2,
      (takeWhile_of_head_false (p := isSpace) hk.head_not_space).2]
  · exact (takeWhile_all hk.notSpace).1
  · exact (takeWhile_all hk.notSpace).2

theorem regex_match_empty_iff (l : List Char) : regex_match_empty l = true ↔ Blank l := by
  simp [regex_match_empty, Blank]

theorem regex_match_info_iff (l : List Char) : regex_match_info l = true ↔ Comment l := by
  cases l with
  | nil => simp [regex_match_info, Comment]
  | cons x l =>
    simp only [regex_match_info, Comment, Bool.and_eq_true, decide_eq_true_eq, List.all_eq_true,
      Bool.not_eq_true', List.cons.injEq]
    constructor
    · rintro ⟨rfl, h⟩
      exact ⟨l, ⟨rfl, rfl⟩, h⟩
    · rintro ⟨rest, ⟨rfl, rfl⟩, h⟩
      exact ⟨rfl, h⟩

theorem regex_match_name_iff (l : List Char) : regex_match_name l = true ↔ Token l := by
  cases l <;> simp [regex_match_name, Token]

theorem regex_match_map_of_pair {l name kw : List Char} (h : PairForm l name kw) :
    regex_match_map l = true := by
  obtain ⟨ws, hws, _, _, h1, h2, h3, h4, _, _⟩ := h.scan
  have hn := h.1
  have hk := h.2.1
  simp only [regex_match_map, h1, h2, h3, h4, Bool.and_eq_true, Bool.not_eq_true',
    List.isEmpty_eq_false, List.all_eq_true]
  refine ⟨⟨⟨hn.1, hws⟩, hk.1⟩, ?_⟩
  intro c hc
  simp [hk.2 c hc]

theorem pair_of_regex_match_map {l : List Char} (h : regex_match_map l = true) :
    ∃ name kw, PairForm l name kw := by
  simp only [regex_match_map, Bool.and_eq_true, Bool.not_eq_true', List.isEmpty_eq_false,
    List.all_eq_true] at h
  obtain ⟨⟨⟨h1, h2⟩, h3⟩, h4⟩ := h
  refine ⟨l.takeWhile (fun c => !isSpace c),
    (l.dropWhile (fun c => !isSpace c)).dropWhile isSpace, ⟨h1, ?_⟩, ⟨h3, ?_⟩,
    (l.dropWhile (fun c => !isSpace c)).takeWhile isSpace, h2, ?_, ?_⟩
  · intro c hc
    have := List.mem_takeWhile_imp hc
    simpa using this
  · intro c hc
    simpa using h4 c hc
  · intro c hc
    exact List.mem_takeWhile_imp hc
  · rw [List.takeWhile_append_dropWhile, List.takeWhile_append_dropWhile]

theorem symbolizeMode_mem {s : String} {q : Mode} (h : symbolizeMode s = some q) :
    (s, q) ∈ modeKeywords := by
  unfold symbolizeMode at h
  split at h
  · rename_i e he
    cases h
    have hmem := List.mem_of_find?_eq_some he
    have hs := List.find?_some he
    simp only [beq_iff_eq] at hs
    subst hs
    exact hmem
  · cases h

theorem symbolizeMode_some {s : String} {q : Mode} (h : symbolizeMode s = some q) :
    (s = "F32" ↔ q = .F32) ∧ (s = "F16" ↔ q = .F16) ∧
    (s = "W8F16" ↔ q = .W8F16) ∧ (s = "W4F16" ↔ q = .W4F16) ∧
    (s = "W8BF16" ↔ q = .W8BF16) ∧ (s = "W4BF16" ↔ q = .W4BF16) := by
  have hall : ∀ e ∈ modeKeywords,
      (e.1 = "F32" ↔ e.2 = .F32) ∧ (e.1 = "F16" ↔ e.2 = .F16) ∧
      (e.1 = "W8F16" ↔ e.2 = .W8F16) ∧ (e.1 = "W4F16" ↔ e.2 = .W4F16) ∧
      (e.1 = "W8BF16" ↔ e.2 = .W8BF16) ∧ (e.1 = "W4BF16" ↔ e.2 = .W4BF16) := by
    decide
  exact hall (s, q) (symbolizeMode_mem h)

theorem qmode_BF16 : qmode "BF16" = some .BF16 := by decide

theorem init_qtable.line_pair (md : Module) (m : QuantizeMap) (line : String)
    {name kw : List Char} (hc : ¬ Comment (stripCR line.data))
    (hp : PairForm (stripCR line.data) name kw) :
    init_qtable.line md m line =
      if (upper (String.mk kw) = "W8F16" ∨ upper (String.mk kw) = "W4F16") ∧
          isBF16Modes md.mode then none
      else if (upper (String.mk kw) = "W8BF16" ∨ upper (String.mk kw) = "W4BF16") ∧
          isF16Modes md.mode then none
      else
        match qmode (if isCV18xx md.chip ∧
            (upper (String.mk kw) = "F32" ∨ upper (String.mk kw) = "F16")
            then "BF16" else String.mk kw) with
        | some q => some (m.set (String.mk name) q)
        | none => none := by
  obtain ⟨ws, hws, hsp, hl, h1, h2, h3, h4, h5, h6⟩ := hp.scan
  have hempty : regex_match_empty (stripCR line.data) = false := by
    rw [Bool.eq_false_iff, Ne, regex_match_empty_iff]
    intro hb
    obtain ⟨hne, hns⟩ := hp.1
    cases name with
    | nil => exact hne rfl
    | cons x name =>
      have h1 := hb x (by rw [hl]; simp)
      have h2 := hns x (by simp)
      rw [h1] at h2
      cases h2
  have hinfo : regex_match_info (stripCR line.data) = false := by
    rw [Bool.eq_false_iff, Ne, regex_match_info_iff]
    exact hc
  have hmap := regex_match_map_of_pair hp
  have hd0 : (stripCR line.data).dropWhile isSpace = stripCR line.data := by
    apply (takeWhile_of_head_false _).2
    intro c hc'
    apply hp.1.head_not_space c
    rw [hl] at hc'
    obtain ⟨hne, _⟩ := hp.1
    cases name with
    | nil => exact absurd rfl hne
    | cons x name => simpa using hc'
  have ht1 : extractToken (stripCR line.data) = (name, ws ++ kw) := by
    simp only [extractToken, hd0, h1, h2]
  have ht2 : extractToken (ws ++ kw) = (kw, []) := by
    simp only [extractToken, h4, h5, h6]
  unfold init_qtable.line
  simp only [hempty, hinfo, hmap, ht1, ht2, Bool.false_eq_true, if_false, if_true]

theorem Token.not_pair {l : List Char} (ht : Token l) : regex_match_map l = false := by
  rw [Bool.eq_false_iff]
  intro h
  obtain ⟨name, kw, _, _, ws, hws, hsp, hl⟩ := pair_of_regex_match_map h
  cases ws with
  | nil => exact hws rfl
  | cons x ws =>
    have h1 := hsp x (by simp)
    have h2 := ht.2 x (by rw [hl]; simp)
    rw [h1] at h2
    cases h2

theorem Token.not_blank {l : List Char} (ht : Token l) : regex_match_empty l = false := by
  rw [Bool.eq_false_iff, Ne, regex_match_empty_iff]
  intro hb
  obtain ⟨hne, hns⟩ := ht
  cases l with
  | nil => exact hne rfl
  | cons x l =>
    have h1 := hb x (by simp)
    have h2 := hns x (by simp)
    rw [h1] at h2
    cases h2

/-- C18 (as stated, refuted): on a CV18xx target the line `conv1 F32` adds
`conv1 -> BF16`, not `conv1 -> F32`; and the line `#a<CR>b`, which begins with
`#`, is not skipped but read as the name `#a` with the unknown keyword `b`,
a fatal error. -/
theorem init_qtable_line_counterexample :
    init_qtable.line cv18Module [] "conv1 F32" = some [("conv1", .BF16)] ∧
    init_qtable.line cv18Module [] "conv1 F32" ≠ some [("conv1", .F32)] ∧
    init_qtable.line int8Module [] (String.mk ['#', 'a', Char.ofNat 13, 'b']) = none := by
  decide

/-- C18 (amended): `init_qtable` classifies a line, after dropping one trailing
carriage return, as follows.  A blank line and a line that begins with `#` and
holds no further carriage return or line feed leave the map unchanged.  A line
`<name><white space><keyword>` whose keyword, in upper case, names the mode `q`
that does not clash with the global mode sets `name -> q`, except that on a
CV18xx target F32 and F16 are stored as BF16.  A single bare token leaves the
map unchanged.  Every line of none of these forms is a fatal error. -/
theorem init_qtable_line_classes (md : Module) (m : QuantizeMap) (line : String) :
    (Blank (stripCR line.data) ∨ Comment (stripCR line.data) →
      init_qtable.line md m line = some m) ∧
    (∀ name kw q, ¬ Comment (stripCR line.data) → PairForm (stripCR line.data) name kw →
      symbolizeMode (upper (String.mk kw)) = some q → ¬ ModeClash md.mode q →
      init_qtable.line md m line = some (m.set (String.mk name) (storedMode md.chip q))) ∧
    (¬ Comment (stripCR line.data) → Token (stripCR line.data) →
      init_qtable.line md m line = some m) ∧
    (¬ Blank (stripCR line.data) → ¬ Comment (stripCR line.data) →
      (¬ ∃ name kw, PairForm (stripCR line.data) name kw) → ¬ Token (stripCR line.data) →
      init_qtable.line md m line = none) := by
  refine ⟨?_, ?_, ?_, ?_⟩
  · intro h
    unfold init_qtable.line
    by_cases hb : regex_match_empty (stripCR line.data) = true
    · simp only [hb, if_true]
    · rcases h with h | h
      · exact absurd ((regex_match_empty_iff _).2 h) hb
      · have hi := (regex_match_info_iff _).2 h
        simp only [hb, hi, if_true, Bool.false_eq_true, if_false]
  · intro name kw q hc hp hq hclash
    rw [init_qtable.line_pair md m line hc hp]
    obtain ⟨hF32, hF16, hW8F16, hW4F16, hW8BF16, hW4BF16⟩ := symbolizeMode_some hq
    have hno1 : ¬ ((upper (String.mk kw) = "W8F16" ∨ upper (String.mk kw) = "W4F16") ∧
        isBF16Modes md.mode = true) := by
      rw [hW8F16, hW4F16]
      exact fun h => hclash (Or.inl h)
    have hno2 : ¬ ((upper (String.mk kw) = "W8BF16" ∨ upper (String.mk kw) = "W4BF16") ∧
        isF16Modes md.mode = true) := by
      rw [hW8BF16, hW4BF16]
      exact fun h => hclash (Or.inr h)
    rw [if_neg hno1, if_neg hno2]
    unfold storedMode
    by_cases hcv : isCV18xx md.chip = true ∧ (q = .F32 ∨ q = .F16)
    · have hcv' : isCV18xx md.chip = true ∧
          (upper (String.mk kw) = "F32" ∨ upper (String.mk kw) = "F16") :=
        ⟨hcv.1, hcv.2.imp hF32.2 hF16.2⟩
      rw [if_pos hcv', if_pos hcv, qmode_BF16]
    · have hcv' : ¬ (isCV18xx md.chip = true ∧
          (upper (String.mk kw) = "F32" ∨ upper (String.mk kw) = "F16")) :=
        fun h => hcv ⟨h.1, h.2.imp hF32.1 hF16.1⟩
      rw [if_neg hcv', if_neg hcv]
      show (match symbolizeMode (upper (String.mk kw)) with
        | some q => some (m.set (String.mk name) q)
        | none => none) = _
      rw [hq]
  · intro hc ht
    unfold init_qtable.line
    have hi : regex_match_info (stripCR line.data) = false := by
      rw [Bool.eq_false_iff, Ne, regex_match_info_iff]
      exact hc
    have hn := (regex_match_name_iff _).2 ht
    simp only [ht.not_blank, hi, ht.not_pair, hn, Bool.false_eq_true, if_false, if_true]
  · intro hb hc hp ht
    unfold init_qtable.line
    have h1 : regex_match_empty (stripCR line.data) = false := by
      rw [Bool.eq_false_iff, Ne, regex_match_empty_iff]
      exact hb
    have h2 : regex_match_info (stripCR line.data) = false := by
      rw [Bool.eq_false_iff, Ne, regex_match_info_iff]
      exact hc
    have h3 : regex_match_map (stripCR line.data) = false := by
      rw [Bool.eq_false_iff]
      exact fun h => hp (pair_of_regex_match_map h)
    have h4 : regex_match_name (stripCR line.data) = false := by
      rw [Bool.eq_false_iff, Ne, regex_match_name_iff]
      exact ht
    simp only [h1, h2, h3, h4, Bool.false_eq_true, if_false]

theorem conv1_pair (kw : List Char) (hk : Token kw) :
    PairForm ("conv1".data ++ (" ".data ++ kw)) "conv1".data kw :=
  ⟨⟨by decide, by decide⟩, hk, " ".data, by decide, by decide, rfl⟩

theorem not_comment_of_regex {l : List Char} (h : regex_match_info l = false) : ¬ Comment l := by
  rw [← regex_match_info_iff, h]
  exact Bool.false_ne_true

theorem init_qtable_line_classes_witness :
    init_qtable.line cv18Module [] "conv1 F16" =
      some (QuantizeMap.set [] "conv1" (storedMode .CV183x .F16)) :=
  (init_qtable_line_classes cv18Module [] "conv1 F16").2.1 "conv1".data "F16".data .F16
    (not_comment_of_regex (by decide)) (conv1_pair "F16".data ⟨by decide, by decide⟩)
    (by decide) (by decide)

theorem symbolizeMode_F32 : symbolizeMode "F32" = some .F32 := by decide

theorem symbolizeMode_F16 : symbolizeMode "F16" = some .F16 := by decide

/-- C19: for an override line `<name><white space><keyword>` of the table,
a keyword that reads W8F16 or W4F16 in upper case under a global BF16 mode, or
W8BF16 or W4BF16 under a global F16 mode, is a fatal error (no map is
produced, so no entry is added); a keyword that in upper case is none of the
mode keywords is a fatal error as well; and two lines for the same name whose
keywords agree in upper case give the same result, so the letter case of a
keyword does not matter. -/
theorem init_qtable_line_modes (md : Module) (m : QuantizeMap) (line : String)
    (name kw : List Char) (hc : ¬ Comment (stripCR line.data))
    (hp : PairForm (stripCR line.data) name kw) :
    ((upper (String.mk kw) = "W8F16" ∨ upper (String.mk kw) = "W4F16") →
      isBF16Modes md.mode = true → init_qtable.line md m line = none) ∧
    ((upper (String.mk kw) = "W8BF16" ∨ upper (String.mk kw) = "W4BF16") →
      isF16Modes md.mode = true → init_qtable.line md m line = none) ∧
    (symbolizeMode (upper (String.mk kw)) = none → init_qtable.line md m line = none) ∧
    (∀ (line' : String) (kw' : List Char), ¬ Comment (stripCR line'.data) →
      PairForm (stripCR line'.data) name kw' →
      upper (String.mk kw') = upper (String.mk kw) →
      init_qtable.line md m line' = init_qtable.line md m line) := by
  have hmain := init_qtable.line_pair md m line hc hp
  refine ⟨?_, ?_, ?_, ?_⟩
  · intro h1 h2
    rw [hmain, if_pos ⟨h1, h2⟩]
  · intro h1 h2
    rw [hmain]
    split
    · rfl
    · rw [if_pos ⟨h1, h2⟩]
  · intro hnone
    rw [hmain]
    split
    · rfl
    · split
      · rfl
      · have h32 : upper (String.mk kw) ≠ "F32" := by
          intro h
          rw [h, symbolizeMode_F32] at hnone
          cases hnone
        have h16 : upper (String.mk kw) ≠ "F16" := by
          intro h
          rw [h, symbolizeMode_F16] at hnone
          cases hnone
        have hcv : ¬ (isCV18xx md.chip = true ∧
            (upper (String.mk kw) = "F32" ∨ upper (String.mk kw) = "F16")) := by
          rintro ⟨_, h | h⟩
          · exact h32 h
          · exact h16 h
        rw [if_neg hcv]
        show (match symbolizeMode (upper (String.mk kw)) with
          | some q => some (m.set (String.mk name) q)
          | none => none) = none
        rw [hnone]
  · intro line' kw' hc' hp' hup
    rw [hmain, init_qtable.line_pair md m line' hc' hp', hup]
    by_cases hcv : isCV18xx md.chip = true ∧
        (upper (String.mk kw) = "F32" ∨ upper (String.mk kw) = "F16")
    · rw [if_pos hcv, if_pos hcv]
    · rw [if_neg hcv, if_neg hcv]
      have hq : qmode (String.mk kw') = qmode (String.mk kw) := by
        show symbolizeMode (upper (String.mk kw')) = symbolizeMode (upper (String.mk kw))
        rw [hup]
      rw [hq]

theorem init_qtable_line_modes_witness :
    init_qtable.line bf16Module [] "conv1 w8f16" = none ∧
    init_qtable.line bf16Module [] "conv1 W8F16" =
      init_qtable.line bf16Module [] "conv1 w8f16" :=
  ⟨(init_qtable_line_modes bf16Module [] "conv1 w8f16" "conv1".data "w8f16".data
      (not_comment_of_regex (by decide))
      (conv1_pair "w8f16".data ⟨by decide, by decide⟩)).1 (by decide) (by decide),
   (init_qtable_line_modes bf16Module [] "conv1 w8f16" "conv1".data "w8f16".data
      (not_comment_of_regex (by decide))
      (conv1_pair "w8f16".data ⟨by decide, by decide⟩)).2.2.2 "conv1 W8F16" "W8F16".data
      (not_comment_of_regex (by decide))
      (conv1_pair "W8F16".data ⟨by decide, by decide⟩) (by decide)⟩

/-! ### The mixed-precision matchers -/

theorem QuantizeMap.find_append (m l : QuantizeMap) (k : String) :
    QuantizeMap.find (m ++ l) k =
      match m.find k with
      | some x => some x
      | none => QuantizeMap.find l k := by
  unfold QuantizeMap.find
  rw [List.find?_append]
  cases List.find? (fun e => e.1 == k) m <;> rfl

theorem QuantizeMap.find_singleton (k k' : String) (v : Mode) :
    QuantizeMap.find [(k, v)] k' = if k = k' then some v else none := by
  unfold QuantizeMap.find
  by_cases h : k = k'
  · simp [List.find?, h]
  · have hb : (k == k') = false := by simpa using h
    simp [List.find?, h, hb]

theorem QuantizeMap.Extends.refl (m : QuantizeMap) : m.Extends m :=
  fun _ _ h => h

theorem QuantizeMap.Extends.trans {a b c : QuantizeMap} (h1 : a.Extends b) (h2 : b.Extends c) :
    a.Extends c :=
  fun k x h => h2 k x (h1 k x h)

theorem QuantizeMap.extends_insert (m : QuantizeMap) (k : String) (v : Mode) :
    m.Extends (m.insert k v) := by
  intro k' x h
  unfold QuantizeMap.insert
  split
  · exact h
  · rw [QuantizeMap.find_append, h]

theorem QuantizeMap.find_insert_self (m : QuantizeMap) (k : String) (v : Mode) :
    ((m.insert k v).find k).isSome = true := by
  unfold QuantizeMap.insert
  split
  · assumption
  · rename_i h
    rw [QuantizeMap.find_append]
    cases hm : m.find k with
    | some x => rfl
    | none => simp [QuantizeMap.find_singleton]

theorem extends_insertIfAbsent (m : QuantizeMap) (k : String) (v : Mode) :
    m.Extends (insertIfAbsent m k v) := by
  unfold insertIfAbsent
  split
  · exact QuantizeMap.extends_insert m k v
  · exact QuantizeMap.Extends.refl m

theorem find_insertIfAbsent_self (m : QuantizeMap) (k : String) (v : Mode) :
    ((insertIfAbsent m k v).find k).isSome = true := by
  unfold insertIfAbsent
  split
  · exact QuantizeMap.find_insert_self m k v
  · rename_i h
    cases hm : m.find k with
    | some x => rfl
    | none => simp [hm] at h

theorem insertIfAbsent_of_present {M : QuantizeMap} {k : String} (v : Mode)
    (h : (M.find k).isSome = true) : insertIfAbsent M k v = M := by
  unfold insertIfAbsent
  cases hm : M.find k with
  | some x => simp
  | none => simp [hm] at h

theorem QuantizeMap.Extends.isSome {m M : QuantizeMap} (h : m.Extends M) {k : String}
    (hk : (m.find k).isSome = true) : (M.find k).isSome = true := by
  cases hm : m.find k with
  | some x => rw [h k x hm]; rfl
  | none => simp [hm] at hk

theorem insertIfAbsent_of_extends {m M : QuantizeMap} {k : String} {v : Mode}
    (h : (insertIfAbsent m k v).Extends M) : insertIfAbsent M k v = M :=
  insertIfAbsent_of_present v (h.isSome (find_insertIfAbsent_self m k v))

theorem stableB_none : StableB fun _ => none := by
  intro m r b h
  cases h

theorem stableB_const (b : Bool) : StableB fun m => some (m, b) := by
  intro m r b' h
  cases h
  exact ⟨QuantizeMap.Extends.refl m, fun M _ => rfl⟩

theorem stableB_insert (k : String) (v : Mode) :
    StableB fun m => some (insertIfAbsent m k v, true) := by
  intro m r b h
  cases h
  refine ⟨extends_insertIfAbsent m k v, fun M hM => ?_⟩
  show some (insertIfAbsent M k v, true) = some (M, true)
  rw [insertIfAbsent_of_extends hM]

theorem stableB_bind {f g : QuantizeMap → Option (QuantizeMap × Bool)}
    (hf : StableB f) (hg : StableB g) : StableB fun m => andThenB (f m) g := by
  intro m r b h
  cases hfm : f m with
  | none => simp only [hfm, andThenB] at h; cases h
  | some p =>
    obtain ⟨m1, b1⟩ := p
    obtain ⟨he1, hs1⟩ := hf m m1 b1 hfm
    cases b1 with
    | false =>
      simp only [hfm, andThenB] at h
      cases h
      refine ⟨he1, fun M hM => ?_⟩
      show andThenB (f M) g = _
      rw [hs1 M hM]
      rfl
    | true =>
      simp only [hfm, andThenB] at h
      obtain ⟨he2, hs2⟩ := hg m1 r b h
      refine ⟨he1.trans he2, fun M hM => ?_⟩
      show andThenB (f M) g = _
      rw [hs1 M (he2.trans hM)]
      exact hs2 M hM

theorem stableB_forEach {α : Type} {body : α → QuantizeMap → Option (QuantizeMap × Bool)}
    (hb : ∀ x, StableB (body x)) : ∀ xs, StableB (forEach body xs)
  | [] => stableB_const true
  | x :: xs => stableB_bind (hb x) (stableB_forEach hb xs)

theorem stableB_after_insert {f : QuantizeMap → Option (QuantizeMap × Bool)} (hf : StableB f)
    (k : String) (v : Mode) : StableB fun m => f (insertIfAbsent m k v) := by
  have h := stableB_bind (stableB_insert k v) hf
  exact h

theorem stableB_pinMatMulOperands (g : Graph) (skip : Bool) (addop : Op) :
    StableB (pinMatMulOperands g skip addop) := by
  unfold pinMatMulOperands
  apply stableB_forEach
  intro i
  cases g[i]? with
  | none => exact stableB_none
  | some p =>
    by_cases hk : p.kind = .MatMul
    · cases skip with
      | true => simpa [hk] using stableB_const true
      | false => simpa [hk] using stableB_insert p.name .F16
    · simpa [hk] using stableB_const true

theorem stableB_pinAddUsers (g : Graph) (v : Nat) : StableB (pinAddUsers g v) := by
  unfold pinAddUsers
  apply stableB_forEach
  intro u
  cases g[u]? with
  | none => exact stableB_none
  | some p =>
    by_cases hk : p.kind = .Add
    · simpa [hk] using stableB_insert p.name .F16
    · simpa [hk] using stableB_const true

theorem stableB_pinAttention (g : Graph) (l : List Nat) : StableB (pinAttention g l) := by
  unfold pinAttention
  apply stableB_forEach
  intro op
  cases g[op]? with
  | none => exact stableB_none
  | some atenop =>
    by_cases hk : atenop.kind = .Attention
    · cases hi : atenop.operands[0]? with
      | none => simpa [hk, hi] using stableB_none
      | some i =>
        cases hl : g[i]? with
        | none => simpa [hk, hi, hl] using stableB_none
        | some lnop =>
          by_cases hln : lnop.kind = .LayerNorm
          · simpa [hk, hi, hl, hln] using stableB_pinAddUsers g i
          · simpa [hk, hi, hl, hln] using stableB_const false
    · simpa [hk] using stableB_none

theorem stableB_addBefore (g : Graph) (op : Nat)
    (f : Op → QuantizeMap → Option (QuantizeMap × Bool)) (hf : ∀ a, StableB (f a)) :
    StableB fun m =>
      match addBeforeLayerNorm g op with
      | none => none
      | some none => some (m, false)
      | some (some addop) => f addop m := by
  cases addBeforeLayerNorm g op with
  | none => exact stableB_none
  | some r =>
    cases r with
    | none => exact stableB_const false
    | some a => exact hf a

theorem stableB_bert_mix_precision (s : TopologyScans) (g : Graph) :
    StableB (bert_mix_precision s g) := by
  unfold bert_mix_precision
  by_cases hc : (s.match_bert_ffn g).length > 0 ∧
      ((s.match_bert_mha g).length > 0 ∨ (s.match_attention g).length > 0)
  · simp only [hc, if_true]
    refine stableB_bind (stableB_forEach (fun op => ?_) _) (stableB_bind
      (stableB_forEach (fun x => ?_) _) (stableB_bind (stableB_pinAttention g _)
        (stableB_pinAttention g _)))
    · exact stableB_addBefore g op (fun a m => some (insertIfAbsent m a.name .F16, true))
        (fun a => stableB_insert a.name .F16)
    · exact stableB_addBefore g x.2 _
        (fun a => stableB_after_insert (stableB_pinMatMulOperands g _ a) a.name .F16)
  · simp only [hc, if_false]
    exact stableB_const false

theorem stableB_swin_fold (l : List (String × Mode)) :
    StableB fun m => some (l.foldl (fun m e => insertIfAbsent m e.1 e.2) m, true) := by
  induction l with
  | nil => exact stableB_const true
  | cons e l ih => exact stableB_bind (stableB_insert e.1 e.2) ih

theorem stableB_swin (swin : Graph → List (String × Mode)) (g : Graph) :
    StableB fun m => some (swin_t_mix_precision swin g m, true) :=
  stableB_swin_fold (swin g)

theorem stableB_vit_mix_precision (s : TopologyScans) (g : Graph) :
    StableB (vit_mix_precision s g) := by
  unfold vit_mix_precision
  simp only
  generalize (if (s.match_vit_mha g).length = 0 then s.match_vit_mha g ++ s.match_vit_mha1 g
    else s.match_vit_mha g) = mha
  by_cases hc : (s.match_vit_mlp g).length > 0 ∧ mha.length > 0 ∧
      (s.match_vit_mlp g).length = mha.length
  · simp only [hc, if_true]
    refine stableB_bind (stableB_forEach (fun op => ?_) _) (stableB_forEach (fun x => ?_) _)
    · cases g[op]? with
      | none => exact stableB_none
      | some addop =>
        by_cases hk : addop.kind = .Add
        · simpa [hk] using stableB_after_insert (stableB_pinAddUsers g op) addop.name .F16
        · simpa [hk] using stableB_const false
    · cases g[x.2]? with
      | none => exact stableB_none
      | some addop =>
        by_cases hk : addop.kind = .Add
        · simpa [hk] using
            stableB_after_insert (stableB_pinMatMulOperands g _ addop) addop.name .F16
        · simpa [hk] using stableB_const false
  · simp only [hc, if_false]
    exact stableB_const false

theorem visit_stable (g : Graph) (o : Op) {m r : QuantizeMap}
    (h : set_add_before_softmax_fp32.visit g m o = some r) :
    m.Extends r ∧ ∀ M, r.Extends M → set_add_before_softmax_fp32.visit g M o = some M := by
  unfold set_add_before_softmax_fp32.visit at h ⊢
  by_cases hk : o.kind = .Add
  · simp only [hk, if_true] at h ⊢
    by_cases hp : (m.find o.name).isSome = true
    · simp only [hp, if_true] at h
      cases h
      refine ⟨QuantizeMap.Extends.refl _, fun M hM => ?_⟩
      simp only [hM.isSome hp, if_true]
    · simp only [hp, Bool.false_eq_true, if_false] at h
      have hskip : ∀ M : QuantizeMap, ∀ (X : Option QuantizeMap),
          (M.find o.name).isSome = true →
          (if (M.find o.name).isSome = true then some M else X) = some M := by
        intro M X hX
        rw [if_pos hX]
      cases hth : thLoop g o.operands 0 (0, 0) with
      | none => simp only [hth] at h; cases h
      | some t =>
        cases t with
        | none =>
          simp only [hth] at h
          cases h
          refine ⟨QuantizeMap.Extends.refl _, fun M _ => ?_⟩
          by_cases hM : (M.find o.name).isSome = true
          · simp only [hM, if_true]
          · simp only [hM, Bool.false_eq_true, if_false]
        | some th =>
          simp only [hth] at h
          by_cases hsmall : th.1 < oneE8 ∨ th.2 < oneE8
          · simp only [hsmall, if_true] at h
            cases h
            refine ⟨QuantizeMap.Extends.refl _, fun M _ => ?_⟩
            by_cases hM : (M.find o.name).isSome = true
            · simp only [hM, if_true]
            · simp only [hM, Bool.false_eq_true, if_false, hsmall, if_true]
          · simp only [hsmall, if_false] at h
            by_cases hratio : floatQuotientExceeds th.1 th.2 64 = true ∨
                floatQuotientExceeds th.2 th.1 64 = true
            · simp only [hratio, if_true] at h
              cases h
              refine ⟨extends_insertIfAbsent _ _ _, fun M hM => ?_⟩
              exact hskip M _ (hM.isSome (find_insertIfAbsent_self m o.name .F32))
            · simp only [hratio, if_false] at h
              cases h
              refine ⟨QuantizeMap.Extends.refl _, fun M _ => ?_⟩
              by_cases hM : (M.find o.name).isSome = true
              · simp only [hM, if_true]
              · simp only [hM, Bool.false_eq_true, if_false, hsmall, hratio]
  · simp only [hk, if_false] at h
    cases h
    refine ⟨QuantizeMap.Extends.refl _, fun M _ => ?_⟩
    simp only [hk, if_false]

theorem foldlM_visit_stable (g : Graph) :
    ∀ (l : List Op) (m r : QuantizeMap),
      l.foldlM (set_add_before_softmax_fp32.visit g) m = some r →
      m.Extends r ∧ ∀ M, r.Extends M → l.foldlM (set_add_before_softmax_fp32.visit g) M = some M
  | [], m, r, h => by
    have hr : m = r := by simpa using h
    subst hr
    refine ⟨QuantizeMap.Extends.refl _, fun M _ => ?_⟩
    simp
  | o :: l, m, r, h => by
    rw [List.foldlM_cons] at h
    cases hv : set_add_before_softmax_fp32.visit g m o with
    | none => rw [hv] at h; cases h
    | some m1 =>
      rw [hv] at h
      obtain ⟨he1, hs1⟩ := visit_stable g o hv
      obtain ⟨he2, hs2⟩ := foldlM_visit_stable g l m1 r h
      refine ⟨he1.trans he2, fun M hM => ?_⟩
      rw [List.foldlM_cons, hs1 M (he2.trans hM)]
      exact hs2 M hM

theorem set_add_stable (g : Graph) {m r : QuantizeMap}
    (h : set_add_before_softmax_fp32 g m = some r) :
    m.Extends r ∧ ∀ M, r.Extends M → set_add_before_softmax_fp32 g M = some M :=
  foldlM_visit_stable g g m r h

/-- C11: when `qtable_process` (the matchers `bert_mix_precision`,
`swin_t_mix_precision`, `vit_mix_precision`, `set_add_before_softmax_fp32` in
turn) runs on a graph from the map `m` and ends with the map `m'`, running it
again on the same graph from `m'` ends with exactly `m'`, and every key of `m`
is in `m'` with the mode it had; the same holds of `bert_mix_precision`,
`vit_mix_precision` and `set_add_before_softmax_fp32` run alone.  The topology
scans are arbitrary functions of the graph. -/
theorem qtable_process_idempotent (s : TopologyScans) (swin : Graph → List (String × Mode))
    (g : Graph) (m m' : QuantizeMap) (h : qtable_process s swin g m = some m') :
    qtable_process s swin g m' = some m' ∧ m.Extends m' ∧
    (∀ r b, bert_mix_precision s g m = some (r, b) →
      bert_mix_precision s g r = some (r, b) ∧ m.Extends r) ∧
    (∀ r b, vit_mix_precision s g m = some (r, b) →
      vit_mix_precision s g r = some (r, b) ∧ m.Extends r) ∧
    (∀ r, set_add_before_softmax_fp32 g m = some r →
      set_add_before_softmax_fp32 g r = some r ∧ m.Extends r) := by
  refine ⟨?_, ?_, ?_, ?_, ?_⟩
  · unfold qtable_process at h ⊢
    cases hb : bert_mix_precision s g m with
    | none => simp only [hb] at h; cases h
    | some p1 =>
      obtain ⟨m1, b1⟩ := p1
      simp only [hb] at h
      cases hv : vit_mix_precision s g (swin_t_mix_precision swin g m1) with
      | none => simp only [hv] at h; cases h
      | some p3 =>
        obtain ⟨m3, b3⟩ := p3
        simp only [hv] at h
        obtain ⟨_, hs1⟩ := stableB_bert_mix_precision s g m m1 b1 hb
        obtain ⟨_, hs2⟩ := stableB_swin swin g m1 _ true rfl
        obtain ⟨he3, hs3⟩ := stableB_vit_mix_precision s g _ m3 b3 hv
        obtain ⟨he4, hs4⟩ := set_add_stable g h
        have h3 : m3.Extends m' := he4
        have h2 : (swin_t_mix_precision swin g m1).Extends m' := he3.trans h3
        have hsw : swin_t_mix_precision swin g m' = m' := by
          have := hs2 m' h2
          simpa using this
        have h1 : m1.Extends m' :=
          (stableB_swin swin g m1 _ true rfl).1.trans h2
        rw [hs1 m' h1]
        simp only [hsw]
        rw [hs3 m' h3]
        exact hs4 m' (QuantizeMap.Extends.refl _)
  · unfold qtable_process at h
    cases hb : bert_mix_precision s g m with
    | none => simp only [hb] at h; cases h
    | some p1 =>
      obtain ⟨m1, b1⟩ := p1
      simp only [hb] at h
      cases hv : vit_mix_precision s g (swin_t_mix_precision swin g m1) with
      | none => simp only [hv] at h; cases h
      | some p3 =>
        obtain ⟨m3, b3⟩ := p3
        simp only [hv] at h
        exact (stableB_bert_mix_precision s g m m1 b1 hb).1.trans
          ((stableB_swin swin g m1 _ true rfl).1.trans
            ((stableB_vit_mix_precision s g _ m3 b3 hv).1.trans (set_add_stable g h).1))
  · intro r b hr
    obtain ⟨he, hs⟩ := stableB_bert_mix_precision s g m r b hr
    exact ⟨hs r (QuantizeMap.Extends.refl _), he⟩
  · intro r b hr
    obtain ⟨he, hs⟩ := stableB_vit_mix_precision s g m r b hr
    exact ⟨hs r (QuantizeMap.Extends.refl _), he⟩
  · intro r hr
    obtain ⟨he, hs⟩ := set_add_stable g hr
    exact ⟨hs r (QuantizeMap.Extends.refl _), he⟩

theorem qtable_process_idempotent_witness :
    qtable_process noScans (fun _ => []) addRatioGraph [("add", .F32)] = some [("add", .F32)] ∧
    QuantizeMap.Extends [] [("add", .F32)] :=
  ⟨(qtable_process_idempotent noScans (fun _ => []) addRatioGraph [] [("add", .F32)]
      (by decide!)).1,
   (qtable_process_idempotent noScans (fun _ => []) addRatioGraph [] [("add", .F32)]
      (by decide!)).2.1⟩

theorem find_insertIfAbsent_ne (m : QuantizeMap) {k k' : String} (v : Mode) (h : k ≠ k') :
    (insertIfAbsent m k v).find k' = m.find k' := by
  unfold insertIfAbsent QuantizeMap.insert
  split
  · split
    · rfl
    · rw [QuantizeMap.find_append, QuantizeMap.find_singleton, if_neg h]
      cases m.find k' <;> rfl
  · rfl

theorem find_insertIfAbsent_absent (m : QuantizeMap) {k : String} (v : Mode)
    (h : m.find k = none) : (insertIfAbsent m k v).find k = some v := by
  unfold insertIfAbsent QuantizeMap.insert
  simp only [h, Option.isNone_none, Option.isSome_none, if_true, Bool.false_eq_true, if_false]
  rw [QuantizeMap.find_append, h, QuantizeMap.find_singleton, if_pos rfl]

theorem visit_find_of_ne (g : Graph) {o : Op} {k : String} {m r : QuantizeMap}
    (hne : o.kind = .Add → o.name ≠ k)
    (h : set_add_before_softmax_fp32.visit g m o = some r) : r.find k = m.find k := by
  unfold set_add_before_softmax_fp32.visit at h
  by_cases hk : o.kind = .Add
  · simp only [hk, if_true] at h
    split at h
    · cases h; rfl
    · split at h
      · cases h
      · cases h; rfl
      · split at h
        · cases h; rfl
        · split at h
          · cases h
            exact find_insertIfAbsent_ne m .F32 (hne hk)
          · cases h; rfl
  · simp only [hk, if_false] at h
    cases h
    rfl

theorem foldlM_visit_find_of_ne (g : Graph) (k : String) :
    ∀ (l : List Op) (m r : QuantizeMap), (∀ o ∈ l, o.kind = .Add → o.name ≠ k) →
      l.foldlM (set_add_before_softmax_fp32.visit g) m = some r → r.find k = m.find k
  | [], m, r, _, h => by
    have hr : m = r := by simpa using h
    rw [hr]
  | o :: l, m, r, hl, h => by
    rw [List.foldlM_cons] at h
    cases hv : set_add_before_softmax_fp32.visit g m o with
    | none => rw [hv] at h; cases h
    | some m1 =>
      rw [hv] at h
      rw [foldlM_visit_find_of_ne g k l m1 r (fun o' ho' => hl o' (by simp [ho'])) h]
      exact visit_find_of_ne g (hl o (by simp)) hv

theorem visit_two_inputs (g : Graph) (m : QuantizeMap) (o : Op) (a b : Nat) (t0 t1 : ℚ)
    (hk : o.kind = .Add) (habs : m.find o.name = none) (hops : o.operands = [a, b])
    (hca : isCalibratedType g a = true) (hcb : isCalibratedType g b = true)
    (hta : addInputBound g a = some t0) (htb : addInputBound g b = some t1)
    (h0 : oneE8 ≤ t0) (h1 : oneE8 ≤ t1) :
    set_add_before_softmax_fp32.visit g m o =
      some (if floatQuotientExceeds t0 t1 64 = true ∨ floatQuotientExceeds t1 t0 64 = true
        then insertIfAbsent m o.name .F32 else m) := by
  have hth : thLoop g [a, b] 0 (0, 0) = some (some (t0, t1)) := by
    simp [thLoop, hca, hcb, hta, htb]
  unfold set_add_before_softmax_fp32.visit
  simp only [hk, if_true, habs, Option.isSome_none, Bool.false_eq_true, if_false, hops, hth]
  rw [if_neg (by intro h; rcases h with h | h <;> linarith)]
  split <;> rfl

theorem mem_take_getElem? {α : Type} {l : List α} {n : Nat} {x : α} (h : x ∈ l.take n) :
    ∃ j, j < n ∧ l[j]? = some x := by
  obtain ⟨j, hj, hx⟩ := List.getElem_of_mem h
  have hj' : j < n ∧ j < l.length := by simpa using hj
  refine ⟨j, hj'.1, ?_⟩
  rw [List.getElem_take] at hx
  rw [List.getElem?_eq_getElem hj'.2, hx]

theorem mem_drop_getElem? {α : Type} {l : List α} {n : Nat} {x : α} (h : x ∈ l.drop n) :
    ∃ j, n ≤ j ∧ l[j]? = some x := by
  obtain ⟨j, hj, hx⟩ := List.getElem_of_mem h
  rw [List.getElem_drop] at hx
  have hj' : n + j < l.length := by
    simp at hj
    omega
  exact ⟨n + j, by omega, by rw [List.getElem?_eq_getElem hj', hx]⟩

theorem absmax_foldl (l : List ℚ) : ∀ (init : ℚ),
    init ≤ l.foldl (fun absmax x => if |x| > absmax then |x| else absmax) init ∧
    (∀ x ∈ l, |x| ≤ l.foldl (fun absmax x => if |x| > absmax then |x| else absmax) init) ∧
    (l.foldl (fun absmax x => if |x| > absmax then |x| else absmax) init = init ∨
      ∃ x ∈ l, |x| = l.foldl (fun absmax x => if |x| > absmax then |x| else absmax) init) := by
  induction l with
  | nil => intro init; simp
  | cons y l ih =>
    intro init
    simp only [List.foldl_cons, List.mem_cons, forall_eq_or_imp, exists_eq_or_imp]
    obtain ⟨h1, h2, h3⟩ := ih (if |y| > init then |y| else init)
    have hle : init ≤ (if |y| > init then |y| else init) := by
      split <;> linarith
    have hy : |y| ≤ (if |y| > init then |y| else init) := by
      split <;> linarith
    refine ⟨le_trans hle h1, ⟨le_trans hy h1, h2⟩, ?_⟩
    rcases h3 with h3 | ⟨x, hx, hxe⟩
    · by_cases hgt : |y| > init
      · right; left
        rw [h3, if_pos hgt]
      · left
        rw [h3, if_neg hgt]
    · right; right
      exact ⟨x, hx, hxe⟩

/-- C12 (as stated, refuted): (1) an Add, not in the map, of a calibrated input
`[-1,1]` and a calibrated Weight `[-100,100]` whose data is `[1]`: the bounds
`max(|min|,|max|)` are 1 and 100, ratio 100 > 64, yet the Add is not pinned,
because for a Weight the code takes the largest absolute data value, here 1.
(2) An Add of inputs `[-64.000001, 64.000001]` and `[-1,1]`: the ratio of the
bounds is above 64, but the first bound is stored in a `float` as 64, the
`float` quotient is 64 and the Add is not pinned.  (3) An Add of inputs `[-1,1]`
and `[-1e-8, 1e-8]`: both bounds are at least `10^-8` and their ratio is
`10^8`, but the `float` nearest to `10^-8` is below the `double` `1e-8` and
the function returns before the ratio test. -/
theorem set_add_before_softmax_fp32_bounds_counterexample :
    (set_add_before_softmax_fp32 addWeightGraph [] = some [] ∧
      getCalibratedType addWeightGraph 0 = some { expressed := .f32, min := -1, max := 1 } ∧
      getCalibratedType addWeightGraph 1 =
        some { expressed := .f32, min := -100, max := 100 } ∧
      max |(-100 : ℚ)| |100| / max |(-1 : ℚ)| |1| > 64) ∧
    (set_add_before_softmax_fp32 (addBoundsGraph (64000001 / 1000000) 1) [] = some [] ∧
      (1 / 100000000 : ℚ) ≤ 64000001 / 1000000 ∧ (1 / 100000000 : ℚ) ≤ 1 ∧
      (64000001 / 1000000 : ℚ) / 1 > 64) ∧
    (set_add_before_softmax_fp32 (addBoundsGraph 1 (1 / 100000000)) [] = some [] ∧
      (1 / 100000000 : ℚ) ≤ 1 ∧ (1 / 100000000 : ℚ) ≤ 1 / 100000000 ∧
      (1 : ℚ) / (1 / 100000000) > 64) := by
  refine ⟨⟨by decide!, by decide!, by decide!, by norm_num⟩,
    ⟨by decide!, by norm_num, by norm_num, by norm_num⟩,
    ⟨by decide!, by norm_num, by norm_num, by norm_num⟩⟩

/-- C12 (amended): let the walk of `set_add_before_softmax_fp32` from the map
`m` end with `m'`, and let `o` be an Add (the only Add of that name) that is not
in `m` and has exactly two inputs, both calibrated, with bounds `t0`, `t1` as
the `float` array `th` holds them, both at least the `double` `1e-8`; the bound
of an input that is no Weight is `max(|min|,|max|)` of its range stored in a
`float`, and the bound of a Weight is the largest absolute value of its data.
Then `m'` holds `o` with mode F32 when the `float` quotient `t0/t1` or `t1/t0`
is greater than 64 and does not hold `o` otherwise (a quotient of exactly 64
does not pin); and every key of `m`, so every Add already in the map, keeps its
mode. -/
theorem set_add_before_softmax_fp32_pins (g : Graph) (m m' : QuantizeMap) (n : Nat) (o : Op)
    (a b : Nat) (t0 t1 : ℚ)
    (hrun : set_add_before_softmax_fp32 g m = some m')
    (hn : g[n]? = some o) (hk : o.kind = .Add)
    (huniq : ∀ j o', g[j]? = some o' → o'.kind = .Add → o'.name = o.name → j = n)
    (habs : m.find o.name = none) (hops : o.operands = [a, b])
    (hca : isCalibratedType g a = true) (hcb : isCalibratedType g b = true)
    (hta : addInputBound g a = some t0) (htb : addInputBound g b = some t1)
    (h0 : oneE8 ≤ t0) (h1 : oneE8 ≤ t1) :
    m'.find o.name =
      (if floatQuotientExceeds t0 t1 64 = true ∨ floatQuotientExceeds t1 t0 64 = true
        then some .F32 else none) ∧
    (floatQuotientExceeds t0 t1 64 = true ↔ ∀ r, toFloat (t0 / t1) = some r → r > 64) ∧
    (floatQuotientExceeds t1 t0 64 = true ↔ ∀ r, toFloat (t1 / t0) = some r → r > 64) ∧
    m.Extends m' ∧
    (∀ v p q, g[v]? = some p → p.kind ≠ .Weight → p.type.elem.getCalibrated = some q →
      addInputBound g v = toFloat (max |q.min| |q.max|)) ∧
    (∀ v p, g[v]? = some p → p.kind = .Weight → p.data ≠ [] →
      ∃ t, addInputBound g v = some t ∧ (∀ x ∈ p.data, |x| ≤ t) ∧ ∃ x ∈ p.data, |x| = t) := by
  have hfq : ∀ x y : ℚ, floatQuotientExceeds x y 64 = true ↔
      ∀ r, toFloat (x / y) = some r → r > 64 := by
    intro x y
    unfold floatQuotientExceeds
    cases hr : toFloat (x / y) with
    | none => simp
    | some r => simp
  refine ⟨?_, hfq t0 t1, hfq t1 t0, (set_add_stable g hrun).1, ?_, ?_⟩
  · have hlt : n < g.length := by
      rcases Nat.lt_or_ge n g.length with h | h
      · exact h
      · rw [List.getElem?_eq_none h] at hn
        cases hn
    have hget : g[n] = o := by
      rw [List.getElem?_eq_getElem hlt] at hn
      exact Option.some.inj hn
    have hsplit : g = g.take n ++ o :: g.drop (n + 1) := by
      rw [← hget]
      simp
    have hpre : ∀ o' ∈ g.take n, o'.kind = .Add → o'.name ≠ o.name := by
      intro o' ho' hk' hname
      obtain ⟨j, hj, hgj⟩ := mem_take_getElem? ho'
      have := huniq j o' hgj hk' hname
      omega
    have hpost : ∀ o' ∈ g.drop (n + 1), o'.kind = .Add → o'.name ≠ o.name := by
      intro o' ho' hk' hname
      obtain ⟨j, hj, hgj⟩ := mem_drop_getElem? ho'
      have := huniq j o' hgj hk' hname
      omega
    unfold set_add_before_softmax_fp32 at hrun
    have hrun' : (g.take n ++ o :: g.drop (n + 1)).foldlM
        (set_add_before_softmax_fp32.visit g) m = some m' := by
      rw [← hsplit]
      exact hrun
    rw [List.foldlM_append] at hrun'
    cases h1' : (g.take n).foldlM (set_add_before_softmax_fp32.visit g) m with
    | none => rw [h1'] at hrun'; cases hrun'
    | some m1 =>
      rw [h1'] at hrun'
      have hf1 := foldlM_visit_find_of_ne g o.name _ m m1 hpre h1'
      have habs1 : m1.find o.name = none := by rw [hf1, habs]
      have hrun2 : (o :: g.drop (n + 1)).foldlM (set_add_before_softmax_fp32.visit g) m1 =
          some m' := hrun'
      rw [List.foldlM_cons,
        visit_two_inputs g m1 o a b t0 t1 hk habs1 hops hca hcb hta htb h0 h1] at hrun2
      have hrun3 : (g.drop (n + 1)).foldlM (set_add_before_softmax_fp32.visit g)
          (if floatQuotientExceeds t0 t1 64 = true ∨ floatQuotientExceeds t1 t0 64 = true
            then insertIfAbsent m1 o.name .F32 else m1) =
          some m' := hrun2
      rw [foldlM_visit_find_of_ne g o.name _ _ m' hpost hrun3]
      split
      · exact find_insertIfAbsent_absent m1 .F32 habs1
      · exact habs1
  · intro v p q hv hw hq
    unfold addInputBound
    rw [hv]
    simp only [hw, if_false, hq]
  · intro v p hv hw hd
    unfold addInputBound
    rw [hv]
    simp only [hw, if_true]
    cases hdata : p.data with
    | nil => exact absurd hdata hd
    | cons w ws =>
      obtain ⟨hi, hall, hat⟩ := absmax_foldl (w :: ws) |w|
      refine ⟨_, rfl, hall, ?_⟩
      rcases hat with h | h
      · exact ⟨w, by simp, h.symm⟩
      · exact h

theorem addRatioGraph_unique (j : Nat) (o' : Op) (hj : addRatioGraph[j]? = some o')
    (hk : o'.kind = .Add) : j = 2 := by
  rcases j with _ | _ | _ | _ | j
  · simp only [addRatioGraph, List.getElem?_cons_zero, Option.some.injEq] at hj
    subst hj
    cases hk
  · simp only [addRatioGraph, List.getElem?_cons_succ, List.getElem?_cons_zero,
      Option.some.injEq] at hj
    subst hj
    cases hk
  · rfl
  · simp only [addRatioGraph, List.getElem?_cons_succ, List.getElem?_cons_zero,
      Option.some.injEq] at hj
    subst hj
    cases hk
  · simp [addRatioGraph] at hj

theorem set_add_before_softmax_fp32_pins_witness :
    QuantizeMap.find [("add", Mode.F32)] "add" =
      (if floatQuotientExceeds 100 1 64 = true ∨ floatQuotientExceeds 1 100 64 = true
        then some .F32 else none) ∧
    floatQuotientExceeds 100 1 64 = true :=
  ⟨(set_add_before_softmax_fp32_pins addRatioGraph [] [("add", .F32)] 2
    { kind := .Add, name := "add", operands := [0, 1], type := calF32 [1, 8] (-101) 101 }
    0 1 100 1 (by decide!) rfl rfl (fun j o' hj hk _ => addRatioGraph_unique j o' hj hk)
    rfl rfl rfl rfl (by decide!) (by decide!)
    (by decide!) (by decide!)).1, by decide!⟩

/-! ### The `tpu` graph -/

theorem TpuGraph.op_eraseOp (g : TpuGraph) (i j : Nat) :
    (g.eraseOp i).op j = if i = j then none else g.op j := by
  unfold TpuGraph.eraseOp TpuGraph.op
  by_cases h : i = j
  · subst h
    simp only [if_true]
    by_cases hl : i < g.length
    · simp [List.getElem?_set, hl]
    · simp [List.getElem?_set, hl]
  · simp only [if_neg h]
    rw [List.getElem?_set_ne h]

theorem TpuGraph.op_lt {g : TpuGraph} {i : Nat} {o : TpuOp} (h : g.op i = some o) :
    i < g.length := by
  unfold TpuGraph.op at h
  rcases Nat.lt_or_ge i g.length with hl | hl
  · exact hl
  · rw [List.getElem?_eq_none hl] at h
    cases h

theorem TpuGraph.op_eq_some {g : TpuGraph} {i : Nat} {o : TpuOp} :
    g.op i = some o ↔ g[i]? = some (some o) := by
  unfold TpuGraph.op
  constructor
  · intro h
    split at h
    · rename_i o' heq
      cases h
      exact heq
    · cases h
  · intro h
    rw [h]

theorem TpuGraph.op_modify (g : TpuGraph) (i j : Nat) (f : TpuOp → TpuOp) :
    (g.modify i f).op j = if i = j then (g.op i).map f else g.op j := by
  unfold TpuGraph.modify
  cases hi : g.op i with
  | none =>
    by_cases h : i = j
    · subst h; simp [hi]
    · simp [h]
  | some o =>
    have hl := TpuGraph.op_lt hi
    by_cases h : i = j
    · subst h
      simp only [if_true, Option.map_some']
      rw [TpuGraph.op_eq_some]
      simp [List.getElem?_set, hl]
    · simp only [if_neg h]
      unfold TpuGraph.op
      rw [List.getElem?_set_ne h]

theorem TpuGraph.length_modify (g : TpuGraph) (i : Nat) (f : TpuOp → TpuOp) :
    (g.modify i f).length = g.length := by
  unfold TpuGraph.modify
  split <;> simp

theorem TpuGraph.op_create (g : TpuGraph) (o : TpuOp) (j : Nat) :
    (g.create o).1.op j = if j = g.length then some o else g.op j := by
  unfold TpuGraph.create TpuGraph.op
  by_cases h : j = g.length
  · subst h
    simp
  · simp only [if_neg h]
    rcases Nat.lt_or_ge j g.length with hl | hl
    · rw [List.getElem?_append_left hl]
    · have hgt : g.length < j := by omega
      rw [List.getElem?_eq_none (by simp; omega), List.getElem?_eq_none hl]

theorem TpuGraph.op_replaceAllUsesWith (g : TpuGraph) (a b j : Nat) :
    (g.replaceAllUsesWith a b).op j =
      (g.op j).map fun o =>
        { o with operands := o.operands.map fun v => if v = a then b else v } := by
  unfold TpuGraph.replaceAllUsesWith TpuGraph.op
  rw [List.getElem?_map]
  cases h : g[j]? with
  | none => rfl
  | some e =>
    cases e with
    | none => rfl
    | some o => rfl

theorem TpuGraph.op_of_getElem? {g : TpuGraph} {i : Nat} {e : Option TpuOp}
    (h : g[i]? = some e) : g.op i = e := by
  unfold TpuGraph.op
  rw [h]
  cases e <;> rfl

theorem TpuGraph.op_of_ge {g : TpuGraph} {i : Nat} (h : g.length ≤ i) : g.op i = none := by
  unfold TpuGraph.op
  rw [List.getElem?_eq_none h]

theorem TpuGraph.op_replaceAllUsesExcept (g : TpuGraph) (a b e j : Nat) :
    (g.replaceAllUsesExcept a b e).op j =
      if j = e then g.op j
      else (g.op j).map fun o =>
        { o with operands := o.operands.map fun v => if v = a then b else v } := by
  rcases Nat.lt_or_ge j g.length with hl | hl
  · have hop : (g.replaceAllUsesExcept a b e)[j]? = some (match g.op j with
        | some o =>
          if j = e then some o
          else some { o with operands := o.operands.map fun v => if v = a then b else v }
        | none => none) := by
      unfold TpuGraph.replaceAllUsesExcept
      rw [List.getElem?_map, List.getElem?_range hl]
      rfl
    rw [TpuGraph.op_of_getElem? hop]
    cases hj : g.op j with
    | none => simp
    | some o =>
      by_cases he : j = e
      · simp [he]
      · simp [he]
  · rw [TpuGraph.op_of_ge hl, TpuGraph.op_of_ge (by simp [TpuGraph.replaceAllUsesExcept]; omega)]
    simp
/-! ### PermuteFuse -/

theorem gatherBy_eq_map (data : List Int) :
    ∀ (order : List Int), (∀ o ∈ order, 0 ≤ o ∧ o.toNat < data.length) →
      gatherBy data order = some (order.map fun o => data.getD o.toNat 0)
  | [], _ => rfl
  | o :: order, h => by
    have ho := h o (by simp)
    have ih := gatherBy_eq_map data order (fun x hx => h x (by simp [hx]))
    unfold gatherBy at ih ⊢
    rw [List.mapM_cons, ih]
    simp [ho.1, List.getElem?_eq_getElem ho.2, List.getD_eq_getElem?_getD]

theorem range_getD (n i : Nat) (h : i < n) : ((List.range n).map Int.ofNat).getD i 0 = i := by
  simp [List.getD_eq_getElem?_getD, List.getElem?_range h]

theorem gatherBy_range (n : Nat) (p : List Int) (hp : ∀ x ∈ p, 0 ≤ x ∧ x < n) :
    gatherBy ((List.range n).map Int.ofNat) p = some p := by
  rw [gatherBy_eq_map _ _ (fun o ho => ⟨(hp o ho).1, by
    have := hp o ho
    simp
    omega⟩)]
  congr 1
  conv_rhs => rw [← List.map_id p]
  apply List.map_congr_left
  intro o ho
  have h := hp o ho
  rw [range_getD n o.toNat (by omega)]
  simp
  omega

theorem list_eq_range_iff (r : List Int) (n : Nat) (hr : r.length = n) :
    r = (List.range n).map Int.ofNat ↔ ∀ i, i < n → r.getD i 0 = i := by
  constructor
  · intro h i hi
    rw [h]
    exact range_getD n i hi
  · intro h
    apply List.ext_getElem?
    intro i
    rcases Nat.lt_or_ge i n with hi | hi
    · have h1 := h i hi
      rw [List.getD_eq_getElem?_getD] at h1
      rw [List.getElem?_eq_getElem (by omega)] at h1 ⊢
      simp only [Option.getD_some] at h1
      rw [h1]
      simp [List.getElem?_range hi]
    · rw [List.getElem?_eq_none (by omega), List.getElem?_eq_none (by simp; omega)]

theorem simulate_spec (p q : List Int) (n : Nat) (hpl : p.length = n) (hql : q.length = n)
    (hp : ∀ x ∈ p, 0 ≤ x ∧ x < n) (hq : ∀ x ∈ q, 0 ≤ x ∧ x < n) :
    PermuteFuse.simulate p q n = some (q.map fun o => p.getD o.toNat 0) ∧
    ((q.map fun o => p.getD o.toNat 0) = (List.range n).map Int.ofNat ↔
      ∀ i, i < n → p.getD (q.getD i 0).toNat 0 = i) := by
  constructor
  · unfold PermuteFuse.simulate
    simp only [gatherBy_range n p hp]
    exact gatherBy_eq_map p q (fun o ho => ⟨(hq o ho).1, by
      have := hq o ho
      omega⟩)
  · rw [list_eq_range_iff _ n (by simp [hql])]
    constructor
    · intro h i hi
      have := h i hi
      rw [List.getD_eq_getElem?_getD, List.getElem?_map] at this
      rw [List.getD_eq_getElem?_getD (l := q)]
      rw [List.getElem?_eq_getElem (by omega)] at this ⊢
      simpa using this
    · intro h i hi
      have := h i hi
      rw [List.getD_eq_getElem?_getD, List.getElem?_map]
      rw [List.getD_eq_getElem?_getD (l := q)] at this
      rw [List.getElem?_eq_getElem (by omega)] at this ⊢
      simpa using this

theorem simulate_example : PermuteFuse.simulate [0, 2, 1, 3] [0, 2, 1, 3] 4 = some [0, 1, 2, 3] := by
  decide

theorem mem_of_getElem?_eq_some {l : List Nat} {i v : Nat} (h : l[i]? = some v) : v ∈ l := by
  obtain ⟨hl, rfl⟩ := List.getElem?_eq_some.mp h
  exact List.getElem_mem _

theorem TpuGraph.mem_users_iff (g : TpuGraph) (v j : Nat) :
    j ∈ g.users v ↔ ∃ o, g.op j = some o ∧ v ∈ o.operands := by
  unfold TpuGraph.users
  rw [List.mem_flatMap]
  constructor
  · rintro ⟨i, _, hi⟩
    cases h : g.op i with
    | none =>
      rw [h] at hi
      simp at hi
    | some o =>
      rw [h] at hi
      simp only [List.mem_replicate] at hi
      obtain ⟨hc, rfl⟩ := hi
      exact ⟨o, h, List.count_pos_iff.mp (Nat.pos_of_ne_zero hc)⟩
  · rintro ⟨o, ho, hv⟩
    refine ⟨j, List.mem_range.mpr (TpuGraph.op_lt ho), ?_⟩
    rw [ho]
    simp only [List.mem_replicate, and_true]
    exact Nat.pos_iff_ne_zero.mp (List.count_pos_iff.mpr hv)

theorem TpuGraph.users_replaceAllUsesWith_self (g : TpuGraph) {a b : Nat} (h : b ≠ a) :
    (g.replaceAllUsesWith a b).users a = [] := by
  rw [List.eq_nil_iff_forall_not_mem]
  intro j hj
  rw [TpuGraph.mem_users_iff] at hj
  obtain ⟨o', ho', hv⟩ := hj
  rw [TpuGraph.op_replaceAllUsesWith] at ho'
  cases hg : g.op j with
  | none =>
    rw [hg] at ho'
    cases ho'
  | some oj =>
    rw [hg] at ho'
    cases ho'
    obtain ⟨v, _, hvv⟩ := List.mem_map.mp hv
    split at hvv
    · exact h hvv
    · rename_i hne
      exact hne hvv

theorem TpuGraph.users_after_fuse (g : TpuGraph) {op first in0 : Nat} (h1 : in0 ≠ first)
    (huse : ∀ j, j ∈ g.users first → j = op) :
    ((g.replaceAllUsesWith op in0).eraseOp op).users first = [] := by
  rw [List.eq_nil_iff_forall_not_mem]
  intro j hj
  rw [TpuGraph.mem_users_iff] at hj
  obtain ⟨o', ho', hv⟩ := hj
  rw [TpuGraph.op_eraseOp] at ho'
  split at ho'
  · cases ho'
  · rename_i hne
    rw [TpuGraph.op_replaceAllUsesWith] at ho'
    cases hg : g.op j with
    | none =>
      rw [hg] at ho'
      cases ho'
    | some oj =>
      rw [hg] at ho'
      cases ho'
      obtain ⟨v, hvm, hvv⟩ := List.mem_map.mp hv
      split at hvv
      · exact h1 hvv
      · subst hvv
        exact hne (huse j ((TpuGraph.mem_users_iff g _ j).mpr ⟨oj, hg, hvm⟩)).symm

theorem TpuGraph.users_of_hasOneUse {g : TpuGraph} {v u : Nat} (h : g.hasOneUse v = true)
    (hu : u ∈ g.users v) : ∀ j, j ∈ g.users v → j = u := by
  unfold TpuGraph.hasOneUse at h
  have hl : (g.users v).length = 1 := by simpa using h
  obtain ⟨x, hx⟩ := List.length_eq_one.mp hl
  rw [hx] at hu ⊢
  intro j hj
  rw [List.mem_singleton] at hu hj
  rw [hu, hj]

theorem PermuteFuse.permute_op_direct {g : TpuGraph} {op first : Nat} {o : TpuOp}
    (hperm : PermuteFuse.permute_op g op = .ok first) (ho : g.op op = some o)
    (hin1 : o.operands[0]? = some first) : g.hasOneUse first = true := by
  unfold PermuteFuse.permute_op at hperm
  rw [ho] at hperm
  dsimp only at hperm
  rw [hin1] at hperm
  dsimp only at hperm
  cases h : g.hasOneUse first with
  | true => rfl
  | false =>
    rw [h] at hperm
    simp at hperm

/-- The outcome of `PermuteFuse` on a permute `op` fed directly by the permute
`first`, whose input `in0` is neither of the two: with the rank-normalised
shapes and orders `(s0, p)` and `(s1, q)` at `n` dimensions, the pattern
succeeds exactly when `s1` is `s0` permuted by `p` and the simulation returns
`[0, ..., n-1]`, and fails without a change otherwise; on success with the
output shape of `op` equal to the shape of `in0`, the graph is the old one with
every use of `op` rewired to `in0` and with `op` and `first` erased. -/
theorem PermuteFuse_adjacent
    (permute_reset : List Int → List Int → Nat → Option (List Int × List Int))
    (g : TpuGraph) (op first in0 : Nat) (o fo : TpuOp) (n : Nat)
    (s0 p s1 q s0' r : List Int)
    (hperm : PermuteFuse.permute_op g op = .ok first) (ho : g.op op = some o)
    (hfo : g.op first = some fo) (hin1 : o.operands[0]? = some first)
    (hin0 : fo.operands[0]? = some in0) (hne1 : in0 ≠ op) (hne2 : in0 ≠ first)
    (hnorm : PermuteFuse.normalise permute_reset (g.shape in0) fo.order (g.shape first) o.order
      4 2 = some (n, (s0, p), (s1, q)))
    (hgather : gatherBy s0 p = some s0')
    (hsim : PermuteFuse.simulate p q n = some r) :
    (¬ (s1 = s0' ∧ r = (List.range n).map Int.ofNat) →
      PermuteFuse permute_reset g op = .failure g) ∧
    (s1 = s0' → r = (List.range n).map Int.ofNat → o.type.shape = g.shape in0 →
      PermuteFuse permute_reset g op =
        .success (((g.replaceAllUsesWith op in0).eraseOp op).eraseOp first) ∧
      (((g.replaceAllUsesWith op in0).eraseOp op).eraseOp first).op op = none ∧
      (((g.replaceAllUsesWith op in0).eraseOp op).eraseOp first).op first = none ∧
      ∀ j, j ≠ op → j ≠ first →
        (((g.replaceAllUsesWith op in0).eraseOp op).eraseOp first).op j =
          (g.op j).map fun oj =>
            { oj with operands := oj.operands.map fun v => if v = op then in0 else v }) ∧
    (s1 = s0' → r = (List.range n).map Int.ofNat → o.type.shape ≠ g.shape in0 →
      PermuteFuse permute_reset g op =
        .success (((g.create { kind := .Reshape, type := o.type, operands := [in0] }).1
          |>.replaceAllUsesWith op g.length).eraseOp op)) := by
  have hone := PermuteFuse.permute_op_direct hperm ho hin1
  have hmem : op ∈ g.users first :=
    (TpuGraph.mem_users_iff g first op).mpr ⟨o, ho, mem_of_getElem?_eq_some hin1⟩
  have huse := TpuGraph.users_of_hasOneUse hone hmem
  have hu1 : (g.replaceAllUsesWith op in0).users op = [] :=
    TpuGraph.users_replaceAllUsesWith_self g hne1
  have hu2 : ((g.replaceAllUsesWith op in0).eraseOp op).users first = [] :=
    TpuGraph.users_after_fuse g hne2 huse
  have hu3 : ((g.create { kind := .Reshape, type := o.type, operands := [in0] }).1
      |>.replaceAllUsesWith op g.length).users op = [] :=
    TpuGraph.users_replaceAllUsesWith_self _ (by have := TpuGraph.op_lt ho; omega)
  have hrun : PermuteFuse permute_reset g op =
      if s1 ≠ s0' then .failure g
      else if r ≠ (List.range n).map Int.ofNat then .failure g
      else if o.type.shape = g.shape in0 then
        .success (((g.replaceAllUsesWith op in0).eraseOp op).eraseOp first)
      else .success (((g.create { kind := .Reshape, type := o.type, operands := [in0] }).1
          |>.replaceAllUsesWith op g.length).eraseOp op) := by
    unfold PermuteFuse
    simp only [hperm, ho, hfo, hin1, hin0, hnorm, hgather, hsim]
    split
    · rfl
    · split
      · rfl
      · split
        · simp only [TpuGraph.eraseUnused, hu1, hu2, if_true]
        · have hc : (g.create { kind := .Reshape, type := o.type, operands := [in0] }).2 =
              g.length := rfl
          simp only [TpuGraph.eraseUnused, hc, hu3, if_true]
  refine ⟨?_, ?_, ?_⟩
  · intro h
    rw [hrun]
    by_cases h1 : s1 = s0'
    · have h2 : r ≠ (List.range n).map Int.ofNat := fun h2 => h ⟨h1, h2⟩
      rw [if_neg (by simpa using h1), if_pos h2]
    · rw [if_pos h1]
  · intro h1 h2 h3
    refine ⟨?_, ?_, ?_, ?_⟩
    · rw [hrun, if_neg (by simpa using h1), if_neg (by simpa using h2), if_pos h3]
    · rw [TpuGraph.op_eraseOp, TpuGraph.op_eraseOp]
      split
      · rfl
      · simp
    · rw [TpuGraph.op_eraseOp]
      simp
    · intro j hj1 hj2
      rw [TpuGraph.op_eraseOp, if_neg (Ne.symm hj2), TpuGraph.op_eraseOp, if_neg (Ne.symm hj1),
        TpuGraph.op_replaceAllUsesWith]
  · intro h1 h2 h3
    rw [hrun, if_neg (by simpa using h1), if_neg (by simpa using h2), if_neg h3]

/-- The pair of adjacent permutes `[0,2,1,3]` is fused: both are erased and the
return reads the input. -/
theorem PermuteFuse_adjacent_example :
    PermuteFuse rank4Only permutePairGraph 3 =
      .success (((permutePairGraph.replaceAllUsesWith 3 0).eraseOp 3).eraseOp 2) ∧
    (((permutePairGraph.replaceAllUsesWith 3 0).eraseOp 3).eraseOp 2).op 4 =
      some { kind := .Return, operands := [0] } := by
  have h := (PermuteFuse_adjacent rank4Only permutePairGraph 3 2 0
    { kind := .Permute, operands := [2, 1], order := [0, 2, 1, 3],
      type := { shape := [2, 3, 4, 5], elem := .plain .f16 } }
    { kind := .Permute, operands := [0, 1], order := [0, 2, 1, 3],
      type := { shape := [2, 4, 3, 5], elem := .plain .f16 } }
    4 [2, 3, 4, 5] [0, 2, 1, 3] [2, 4, 3, 5] [0, 2, 1, 3] [2, 4, 3, 5] [0, 1, 2, 3]
    (by decide) (by decide) (by decide) rfl rfl (by decide) (by decide) (by decide)
    (by decide) (by decide)).2.1 rfl (by decide) (by decide)
  exact ⟨h.1, by rw [h.2.2.2 4 (by decide) (by decide)]; decide⟩

/-- Through a reshape `PermuteFuse` never fuses two permutes whose outer
shapes agree: on a permute `op` fed by the reshape `rs` of the permute
`first`, with the output shape of `op` equal to the shape of the input of
`first`, the pattern does not return `success`, because the erasure of `first`
is reached while `rs` still reads it. -/
theorem PermuteFuse_through_reshape
    (permute_reset : List Int → List Int → Nat → Option (List Int × List Int))
    (g : TpuGraph) (op rs first in0 : Nat) (o ro fo : TpuOp)
    (hperm : PermuteFuse.permute_op g op = .ok first) (ho : g.op op = some o)
    (hro : g.op rs = some ro) (hfo : g.op first = some fo)
    (hin1 : o.operands[0]? = some rs) (hrin : ro.operands[0]? = some first)
    (hin0 : fo.operands[0]? = some in0) (hne1 : rs ≠ op) (hne2 : first ≠ op)
    (hshape : o.type.shape = g.shape in0) (g' : TpuGraph) :
    PermuteFuse permute_reset g op ≠ .success g' := by
  have hu : ((g.replaceAllUsesWith op in0).eraseOp op).users first ≠ [] := by
    intro h
    have hmem : rs ∈ ((g.replaceAllUsesWith op in0).eraseOp op).users first := by
      rw [TpuGraph.mem_users_iff]
      refine ⟨{ ro with operands := ro.operands.map fun v => if v = op then in0 else v }, ?_, ?_⟩
      · rw [TpuGraph.op_eraseOp, if_neg (Ne.symm hne1), TpuGraph.op_replaceAllUsesWith, hro]
        rfl
      · show first ∈ ro.operands.map _
        exact List.mem_map.mpr ⟨first, mem_of_getElem?_eq_some hrin, if_neg hne2⟩
    rw [h] at hmem
    cases hmem
  have key : ∀ g1 g2, (g.replaceAllUsesWith op in0).eraseUnused op = some g1 →
      g1.eraseUnused first ≠ some g2 := by
    intro g1 g2 h1 h2
    unfold TpuGraph.eraseUnused at h1
    split at h1
    · cases h1
      unfold TpuGraph.eraseUnused at h2
      rw [if_neg hu] at h2
      cases h2
    · cases h1
  intro hs
  unfold PermuteFuse at hs
  simp only [hperm, ho, hfo, hin1, hin0, hshape, if_true] at hs
  repeat' split at hs
  all_goals first
    | (cases hs
       rename_i h1 _ h2
       exact key _ _ h1 h2)
    | cases hs

/-- C14: the code departs from the claim when a reshape stands between the two
permutes.  On `permuteReshapeGraph` (permute `[0,2,1,3]`, a reshape that keeps
the shape, permute `[0,2,1,3]`, every link with one use) the pattern finds the
first permute through the reshape, the rank-normalised orders compose to the
identity (the simulation returns `[0,1,2,3]`) and the output shape equals the
shape of the first permute's input; the second permute is rewired and erased,
and then the first permute is erased while the reshape still reads it, so the
outcome is not the graph with both permutes removed but `undefined`; whatever
`permute_reset` is, the pattern does not succeed on this graph. -/
theorem PermuteFuse_erases_used_permute :
    PermuteFuse.permute_op permuteReshapeGraph 4 = .ok 2 ∧
    PermuteFuse.normalise rank4Only (permuteReshapeGraph.shape 0) [0, 2, 1, 3]
      (permuteReshapeGraph.shape 3) [0, 2, 1, 3] 4 2 =
      some (4, ([2, 3, 4, 5], [0, 2, 1, 3]), ([2, 4, 3, 5], [0, 2, 1, 3])) ∧
    gatherBy [2, 3, 4, 5] [0, 2, 1, 3] = some [2, 4, 3, 5] ∧
    PermuteFuse.simulate [0, 2, 1, 3] [0, 2, 1, 3] 4 = some [0, 1, 2, 3] ∧
    permuteReshapeGraph.shape 4 = permuteReshapeGraph.shape 0 ∧
    (permuteReshapeGraph.replaceAllUsesWith 4 0).eraseUnused 4 =
      some ((permuteReshapeGraph.replaceAllUsesWith 4 0).eraseOp 4) ∧
    ((permuteReshapeGraph.replaceAllUsesWith 4 0).eraseOp 4).op 5 =
      some { kind := .Return, operands := [0] } ∧
    ((permuteReshapeGraph.replaceAllUsesWith 4 0).eraseOp 4).users 2 = [3] ∧
    PermuteFuse rank4Only permuteReshapeGraph 4 = .undefined ∧
    ∀ (permute_reset : List Int → List Int → Nat → Option (List Int × List Int))
      (g' : TpuGraph), PermuteFuse permute_reset permuteReshapeGraph 4 ≠ .success g' := by
  refine ⟨by decide, by decide, by decide, by decide, by decide, by decide, by decide,
    by decide, by decide, ?_⟩
  intro permute_reset g'
  exact PermuteFuse_through_reshape permute_reset permuteReshapeGraph 4 3 2 0
    { kind := .Permute, operands := [3, 1], order := [0, 2, 1, 3],
      type := { shape := [2, 3, 4, 5], elem := .plain .f16 } }
    { kind := .Reshape, operands := [2],
      type := { shape := [2, 4, 3, 5], elem := .plain .f16 } }
    { kind := .Permute, operands := [0, 1], order := [0, 2, 1, 3],
      type := { shape := [2, 4, 3, 5], elem := .plain .f16 } }
    (by decide) (by decide) (by decide) (by decide) rfl rfl rfl (by decide) (by decide)
    (by decide) g'

/-! ### The insertion engine -/

theorem find?_flatMap_replicate (cnt : Nat → Nat) (p : Nat → Bool) :
    ∀ m, ((List.range m).flatMap fun j => List.replicate (cnt j) j).find? p =
      (List.range m).find? fun j => decide (0 < cnt j) && p j
  | 0 => rfl
  | m + 1 => by
    rw [List.range_succ, List.flatMap_append, List.find?_append, List.find?_append,
      find?_flatMap_replicate cnt p m]
    congr 1
    simp only [List.flatMap_cons, List.flatMap_nil, List.append_nil, List.find?_cons,
      List.find?_nil]
    rcases Nat.eq_zero_or_pos (cnt m) with h | h
    · simp [h]
    · have hne : cnt m ≠ 0 := by omega
      cases hp : p m
      · simp [List.find?_replicate, hp, h]
      · simp [List.find?_replicate, hp, h, hne]

theorem TpuGraph.users_eq (g : TpuGraph) (v : Nat) :
    g.users v = (List.range g.length).flatMap fun j =>
      List.replicate (match g.op j with
        | some o => o.operands.count v
        | none => 0) j := by
  unfold TpuGraph.users
  congr 1
  funext j
  cases g.op j <;> rfl

theorem do_cast.scan_eq (env : CastEnv) (g : TpuGraph) (v : Nat) (to_type : ElemType) :
    do_cast.scan env g v to_type =
      (List.range g.length).find? fun j =>
        decide (0 < (match g.op j with
          | some o => o.operands.count v
          | none => 0)) && do_cast.reusable env g to_type j := by
  unfold do_cast.scan
  rw [TpuGraph.users_eq, find?_flatMap_replicate]

theorem TpuGraph.create_op_new (g : TpuGraph) (o : TpuOp) :
    (g.create o).1.op g.length = some o := by
  rw [TpuGraph.op_create, if_pos rfl]

theorem TpuGraph.length_create (g : TpuGraph) (o : TpuOp) :
    (g.create o).1.length = g.length + 1 := by
  simp [TpuGraph.create]

theorem TpuGraph.length_replaceAllUsesExcept (g : TpuGraph) (a b e : Nat) :
    (g.replaceAllUsesExcept a b e).length = g.length := by
  simp [TpuGraph.replaceAllUsesExcept]

theorem created_reusable {g g1 : TpuGraph} {c : Nat} {o node : TpuOp}
    (h : some (g.create o) = some (g1, c)) (hnode : g1.op g.length = some node) :
    g1 = g ++ [some node] ∧ c = g.length ∧ node = o := by
  have h' : g.create o = (g1, c) := Option.some.inj h
  have h1 : g1 = (g.create o).1 := by rw [h']
  have h2 : c = (g.create o).2 := by rw [h']
  rw [h1, TpuGraph.create_op_new] at hnode
  cases hnode
  exact ⟨h1, h2, rfl⟩

theorem replaced_op_new (g : TpuGraph) (o : TpuOp) (v : Nat) :
    ((g.create o).1.replaceAllUsesExcept v (g.create o).2 (g.create o).2).op g.length =
      some o := by
  rw [TpuGraph.op_replaceAllUsesExcept]
  have h2 : (g.create o).2 = g.length := rfl
  rw [h2, if_pos rfl, TpuGraph.create_op_new]

theorem do_cast.cast_created {env : CastEnv} {g g1 : TpuGraph} {v c : Nat} {to_type : ElemType}
    {node : TpuOp} (h : do_cast.cast env g v to_type = some (g1, c))
    (hnode : g1.op g.length = some node)
    (hkind : node.kind = .Cast ∨ node.kind = .GenericCpu) :
    g1 = g ++ [some node] ∧ c = g.length ∧ node.operands = [v] := by
  unfold do_cast.cast at h
  split at h
  · cases h
  · split at h
    · obtain ⟨h1, h2, h3⟩ := created_reusable h hnode
      subst h3
      rcases hkind with hk | hk <;> cases hk
    · split at h
      · split at h
        · cases h
        · dsimp only at h
          simp only [Option.some.injEq, Prod.mk.injEq] at h
          obtain ⟨h1, _⟩ := h
          subst h1
          rw [replaced_op_new] at hnode
          cases hnode
          rcases hkind with hk | hk <;> cases hk
      · obtain ⟨h1, h2, h3⟩ := created_reusable h hnode
        subst h3
        exact ⟨h1, h2, rfl⟩

theorem do_cast_created {env : CastEnv} {md : Module} {g g1 : TpuGraph} {v c : Nat}
    {to_type : ElemType} {mode : TypeCastMode} {u : Option Nat} {node : TpuOp}
    (h : do_cast env md g v to_type mode u = some (g1, c))
    (hlen : g1.length = g.length + 1)
    (hnode : g1.op g.length = some node)
    (hkind : node.kind = .Cast ∨ node.kind = .GenericCpu) :
    g1 = g ++ [some node] ∧ c = g.length ∧ node.operands = [v] ∧
      do_cast.scan env g v to_type = none := by
  unfold do_cast at h
  cases hscan : do_cast.scan env g v to_type with
  | some user =>
    simp only [hscan] at h
    cases h
    omega
  | none =>
    simp only [hscan] at h
    refine ⟨?_, ?_, ?_, rfl⟩ <;>
    · cases mode with
      | DO_NOTHING =>
        simp only at h
        cases h
        omega
      | DO_CAST =>
        simp only at h
        first
          | exact (do_cast.cast_created h hnode hkind).1
          | exact (do_cast.cast_created h hnode hkind).2.1
          | exact (do_cast.cast_created h hnode hkind).2.2
      | DO_DEQUANTIZE =>
        simp only at h
        first
          | exact (do_cast.cast_created h hnode hkind).1
          | exact (do_cast.cast_created h hnode hkind).2.1
          | exact (do_cast.cast_created h hnode hkind).2.2
      | DO_QUANTIZE =>
        simp only at h
        split at h
        · cases h
        · split at h
          · split at h
            · cases h
            · obtain ⟨h1, h2, h3⟩ := created_reusable (o := _) h hnode
              subst h3
              rcases hkind with hk | hk <;> cases hk
          · split at h
            · split at h
              · cases h
                omega
              · first
                  | exact (do_cast.cast_created h hnode hkind).1
                  | exact (do_cast.cast_created h hnode hkind).2.1
                  | exact (do_cast.cast_created h hnode hkind).2.2
            · split at h
              · cases h
              · split at h
                · obtain ⟨h1, h2, h3⟩ := created_reusable h hnode
                  subst h3
                  first
                    | exact h1
                    | exact h2
                    | rfl
                · obtain ⟨h1, h2, h3⟩ := created_reusable h hnode
                  subst h3
                  first
                    | exact h1
                    | exact h2
                    | rfl

theorem TpuGraph.op_append_left (g : TpuGraph) (e : Option TpuOp) {j : Nat} (h : j < g.length) :
    TpuGraph.op (g ++ [e]) j = g.op j := by
  unfold TpuGraph.op
  rw [List.getElem?_append_left h]

theorem TpuGraph.op_append_new (g : TpuGraph) (o : TpuOp) :
    TpuGraph.op (g ++ [some o]) g.length = some o := by
  unfold TpuGraph.op
  simp

theorem TpuGraph.op_setOperand (g : TpuGraph) (i idx v j : Nat) :
    (g.setOperand i idx v).op j =
      if i = j then (g.op i).map fun o => { o with operands := o.operands.set idx v }
      else g.op j := by
  unfold TpuGraph.setOperand
  rw [TpuGraph.op_modify]

theorem TpuGraph.length_setOperand (g : TpuGraph) (i idx v : Nat) :
    (g.setOperand i idx v).length = g.length := by
  unfold TpuGraph.setOperand
  rw [TpuGraph.length_modify]

theorem scan_after_first (env : CastEnv) (g : TpuGraph) (A ia v : Nat) (oa node : TpuOp)
    (to_type : ElemType) (hoa : g.op A = some oa) (hv : v < g.length)
    (hscan : do_cast.scan env g v to_type = none)
    (hkind : node.kind = .Cast ∨ (node.kind = .GenericCpu ∧ node.cpu_op_name = "quant"))
    (hops : node.operands = [v])
    (hneed : env.type_need_cast node.type to_type = false) :
    do_cast.scan env (TpuGraph.setOperand (g ++ [some node]) A ia g.length) v to_type =
      some g.length := by
  have hA : A < g.length := TpuGraph.op_lt hoa
  have hop2 : ∀ j, (TpuGraph.setOperand (g ++ [some node]) A ia g.length).op j =
      if A = j then some { oa with operands := oa.operands.set ia g.length }
      else TpuGraph.op (g ++ [some node]) j := by
    intro j
    rw [TpuGraph.op_setOperand, TpuGraph.op_append_left g _ hA, hoa]
    rfl
  rw [do_cast.scan_eq] at hscan ⊢
  rw [TpuGraph.length_setOperand, List.length_append, List.length_singleton, List.range_succ,
    List.find?_append]
  have hold : (List.range g.length).find? (fun j =>
      decide (0 < (match (TpuGraph.setOperand (g ++ [some node]) A ia g.length).op j with
        | some o => o.operands.count v
        | none => 0)) &&
      do_cast.reusable env (TpuGraph.setOperand (g ++ [some node]) A ia g.length) to_type j) =
      none := by
    rw [List.find?_eq_none] at hscan ⊢
    intro j hj hF
    have hjl : j < g.length := List.mem_range.mp hj
    apply hscan j hj
    simp only [Bool.and_eq_true, decide_eq_true_eq] at hF ⊢
    obtain ⟨hcnt, hre⟩ := hF
    by_cases hAj : A = j
    · subst hAj
      rw [hop2, if_pos rfl] at hcnt
      unfold do_cast.reusable at hre ⊢
      rw [hop2, if_pos rfl] at hre
      rw [hoa]
      refine ⟨?_, hre⟩
      simp only at hcnt ⊢
      rw [List.count_pos_iff] at hcnt ⊢
      rcases List.mem_or_eq_of_mem_set hcnt with h | h
      · exact h
      · omega
    · rw [hop2, if_neg hAj, TpuGraph.op_append_left g _ hjl] at hcnt
      unfold do_cast.reusable at hre ⊢
      rw [hop2, if_neg hAj, TpuGraph.op_append_left g _ hjl] at hre
      exact ⟨hcnt, hre⟩
  rw [hold]
  have hnewop : (TpuGraph.setOperand (g ++ [some node]) A ia g.length).op g.length =
      some node := by
    rw [hop2, if_neg (by omega), TpuGraph.op_append_new]
  have hre : do_cast.reusable env (TpuGraph.setOperand (g ++ [some node]) A ia g.length)
      to_type g.length = true := by
    unfold do_cast.reusable
    rw [hnewop]
    rcases hkind with hk | ⟨hk, hq⟩
    · simp [hk, hneed]
    · simp [hk, hq, hneed]
  simp [hnewop, hops, hre]

/-- C13 (as stated, refuted): a value produced by a shape producer with two
consumers that both require a cast to F32.  `cast_process` inserts a
`tpu.ShapeCast` for the first consumer; the scan of the second `do_cast` call
looks for `tpu.Cast` (or `GenericCpu` "quant") only, finds nothing, and a
second `tpu.ShapeCast` is inserted: two conversion nodes, one per consumer. -/
theorem cast_process_shape_cast_counterexample :
    (cast_process.operand castToF32Env int8Module (twoConsumers true) 1 0).bind
      (fun g2 => cast_process.operand castToF32Env int8Module g2 2 0) = some shapeCastTwice ∧
    shapeCastTwice.length = (twoConsumers true).length + 2 ∧
    (shapeCastTwice.op 4).map TpuOp.kind = some .ShapeCast ∧
    (shapeCastTwice.op 5).map TpuOp.kind = some .ShapeCast ∧
    (shapeCastTwice.op 1).map TpuOp.operands = some [4] ∧
    (shapeCastTwice.op 2).map TpuOp.operands = some [5] := by
  refine ⟨by decide!, by decide, by decide, by decide, by decide, by decide⟩

/-- C13 (amended): let `cast_process` handle operand `ia` of the consumer `A`
of the value `v` and insert a node at the end of the graph that is a
`tpu.Cast`, or a `tpu.GenericCpu` named `quant`, and whose result needs no cast
to the target type.  When it then handles operand `ib` of another consumer `B`
of `v` with the same target type and mode, the second `do_cast` call returns
that node without creating one, so exactly one node has been inserted and both
consumers read its result. -/
theorem cast_process_shares_cast (env : CastEnv) (md : Module) (g g2 : TpuGraph)
    (A ia B ib v : Nat) (oa ob node : TpuOp)
    (hoa : g.op A = some oa) (hia : oa.operands[ia]? = some v)
    (hob : g.op B = some ob) (hib : ob.operands[ib]? = some v)
    (hAB : A ≠ B) (hv : v < g.length)
    (hskipA : cast_process.skip g oa v = false)
    (hmode : (env.type_verify g A ia).2 ≠ .DO_NOTHING)
    (h1 : cast_process.operand env md g A ia = some g2)
    (hlen : g2.length = g.length + 1) (hnode : g2.op g.length = some node)
    (hkind : node.kind = .Cast ∨ (node.kind = .GenericCpu ∧ node.cpu_op_name = "quant"))
    (hneed : env.type_need_cast node.type (env.type_verify g A ia).1 = false)
    (hskipB : cast_process.skip g2 ob v = false)
    (hsame : env.type_verify g2 B ib = env.type_verify g A ia) :
    do_cast env md g2 v (env.type_verify g A ia).1 (env.type_verify g A ia).2 (some B) =
      some (g2, g.length) ∧
    cast_process.operand env md g2 B ib = some (g2.setOperand B ib g.length) ∧
    (g2.setOperand B ib g.length).length = g.length + 1 ∧
    (∃ oa', (g2.setOperand B ib g.length).op A = some oa' ∧
      oa'.operands[ia]? = some g.length) ∧
    (∃ ob', (g2.setOperand B ib g.length).op B = some ob' ∧
      ob'.operands[ib]? = some g.length) := by
  have hA : A < g.length := TpuGraph.op_lt hoa
  have hB : B < g.length := TpuGraph.op_lt hob
  unfold cast_process.operand at h1
  simp only [hoa, hia, hskipA, Bool.false_eq_true, if_false, hmode, ne_eq, not_false_eq_true,
    if_true] at h1
  cases hdc : do_cast env md g v (env.type_verify g A ia).1 (env.type_verify g A ia).2 (some A) with
  | none => simp only [hdc] at h1; cases h1
  | some r =>
    obtain ⟨g1, c⟩ := r
    simp only [hdc, Option.some.injEq] at h1
    have hlen1 : g1.length = g.length + 1 := by
      rw [← hlen, ← h1, TpuGraph.length_setOperand]
    have hnode1 : g1.op g.length = some node := by
      rw [← h1, TpuGraph.op_setOperand, if_neg (by omega)] at hnode
      exact hnode
    obtain ⟨hg1, hc, hops, hscan⟩ :=
      do_cast_created hdc hlen1 hnode1 (hkind.imp id fun h => h.1)
    subst hc
    subst hg1
    have hscan2 := scan_after_first env g A ia v oa node (env.type_verify g A ia).1 hoa hv
      hscan hkind hops hneed
    rw [h1] at hscan2
    have hdc2 : do_cast env md g2 v (env.type_verify g A ia).1 (env.type_verify g A ia).2
        (some B) = some (g2, g.length) := by
      unfold do_cast
      simp only [hscan2]
    have hopB : g2.op B = some ob := by
      rw [← h1, TpuGraph.op_setOperand, if_neg hAB, TpuGraph.op_append_left g _ hB, hob]
    refine ⟨hdc2, ?_, ?_, ?_, ?_⟩
    · unfold cast_process.operand
      simp only [hopB, hib, hskipB, Bool.false_eq_true, if_false, hsame, hmode, ne_eq,
        not_false_eq_true, if_true, hdc2]
    · rw [TpuGraph.length_setOperand, hlen]
    · refine ⟨{ oa with operands := oa.operands.set ia g.length }, ?_, ?_⟩
      · rw [TpuGraph.op_setOperand, if_neg (Ne.symm hAB), ← h1, TpuGraph.op_setOperand,
          if_pos rfl, TpuGraph.op_append_left g _ hA, hoa]
        rfl
      · have hlt : ia < oa.operands.length := by
          rcases Nat.lt_or_ge ia oa.operands.length with h | h
          · exact h
          · rw [List.getElem?_eq_none h] at hia
            cases hia
        simp [List.getElem?_set, hlt]
    · refine ⟨{ ob with operands := ob.operands.set ib g.length }, ?_, ?_⟩
      · rw [TpuGraph.op_setOperand, if_pos rfl, hopB]
        rfl
      · have hlt : ib < ob.operands.length := by
          rcases Nat.lt_or_ge ib ob.operands.length with h | h
          · exact h
          · rw [List.getElem?_eq_none h] at hib
            cases hib
        simp [List.getElem?_set, hlt]

theorem cast_process_shares_cast_witness :
    ∃ g2, cast_process.operand castToF32Env int8Module (twoConsumers false) 1 0 = some g2 ∧
      cast_process.operand castToF32Env int8Module g2 2 0 = some (g2.setOperand 2 0 4) ∧
      (g2.setOperand 2 0 4).length = 5 := by
  have h1 : cast_process.operand castToF32Env int8Module (twoConsumers false) 1 0 =
      some (TpuGraph.setOperand (twoConsumers false ++
        [some { kind := .Cast, operands := [0], type := { shape := [4], elem := .plain .f32 } }])
        1 0 4) := by decide!
  have h := cast_process_shares_cast castToF32Env int8Module (twoConsumers false) _ 1 0 2 0 0
    { kind := .Other, name := "a", operands := [0], type := { shape := [4], elem := .plain .f32 } }
    { kind := .Other, name := "b", operands := [0], type := { shape := [4], elem := .plain .f32 } }
    { kind := .Cast, operands := [0], type := { shape := [4], elem := .plain .f32 } }
    (by decide!) rfl (by decide!) rfl (by decide) (by decide) (by decide!) (by decide) h1
    (by decide) (by decide!) (Or.inl rfl) (by decide) (by decide!) (by decide)
  exact ⟨_, h1, h.2.1, h.2.2.1⟩

/-! ### MatMulHdimBatchPattern -/

theorem TpuGraph.matmulAttrs_modify_ne (g : TpuGraph) {i op : Nat} (f : TpuOp → TpuOp)
    (h : i ≠ op) : (g.modify i f).matmulAttrs op = g.matmulAttrs op := by
  unfold TpuGraph.matmulAttrs
  rw [TpuGraph.op_modify, if_neg h]

theorem TpuGraph.matmulAttrs_modify_same (g : TpuGraph) (i op : Nat) (f : TpuOp → TpuOp)
    (hf : ∀ o, (f o).hdim_is_batch = o.hdim_is_batch ∧ (f o).left_transpose = o.left_transpose ∧
      (f o).right_transpose = o.right_transpose) :
    (g.modify i f).matmulAttrs op = g.matmulAttrs op := by
  unfold TpuGraph.matmulAttrs
  rw [TpuGraph.op_modify]
  by_cases h : i = op
  · subst h
    simp only [if_true]
    cases g.op i with
    | none => rfl
    | some o =>
      obtain ⟨h1, h2, h3⟩ := hf o
      simp [h1, h2, h3]
  · rw [if_neg h]

theorem TpuGraph.matmulAttrs_setOperand (g : TpuGraph) (i idx v op : Nat) :
    (g.setOperand i idx v).matmulAttrs op = g.matmulAttrs op :=
  TpuGraph.matmulAttrs_modify_same g i op _ (fun _ => ⟨rfl, rfl, rfl⟩)

theorem TpuGraph.matmulAttrs_setShape (g : TpuGraph) (i op : Nat) (s : List Int) :
    (g.setShape i s).matmulAttrs op = g.matmulAttrs op :=
  TpuGraph.matmulAttrs_modify_same g i op _ (fun _ => ⟨rfl, rfl, rfl⟩)

theorem TpuGraph.matmulAttrs_eraseOp (g : TpuGraph) {i op : Nat} (h : i ≠ op) :
    (g.eraseOp i).matmulAttrs op = g.matmulAttrs op := by
  unfold TpuGraph.matmulAttrs
  rw [TpuGraph.op_eraseOp, if_neg h]

theorem TpuGraph.matmulAttrs_lt {g : TpuGraph} {op : Nat} {a : Bool × Bool × Bool}
    (h : g.matmulAttrs op = some a) : op < g.length := by
  unfold TpuGraph.matmulAttrs at h
  cases ho : g.op op with
  | none => rw [ho] at h; cases h
  | some o => exact TpuGraph.op_lt ho

theorem TpuGraph.matmulAttrs_create {g : TpuGraph} {op : Nat} {a : Bool × Bool × Bool}
    (x : TpuOp) (h : g.matmulAttrs op = some a) : (g.create x).1.matmulAttrs op = some a := by
  have hl := TpuGraph.matmulAttrs_lt h
  unfold TpuGraph.matmulAttrs at h ⊢
  rw [TpuGraph.op_create, if_neg (by omega)]
  exact h

theorem TpuGraph.matmulAttrs_getNoneOp {g : TpuGraph} {op : Nat} {a : Bool × Bool × Bool}
    (h : g.matmulAttrs op = some a) : g.getNoneOp.1.matmulAttrs op = some a := by
  unfold TpuGraph.getNoneOp
  split
  · exact h
  · exact TpuGraph.matmulAttrs_create _ h

theorem TpuGraph.matmulAttrs_replaceAllUsesExcept (g : TpuGraph) (a b e op : Nat) :
    (g.replaceAllUsesExcept a b e).matmulAttrs op = g.matmulAttrs op := by
  unfold TpuGraph.matmulAttrs
  rw [TpuGraph.op_replaceAllUsesExcept]
  split
  · rfl
  · cases g.op op <;> rfl

theorem matmulAttrs_setMatMulAttrs {g : TpuGraph} {op : Nat} {a : Bool × Bool × Bool}
    (h l r : Bool) (ha : g.matmulAttrs op = some a) :
    (setMatMulAttrs g op h l r).matmulAttrs op = some (h, l, r) := by
  unfold TpuGraph.matmulAttrs at ha ⊢
  unfold setMatMulAttrs
  rw [TpuGraph.op_modify, if_pos rfl]
  cases ho : g.op op with
  | none => rw [ho] at ha; cases ha
  | some o => rfl

theorem ne_of_kind {g : TpuGraph} {i op : Nat} {x o : TpuOp} (hx : g.op i = some x)
    (ho : g.op op = some o) (hk : x.kind ≠ o.kind) : i ≠ op := by
  intro h
  subst h
  rw [hx] at ho
  cases ho
  exact hk rfl

theorem matmulAttrs_of_op {g : TpuGraph} {op : Nat} {o : TpuOp} (h : g.op op = some o) :
    g.matmulAttrs op = some (o.hdim_is_batch, o.left_transpose, o.right_transpose) := by
  unfold TpuGraph.matmulAttrs
  rw [h]
  rfl

theorem case1_attrs {g g1 : TpuGraph} {op l r : Nat} {o lo ro : TpuOp}
    (ho : g.op op = some o) (hl : l ≠ op) (hr : r ≠ op)
    (h : MatMulHdimBatchPattern.case1 g op o l r lo ro = .success g1) :
    ∃ lt rt, g1.matmulAttrs op = some (!o.hdim_is_batch, lt, rt) ∧ ¬ (lt = true ∧ rt = false) := by
  unfold MatMulHdimBatchPattern.case1 at h
  dsimp only at h
  split_ifs at h with h1 h2 hclash
  split at h
  · cases h
    refine ⟨_, _, ?_, hclash⟩
    rw [TpuGraph.matmulAttrs_eraseOp _ hr, TpuGraph.matmulAttrs_eraseOp _ hl,
      TpuGraph.matmulAttrs_setOperand, TpuGraph.matmulAttrs_setOperand]
    exact matmulAttrs_setMatMulAttrs _ _ _ (matmulAttrs_of_op ho)
  · cases h

theorem case1_clash (g : TpuGraph) (op : Nat) (o : TpuOp) (l r : Nat) (lo ro : TpuOp)
    (hl : toggle o.left_transpose lo.order = true)
    (hr : toggle o.right_transpose ro.order = false) :
    MatMulHdimBatchPattern.case1 g op o l r lo ro = .failure g := by
  unfold MatMulHdimBatchPattern.case1
  dsimp only
  split_ifs with h1 h2 h3
  · rfl
  · rfl
  · rfl
  · exact absurd ⟨hl, hr⟩ h3

theorem OnSuccess_imp {σ : Type} {P Q : σ → Prop} {res : PatternResult σ}
    (h : res.OnSuccess P) (hpq : ∀ s, P s → Q s) : res.OnSuccess Q := by
  cases res with
  | success s => exact hpq s h
  | failure s => trivial
  | fatal => trivial
  | undefined => trivial

theorem OnSuccess_iff {σ : Type} {P : σ → Prop} {res : PatternResult σ} :
    res.OnSuccess P ↔ ∀ s, res = .success s → P s := by
  cases res with
  | success s =>
    constructor
    · intro h s1 hs
      cases hs
      exact h
    · intro h
      exact h s rfl
  | failure s =>
    constructor
    · intro _ s1 hs
      cases hs
    · intro _
      trivial
  | fatal =>
    constructor
    · intro _ s1 hs
      cases hs
    · intro _
      trivial
  | undefined =>
    constructor
    · intro _ s1 hs
      cases hs
    · intro _
      trivial

theorem case2_fold_attrs {g0 : TpuGraph} {op l r : Nat} {o : TpuOp} {a : Bool × Bool × Bool}
    (l_in r_in : Nat) (rem rt : Bool)
    (ho : g0.matmulAttrs op = some a) (hl : l ≠ op) (hr : r ≠ op) :
    (MatMulHdimBatchPattern.case2.fold g0 op o l r l_in r_in rem rt).matmulAttrs op =
      some (!o.hdim_is_batch, false, rt) := by
  unfold MatMulHdimBatchPattern.case2.fold
  dsimp only
  rw [TpuGraph.matmulAttrs_eraseOp _ hr, TpuGraph.matmulAttrs_setOperand]
  split
  · rw [TpuGraph.matmulAttrs_eraseOp _ hl, TpuGraph.matmulAttrs_setOperand]
    exact matmulAttrs_setMatMulAttrs _ _ _ ho
  · exact matmulAttrs_setMatMulAttrs _ _ _ ho

theorem case2_broadcast_attrs {g0 : TpuGraph} {op l r : Nat} {o : TpuOp}
    {a : Bool × Bool × Bool} (l_in r_in : Nat) (lis ris los : List Int) (rem rt : Bool)
    (ho : g0.matmulAttrs op = some a) (hl : l ≠ op) (hr : r ≠ op) :
    (MatMulHdimBatchPattern.case2.broadcast g0 op o l r l_in r_in lis ris los rem
      rt).OnSuccess fun g1 => g1.matmulAttrs op = some (!o.hdim_is_batch, false, rt) := by
  unfold MatMulHdimBatchPattern.case2.broadcast
  dsimp only
  split
  · trivial
  · trivial
  · exact case2_fold_attrs l_in r_in rem rt ho hl hr

theorem case2_dims_attrs {g : TpuGraph} {op l r : Nat} {o : TpuOp}
    {a : Bool × Bool × Bool} (l_in r_in : Nat) (lis ris los : List Int) (x d : Int) (rt : Bool)
    (ho : g.matmulAttrs op = some a) (hl : l ≠ op) (hr : r ≠ op) :
    (MatMulHdimBatchPattern.case2.dims g op o l r l_in r_in lis ris los x d
      rt).OnSuccess fun g1 => g1.matmulAttrs op = some (!o.hdim_is_batch, false, rt) := by
  unfold MatMulHdimBatchPattern.case2.dims
  dsimp only
  split
  · trivial
  split
  · trivial
  split
  · split
    · split
      · exact case2_broadcast_attrs l_in r_in _ _ _ _ rt
          ((TpuGraph.matmulAttrs_setShape g l op _).trans ho) hl hr
      · trivial
    · exact case2_broadcast_attrs l_in r_in _ _ _ _ rt ho hl hr
  · trivial

theorem case2_attrs {g : TpuGraph} {op l r : Nat} {o lo ro : TpuOp}
    (ho : g.op op = some o) (hl : l ≠ op) (hr : r ≠ op) :
    (MatMulHdimBatchPattern.case2 g op o l r lo ro).OnSuccess fun g1 =>
      ∃ rt, g1.matmulAttrs op = some (!o.hdim_is_batch, false, rt) := by
  unfold MatMulHdimBatchPattern.case2
  dsimp only
  split
  · trivial
  split
  · split
    · trivial
    split
    · split
      · trivial
      split
      · split
        · trivial
        · exact OnSuccess_imp (case2_dims_attrs _ _ _ _ _ _ _ _ (matmulAttrs_of_op ho) hl hr)
            (fun s hs => ⟨_, hs⟩)
      · trivial
    · trivial
  · trivial

theorem case3_attrs {g : TpuGraph} {op left l r : Nat} {o lo ro : TpuOp}
    (ho : g.op op = some o) (hr : r ≠ op) :
    (MatMulHdimBatchPattern.case3 g op o left l r lo ro).OnSuccess fun g1 =>
      ∃ rt, g1.matmulAttrs op = some (!o.hdim_is_batch, false, rt) := by
  unfold MatMulHdimBatchPattern.case3
  dsimp only
  split
  · trivial
  split
  · trivial
  split
  · split
    · trivial
    split
    · simp only [PatternResult.OnSuccess]
      refine ⟨toggle o.right_transpose ro.order, ?_⟩
      rw [TpuGraph.matmulAttrs_eraseOp _ hr, TpuGraph.matmulAttrs_setOperand,
        TpuGraph.matmulAttrs_setOperand]
      exact matmulAttrs_setMatMulAttrs _ _ _
        (TpuGraph.matmulAttrs_create _ (TpuGraph.matmulAttrs_getNoneOp (matmulAttrs_of_op ho)))
    · trivial
  · trivial

theorem weightCase_attrs (fp : List Int → List Int → List Int → List Int) {g : TpuGraph}
    {op left right : Nat} {o l_op r_op : TpuOp} (ho : g.op op = some o)
    (hk : o.kind = .MatMul) (hlo : g.op left = some l_op) (hro : g.op right = some r_op)
    (hw : l_op.kind = .Weight ∨ r_op.kind = .Weight) :
    (MatMulHdimBatchPattern.weightCase fp g op o left right l_op r_op).OnSuccess fun g1 =>
      ∃ lt rt, g1.matmulAttrs op = some (!o.hdim_is_batch, lt, rt) ∧
        ¬ (lt = true ∧ rt = false) := by
  have h1 : g.op (if decide (r_op.kind = .Weight) = true then left else right) =
      some (if decide (r_op.kind = .Weight) = true then l_op else r_op) := by
    split <;> assumption
  have h2 : g.op (if decide (l_op.kind = .Weight) = true then left else right) =
      some (if decide (l_op.kind = .Weight) = true then l_op else r_op) := by
    split <;> assumption
  have h3 : (if decide (l_op.kind = .Weight) = true then l_op else r_op).kind = .Weight := by
    by_cases hlw : l_op.kind = .Weight
    · simp [hlw]
    · simp [hlw, hw.resolve_left hlw]
  unfold MatMulHdimBatchPattern.weightCase
  dsimp only
  generalize (if decide (r_op.kind = .Weight) = true then left else right) = trans at *
  generalize (if decide (r_op.kind = .Weight) = true then l_op else r_op) = trans_op at *
  generalize (if decide (l_op.kind = .Weight) = true then left else right) = weight at *
  generalize (if decide (l_op.kind = .Weight) = true then l_op else r_op) = weight_op at *
  generalize (if decide (r_op.kind = .Weight) = true then toggle o.left_transpose trans_op.order
    else o.left_transpose) = lt
  generalize (if decide (l_op.kind = .Weight) = true then toggle o.right_transpose trans_op.order
    else o.right_transpose) = rt
  have hwt : weight ≠ op := ne_of_kind h2 ho (by rw [h3, hk]; decide)
  split
  · trivial
  split
  · trivial
  rename_i htrans
  have htk : trans_op.kind = .Permute := by
    by_contra hne
    simp [hne] at htrans
  have ht : trans ≠ op := ne_of_kind h1 ho (by rw [htk, hk]; decide)
  split
  · trivial
  split
  · trivial
  rename_i hclash
  split
  · split
    · simp only [PatternResult.OnSuccess]
      refine ⟨lt, rt, ?_, hclash⟩
      rw [TpuGraph.matmulAttrs_eraseOp _ hwt, TpuGraph.matmulAttrs_eraseOp _ ht]
      refine matmulAttrs_setMatMulAttrs _ _ _
        ((TpuGraph.matmulAttrs_setOperand _ _ _ _ _).trans
          ((TpuGraph.matmulAttrs_setOperand _ _ _ _ _).trans
            (TpuGraph.matmulAttrs_create _ (matmulAttrs_of_op ho))))
    · trivial
  · trivial

theorem finish_attrs {g : TpuGraph} {op : Nat} {a : Bool × Bool × Bool}
    (ha : g.matmulAttrs op = some a) :
    (MatMulHdimBatchPattern.finish g op).OnSuccess fun g1 => g1.matmulAttrs op = some a := by
  unfold MatMulHdimBatchPattern.finish
  split
  · trivial
  · dsimp only
    split
    · simp only [PatternResult.OnSuccess]
      rw [TpuGraph.matmulAttrs_replaceAllUsesExcept]
      exact TpuGraph.matmulAttrs_create _ (TpuGraph.matmulAttrs_getNoneOp
        ((TpuGraph.matmulAttrs_setShape g op op _).trans ha))
    · trivial

theorem tensors_attrs {g : TpuGraph} {op left right : Nat} {o l_op r_op : TpuOp}
    (ho : g.op op = some o) (hk : o.kind = .MatMul) (hh : o.hdim_is_batch = false)
    (hlo : g.op left = some l_op) (hro : g.op right = some r_op) :
    (MatMulHdimBatchPattern.tensors g op o left right l_op r_op).OnSuccess fun g1 =>
      ∃ h lt rt, g1.matmulAttrs op = some (h, lt, rt) ∧
        (h = true → ¬ (lt = true ∧ rt = false)) := by
  have h1 : ∀ sw : Bool, g.op (if sw = true then right else left) =
      some (if sw = true then r_op else l_op) := by
    intro sw
    cases sw
    · exact hlo
    · exact hro
  have h2 : ∀ sw : Bool, g.op (if sw = true then left else right) =
      some (if sw = true then l_op else r_op) := by
    intro sw
    cases sw
    · exact hro
    · exact hlo
  unfold MatMulHdimBatchPattern.tensors
  dsimp only
  generalize (if l_op.kind = .Permute ∧ r_op.kind ≠ .Permute then
    (match l_op.type.shape[2]?, r_op.type.shape[2]? with
      | some a, some b => some (decide (a = b))
      | _, _ => none) else some false) = swap
  cases swap with
  | none => trivial
  | some sw =>
    dsimp only
    specialize h1 sw
    specialize h2 sw
    generalize (if sw = true then right else left) = l at *
    generalize (if sw = true then r_op else l_op) = lo at *
    generalize (if sw = true then left else right) = r at *
    generalize (if sw = true then l_op else r_op) = ro at *
    split
    · rename_i hc
      have hl : l ≠ op := ne_of_kind h1 ho (by rw [hc.1, hk]; decide)
      have hr : r ≠ op := ne_of_kind h2 ho (by rw [hc.2, hk]; decide)
      rw [OnSuccess_iff]
      intro g1 hs
      obtain ⟨lt, rt, ha, hn⟩ := case1_attrs ho hl hr hs
      exact ⟨_, lt, rt, ha, fun _ => hn⟩
    split
    · rename_i hc
      have hl : l ≠ op := ne_of_kind h1 ho (by rw [hc.1, hk]; decide)
      have hr : r ≠ op := ne_of_kind h2 ho (by rw [hc.2, hk]; decide)
      refine OnSuccess_imp (case2_attrs ho hl hr) ?_
      rintro s ⟨rt, hs⟩
      exact ⟨_, false, rt, hs, fun _ hx => Bool.false_ne_true hx.1⟩
    split
    · rename_i hc
      have hr : r ≠ op := ne_of_kind h2 ho (by rw [hc.2, hk]; decide)
      refine OnSuccess_imp (case3_attrs ho hr) ?_
      rintro s ⟨rt, hs⟩
      exact ⟨_, false, rt, hs, fun _ hx => Bool.false_ne_true hx.1⟩
    · simp only [PatternResult.OnSuccess]
      refine ⟨_, _, _, matmulAttrs_of_op ho, ?_⟩
      intro hx
      rw [hh] at hx
      cases hx

theorem MatMulHdimBatchPattern_attrs (fp : List Int → List Int → List Int → List Int)
    {g : TpuGraph} {op : Nat} {o : TpuOp} (ho : g.op op = some o) (hk : o.kind = .MatMul) :
    (MatMulHdimBatchPattern fp g op).OnSuccess fun g1 =>
      ∃ h lt rt, g1.matmulAttrs op = some (h, lt, rt) ∧
        (h = true → ¬ (lt = true ∧ rt = false)) := by
  unfold MatMulHdimBatchPattern
  rw [ho]
  dsimp only
  split
  · rename_i left right hleft hright
    split
    · trivial
    rename_i hguard
    have hh : o.hdim_is_batch = false := by
      cases hb : o.hdim_is_batch with
      | false => rfl
      | true => exact absurd (Or.inr hb) hguard
    split
    · rename_i l_op r_op hlo hro
      split
      · trivial
      rename_i hboth
      split
      · trivial
      have hfold : (if (!decide (l_op.kind = .Weight) && !decide (r_op.kind = .Weight)) = true
          then MatMulHdimBatchPattern.tensors g op o left right l_op r_op
          else MatMulHdimBatchPattern.weightCase fp g op o left right l_op r_op).OnSuccess
          fun g1 => ∃ h lt rt, g1.matmulAttrs op = some (h, lt, rt) ∧
            (h = true → ¬ (lt = true ∧ rt = false)) := by
        split
        · exact tensors_attrs ho hk hh hlo hro
        · rename_i hnw
          have hw : l_op.kind = .Weight ∨ r_op.kind = .Weight := by
            by_contra hcon
            rw [not_or] at hcon
            simp [hcon.1, hcon.2] at hnw
          refine OnSuccess_imp (weightCase_attrs fp ho hk hlo hro hw) ?_
          rintro s ⟨lt, rt, hs, hn⟩
          exact ⟨_, lt, rt, hs, fun _ => hn⟩
      generalize (if (!decide (l_op.kind = .Weight) && !decide (r_op.kind = .Weight)) = true
          then MatMulHdimBatchPattern.tensors g op o left right l_op r_op
          else MatMulHdimBatchPattern.weightCase fp g op o left right l_op r_op) = folded at *
      cases folded with
      | success g1 =>
        obtain ⟨h, lt, rt, ha, hn⟩ := hfold
        refine OnSuccess_imp (finish_attrs ha) ?_
        intro s hs
        exact ⟨h, lt, rt, hs, hn⟩
      | failure s => trivial
      | fatal => trivial
      | undefined => trivial
    · trivial
  · trivial

theorem MatMulHdimBatchPattern_clash_tensors (fp : List Int → List Int → List Int → List Int)
    {g : TpuGraph} {op left right : Nat} {o lo ro : TpuOp} (ho : g.op op = some o)
    (h0 : o.operands[0]? = some left) (h1 : o.operands[1]? = some right)
    (hlo : g.op left = some lo) (hro : g.op right = some ro)
    (hlk : lo.kind = .Permute) (hrk : ro.kind = .Permute)
    (hl : toggle o.left_transpose lo.order = true)
    (hr : toggle o.right_transpose ro.order = false) :
    MatMulHdimBatchPattern fp g op = .failure g := by
  have ht : MatMulHdimBatchPattern.tensors g op o left right lo ro = .failure g := by
    unfold MatMulHdimBatchPattern.tensors
    simp only [hlk, hrk, ne_eq, not_true_eq_false, and_false, if_false, and_self, if_true,
      Bool.false_eq_true]
    exact case1_clash g op o left right lo ro hl hr
  unfold MatMulHdimBatchPattern
  simp only [ho, h0, h1, hlo, hro]
  split
  · rfl
  · simp [hlk, hrk, ht]

theorem weightCase_clash (fp : List Int → List Int → List Int → List Int)
    (g : TpuGraph) (op : Nat) (o : TpuOp) (left right : Nat) (lo ro : TpuOp)
    (h : (lo.kind = .Weight ∧ ro.kind = .Permute ∧ o.left_transpose = true ∧
        toggle o.right_transpose ro.order = false) ∨
      (lo.kind = .Permute ∧ ro.kind = .Weight ∧ toggle o.left_transpose lo.order = true ∧
        o.right_transpose = false)) :
    MatMulHdimBatchPattern.weightCase fp g op o left right lo ro = .failure g := by
  unfold MatMulHdimBatchPattern.weightCase
  rcases h with ⟨hlk, hrk, hl, hr⟩ | ⟨hlk, hrk, hl, hr⟩
  · simp only [hlk, hrk, decide_True, if_true, hl, hr, and_self,
      show decide (TpuKind.Permute = TpuKind.Weight) = false from rfl, Bool.false_eq_true,
      if_false]
    split
    · rfl
    split
    · rfl
    split
    · rfl
    · rfl
  · simp only [hlk, hrk, decide_True, if_true, hl, hr, and_self,
      show decide (TpuKind.Permute = TpuKind.Weight) = false from rfl, Bool.false_eq_true,
      if_false]
    split
    · rfl
    split
    · rfl
    split
    · rfl
    · rfl

theorem MatMulHdimBatchPattern_clash_weight (fp : List Int → List Int → List Int → List Int)
    {g : TpuGraph} {op left right : Nat} {o lo ro : TpuOp} (ho : g.op op = some o)
    (h0 : o.operands[0]? = some left) (h1 : o.operands[1]? = some right)
    (hlo : g.op left = some lo) (hro : g.op right = some ro)
    (h : (lo.kind = .Weight ∧ ro.kind = .Permute ∧ o.left_transpose = true ∧
        toggle o.right_transpose ro.order = false) ∨
      (lo.kind = .Permute ∧ ro.kind = .Weight ∧ toggle o.left_transpose lo.order = true ∧
        o.right_transpose = false)) :
    MatMulHdimBatchPattern fp g op = .failure g := by
  have hw := weightCase_clash fp g op o left right lo ro h
  unfold MatMulHdimBatchPattern
  simp only [ho, h0, h1, hlo, hro]
  split
  · rfl
  · rcases h with ⟨hlk, hrk, -, -⟩ | ⟨hlk, hrk, -, -⟩
    · simp [hlk, hrk, hw]
    · simp [hlk, hrk, hw]

/-- C15: let `op` be a MatMul of the graph.  When `MatMulHdimBatchPattern`
succeeds and has folded a transpose (the MatMul then has `hdim_is_batch`), the
MatMul does not have `left_transpose` set together with `right_transpose`
unset.  When both operands are permutes, or one is a Weight and the other a
permute, and the flags the fold would write are `left_transpose = true` with
`right_transpose = false`, the pattern returns failure with the graph as it
was. -/
theorem MatMulHdimBatchPattern_transpose
    (function_permute : List Int → List Int → List Int → List Int)
    (g : TpuGraph) (op : Nat) (o : TpuOp) (ho : g.op op = some o) (hk : o.kind = .MatMul) :
    (∀ g1, MatMulHdimBatchPattern function_permute g op = .success g1 →
      ∃ o1, g1.op op = some o1 ∧ (o1.hdim_is_batch = true →
        ¬ (o1.left_transpose = true ∧ o1.right_transpose = false))) ∧
    (∀ left right lo ro, o.operands[0]? = some left → o.operands[1]? = some right →
      g.op left = some lo → g.op right = some ro →
      ((lo.kind = .Permute ∧ ro.kind = .Permute ∧ toggle o.left_transpose lo.order = true ∧
          toggle o.right_transpose ro.order = false) ∨
        (lo.kind = .Weight ∧ ro.kind = .Permute ∧ o.left_transpose = true ∧
          toggle o.right_transpose ro.order = false) ∨
        (lo.kind = .Permute ∧ ro.kind = .Weight ∧ toggle o.left_transpose lo.order = true ∧
          o.right_transpose = false)) →
      MatMulHdimBatchPattern function_permute g op = .failure g) := by
  constructor
  · intro g1 hs
    obtain ⟨h, lt, rt, ha, hn⟩ :=
      OnSuccess_iff.1 (MatMulHdimBatchPattern_attrs function_permute ho hk) g1 hs
    unfold TpuGraph.matmulAttrs at ha
    cases ho1 : g1.op op with
    | none => rw [ho1] at ha; cases ha
    | some o1 =>
      rw [ho1] at ha
      simp only [Option.map_some', Option.some.injEq, Prod.mk.injEq] at ha
      refine ⟨o1, rfl, ?_⟩
      rw [ha.1, ha.2.1, ha.2.2]
      exact hn
  · intro left right lo ro h0 h1 hlo hro h
    rcases h with ⟨hlk, hrk, hl, hr⟩ | h
    · exact MatMulHdimBatchPattern_clash_tensors function_permute ho h0 h1 hlo hro hlk hrk hl hr
    · exact MatMulHdimBatchPattern_clash_weight function_permute ho h0 h1 hlo hro h

theorem MatMulHdimBatchPattern_transpose_witness :
    (MatMulHdimBatchPattern (fun data _ _ => data)
        (matmulPermutesGraph [0, 2, 1, 3] [0, 2, 3, 1]) 5 = .success matmulFoldedGraph ∧
      ∃ o1, matmulFoldedGraph.op 5 = some o1 ∧ (o1.hdim_is_batch = true →
        ¬ (o1.left_transpose = true ∧ o1.right_transpose = false))) ∧
    MatMulHdimBatchPattern (fun data _ _ => data)
        (matmulPermutesGraph [0, 2, 3, 1] [0, 2, 1, 3]) 5 =
      .failure (matmulPermutesGraph [0, 2, 3, 1] [0, 2, 1, 3]) := by
  have hs : MatMulHdimBatchPattern (fun data _ _ => data)
      (matmulPermutesGraph [0, 2, 1, 3] [0, 2, 3, 1]) 5 = .success matmulFoldedGraph := by
    decide!
  refine ⟨⟨hs, (MatMulHdimBatchPattern_transpose (fun data _ _ => data)
    (matmulPermutesGraph [0, 2, 1, 3] [0, 2, 3, 1]) 5 _ rfl rfl).1 _ hs⟩, ?_⟩
  exact (MatMulHdimBatchPattern_transpose (fun data _ _ => data)
    (matmulPermutesGraph [0, 2, 3, 1] [0, 2, 1, 3]) 5 _ rfl rfl).2 3 4 _ _ rfl rfl rfl rfl
    (Or.inl ⟨rfl, rfl, rfl, rfl⟩)

/-! ### Failure and the graph: the structural rewrites -/

theorem OnFailure_iff {σ : Type} {P : σ → Prop} {res : PatternResult σ} :
    res.OnFailure P ↔ ∀ s, res = .failure s → P s := by
  cases res with
  | failure s =>
    constructor
    · intro h s1 hs
      cases hs
      exact h
    · intro h
      exact h s rfl
  | success s =>
    constructor
    · intro _ s1 hs
      cases hs
    · intro _
      trivial
  | fatal =>
    constructor
    · intro _ s1 hs
      cases hs
    · intro _
      trivial
  | undefined =>
    constructor
    · intro _ s1 hs
      cases hs
    · intro _
      trivial

theorem case1_failure (g : TpuGraph) (op : Nat) (o : TpuOp) (l r : Nat) (lo ro : TpuOp) :
    (MatMulHdimBatchPattern.case1 g op o l r lo ro).OnFailure fun g1 => g1 = g := by
  unfold MatMulHdimBatchPattern.case1
  dsimp only
  split
  · exact rfl
  split
  · exact rfl
  split
  · exact rfl
  split
  · trivial
  · trivial

theorem case3_failure (g : TpuGraph) (op : Nat) (o : TpuOp) (left l r : Nat) (lo ro : TpuOp) :
    (MatMulHdimBatchPattern.case3 g op o left l r lo ro).OnFailure fun g1 => g1 = g := by
  unfold MatMulHdimBatchPattern.case3
  dsimp only
  split
  · exact rfl
  split
  · exact rfl
  split
  · split
    · exact rfl
    split
    · trivial
    · trivial
  · trivial

theorem weightCase_failure (fp : List Int → List Int → List Int → List Int) (g : TpuGraph)
    (op : Nat) (o : TpuOp) (left right : Nat) (l_op r_op : TpuOp) :
    (MatMulHdimBatchPattern.weightCase fp g op o left right l_op r_op).OnFailure
      fun g1 => g1 = g := by
  unfold MatMulHdimBatchPattern.weightCase
  dsimp only
  generalize (if decide (r_op.kind = .Weight) = true then left else right) = trans
  generalize (if decide (r_op.kind = .Weight) = true then l_op else r_op) = trans_op
  generalize (if decide (l_op.kind = .Weight) = true then left else right) = weight
  generalize (if decide (l_op.kind = .Weight) = true then l_op else r_op) = weight_op
  generalize (if decide (r_op.kind = .Weight) = true then toggle o.left_transpose trans_op.order
    else o.left_transpose) = lt
  generalize (if decide (l_op.kind = .Weight) = true then toggle o.right_transpose trans_op.order
    else o.right_transpose) = rt
  split
  · exact rfl
  split
  · exact rfl
  split
  · exact rfl
  split
  · exact rfl
  split
  · split
    · trivial
    · trivial
  · trivial

theorem finish_failure (g : TpuGraph) (op : Nat) (P : TpuGraph → Prop) :
    (MatMulHdimBatchPattern.finish g op).OnFailure P := by
  unfold MatMulHdimBatchPattern.finish
  split
  · trivial
  · dsimp only
    split
    · trivial
    · trivial

theorem case2_broadcast_failure (g0 : TpuGraph) (op : Nat) (o : TpuOp) (l r l_in r_in : Nat)
    (lis ris los : List Int) (rem rt : Bool) :
    (MatMulHdimBatchPattern.case2.broadcast g0 op o l r l_in r_in lis ris los rem
      rt).OnFailure fun g1 => g1 = g0 := by
  unfold MatMulHdimBatchPattern.case2.broadcast
  dsimp only
  split
  · trivial
  · exact rfl
  · trivial

theorem case2_dims_failure (g : TpuGraph) (op : Nat) (o : TpuOp) (l r l_in r_in : Nat)
    (lis ris los : List Int) (x d : Int) (rt : Bool) (hnot : ¬ (los.length = 4 ∧ d = 1)) :
    (MatMulHdimBatchPattern.case2.dims g op o l r l_in r_in lis ris los x d
      rt).OnFailure fun g1 => g1 = g := by
  unfold MatMulHdimBatchPattern.case2.dims
  dsimp only
  split
  · exact rfl
  split
  · trivial
  split
  · split
    · exact rfl
    · exact case2_broadcast_failure g op o l r l_in r_in _ _ _ _ rt
  · trivial

theorem case2_failure (g : TpuGraph) (op : Nat) (o : TpuOp) (l r : Nat) (lo ro : TpuOp)
    (hnot : ¬ (lo.type.shape.length = 4 ∧ lo.type.shape[2]? = some 1)) :
    (MatMulHdimBatchPattern.case2 g op o l r lo ro).OnFailure fun g1 => g1 = g := by
  unfold MatMulHdimBatchPattern.case2
  dsimp only
  split
  · exact rfl
  split
  · split
    · exact rfl
    split
    · split
      · exact rfl
      split
      · rename_i c d hc hd
        split
        · exact rfl
        · refine case2_dims_failure g op o l r _ _ _ _ _ _ d _ ?_
          rintro ⟨h4, h1⟩
          exact hnot ⟨h4, by rw [hd, h1]⟩
      · trivial
    · trivial
  · trivial

theorem tensors_failure (g : TpuGraph) (op : Nat) (o : TpuOp) (left right : Nat)
    (l_op r_op : TpuOp)
    (hl : ¬ (l_op.kind = .Reshape ∧ l_op.type.shape.length = 4 ∧ l_op.type.shape[2]? = some 1))
    (hr : ¬ (r_op.kind = .Reshape ∧ r_op.type.shape.length = 4 ∧ r_op.type.shape[2]? = some 1)) :
    (MatMulHdimBatchPattern.tensors g op o left right l_op r_op).OnFailure fun g1 => g1 = g := by
  have h1 : ∀ sw : Bool, ¬ ((if sw = true then r_op else l_op).kind = .Reshape ∧
      (if sw = true then r_op else l_op).type.shape.length = 4 ∧
      (if sw = true then r_op else l_op).type.shape[2]? = some 1) := by
    intro sw
    cases sw
    · exact hl
    · exact hr
  unfold MatMulHdimBatchPattern.tensors
  dsimp only
  generalize (if l_op.kind = .Permute ∧ r_op.kind ≠ .Permute then
    (match l_op.type.shape[2]?, r_op.type.shape[2]? with
      | some a, some b => some (decide (a = b))
      | _, _ => none) else some false) = swap
  cases swap with
  | none => trivial
  | some sw =>
    dsimp only
    specialize h1 sw
    generalize (if sw = true then right else left) = l at *
    generalize (if sw = true then r_op else l_op) = lo at *
    generalize (if sw = true then left else right) = r at *
    generalize (if sw = true then l_op else r_op) = ro at *
    split
    · exact case1_failure g op o l r lo ro
    split
    · rename_i hc
      exact case2_failure g op o l r lo ro (fun h => h1 ⟨hc.1, h⟩)
    split
    · exact case3_failure g op o left l r lo ro
    · trivial

theorem MatMulHdimBatchPattern_failure (fp : List Int → List Int → List Int → List Int)
    (g : TpuGraph) (op : Nat) (o : TpuOp) (ho : g.op op = some o)
    (hres : ∀ v ∈ o.operands, ∀ p, g.op v = some p → p.kind = .Reshape →
      ¬ (p.type.shape.length = 4 ∧ p.type.shape[2]? = some 1)) :
    (MatMulHdimBatchPattern fp g op).OnFailure fun g1 => g1 = g := by
  unfold MatMulHdimBatchPattern
  rw [ho]
  dsimp only
  split
  · rename_i left right hleft hright
    split
    · exact rfl
    split
    · rename_i l_op r_op hlo hro
      split
      · exact rfl
      split
      · exact rfl
      have hfold : (if (!decide (l_op.kind = .Weight) && !decide (r_op.kind = .Weight)) = true
          then MatMulHdimBatchPattern.tensors g op o left right l_op r_op
          else MatMulHdimBatchPattern.weightCase fp g op o left right l_op r_op).OnFailure
          fun g1 => g1 = g := by
        split
        · refine tensors_failure g op o left right l_op r_op ?_ ?_
          · rintro ⟨hk, h⟩
            exact hres left (List.getElem?_mem hleft) l_op hlo hk h
          · rintro ⟨hk, h⟩
            exact hres right (List.getElem?_mem hright) r_op hro hk h
        · exact weightCase_failure fp g op o left right l_op r_op
      generalize (if (!decide (l_op.kind = .Weight) && !decide (r_op.kind = .Weight)) = true
          then MatMulHdimBatchPattern.tensors g op o left right l_op r_op
          else MatMulHdimBatchPattern.weightCase fp g op o left right l_op r_op) = folded at *
      cases folded with
      | success g1 => exact finish_failure g1 op _
      | failure s => exact hfold
      | fatal => trivial
      | undefined => trivial
    · trivial
  · trivial

theorem PermuteFuseAddSoftmax_failure (g : TpuGraph) (op : Nat) :
    (PermuteFuseAddSoftmax g op).OnFailure fun g1 =>
      g1 = g ∨ ∃ c, PermuteFuseAddSoftmax.chain g op = .ok c ∧
        PermuteFuseAddSoftmax.rewrite g op c = .failure g1 := by
  unfold PermuteFuseAddSoftmax
  cases hc : PermuteFuseAddSoftmax.chain g op with
  | undefined => trivial
  | failure => exact Or.inl rfl
  | ok c =>
    dsimp only
    rw [OnFailure_iff]
    intro s hs
    exact Or.inr ⟨c, rfl, hs⟩

theorem MatMulLeftReusePattern_failure (g : TpuGraph) (op : Nat) :
    (∀ g1, MatMulLeftReusePattern g op ≠ .success g1) ∧
    ∀ g1, MatMulLeftReusePattern g op = .failure g1 →
      ∃ input, (∃ o, g.op op = some o ∧ o.operands[0]? = some input) ∧
        g1 = g.modify op fun x =>
          { x with left_reuse := if g.hasOneUse input = true then 0 else 1 } := by
  unfold MatMulLeftReusePattern
  cases ho : g.op op with
  | none =>
    constructor
    · intro g1 h
      cases h
    · intro g1 h
      cases h
  | some o =>
    dsimp only
    cases hi : o.operands[0]? with
    | none =>
      constructor
      · intro g1 h
        cases h
      · intro g1 h
        cases h
    | some input =>
      dsimp only
      cases hd : g.op input with
      | none =>
        constructor
        · intro g1 h
          cases h
        · intro g1 h
          cases h
      | some d =>
        dsimp only
        by_cases hu : g.hasOneUse input = true
        · rw [if_pos hu]
          constructor
          · intro g1 h
            cases h
          · intro g1 h
            cases h
            exact ⟨input, ⟨o, rfl, hi⟩, by rw [if_pos hu]⟩
        · rw [if_neg hu]
          constructor
          · intro g1 h
            cases h
          · intro g1 h
            cases h
            exact ⟨input, ⟨o, rfl, hi⟩, by rw [if_neg hu]⟩

theorem MatMulHdimBatchPattern_reshape_then_failure :
    MatMulHdimBatchPattern (fun data _ _ => data) matmulReshapeGraph 5 =
      .failure (matmulReshapeGraph.setShape 3 [2, 1, 3, 16]) ∧
    matmulReshapeGraph.shape 3 = [2, 3, 1, 16] ∧
    (matmulReshapeGraph.setShape 3 [2, 1, 3, 16]).shape 3 = [2, 1, 3, 16] := by
  refine ⟨by decide!, by decide, by decide⟩

theorem PermuteFuseAddSoftmax_reshape_then_failure :
    PermuteFuseAddSoftmax softmaxChainGraph 8 =
      .failure (PermuteFuseAddSoftmax.setShapes softmaxChainGraph
        { cast_bottom_op := 7, softmax_op := 6, cast_top_op := 5, add_op := 4,
          mul_const_op := none, permute_op := 3 } [1, 8, 12, 8]) ∧
    softmaxChainGraph.shape 4 = [1, 12, 8, 8] ∧
    (PermuteFuseAddSoftmax.setShapes softmaxChainGraph
        { cast_bottom_op := 7, softmax_op := 6, cast_top_op := 5, add_op := 4,
          mul_const_op := none, permute_op := 3 } [1, 8, 12, 8]).shape 4 = [1, 8, 12, 8] := by
  refine ⟨by decide!, by decide, by decide⟩

/-- C21 (as stated, refuted): a MatMul whose left operand has two consumers.
`MatMulLeftReusePattern` returns failure and has set the attribute
`left_reuse` of the MatMul from 0 to 1. -/
theorem MatMulLeftReusePattern_failure_counterexample :
    MatMulLeftReusePattern matmulSharedInput 2 =
      .failure (matmulSharedInput.modify 2 fun x => { x with left_reuse := 1 }) ∧
    (matmulSharedInput.op 2).map TpuOp.left_reuse = some 0 ∧
    ((matmulSharedInput.modify 2 fun x => { x with left_reuse := 1 }).op 2).map
      TpuOp.left_reuse = some 1 := by
  refine ⟨by decide!, by decide, by decide⟩

/-- C21 (amended): let `op` be an operation of the graph.
`MatMulLeftReusePattern` never returns success, and when it returns failure
the graph differs from the one it was given in the attribute `left_reuse` of
`op` only, which is 0 when the left operand has one use and 1 otherwise.
When `PermuteFuseAddSoftmax` returns failure, the graph is as it was given,
unless all tests on the chain above the permute (lines 1183-1230) had passed.
When `MatMulHdimBatchPattern` returns failure and no operand of `op` is
produced by a reshape whose output shape has rank 4 and extent 1 in
dimension 2, the graph is as it was given. -/
theorem structural_failure_untouched
    (function_permute : List Int → List Int → List Int → List Int)
    (g : TpuGraph) (op : Nat) (o : TpuOp) (ho : g.op op = some o) :
    ((∀ g1, MatMulLeftReusePattern g op ≠ .success g1) ∧
      ∀ g1, MatMulLeftReusePattern g op = .failure g1 →
        ∃ input, o.operands[0]? = some input ∧
          g1 = g.modify op fun x =>
            { x with left_reuse := if g.hasOneUse input = true then 0 else 1 }) ∧
    (∀ g1, PermuteFuseAddSoftmax g op = .failure g1 →
      g1 = g ∨ ∃ c, PermuteFuseAddSoftmax.chain g op = .ok c) ∧
    ((∀ v ∈ o.operands, ∀ p, g.op v = some p → p.kind = .Reshape →
        ¬ (p.type.shape.length = 4 ∧ p.type.shape[2]? = some 1)) →
      ∀ g1, MatMulHdimBatchPattern function_permute g op = .failure g1 → g1 = g) := by
  refine ⟨⟨(MatMulLeftReusePattern_failure g op).1, ?_⟩, ?_, ?_⟩
  · intro g1 h
    obtain ⟨input, ⟨o1, ho1, hi⟩, hg⟩ := (MatMulLeftReusePattern_failure g op).2 g1 h
    rw [ho] at ho1
    cases ho1
    exact ⟨input, hi, hg⟩
  · intro g1 h
    rcases OnFailure_iff.1 (PermuteFuseAddSoftmax_failure g op) g1 h with h1 | ⟨c, hc, _⟩
    · exact Or.inl h1
    · exact Or.inr ⟨c, hc⟩
  · intro hres g1 h
    exact OnFailure_iff.1 (MatMulHdimBatchPattern_failure function_permute g op o ho hres) g1 h

theorem structural_failure_untouched_witness :
    MatMulLeftReusePattern (matmulPermutesGraph [0, 2, 3, 1] [0, 2, 1, 3]) 5 =
      .failure ((matmulPermutesGraph [0, 2, 3, 1] [0, 2, 1, 3]).modify 5 fun x =>
        { x with left_reuse := 0 }) ∧
    PermuteFuseAddSoftmax (matmulPermutesGraph [0, 2, 3, 1] [0, 2, 1, 3]) 5 =
      .failure (matmulPermutesGraph [0, 2, 3, 1] [0, 2, 1, 3]) ∧
    MatMulHdimBatchPattern (fun data _ _ => data)
        (matmulPermutesGraph [0, 2, 3, 1] [0, 2, 1, 3]) 5 =
      .failure (matmulPermutesGraph [0, 2, 3, 1] [0, 2, 1, 3]) := by
  have h := structural_failure_untouched (fun data _ _ => data)
    (matmulPermutesGraph [0, 2, 3, 1] [0, 2, 1, 3]) 5 _ rfl
  have hres : ∀ v ∈ [3, 4], ∀ p, (matmulPermutesGraph [0, 2, 3, 1] [0, 2, 1, 3]).op v = some p →
      p.kind = .Reshape → ¬ (p.type.shape.length = 4 ∧ p.type.shape[2]? = some 1) := by
    intro v hv p hp hk
    have hv2 : v = 3 ∨ v = 4 := by simpa using hv
    have hkind : ((matmulPermutesGraph [0, 2, 3, 1] [0, 2, 1, 3]).op v).map TpuOp.kind =
        some .Permute := by
      rcases hv2 with rfl | rfl
      · decide
      · decide
    rw [hp] at hkind
    simp only [Option.map_some', Option.some.injEq] at hkind
    rw [hk] at hkind
    cases hkind
  have hg1 : MatMulHdimBatchPattern (fun data _ _ => data)
      (matmulPermutesGraph [0, 2, 3, 1] [0, 2, 1, 3]) 5 =
      .failure (matmulPermutesGraph [0, 2, 3, 1] [0, 2, 1, 3]) := by decide!
  have h3 := h.2.2 hres _ hg1
  exact ⟨by decide!, by decide!, h3 ▸ hg1⟩

/-! ### Quantizing into the 8-bit floating types -/

/-- C22 (as stated, refuted): `do_cast` quantizes a calibrated value `[-2,4]`
into F8E5M2 by inserting a generic `tpu.Cast` and no requantization;
quantizing into F8E4M3 a value that a reusable `tpu.Cast` already reads inserts
nothing; quantizing a value `[-2,3]` into F8E4M3 with a representable
maximum of 448 gives the scale `9786709/65536`, the `float` nearest to `448/3`,
not `448/3`; and for a value with calibrated maximum `0` the quotient is no
finite number and nothing is inserted. -/
theorem do_cast_f8e5m2_counterexample :
    do_cast castToF32Env int8Module calibratedValueGraph 0 (.plain .f8e5m2) .DO_QUANTIZE =
      some (calibratedValueGraph ++
        [some { kind := .Cast, operands := [0],
                type := { shape := [4], elem := .plain .f8e5m2 } }], 3) ∧
    do_cast castToF32Env int8Module calibratedCastGraph 0 (.plain .f8e4m3) .DO_QUANTIZE =
      some (calibratedCastGraph, 1) ∧
    do_cast castToF32Env int8Module (calibratedMaxGraph 3) 0 (.plain .f8e4m3) .DO_QUANTIZE =
      some (calibratedMaxGraph 3 ++
        [some { kind := .RequantFp, operands := [0], scale := 9786709 / 65536,
                type := { shape := [4], elem := .plain .f8e4m3 } }], 3) ∧
    (9786709 / 65536 : ℚ) ≠ 448 / 3 ∧
    do_cast castToF32Env int8Module (calibratedMaxGraph 0) 0 (.plain .f8e4m3) .DO_QUANTIZE =
      none := by
  refine ⟨by decide!, by decide!, by decide!, by norm_num, by decide!⟩

/-- C22 (amended): let `do_cast` quantize a calibrated value `v` with
calibrated maximum `max` into F8E4M3 while no consumer of `v` is a conversion
whose result can be reused.  The scale is `get_f8e4m3_max / max` as the program
computes it: the `double` quotient stored in a `float` (`floatQuotient`).  When
that is a finite number `s` (in particular `max` is not zero), `do_cast`
returns what `do_requantFp` makes of `v`, the scale `s` and the F8E4M3
quantized type: one node is appended, a scale-only requantization
(`tpu.RequantFp`) of `v` with scale `s`, and the operations that were there are
as they were, so no `tpu.Cast` has been inserted.  When it is not a finite
number, `do_cast` has no defined result. -/
theorem do_cast_quantize_f8e4m3 (env : CastEnv) (md : Module) (g : TpuGraph) (v : Nat)
    (q : CalibratedType) (user_op : Option Nat)
    (hq : (g.typeOf v).elem.getCalibrated = some q)
    (hscan : do_cast.scan env g v (.plain .f8e4m3) = none) :
    (floatQuotient env.get_f8e4m3_max q.max = none →
      do_cast env md g v (.plain .f8e4m3) .DO_QUANTIZE user_op = none) ∧
    (q.max = 0 → floatQuotient env.get_f8e4m3_max q.max = none) ∧
    ∀ s, floatQuotient env.get_f8e4m3_max q.max = some s →
      toDouble (env.get_f8e4m3_max / q.max) ≠ none ∧
      (∀ x, toDouble (env.get_f8e4m3_max / q.max) = some x → toFloat x = some s) ∧
      do_cast env md g v (.plain .f8e4m3) .DO_QUANTIZE user_op =
        some (do_requantFp g v s (env.getQuantF8E4M3Type (g.typeOf v))) ∧
      ∃ g1, do_cast env md g v (.plain .f8e4m3) .DO_QUANTIZE user_op = some (g1, g.length) ∧
        g1.length = g.length + 1 ∧
        g1.op g.length = some { kind := .RequantFp, operands := [v],
                                type := env.getQuantF8E4M3Type (g.typeOf v),
                                scale := s } ∧
        (∀ j, j < g.length → g1.op j = g.op j) ∧
        ∀ j x, g1.op j = some x → x.kind = .Cast → g.op j = some x := by
  refine ⟨?_, ?_, ?_⟩
  · intro hnone
    unfold do_cast
    rw [hscan]
    simp only [hq, if_true, hnone]
  · intro h0
    unfold floatQuotient
    rw [if_pos h0]
  intro s hs
  have hdbl : toDouble (env.get_f8e4m3_max / q.max) ≠ none ∧
      ∀ x, toDouble (env.get_f8e4m3_max / q.max) = some x → toFloat x = some s := by
    unfold floatQuotient at hs
    split at hs
    · cases hs
    · cases hx : toDouble (env.get_f8e4m3_max / q.max) with
      | none => rw [hx] at hs; cases hs
      | some x =>
        rw [hx] at hs
        refine ⟨by simp, ?_⟩
        intro y hy
        cases hy
        exact hs
  have hrun : do_cast env md g v (.plain .f8e4m3) .DO_QUANTIZE user_op =
      some (g ++ [some { kind := .RequantFp, operands := [v],
                         type := env.getQuantF8E4M3Type (g.typeOf v),
                         scale := s }], g.length) := by
    unfold do_cast
    rw [hscan]
    simp only [hq, if_true, hs]
    rfl
  refine ⟨hdbl.1, hdbl.2, hrun, _, hrun, by simp, TpuGraph.op_append_new g _, ?_, ?_⟩
  · intro j hj
    exact TpuGraph.op_append_left g _ hj
  · intro j x hx hk
    rcases Nat.lt_trichotomy j g.length with hlt | heq | hgt
    · rw [← TpuGraph.op_append_left g _ hlt]
      exact hx
    · subst heq
      rw [TpuGraph.op_append_new] at hx
      cases hx
      cases hk
    · rw [TpuGraph.op_of_ge (by simp; omega)] at hx
      cases hx

theorem do_cast_quantize_f8e4m3_witness :
    ∃ g1, do_cast castToF32Env int8Module calibratedValueGraph 0 (.plain .f8e4m3) .DO_QUANTIZE
        (some 1) = some (g1, 3) ∧
      g1.op 3 = some { kind := .RequantFp, operands := [0], scale := 112,
                       type := { shape := [4], elem := .plain .f8e4m3 } } := by
  obtain ⟨_, _, _, g1, h1, _, h3, _⟩ := (do_cast_quantize_f8e4m3 castToF32Env int8Module
    calibratedValueGraph 0 { expressed := .f32, min := -2, max := 4 } (some 1) rfl
    (by decide)).2.2 112 (by decide!)
  refine ⟨g1, h1, ?_⟩
  rw [show (3 : Nat) = calibratedValueGraph.length from rfl, h3]
  rfl

/-! ### The AvgPool default of `init_qtable` -/

theorem QuantizeMap.find_cons (e : String × Mode) (m : QuantizeMap) (k : String) :
    QuantizeMap.find (e :: m) k = if e.1 = k then some e.2 else QuantizeMap.find m k := by
  unfold QuantizeMap.find
  by_cases h : e.1 = k
  · simp [h]
  · have hb : (e.1 == k) = false := by simpa using h
    simp [List.find?_cons, hb, h]

theorem QuantizeMap.find_map_set (m : QuantizeMap) (name k : String) (q : Mode) :
    QuantizeMap.find (m.map fun e => if e.1 == name then (e.1, q) else e) k =
      if k = name then (m.find name).map (fun _ => q) else m.find k := by
  induction m with
  | nil =>
    by_cases h : k = name
    · simp [h, QuantizeMap.find]
    · simp [h, QuantizeMap.find]
  | cons e m ih =>
    rw [List.map_cons, QuantizeMap.find_cons, ih, QuantizeMap.find_cons, QuantizeMap.find_cons]
    by_cases he : e.1 = name
    · have hb : (e.1 == name) = true := by simpa using he
      simp only [hb, if_true]
      by_cases hk : k = name
      · subst hk
        simp [he]
      · have hne : ¬ e.1 = k := fun h => hk (h ▸ he)
        simp [hk, hne]
    · have hb : (e.1 == name) = false := by simpa using he
      simp only [hb, Bool.false_eq_true, if_false]
      by_cases hk : k = name
      · subst hk
        simp [he]
      · simp [hk]

theorem QuantizeMap.find_set (m : QuantizeMap) (name k : String) (q : Mode) :
    (m.set name q).find k = if k = name then some q else m.find k := by
  unfold QuantizeMap.set
  by_cases hs : (m.find name).isSome = true
  · rw [if_pos hs, QuantizeMap.find_map_set]
    by_cases hk : k = name
    · rw [if_pos hk, if_pos hk]
      obtain ⟨x, hx⟩ := Option.isSome_iff_exists.1 hs
      rw [hx]
      rfl
    · rw [if_neg hk, if_neg hk]
  · rw [if_neg hs, QuantizeMap.find_append]
    have hnone : m.find name = none := by
      cases hf : m.find name with
      | none => rfl
      | some x => rw [hf] at hs; exact absurd rfl hs
    by_cases hk : k = name
    · subst hk
      rw [if_pos rfl, hnone]
      simp [QuantizeMap.find]
    · rw [if_neg hk]
      cases hf : m.find k with
      | some x => rfl
      | none =>
        have hb : (name == k) = false := by
          simpa using fun h => hk h.symm
        simp [QuantizeMap.find, hb]

theorem find_foldl_set (names : List String) (k : String) :
    ∀ m0 : QuantizeMap, QuantizeMap.find
        (names.foldl (fun (m : QuantizeMap) name => m.set name .F32) m0) k =
      if k ∈ names then some .F32 else m0.find k := by
  induction names with
  | nil =>
    intro m0
    simp
  | cons n names ih =>
    intro m0
    rw [List.foldl_cons, ih, QuantizeMap.find_set]
    by_cases h1 : k ∈ names
    · simp [h1]
    · by_cases h2 : k = n
      · simp [h2]
      · simp [h1, h2]

theorem init_qtable.line_find (md : Module) (m m1 : QuantizeMap) (l k : String)
    (h : init_qtable.line md m l = some m1) (hk : init_qtable.lineName l ≠ some k) :
    m1.find k = m.find k := by
  unfold init_qtable.line at h
  unfold init_qtable.lineName at hk
  dsimp only at h hk
  by_cases h1 : regex_match_empty (stripCR l.data) = true
  · rw [if_pos h1] at h
    cases h
    rfl
  rw [if_neg h1] at h hk
  by_cases h2 : regex_match_info (stripCR l.data) = true
  · rw [if_pos h2] at h
    cases h
    rfl
  rw [if_neg h2] at h hk
  by_cases h3 : regex_match_map (stripCR l.data) = true
  · rw [if_pos h3] at h hk
    have hne : k ≠ String.mk (extractToken (stripCR l.data)).1 := by
      intro he
      exact hk (by rw [he])
    split at h
    · cases h
    split at h
    · cases h
    split at h
    · cases h
      rw [QuantizeMap.find_set, if_neg hne]
    · cases h
  rw [if_neg h3] at h
  split at h
  · cases h
    rfl
  · cases h

theorem foldlM_line_find (md : Module) (k : String) :
    ∀ (ls : List String) (m m1 : QuantizeMap), ls.foldlM (init_qtable.line md) m = some m1 →
      (∀ l ∈ ls, init_qtable.lineName l ≠ some k) → m1.find k = m.find k := by
  intro ls
  induction ls with
  | nil =>
    intro m m1 h _
    simp only [List.foldlM_nil] at h
    cases h
    rfl
  | cons l ls ih =>
    intro m m1 h hk
    rw [List.foldlM_cons] at h
    cases hl : init_qtable.line md m l with
    | none =>
      rw [hl] at h
      cases h
    | some m2 =>
      rw [hl] at h
      rw [ih m2 m1 h (fun x hx => hk x (List.mem_cons_of_mem _ hx)),
        init_qtable.line_find md m m2 l k hl (hk l (List.mem_cons_self _ _))]

/-- C23 (as stated, refuted): with the flag false, in the global mode INT8 the
AvgPool `pool` is not in the map that `init_qtable` leaves; and in the global
mode F16 the table line `pool INT8` leaves `pool` mapped to INT8. -/
theorem init_qtable_avgpool_counterexample :
    init_qtable int8Module false avgPoolGraph .absent = some [] ∧
    init_qtable f16Module false avgPoolGraph (.lines ["pool INT8"]) =
      some [("pool", .INT8)] := by
  refine ⟨by decide, by decide⟩

/-- C23 (amended): when the flag `ignore_f16_overflow` is false and the global
mode is an F16 mode, in the map that `init_qtable` leaves every AvgPool of the
graph whose name is not given a mode by a line of the override table is mapped
to F32. -/
theorem init_qtable_avgpool (md : Module) (g : Graph) (qtable : QTable) (m : QuantizeMap)
    (hmode : isF16Modes md.mode = true)
    (h : init_qtable md false g qtable = some m) (o : Op) (ho : o ∈ g)
    (hk : o.kind = .AvgPool)
    (hfree : ∀ ls, qtable = .lines ls → ∀ l ∈ ls, init_qtable.lineName l ≠ some o.name) :
    m.find o.name = some .F32 := by
  have hmem : o.name ∈ avgPoolNames g := by
    unfold avgPoolNames
    exact List.mem_map.2 ⟨o, List.mem_filter.2 ⟨ho, by simpa using hk⟩, rfl⟩
  have h0 : QuantizeMap.find ((avgPoolNames g).foldl
      (fun (m : QuantizeMap) name => m.set name .F32) []) o.name = some .F32 := by
    rw [find_foldl_set, if_pos hmem]
  unfold init_qtable at h
  simp only [hmode, and_self, if_true] at h
  cases qtable with
  | absent =>
    simp only [Option.some.injEq] at h
    rw [← h]
    exact h0
  | unreadable => cases h
  | lines ls =>
    simp only at h
    rw [foldlM_line_find md o.name ls _ m h (hfree ls rfl)]
    exact h0

theorem init_qtable_avgpool_witness :
    init_qtable f16Module false avgPoolGraph (.lines ["# table", "x INT8"]) =
      some [("pool", .F32), ("x", .INT8)] ∧
    QuantizeMap.find [("pool", .F32), ("x", .INT8)] "pool" = some .F32 := by
  have hrun : init_qtable f16Module false avgPoolGraph (.lines ["# table", "x INT8"]) =
      some [("pool", .F32), ("x", .INT8)] := by decide
  refine ⟨hrun, ?_⟩
  have hfree : ∀ ls, QTable.lines ["# table", "x INT8"] = .lines ls →
      ∀ l ∈ ls, init_qtable.lineName l ≠ some "pool" := by
    intro ls hls l hl
    cases hls
    have hl2 : l = "# table" ∨ l = "x INT8" := by simpa using hl
    rcases hl2 with rfl | rfl
    · decide
    · decide
  exact init_qtable_avgpool f16Module avgPoolGraph (.lines ["# table", "x INT8"]) _ rfl hrun
    { kind := .AvgPool, name := "pool", operands := [0], type := calF32 [1, 1, 2, 2] (-1) 1 }
    (by decide!) rfl hfree

/-! ### ForwardCalibartion: one application is enough -/

theorem ForwardCalibartion_eq (g : Graph) {n i : Nat} {o : Op} {qin : CalibratedType}
    (hn : g[n]? = some o)
    (hk : ¬ (o.kind = .Reduce ∧ o.mode ≠ "ReduceMax" ∧ o.mode ≠ "ReduceMin"))
    (hi : o.operands[0]? = some i) (hq : getCalibratedType g i = some qin) :
    ForwardCalibartion g n =
      if ∃ qout, o.type.elem.getCalibrated = some qout ∧ qout.min = qin.min ∧ qout.max = qin.max
      then .failure g else forwardRange g n o qin := by
  unfold ForwardCalibartion
  simp only [hn, if_neg hk, hi, hq]
  cases ho : o.type.elem.getCalibrated with
  | none => simp
  | some qout =>
    dsimp only
    by_cases hsame : qin.max = qout.max ∧ qin.min = qout.min
    · rw [if_pos hsame, if_pos ⟨qout, rfl, hsame.2.symm, hsame.1.symm⟩]
    · rw [if_neg hsame, if_neg]
      rintro ⟨q', hq', h1, h2⟩
      cases hq'
      exact hsame ⟨h2.symm, h1.symm⟩

/-- C24: let `o` be an operation of an SSA graph whose input is calibrated
with the type `qin`, other than a Reduce of a mode that the rule passes over.
`ForwardCalibartion` declines exactly when the output is calibrated with the
minimum and maximum of the input, and it then leaves the graph as it is.
Otherwise it succeeds: the output has the calibrated type of the input and keeps
its shape, and a second application to the resulting graph declines. -/
theorem ForwardCalibartion_once (g : Graph) (n i : Nat) (o : Op) (qin : CalibratedType)
    (hssa : SSA g) (hn : g[n]? = some o)
    (hk : ¬ (o.kind = .Reduce ∧ o.mode ≠ "ReduceMax" ∧ o.mode ≠ "ReduceMin"))
    (hi : o.operands[0]? = some i) (hq : getCalibratedType g i = some qin) :
    ((∃ g', ForwardCalibartion g n = .failure g') ↔
      ∃ qout, o.type.elem.getCalibrated = some qout ∧ qout.min = qin.min ∧
        qout.max = qin.max) ∧
    (∀ g', ForwardCalibartion g n = .failure g' → g' = g) ∧
    ((¬ ∃ qout, o.type.elem.getCalibrated = some qout ∧ qout.min = qin.min ∧
        qout.max = qin.max) →
      ∃ g', ForwardCalibartion g n = .success g' ∧
        g'[n]? = some { o with type := { shape := o.type.shape, elem := .calibrated qin } } ∧
        ForwardCalibartion g' n = .failure g') := by
  have heq := ForwardCalibartion_eq g hn hk hi hq
  obtain ⟨hine, hnotuser⟩ := hssa.input_not_user hn hi
  have hself : n ∉ users g n := fun hu => absurd (hssa.lt_of_mem_users hu) (Nat.lt_irrefl n)
  refine ⟨⟨?_, ?_⟩, ?_, ?_⟩
  · rintro ⟨g', hg'⟩
    by_contra hnot
    rw [heq, if_neg hnot] at hg'
    unfold forwardRange at hg'
    cases hg'
  · intro hsame
    exact ⟨g, by rw [heq, if_pos hsame]⟩
  · intro g' hg'
    by_cases hsame : ∃ qout, o.type.elem.getCalibrated = some qout ∧ qout.min = qin.min ∧
        qout.max = qin.max
    · rw [heq, if_pos hsame] at hg'
      cases hg'
      rfl
    · rw [heq, if_neg hsame] at hg'
      unfold forwardRange at hg'
      cases hg'
  · intro hnot
    refine ⟨Forward (setType g n { shape := o.type.shape, elem := .calibrated qin }) n, ?_, ?_, ?_⟩
    · rw [heq, if_neg hnot]
      rfl
    · rw [Forward_getElem?_of_not_user _ (by rwa [users_setType]),
        getElem?_setType_self g _ hn]
    · have hn' : (Forward (setType g n { shape := o.type.shape, elem := .calibrated qin }) n)[n]? =
          some { o with type := { shape := o.type.shape, elem := .calibrated qin } } := by
        rw [Forward_getElem?_of_not_user _ (by rwa [users_setType]),
          getElem?_setType_self g _ hn]
      have hq' : getCalibratedType
          (Forward (setType g n { shape := o.type.shape, elem := .calibrated qin }) n) i =
          some qin := by
        rw [getCalibratedType_congr (Forward_setType_getElem?_of_not_user g _ hine hnotuser)]
        exact hq
      rw [ForwardCalibartion_eq _ hn' hk hi hq', if_pos ⟨qin, rfl, rfl, rfl⟩]

theorem ssa_sliceRangeGraph : SSA sliceRangeGraph := by
  intro n hn o ho v hv
  have hn' : n < 3 := hn
  interval_cases n <;> simp [sliceRangeGraph] at ho <;> subst ho <;> simp at hv <;> omega

theorem ForwardCalibartion_once_witness :
    ∃ g', ForwardCalibartion sliceRangeGraph 1 = .success g' ∧
      g'[1]? = some { kind := .Slice, name := "slice", operands := [0],
                      type := calF32 [1, 1, 1, 2] (-1) 1 } ∧
      ForwardCalibartion g' 1 = .failure g' :=
  (ForwardCalibartion_once sliceRangeGraph 1 0
    { kind := .Slice, name := "slice", operands := [0], type := calF32 [1, 1, 1, 2] 0 10 }
    { expressed := .f32, min := -1, max := 1 } ssa_sliceRangeGraph rfl (by decide) rfl rfl).2.2
    (by decide!)

/-! ### BackwardCalibartion: the plain and the keep-min variant -/

theorem Backward_getElem?_ne (g : Graph) (v w : Nat)
    (h : ∀ o, g[v]? = some o → o.operands[0]? ≠ some w) : (Backward g v)[w]? = g[w]? := by
  unfold Backward
  cases hv : g[v]? with
  | none => rfl
  | some o =>
    dsimp only
    split
    · unfold BackwardOp
      rw [hv]
      dsimp only
      cases hj : o.operands[0]? with
      | none => rfl
      | some j =>
        dsimp only
        have hne : w ≠ j := by
          intro hw
          exact h o hv (by rw [hj, hw])
        exact getElem?_setType_ne g _ hne
    · rfl

theorem backward_setType_getElem? (g : Graph) (hssa : SSA g) {i w : Nat} (t : TensorType)
    (hiw : i ≤ w) : (Backward (setType g i t) i)[w]? = (setType g i t)[w]? := by
  apply Backward_getElem?_ne
  intro o ho h0
  rw [getElem?_setType, if_pos rfl] at ho
  cases hgi : g[i]? with
  | none =>
    rw [hgi] at ho
    cases ho
  | some oi =>
    rw [hgi] at ho
    simp only [Option.map_some', Option.some.injEq] at ho
    have hops : o.operands = oi.operands := by
      rw [← ho]
    rw [hops] at h0
    have hlt : w < i := hssa.operand_lt hgi (List.mem_iff_getElem?.mpr ⟨0, h0⟩)
    omega

theorem one_le_users_length {g : Graph} {n i : Nat} {o : Op} (hn : g[n]? = some o)
    (hi : o.operands[0]? = some i) : 1 ≤ (users g i).length := by
  have hmem : n ∈ users g i := mem_users.mpr ⟨o, hn, List.mem_iff_getElem?.mpr ⟨0, hi⟩⟩
  exact List.length_pos_of_mem hmem

/-- C25: let `o` be an operation of an SSA graph with calibrated output `qout`
(`[c,d]`) and calibrated input `qin` (`[a,b]`).  When the input has more than
one use, `BackwardCalibartion` declines.  With exactly one use the plain variant
declines iff `a = c` and `b = d` and otherwise gives the input the range
`[c,d]`; the keep-min variant declines iff `b = d` and otherwise gives the input
the range `[a,d]`.  A declining rule leaves the graph as it is, and in every
case the operation `o`, so its output range, is as it was. -/
theorem BackwardCalibartion_ranges (keepMin : Bool) (g : Graph) (n i : Nat) (o : Op)
    (qin qout : CalibratedType) (hssa : SSA g) (hn : g[n]? = some o)
    (hi : o.operands[0]? = some i) (hout : o.type.elem.getCalibrated = some qout)
    (hin : getCalibratedType g i = some qin) :
    (hasOneUse g i = false ↔ 2 ≤ (users g i).length) ∧
    (hasOneUse g i = false → BackwardCalibartion keepMin g n = .failure g) ∧
    (hasOneUse g i = true →
      ((∃ g', BackwardCalibartion false g n = .failure g') ↔
        (qin.min = qout.min ∧ qin.max = qout.max)) ∧
      ((∃ g', BackwardCalibartion true g n = .failure g') ↔ qin.max = qout.max) ∧
      (¬ (qin.min = qout.min ∧ qin.max = qout.max) →
        ∃ g', BackwardCalibartion false g n = .success g' ∧
          rangeOf g' i = some (qout.min, qout.max)) ∧
      (qin.max ≠ qout.max →
        ∃ g', BackwardCalibartion true g n = .success g' ∧
          rangeOf g' i = some (qin.min, qout.max))) ∧
    (∀ g', BackwardCalibartion keepMin g n = .failure g' → g' = g) ∧
    (∀ g', (BackwardCalibartion keepMin g n).Leaves g' → g'[n]? = some o) := by
  have hilt : i < g.length := lt_length_of_getCalibratedType hin
  obtain ⟨oi, hoi⟩ : ∃ oi, g[i]? = some oi := ⟨g[i], List.getElem?_eq_getElem hilt⟩
  have hin_lt : i < n := hssa.operand_lt hn (List.mem_iff_getElem?.mpr ⟨0, hi⟩)
  have hat : ∀ t : TensorType, (Backward (setType g i t) i)[i]? = some { oi with type := t } := by
    intro t
    rw [backward_setType_getElem? g hssa t (Nat.le_refl i), getElem?_setType_self g t hoi]
  have hkeep : ∀ t : TensorType, (Backward (setType g i t) i)[n]? = some o := by
    intro t
    rw [backward_setType_getElem? g hssa t (Nat.le_of_lt hin_lt),
      getElem?_setType_ne g t (Nat.ne_of_gt hin_lt), hn]
  have heq : ∀ km : Bool, hasOneUse g i = true → BackwardCalibartion km g n =
      if qin.max = qout.max ∧ (km = true ∨ qin.min = qout.min) then .failure g
      else if km = true then
        .success (Backward (setType g i
          { shape := (typeOf g i).shape
            elem := .calibrated
              { expressed := o.type.elem.getStorageType, min := qin.min, max := qout.max } }) i)
      else
        .success (Backward (setType g i
          { shape := (typeOf g i).shape, elem := .calibrated qout }) i) := by
    intro km hone
    unfold BackwardCalibartion
    simp only [hn, hi, hout, hone, hin, Bool.true_eq_false, if_false]
  have hone_iff : hasOneUse g i = false ↔ 2 ≤ (users g i).length := by
    have h1 := one_le_users_length hn hi
    unfold hasOneUse
    constructor
    · intro h
      have hne : (users g i).length ≠ 1 := by simpa using h
      omega
    · intro h
      have hne : (users g i).length ≠ 1 := by omega
      simpa using hne
  refine ⟨hone_iff, ?_, ?_, ?_, ?_⟩
  · intro hmany
    unfold BackwardCalibartion
    simp only [hn, hi, hout, hmany, if_true]
  · intro hone
    refine ⟨?_, ?_, ?_, ?_⟩
    · rw [heq false hone]
      constructor
      · rintro ⟨g', hg'⟩
        by_contra hnot
        rw [if_neg (fun h => hnot ⟨h.2.resolve_left (by simp), h.1⟩)] at hg'
        simp at hg'
      · rintro ⟨h1, h2⟩
        exact ⟨g, by rw [if_pos ⟨h2, Or.inr h1⟩]⟩
    · rw [heq true hone]
      constructor
      · rintro ⟨g', hg'⟩
        by_contra hnot
        rw [if_neg (fun h => hnot h.1)] at hg'
        simp at hg'
      · intro h2
        exact ⟨g, by rw [if_pos ⟨h2, Or.inl rfl⟩]⟩
    · intro hnot
      refine ⟨Backward (setType g i
        { shape := (typeOf g i).shape, elem := .calibrated qout }) i, ?_, ?_⟩
      · rw [heq false hone, if_neg (fun h => hnot ⟨h.2.resolve_left (by simp), h.1⟩)]
        simp
      · exact rangeOf_of_getElem?
          (hat { shape := (typeOf g i).shape, elem := .calibrated qout }) rfl
    · intro hnot
      refine ⟨Backward (setType g i
        { shape := (typeOf g i).shape
          elem := .calibrated
            { expressed := o.type.elem.getStorageType, min := qin.min, max := qout.max } }) i,
        ?_, ?_⟩
      · rw [heq true hone, if_neg (fun h => hnot h.1)]
        simp
      · exact rangeOf_of_getElem?
          (hat { shape := (typeOf g i).shape
                 elem := .calibrated
                   { expressed := o.type.elem.getStorageType, min := qin.min,
                     max := qout.max } }) rfl
  · intro g' hg'
    by_cases hone : hasOneUse g i = true
    · rw [heq keepMin hone] at hg'
      split at hg'
      · cases hg'
        rfl
      · split at hg' <;> cases hg'
    · have hmany : hasOneUse g i = false := by simpa using hone
      unfold BackwardCalibartion at hg'
      simp only [hn, hi, hout, hmany, if_true] at hg'
      cases hg'
      rfl
  · intro g' hg'
    by_cases hone : hasOneUse g i = true
    · rw [heq keepMin hone] at hg'
      split at hg'
      · rw [Leaves_failure hg']
        exact hn
      · split at hg'
        · rw [Leaves_success hg']
          exact hkeep _
        · rw [Leaves_success hg']
          exact hkeep _
    · have hmany : hasOneUse g i = false := by simpa using hone
      unfold BackwardCalibartion at hg'
      simp only [hn, hi, hout, hmany, if_true] at hg'
      rw [Leaves_failure hg']
      exact hn

theorem ssa_reluRangeGraph : SSA reluRangeGraph := by
  intro n hn o ho v hv
  have hn' : n < 3 := hn
  interval_cases n <;> simp [reluRangeGraph] at ho <;> subst ho <;> simp at hv <;> omega

theorem BackwardCalibartion_ranges_witness :
    (∃ g', BackwardCalibartion false reluRangeGraph 1 = .success g' ∧
      rangeOf g' 0 = some (0, 10)) ∧
    (∃ g', BackwardCalibartion true reluRangeGraph 1 = .success g' ∧
      rangeOf g' 0 = some (-1, 10)) := by
  have h := (BackwardCalibartion_ranges false reluRangeGraph 1 0
    { kind := .Relu, name := "relu", operands := [0], type := calF32 [1, 1, 4, 4] 0 10 }
    { expressed := .f32, min := -1, max := 1 } { expressed := .f32, min := 0, max := 10 }
    ssa_reluRangeGraph rfl rfl rfl rfl).2.2.1 (by decide)
  exact ⟨h.2.2.1 (by norm_num), h.2.2.2 (by norm_num)⟩

/-! ### KeepMulSignPattern: the operand swap -/

theorem mulOperandSign_congr {g g' : Graph} {v : Nat} (h : g'[v]? = g[v]?) :
    mulOperandSign g' v = mulOperandSign g v := by
  unfold mulOperandSign
  rw [h]

theorem KeepMulSignPattern_eq {g : Graph} {n a b : Nat} {o : Op} {q : CalibratedType}
    {s0 s1 : Bool} (hn : g[n]? = some o) (hops : o.operands = [a, b])
    (hq : o.type.elem.getCalibrated = some q)
    (h0 : mulOperandSign g a = .signed s0) (h1 : mulOperandSign g b = .signed s1) :
    KeepMulSignPattern g n = mulDispatch g n o q s0 s1 := by
  unfold KeepMulSignPattern
  simp only [hn, hops, hq, h0, h1]

/-- C26: let `o` be an operation of an SSA graph with two operands `a`, `b`
that the rule classifies as signed (`s0`, `s1`), and with calibrated output
`q`, such that `s0` and `s1` differ, so that exactly one of them equals the
polarity of the output (`q.min < 0`).  When it is `s0`, `KeepMulSignPattern` declines and leaves the
graph as it is.  When it is `s1`, the rule succeeds; the graph it leaves
differs in the operands of `o` only, which are now `b`, `a`, every type is as
it was, operand 0 now has the polarity of the output, and a second application
declines. -/
theorem KeepMulSignPattern_swap (g : Graph) (n a b : Nat) (o : Op) (q : CalibratedType)
    (s0 s1 : Bool) (hssa : SSA g) (hn : g[n]? = some o) (hops : o.operands = [a, b])
    (hq : o.type.elem.getCalibrated = some q)
    (h0 : mulOperandSign g a = .signed s0) (h1 : mulOperandSign g b = .signed s1)
    (hone : s0 ≠ s1) :
    (s0 = decide (q.min < 0) → KeepMulSignPattern g n = .failure g) ∧
    (s1 = decide (q.min < 0) →
      KeepMulSignPattern g n = .success (g.set n { o with operands := [b, a] }) ∧
      (∀ v, typeOf (g.set n { o with operands := [b, a] }) v = typeOf g v) ∧
      (∀ v, v ≠ n → (g.set n { o with operands := [b, a] })[v]? = g[v]?) ∧
      mulOperandSign (g.set n { o with operands := [b, a] }) b = .signed (decide (q.min < 0)) ∧
      KeepMulSignPattern (g.set n { o with operands := [b, a] }) n =
        .failure (g.set n { o with operands := [b, a] })) := by
  have heq := KeepMulSignPattern_eq hn hops hq h0 h1
  have hlt : n < g.length := (List.getElem?_eq_some.mp hn).1
  have ha : a < n := hssa.operand_lt hn (by rw [hops]; simp)
  have hb : b < n := hssa.operand_lt hn (by rw [hops]; simp)
  constructor
  · intro hs0
    rw [heq]
    unfold mulDispatch
    simp only [hs0, if_true]
  · intro hs1
    have hs0 : s0 ≠ decide (q.min < 0) := by
      intro h
      exact hone (h.trans hs1.symm)
    have hne : ∀ v, v ≠ n → (g.set n { o with operands := [b, a] })[v]? = g[v]? := by
      intro v hv
      rw [List.getElem?_set_ne (Ne.symm hv)]
    have hself : (g.set n { o with operands := [b, a] })[n]? =
        some { o with operands := [b, a] } := by
      rw [List.getElem?_set_self hlt]
    refine ⟨?_, ?_, hne, ?_, ?_⟩
    · rw [heq]
      unfold mulDispatch
      simp only [hs0, hs1, if_false, if_true, hops, List.reverse_cons, List.reverse_nil,
        List.nil_append, List.singleton_append]
    · intro v
      by_cases hv : v = n
      · subst hv
        unfold typeOf
        rw [hself, hn]
      · exact typeOf_congr (hne v hv)
    · rw [mulOperandSign_congr (hne b (Nat.ne_of_lt hb)), h1, hs1]
    · rw [KeepMulSignPattern_eq hself rfl hq
        ((mulOperandSign_congr (hne b (Nat.ne_of_lt hb))).trans h1)
        ((mulOperandSign_congr (hne a (Nat.ne_of_lt ha))).trans h0)]
      unfold mulDispatch
      simp only [hs1, if_true]

theorem ssa_mulSwapGraph : SSA mulSwapGraph := by
  intro n hn o ho v hv
  have hn' : n < 4 := hn
  interval_cases n <;> simp [mulSwapGraph] at ho <;> subst ho <;> simp at hv <;> omega

theorem KeepMulSignPattern_swap_witness :
    KeepMulSignPattern mulSwapGraph 2 =
      .success (mulSwapGraph.set 2
        { kind := .Mul, name := "mul", operands := [1, 0], type := calF32 [1, 8] 0 2 }) ∧
    KeepMulSignPattern (mulSwapGraph.set 2
        { kind := .Mul, name := "mul", operands := [1, 0], type := calF32 [1, 8] 0 2 }) 2 =
      .failure (mulSwapGraph.set 2
        { kind := .Mul, name := "mul", operands := [1, 0], type := calF32 [1, 8] 0 2 }) := by
  have h := (KeepMulSignPattern_swap mulSwapGraph 2 0 1
    { kind := .Mul, name := "mul", operands := [0, 1], type := calF32 [1, 8] 0 2 }
    { expressed := .f32, min := 0, max := 2 } true false ssa_mulSwapGraph rfl rfl rfl
    (by decide!) (by decide!) (by decide!)).2 (by decide!)
  exact ⟨h.1, h.2.2.2.2⟩

/-! ### GroupConv2NormalConv: which convolutions are rewritten -/

theorem updateFilter_defined (op : Conv2DOp) (hpos : 0 < op.group)
    (hic : op.group ∣ op.ic) (hoc : op.group ∣ op.oc)
    (hsize : op.filter_data.length = op.oc * (op.ic / op.group * op.kh * op.kw))
    (hfit : op.parseParam.FitsInt) :
    ∃ nd, updateFilter op op.parseParam = some nd := by
  have hocg : op.oc = op.group * (op.oc / op.group) := (Nat.mul_div_cancel' hoc).symm
  obtain ⟨nd, hfold, _, _⟩ := updateFilter_rows op.filter_data
    (op.ic / op.group * op.kh * op.kw) op.group (op.oc / op.group) op.oc
    (op.filter_stype.convertZp op.kernel_zp) hsize hocg op.oc le_rfl
  exact ⟨nd, updateFilter_of_rows op hpos hic hfit hsize hfold hocg⟩

/-- C27 (as stated, refuted): on BM1684X with a parallel width of 32, a grouped
convolution with an 8-bit weight filter, two groups and 64 input channels has
32 input channels per group, within the width, yet the pattern declines: the
test is on all 64 input channels.  And with a width of 64, a grouped
convolution with an 8-bit weight filter, two groups, two input channels and
`2^32` output channels passes the test, but the `int`s of `updateFilter` cannot
hold its sizes and the rewrite has no defined result. -/
theorem GroupConv2NormalConv_per_group_counterexample :
    (GroupConv2NormalConv .BM1684X (fun _ => 32) groupConvWide = .failure groupConvWide ∧
      isBM1684XFamily .BM1684X = true ∧ groupConvWide.filter_is_weight = true ∧
      groupConvWide.filter_stype = .i8 ∧ groupConvWide.group > 1 ∧
      groupConvWide.ic / groupConvWide.group ≤ 32) ∧
    (GroupConv2NormalConv .BM1684X (fun b => 64 / b) groupConvHuge = .undefined ∧
      groupConvHuge.filter_is_weight = true ∧ groupConvHuge.filter_stype = .i8 ∧
      groupConvHuge.group > 1 ∧ groupConvHuge.ic ≤ 64 ∧
      ¬ groupConvHuge.parseParam.FitsInt) := by
  refine ⟨⟨by decide, by decide, by decide, by decide, by decide, by decide⟩,
    ?_, by decide, by decide, by decide, by decide, by decide⟩
  unfold GroupConv2NormalConv
  dsimp only
  rw [updateFilter_groupConvHuge]
  rfl

/-- C27 (amended): for a convolution whose group count divides `ic` and `oc`
and whose filter holds `oc` rows of `(ic/group)*kh*kw` values,
`GroupConv2NormalConv` declines, leaving the convolution as it is, exactly when
the guard fails: the target is not of the BM1684X or SG2260 family, or the
filter is no weight of BF16, F16 or 8-bit integer type, or the group count is
1, or the input-channel count `ic` of the whole convolution exceeds the
parallel width `ic_num` for the data type.  It rewrites the convolution
(returns success) only when the guard holds, and, when no `int` of
`updateFilter` overflows, exactly when the guard holds; the rewritten
convolution has group count 1. -/
theorem GroupConv2NormalConv_rewrites_iff (chip : Chip) (ic_num : Nat → Nat) (op : Conv2DOp)
    (hpos : 0 < op.group) (hic : op.group ∣ op.ic) (hoc : op.group ∣ op.oc)
    (hsize : op.filter_data.length = op.oc * (op.ic / op.group * op.kh * op.kw)) :
    (GroupConv2NormalConv chip ic_num op = .failure op ↔
      ¬ ((isBM1684XFamily chip = true ∨ isSG2260Family chip = true) ∧
        op.filter_is_weight = true ∧
        (op.filter_stype = .bf16 ∨ op.filter_stype = .f16 ∨ op.filter_stype = .i8 ∨
          op.filter_stype = .u8) ∧
        op.group ≠ 1 ∧ op.ic ≤ ic_num (op.filter_stype.getIntOrFloatBitWidth / 8))) ∧
    (∀ op', GroupConv2NormalConv chip ic_num op = .success op' →
      ((isBM1684XFamily chip = true ∨ isSG2260Family chip = true) ∧
        op.filter_is_weight = true ∧
        (op.filter_stype = .bf16 ∨ op.filter_stype = .f16 ∨ op.filter_stype = .i8 ∨
          op.filter_stype = .u8) ∧
        op.group ≠ 1 ∧ op.ic ≤ ic_num (op.filter_stype.getIntOrFloatBitWidth / 8)) ∧
      op'.group = 1) ∧
    (op.parseParam.FitsInt →
      ((∃ op', GroupConv2NormalConv chip ic_num op = .success op') ↔
        ((isBM1684XFamily chip = true ∨ isSG2260Family chip = true) ∧
          op.filter_is_weight = true ∧
          (op.filter_stype = .bf16 ∨ op.filter_stype = .f16 ∨ op.filter_stype = .i8 ∨
            op.filter_stype = .u8) ∧
          op.group ≠ 1 ∧ op.ic ≤ ic_num (op.filter_stype.getIntOrFloatBitWidth / 8)))) := by
  have hguard : ∀ r : PatternResult Conv2DOp,
      (match updateFilter op op.parseParam with
        | none => PatternResult.undefined
        | some new_data => .success { op with
            filter_data := new_data
            filter_shape := [op.parseParam.oc, op.parseParam.ic, op.parseParam.kh,
              op.parseParam.kw]
            group := 1 }) = r →
      r ≠ .failure op ∧ (∀ op', r = .success op' → op'.group = 1) ∧
      (op.parseParam.FitsInt → ∃ op', r = .success op') := by
    intro r hr
    cases hu : updateFilter op op.parseParam with
    | none =>
      rw [hu] at hr
      subst hr
      refine ⟨by simp, fun _ h => PatternResult.noConfusion h, fun hfit => ?_⟩
      obtain ⟨nd, hnd⟩ := updateFilter_defined op hpos hic hoc hsize hfit
      rw [hnd] at hu
      cases hu
    | some nd =>
      rw [hu] at hr
      subst hr
      refine ⟨fun h => PatternResult.noConfusion h, ?_, fun _ => ⟨_, rfl⟩⟩
      intro op' h
      cases h
      rfl
  unfold GroupConv2NormalConv
  dsimp only
  by_cases hfam : (!(isBM1684XFamily chip || isSG2260Family chip) || !op.filter_is_weight) = true
  · rw [if_pos hfam]
    have hno : ¬ ((isBM1684XFamily chip = true ∨ isSG2260Family chip = true) ∧
        op.filter_is_weight = true) := by
      rintro ⟨hc, hw⟩
      rcases hc with hc | hc <;> simp [hc, hw] at hfam
    refine ⟨⟨fun _ h => hno ⟨h.1, h.2.1⟩, fun _ => rfl⟩, fun _ h => PatternResult.noConfusion h, fun _ => ?_⟩
    exact ⟨fun ⟨_, h⟩ => PatternResult.noConfusion h, fun h => absurd ⟨h.1, h.2.1⟩ hno⟩
  rw [if_neg hfam]
  have hfam2 : (isBM1684XFamily chip = true ∨ isSG2260Family chip = true) ∧
      op.filter_is_weight = true := by
    simp only [Bool.or_eq_true, Bool.not_eq_true', not_or, Bool.not_eq_false,
      Bool.or_eq_false_iff, not_and] at hfam
    constructor
    · by_contra hcon
      rw [not_or] at hcon
      have h1 : isBM1684XFamily chip = false := by simpa using hcon.1
      have h2 : isSG2260Family chip = false := by simpa using hcon.2
      exact absurd (hfam.1 h1) (by rw [h2]; decide)
    · exact hfam.2
  by_cases hty : (!decide (op.filter_stype = .bf16 ∨ op.filter_stype = .f16 ∨
      op.filter_stype = .i8 ∨ op.filter_stype = .u8)) = true
  · rw [if_pos hty]
    have hno : ¬ (op.filter_stype = .bf16 ∨ op.filter_stype = .f16 ∨ op.filter_stype = .i8 ∨
        op.filter_stype = .u8) := by
      intro ht
      simp [ht] at hty
    refine ⟨⟨fun _ h => hno h.2.2.1, fun _ => rfl⟩, fun _ h => PatternResult.noConfusion h, fun _ => ?_⟩
    exact ⟨fun ⟨_, h⟩ => PatternResult.noConfusion h, fun h => absurd h.2.2.1 hno⟩
  rw [if_neg hty]
  have hty2 : op.filter_stype = .bf16 ∨ op.filter_stype = .f16 ∨ op.filter_stype = .i8 ∨
      op.filter_stype = .u8 := by
    by_contra hcon
    exact hty (by simp [hcon])
  by_cases hg : op.parseParam.groups = 1
  · rw [if_pos hg]
    have hno : ¬ op.group ≠ 1 := fun h => h hg
    refine ⟨⟨fun _ h => hno h.2.2.2.1, fun _ => rfl⟩, fun _ h => PatternResult.noConfusion h, fun _ => ?_⟩
    exact ⟨fun ⟨_, h⟩ => PatternResult.noConfusion h, fun h => absurd h.2.2.2.1 hno⟩
  rw [if_neg hg]
  by_cases hpar : op.parseParam.ic > ic_num (op.filter_stype.getIntOrFloatBitWidth / 8)
  · rw [if_pos hpar]
    have hno : ¬ op.ic ≤ ic_num (op.filter_stype.getIntOrFloatBitWidth / 8) :=
      Nat.not_le.mpr hpar
    refine ⟨⟨fun _ h => hno h.2.2.2.2, fun _ => rfl⟩, fun _ h => PatternResult.noConfusion h, fun _ => ?_⟩
    exact ⟨fun ⟨_, h⟩ => PatternResult.noConfusion h, fun h => absurd h.2.2.2.2 hno⟩
  rw [if_neg hpar]
  have hG : (isBM1684XFamily chip = true ∨ isSG2260Family chip = true) ∧
      op.filter_is_weight = true ∧
      (op.filter_stype = .bf16 ∨ op.filter_stype = .f16 ∨ op.filter_stype = .i8 ∨
        op.filter_stype = .u8) ∧
      op.group ≠ 1 ∧ op.ic ≤ ic_num (op.filter_stype.getIntOrFloatBitWidth / 8) :=
    ⟨hfam2.1, hfam2.2, hty2, hg, Nat.not_lt.mp hpar⟩
  obtain ⟨h1, h2, h3⟩ := hguard _ rfl
  refine ⟨⟨fun h => absurd h h1, fun h => absurd hG h⟩, fun op' h => ⟨hG, h2 op' h⟩,
    fun hfit => ⟨fun _ => hG, fun _ => h3 hfit⟩⟩

theorem GroupConv2NormalConv_rewrites_iff_witness :
    ∃ op', GroupConv2NormalConv .BM1684X (fun b => 64 / b) groupConvZp = .success op' ∧
      op'.group = 1 := by
  have h := GroupConv2NormalConv_rewrites_iff .BM1684X (fun b => 64 / b) groupConvZp
    (by decide) (by decide) (by decide) (by decide)
  obtain ⟨op', hop⟩ := (h.2.2 (by decide)).2 ⟨Or.inl (by decide), by decide,
    Or.inr (Or.inr (Or.inl rfl)), by decide, by decide⟩
  exact ⟨op', hop, (h.2.1 op' hop).2⟩

/-! ### canMergeTo4D -/

theorem canMergeTo4D.loop_step (a b : List Int) (fuel i sd : Nat)
    (h : i + 1 < sd) (ha : sd ≤ a.length) (hb : sd ≤ b.length) :
    canMergeTo4D.loop a b (fuel + 1) i sd =
      if mergeableAt a b i = true then
        (if sd - 1 = 4 then some (sd - 1) else canMergeTo4D.loop a b fuel i (sd - 1))
      else (if sd = 4 then some sd else canMergeTo4D.loop a b fuel (i + 1) sd) := by
  have h1 : i < a.length := by omega
  have h2 : i + 1 < a.length := by omega
  have h3 : i < b.length := by omega
  have h4 : i + 1 < b.length := by omega
  rw [canMergeTo4D.loop, if_pos h]
  simp only [List.getElem?_eq_getElem h1, List.getElem?_eq_getElem h2,
    List.getElem?_eq_getElem h3, List.getElem?_eq_getElem h4]
  have hm : mergeableAt a b i = can_be_merged a[i] a[i + 1] b[i] b[i + 1] := by
    unfold mergeableAt
    rw [List.getD_eq_getElem _ _ h1, List.getD_eq_getElem _ _ h2, List.getD_eq_getElem _ _ h3,
      List.getD_eq_getElem _ _ h4]
  rw [hm]
  cases can_be_merged a[i] a[i + 1] b[i] b[i + 1] <;> simp

theorem canMergeTo4D.loop_merge (a b : List Int) (i : Nat) (hm : mergeableAt a b i = true)
    (hi : i ≤ 3) :
    ∀ k fuel sd, sd = k + 5 → k < fuel → sd ≤ a.length → sd ≤ b.length →
      canMergeTo4D.loop a b fuel i sd = some 4 := by
  intro k
  induction k with
  | zero =>
    intro fuel sd hsd hf ha hb
    obtain ⟨f, rfl⟩ : ∃ f, fuel = f + 1 := ⟨fuel - 1, by omega⟩
    rw [canMergeTo4D.loop_step a b f i sd (by omega) ha hb, if_pos hm, if_pos (by omega)]
    congr 1
    omega
  | succ k ih =>
    intro fuel sd hsd hf ha hb
    obtain ⟨f, rfl⟩ : ∃ f, fuel = f + 1 := ⟨fuel - 1, by omega⟩
    rw [canMergeTo4D.loop_step a b f i sd (by omega) ha hb, if_pos hm, if_neg (by omega)]
    exact ih f (sd - 1) (by omega) (by omega) (by omega) (by omega)

theorem canMergeTo4D.loop_stuck (a b : List Int) (i : Nat) (hm : mergeableAt a b i = true)
    (hi : 4 ≤ i) :
    ∀ fuel sd, sd ≤ fuel + 4 → sd ≤ a.length → sd ≤ b.length → 4 < sd →
      ∃ r, canMergeTo4D.loop a b fuel i sd = some r ∧ 4 < r := by
  intro fuel
  induction fuel with
  | zero =>
    intro sd hf _ _ hsd
    omega
  | succ f ih =>
    intro sd hf ha hb hsd
    by_cases hc : i + 1 < sd
    · rw [canMergeTo4D.loop_step a b f i sd hc ha hb, if_pos hm, if_neg (by omega)]
      exact ih (sd - 1) (by omega) (by omega) (by omega) (by omega)
    · refine ⟨sd, ?_, hsd⟩
      rw [canMergeTo4D.loop, if_neg hc]

theorem canMergeTo4D.loop_scan (a b : List Int) (n : Nat) (ha : a.length = n)
    (hb : b.length = n) (hn : 4 < n) :
    ∀ k i fuel, n = i + k → k + n ≤ fuel + 4 →
      ∃ r, canMergeTo4D.loop a b fuel i n = some r ∧
        (r ≤ 4 ↔ ∃ j, i ≤ j ∧ j ≤ 3 ∧ mergeableAt a b j = true) := by
  intro k
  induction k with
  | zero =>
    intro i fuel hi hf
    obtain ⟨f, rfl⟩ : ∃ f, fuel = f + 1 := ⟨fuel - 1, by omega⟩
    refine ⟨n, ?_, ?_⟩
    · rw [canMergeTo4D.loop, if_neg (by omega)]
    · constructor
      · intro h
        omega
      · rintro ⟨j, h1, h2, _⟩
        omega
  | succ k ih =>
    intro i fuel hi hf
    obtain ⟨f, rfl⟩ : ∃ f, fuel = f + 1 := ⟨fuel - 1, by omega⟩
    by_cases hc : i + 1 < n
    · by_cases hm : mergeableAt a b i = true
      · by_cases h3 : i ≤ 3
        · refine ⟨4, ?_, ?_⟩
          · exact canMergeTo4D.loop_merge a b i hm h3 (n - 5) (f + 1) n (by omega) (by omega)
              (by omega) (by omega)
          · exact ⟨fun _ => ⟨i, le_rfl, h3, hm⟩, fun _ => le_rfl⟩
        · obtain ⟨r, hr, hlt⟩ := canMergeTo4D.loop_stuck a b i hm (by omega) (f + 1) n
            (by omega) (by omega) (by omega) hn
          refine ⟨r, hr, ?_⟩
          constructor
          · intro h
            omega
          · rintro ⟨j, h1, h2, _⟩
            omega
      · rw [canMergeTo4D.loop_step a b f i n hc (by omega) (by omega), if_neg hm,
          if_neg (by omega)]
        obtain ⟨r, hr, hiff⟩ := ih (i + 1) f (by omega) (by omega)
        refine ⟨r, hr, hiff.trans ?_⟩
        constructor
        · rintro ⟨j, h1, h2, h3⟩
          exact ⟨j, by omega, h2, h3⟩
        · rintro ⟨j, h1, h2, h3⟩
          have hne : j ≠ i := by
            intro h
            rw [h] at h3
            exact hm h3
          exact ⟨j, by omega, h2, h3⟩
    · refine ⟨n, ?_, ?_⟩
      · rw [canMergeTo4D.loop, if_neg hc]
      · constructor
        · intro h
          omega
        · rintro ⟨j, h1, h2, _⟩
          omega

theorem canMergeTo4D_eq (a b : List Int) (n : Nat) (ha : a.length = n) (hb : b.length = n)
    (hn : 4 < n) :
    ∃ r, canMergeTo4D a b n = some r ∧
      (r = true ↔ ∃ i, i < 4 ∧ mergeableAt a b i = true) := by
  obtain ⟨r, hr, hiff⟩ := canMergeTo4D.loop_scan a b n ha hb hn n 0 (2 * n) (by omega) (by omega)
  refine ⟨decide (r ≤ 4), ?_, ?_⟩
  · unfold canMergeTo4D
    rw [if_pos hn, hr]
    rfl
  · rw [decide_eq_true_iff, hiff]
    constructor
    · rintro ⟨j, _, h2, h3⟩
      exact ⟨j, by omega, h3⟩
    · rintro ⟨j, h2, h3⟩
      exact ⟨j, Nat.zero_le j, by omega, h3⟩

theorem TryInsertTileBinaryPattern_cases {g : Graph} {op opd1 opd2 : Nat} {o : Op}
    (hn : g[op]? = some o) (hops : o.operands = [opd1, opd2]) (n : Nat)
    (ha : (typeOf g opd1).shape.length = n) (hb : (typeOf g opd2).shape.length = n) :
    (∀ g', TryInsertTileBinaryPattern g op = .success g' →
      needBroadcast (typeOf g opd1).shape (typeOf g opd2).shape = true ∧
        canMergeTo4D (typeOf g opd1).shape (typeOf g opd2).shape n = some false) ∧
    (∀ g', TryInsertTileBinaryPattern g op = .failure g' → g' = g) := by
  unfold TryInsertTileBinaryPattern
  rw [hn]
  dsimp only
  by_cases hk : o.kind = .Return
  · rw [if_pos hk]
    constructor
    · intro g' h
      cases h
    · intro g' h
      cases h
      rfl
  rw [if_neg hk, hops]
  dsimp only
  rw [ha, hb, Nat.max_self]
  by_cases hnb : needBroadcast (typeOf g opd1).shape (typeOf g opd2).shape = true
  · rw [if_pos hnb]
    cases hc : canMergeTo4D (typeOf g opd1).shape (typeOf g opd2).shape n with
    | none =>
      constructor
      · intro g' h
        cases h
      · intro g' h
        cases h
    | some r =>
      cases r with
      | true =>
        constructor
        · intro g' h
          cases h
        · intro g' h
          cases h
          rfl
      | false =>
        dsimp only
        constructor
        · intro g' _
          exact ⟨hnb, rfl⟩
        · intro g' h
          split at h <;> cases h
  · rw [if_neg hnb]
    constructor
    · intro g' h
      cases h
    · intro g' h
      cases h
      rfl

/-- C29: let `a` and `b` be shapes of the same rank `n`.  For `n ≤ 4`
`canMergeTo4D(a, b, n)` returns true.  For `n > 4` it returns a result (the
loop ends within the `2 n` turns the embedding allows), and the result is true
iff `can_be_merged(a[i], a[i+1], b[i], b[i+1])` holds for some `i` in
`{0,1,2,3}`.  When `TryInsertTileBinaryPattern` is applied to an operation
whose two operands have the shapes `a` and `b`, it succeeds, and so inserts
tiles, only when `needBroadcast` holds, `n > 4` and no such `i` exists; when it
declines the graph is as it was. -/
theorem canMergeTo4D_first_four (a b : List Int) (n : Nat) (ha : a.length = n)
    (hb : b.length = n) :
    (n ≤ 4 → canMergeTo4D a b n = some true) ∧
    (4 < n → ∃ r, canMergeTo4D a b n = some r ∧
      (r = true ↔ ∃ i, i < 4 ∧
        can_be_merged (a.getD i 0) (a.getD (i + 1) 0) (b.getD i 0) (b.getD (i + 1) 0) = true)) ∧
    (∀ (g : Graph) (op opd1 opd2 : Nat) (o : Op), g[op]? = some o → o.operands = [opd1, opd2] →
      (typeOf g opd1).shape = a → (typeOf g opd2).shape = b →
      (∀ g', TryInsertTileBinaryPattern g op = .success g' →
        needBroadcast a b = true ∧ 4 < n ∧ ∀ i, i < 4 →
          can_be_merged (a.getD i 0) (a.getD (i + 1) 0) (b.getD i 0) (b.getD (i + 1) 0) =
            false) ∧
      (∀ g', TryInsertTileBinaryPattern g op = .failure g' → g' = g)) := by
  refine ⟨?_, ?_, ?_⟩
  · intro hn
    unfold canMergeTo4D
    rw [if_neg (by omega)]
  · intro hn
    exact canMergeTo4D_eq a b n ha hb hn
  · intro g op opd1 opd2 o hop hops h1 h2
    obtain ⟨hs, hf⟩ := TryInsertTileBinaryPattern_cases hop hops n (by rw [h1, ha])
      (by rw [h2, hb])
    rw [h1, h2] at hs
    refine ⟨?_, hf⟩
    intro g' hg'
    obtain ⟨hnb, hc⟩ := hs g' hg'
    have hn : 4 < n := by
      by_contra hle
      unfold canMergeTo4D at hc
      rw [if_neg hle] at hc
      cases hc
    refine ⟨hnb, hn, ?_⟩
    obtain ⟨r, hr, hiff⟩ := canMergeTo4D_eq a b n ha hb hn
    rw [hc] at hr
    cases hr
    intro i hi
    cases hm : can_be_merged (a.getD i 0) (a.getD (i + 1) 0) (b.getD i 0) (b.getD (i + 1) 0) with
    | false => rfl
    | true => exact absurd (hiff.2 ⟨i, hi, hm⟩) (by decide)

theorem canMergeTo4D_first_four_witness :
    canMergeTo4D [2, 1, 2, 1, 2] [1, 2, 1, 2, 1] 5 = some false ∧
    canMergeTo4D [2, 1, 2, 1, 7] [2, 1, 1, 2, 7] 5 = some true ∧
    TryInsertTileBinaryPattern tileGraph 2 = .success tileGraphAfter := by
  have h1 := (canMergeTo4D_first_four [2, 1, 2, 1, 2] [1, 2, 1, 2, 1] 5 rfl rfl).2.1 (by decide)
  have h2 := (canMergeTo4D_first_four [2, 1, 2, 1, 7] [2, 1, 1, 2, 7] 5 rfl rfl).2.1 (by decide)
  obtain ⟨r1, hr1, hiff1⟩ := h1
  obtain ⟨r2, hr2, hiff2⟩ := h2
  refine ⟨?_, ?_, by decide⟩
  · rw [hr1]
    cases r1 with
    | false => rfl
    | true =>
      obtain ⟨i, hi, hm⟩ := hiff1.1 rfl
      interval_cases i <;> revert hm <;> decide
  · rw [hr2]
    cases r2 with
    | true => rfl
    | false =>
      have := hiff2.2 ⟨0, by decide, by decide⟩
      cases this

/-! ### MatMulHdimBatchPattern when no case applies -/

/-- C30 (the code at the failing input): the left operand of the MatMul is
produced by a permute, the right operand by a graph input, and dimension 2 of
their shapes differs.  None of the three cases applies, yet the pattern goes on
to its last step and returns success: the output shape is `[1,4,2,4]` instead of
`[1,2,4,4]` and a `[0,2,1,3]` permute is appended, while `hdim_is_batch` is
still false and the MatMul still reads the permute. -/
theorem MatMulHdimBatchPattern_fall_through :
    MatMulHdimBatchPattern (fun data _ _ => data) matmulLeftPermuteGraph 4 =
      .success matmulLeftPermuteAfter ∧
    (matmulLeftPermuteAfter.op 4).map TpuOp.hdim_is_batch = some false ∧
    (matmulLeftPermuteAfter.op 4).map TpuOp.operands = some [3, 1] ∧
    (matmulLeftPermuteAfter.op 3).map TpuOp.kind = some .Permute ∧
    matmulLeftPermuteGraph.shape 4 = [1, 2, 4, 4] ∧
    matmulLeftPermuteAfter.shape 4 = [1, 4, 2, 4] ∧
    (matmulLeftPermuteAfter.op 6).map TpuOp.kind = some .Permute := by
  refine ⟨by decide!, by decide, by decide, by decide, by decide, by decide, by decide⟩

/-! ### A permute that is a reshape -/

theorem canonicalize_example :
    PermuteOp.canonicalize permuteUnitGraph 2 =
      .success [ some { kind := .Input, type := { shape := [4, 3, 28, 1], elem := .plain .f16 } },
        some { kind := .None }, none, some { kind := .Return, operands := [4] },
        some { kind := .Reshape, operands := [0],
               type := { shape := [4, 3, 1, 28], elem := .plain .f16 } } ] ∧
    permuteData [2, 3, 1] [0, 2, 1] [10, 11, 12, 13, 14, 15] = [10, 11, 12, 13, 14, 15] ∧
    permuteData [2, 3] [1, 0] [10, 11, 12, 13, 14, 15] = [10, 13, 11, 14, 12, 15] := by
  refine ⟨by decide!, by decide, by decide⟩

theorem unravel_length (shape : List Nat) : ∀ p, (unravel shape p).length = shape.length := by
  induction shape with
  | nil => intro p; rfl
  | cons d ds ih =>
    intro p
    simp [unravel, ih]

theorem unravel_inShape (shape : List Nat) :
    ∀ p, p < shape.prod → InShape (unravel shape p) shape := by
  induction shape with
  | nil =>
    intro p _
    exact List.Forall₂.nil
  | cons d ds ih =>
    intro p hp
    rw [List.prod_cons] at hp
    have hpos : 0 < ds.prod := by
      rcases Nat.eq_zero_or_pos ds.prod with h | h
      · rw [h] at hp
        omega
      · exact h
    refine List.Forall₂.cons ?_ (ih _ (Nat.mod_lt _ hpos))
    exact (Nat.div_lt_iff_lt_mul hpos).2 hp

theorem rowMajor_unravel (shape : List Nat) :
    ∀ p, p < shape.prod → rowMajor shape (unravel shape p) = p := by
  induction shape with
  | nil =>
    intro p hp
    simp only [List.prod_nil, Nat.lt_one_iff] at hp
    rw [hp]
    rfl
  | cons d ds ih =>
    intro p hp
    rw [List.prod_cons] at hp
    have hpos : 0 < ds.prod := by
      rcases Nat.eq_zero_or_pos ds.prod with h | h
      · rw [h] at hp
        omega
      · exact h
    show p / ds.prod * ds.prod + rowMajor ds (unravel ds (p % ds.prod)) = p
    rw [ih _ (Nat.mod_lt _ hpos)]
    exact Nat.div_add_mod' p ds.prod

theorem rowMajor_eq_sum (shape : List Nat) :
    ∀ idx : List Nat, idx.length = shape.length →
      rowMajor shape idx =
        ((List.range shape.length).map fun k => idx.getD k 0 * (shape.drop (k + 1)).prod).sum := by
  induction shape with
  | nil =>
    intro idx _
    cases idx <;> rfl
  | cons d ds ih =>
    intro idx hlen
    cases idx with
    | nil => cases hlen
    | cons i is =>
      have hl : is.length = ds.length := by simpa using hlen
      rw [List.length_cons, List.range_succ_eq_map, List.map_cons, List.sum_cons, List.map_map]
      show i * ds.prod + rowMajor ds is = _
      rw [ih is hl]
      rfl

theorem prod_drop_of_ones (l : List Nat) (a : Nat) :
    ∀ k, (∀ m, a ≤ m → m < a + k → l.getD m 1 = 1) → (l.drop a).prod = (l.drop (a + k)).prod := by
  intro k
  induction k with
  | zero =>
    intro _
    rfl
  | succ k ih =>
    intro h
    rw [ih (fun m h1 h2 => h m h1 (by omega))]
    by_cases hlt : a + k < l.length
    · rw [List.drop_eq_getElem_cons hlt, List.prod_cons]
      have h1 := h (a + k) (by omega) (by omega)
      rw [List.getD_eq_getElem _ _ hlt] at h1
      rw [h1, Nat.one_mul]
      rfl
    · rw [List.drop_eq_nil_of_le (by omega), List.drop_eq_nil_of_le (by omega)]

theorem filterMap_range_getElem? {α : Type} (data : List α) :
    (List.range data.length).filterMap (fun p => data[p]?) = data := by
  induction data using List.reverseRecOn with
  | nil => rfl
  | append_singleton l a ih =>
    rw [List.length_append, List.length_singleton, List.range_succ, List.filterMap_append]
    have h1 : (List.range l.length).filterMap (fun p => (l ++ [a])[p]?) =
        (List.range l.length).filterMap (fun p => l[p]?) := by
      apply List.filterMap_congr
      intro p hp
      rw [List.getElem?_append_left (List.mem_range.1 hp)]
    rw [h1, ih]
    simp

theorem PermuteOp.canonicalize.scanStart_spec (order : List Int) (n : Nat) :
    ∀ fuel st s, PermuteOp.canonicalize.scanStart order n fuel st = some s →
      st ≤ s ∧ (st ≤ n → s ≤ n) ∧ ∀ m, st ≤ m → m < s → order[m]? = some (m : Int) := by
  intro fuel
  induction fuel with
  | zero =>
    intro st s h
    rw [PermuteOp.canonicalize.scanStart] at h
    split at h
    · cases h
    · cases h
      exact ⟨le_rfl, fun h => h, fun m h1 h2 => absurd h2 (by omega)⟩
  | succ fuel ih =>
    intro st s h
    rw [PermuteOp.canonicalize.scanStart] at h
    by_cases hlt : st < n
    · rw [if_pos hlt] at h
      cases ho : order[st]? with
      | none =>
        rw [ho] at h
        cases h
      | some o =>
        rw [ho] at h
        dsimp only at h
        by_cases heq : (st : Int) = o
        · rw [if_pos heq] at h
          obtain ⟨h1, h2, h3⟩ := ih (st + 1) s h
          refine ⟨by omega, fun _ => h2 (by omega), ?_⟩
          intro m hm1 hm2
          by_cases hm : m = st
          · rw [hm, ho, heq]
          · exact h3 m (by omega) hm2
        · rw [if_neg heq] at h
          cases h
          exact ⟨le_rfl, fun h => h, fun m h1 h2 => absurd h2 (by omega)⟩
    · rw [if_neg hlt] at h
      cases h
      exact ⟨le_rfl, fun h => h, fun m h1 h2 => absurd h2 (by omega)⟩

theorem PermuteOp.canonicalize.scanEnd_spec (order : List Int) (start : Nat) :
    ∀ fuel e0 e, PermuteOp.canonicalize.scanEnd order start fuel e0 = some e →
      e ≤ e0 ∧ ∀ m : Nat, e < (m : Int) → (m : Int) ≤ e0 → order[m]? = some (m : Int) := by
  intro fuel
  induction fuel with
  | zero =>
    intro e0 e h
    rw [PermuteOp.canonicalize.scanEnd] at h
    split at h
    · cases h
    · cases h
      exact ⟨le_rfl, fun m h1 h2 => absurd h2 (by omega)⟩
  | succ fuel ih =>
    intro e0 e h
    rw [PermuteOp.canonicalize.scanEnd] at h
    by_cases hgt : e0 > (start : Int)
    · rw [if_pos hgt] at h
      cases ho : order[e0.toNat]? with
      | none =>
        rw [ho] at h
        cases h
      | some o =>
        rw [ho] at h
        dsimp only at h
        by_cases heq : e0 = o
        · rw [if_pos heq] at h
          obtain ⟨h1, h2⟩ := ih (e0 - 1) e h
          refine ⟨by omega, ?_⟩
          intro m hm1 hm2
          by_cases hm : (m : Int) = e0
          · have hm' : e0.toNat = m := by omega
            rw [← hm', ho, ← heq]
            congr 1
            omega
          · exact h2 m hm1 (by omega)
        · rw [if_neg heq] at h
          cases h
          exact ⟨le_rfl, fun m h1 h2 => absurd h2 (by omega)⟩
    · rw [if_neg hgt] at h
      cases h
      exact ⟨le_rfl, fun m h1 h2 => absurd h2 (by omega)⟩

theorem PermuteOp.canonicalize.check_spec (shape : List Int) (hpos : ∀ d ∈ shape, 1 ≤ d) :
    ∀ fuel index e sum, 1 ≤ sum →
      PermuteOp.canonicalize.check shape fuel index e sum = some true →
      ∀ m, index ≤ m → (m : Int) ≤ e → shape[m]? ≠ some 1 →
        sum = 1 ∧ ∀ t, index ≤ t → t < m → shape[t]? = some 1 := by
  intro fuel
  induction fuel with
  | zero =>
    intro index e sum _ h m hm1 hm2 _
    rw [PermuteOp.canonicalize.check, if_pos (by omega)] at h
    cases h
  | succ fuel ih =>
    intro index e sum hsum h m hm1 hm2 hne
    rw [PermuteOp.canonicalize.check, if_pos (by omega)] at h
    cases hd : shape[index]? with
    | none =>
      rw [hd] at h
      cases h
    | some d =>
      rw [hd] at h
      dsimp only at h
      have hd1 : 1 ≤ d := hpos d (List.getElem?_mem hd)
      split at h
      · cases h
      split at h
      · cases h
      rename_i _ hok
      have hprod : 1 ≤ sum * d := by nlinarith
      by_cases hmi : m = index
      · subst hmi
        have hdne : d ≠ 1 := by
          intro h1
          exact hne (by rw [hd, h1])
        have hsd : sum * d = d := by
          by_contra hcon
          exact hok ⟨hdne, hcon⟩
        refine ⟨?_, fun t h1 h2 => absurd h2 (by omega)⟩
        have : (sum - 1) * d = 0 := by linarith
        rcases mul_eq_zero.1 this with h0 | h0
        · linarith
        · omega
      · obtain ⟨h1, h2⟩ := ih (index + 1) e (sum * d) hprod h m (by omega) hm2 hne
        have hs1 : sum = 1 := by nlinarith
        have hd' : d = 1 := by
          rw [hs1] at h1
          linarith
        refine ⟨hs1, ?_⟩
        intro t ht1 ht2
        by_cases hti : t = index
        · rw [hti, hd, hd']
        · exact h2 t (by omega) ht2

theorem map_range_getD {α : Type} (l : List α) (d : α) :
    (List.range l.length).map (fun k => l.getD k d) = l := by
  apply List.ext_getElem?
  intro i
  rcases Nat.lt_or_ge i l.length with hi | hi
  · rw [List.getElem?_map, List.getElem?_range hi, List.getElem?_eq_getElem hi,
      Option.map_some', List.getD_eq_getElem _ _ hi]
  · rw [List.getElem?_eq_none (by simpa using hi), List.getElem?_eq_none (by simpa using hi)]

theorem permuteOutShape_perm (dims ord : List Nat) (hperm : ord.Perm (List.range dims.length)) :
    (permuteOutShape dims ord).Perm dims := by
  have h := hperm.map (fun k => dims.getD k 1)
  rw [map_range_getD] at h
  exact h

theorem permuteOutShape_getD (dims ord : List Nat) {m : Nat} (hm : m < ord.length) :
    (permuteOutShape dims ord).getD m 1 = dims.getD (ord.getD m 0) 1 := by
  unfold permuteOutShape
  rw [List.getD_eq_getElem _ _ (by simpa using hm), List.getElem_map,
    List.getD_eq_getElem _ _ hm]

theorem getD_inj_of_perm {ord : List Nat} {n : Nat} (hperm : ord.Perm (List.range n))
    {i j : Nat} (hi : i < n) (hj : j < n) (h : ord.getD i 0 = ord.getD j 0) : i = j := by
  have hlen : ord.length = n := by rw [hperm.length_eq, List.length_range]
  have hnd : ord.Nodup := (hperm.nodup_iff).2 (List.nodup_range n)
  rw [List.getD_eq_getElem _ _ (by omega : i < ord.length),
    List.getD_eq_getElem _ _ (by omega : j < ord.length)] at h
  exact (hnd.getElem_inj_iff).1 h

theorem getD_lt_of_perm {ord : List Nat} {n : Nat} (hperm : ord.Perm (List.range n))
    {i : Nat} (hi : i < n) : ord.getD i 0 < n := by
  have hlen : ord.length = n := by rw [hperm.length_eq, List.length_range]
  rw [List.getD_eq_getElem _ _ (by omega)]
  exact List.mem_range.1 ((hperm.mem_iff).1 (List.getElem_mem _))

theorem permuteOutShape_drop (dims ord : List Nat) (hperm : ord.Perm (List.range dims.length))
    (a : Nat) (hfix : ∀ m, a ≤ m → m < dims.length → ord.getD m 0 = m) :
    (permuteOutShape dims ord).drop a = dims.drop a := by
  have hlen : ord.length = dims.length := by rw [hperm.length_eq, List.length_range]
  apply List.ext_getElem?
  intro t
  rw [List.getElem?_drop, List.getElem?_drop]
  unfold permuteOutShape
  rw [List.getElem?_map]
  rcases Nat.lt_or_ge (a + t) dims.length with hlt | hge
  · have h1 := hfix (a + t) (by omega) hlt
    rw [List.getD_eq_getElem _ _ (by omega)] at h1
    rw [List.getElem?_eq_getElem (by omega : a + t < ord.length), h1,
      List.getElem?_eq_getElem hlt, Option.map_some', List.getD_eq_getElem _ _ hlt]
  · rw [List.getElem?_eq_none (by omega), List.getElem?_eq_none (by omega)]
    rfl

theorem permuteOutShape_drop_perm (dims ord : List Nat)
    (hperm : ord.Perm (List.range dims.length)) (a : Nat)
    (hfix : ∀ m, m < a → ord.getD m 0 = m) :
    ((permuteOutShape dims ord).drop a).Perm (dims.drop a) := by
  have hlen : ord.length = dims.length := by rw [hperm.length_eq, List.length_range]
  have htake : ord.take a = (List.range dims.length).take a := by
    apply List.ext_getElem?
    intro t
    rw [List.getElem?_take, List.getElem?_take]
    by_cases ht : t < a
    · rw [if_pos ht, if_pos ht]
      rcases Nat.lt_or_ge t dims.length with hlt | hge
      · have h1 := hfix t ht
        rw [List.getD_eq_getElem _ _ (by omega)] at h1
        rw [List.getElem?_eq_getElem (by omega : t < ord.length), h1, List.getElem?_range hlt]
      · rw [List.getElem?_eq_none (by omega), List.getElem?_eq_none (by simpa using hge)]
    · rw [if_neg ht, if_neg ht]
  have hsplit : (ord.take a ++ ord.drop a).Perm
      ((List.range dims.length).take a ++ (List.range dims.length).drop a) := by
    rw [List.take_append_drop, List.take_append_drop]
    exact hperm
  rw [htake] at hsplit
  have hdrop := (List.perm_append_left_iff _).1 hsplit
  have h := hdrop.map (fun k => dims.getD k 1)
  rw [List.map_drop, List.map_drop, map_range_getD] at h
  exact h

theorem block_closed {ord : List Nat} {n s E : Nat} (hperm : ord.Perm (List.range n))
    (hF1 : ∀ m, m < s → ord.getD m 0 = m)
    (hF2 : ∀ m, E ≤ m → m < n → ord.getD m 0 = m)
    {m : Nat} (hm1 : s ≤ m) (hm2 : m < E) (hmn : m < n) :
    s ≤ ord.getD m 0 ∧ ord.getD m 0 < E := by
  have hlt := getD_lt_of_perm hperm hmn
  constructor
  · by_contra hcon
    have h1 := hF1 (ord.getD m 0) (by omega)
    have := getD_inj_of_perm hperm hlt hmn h1
    omega
  · by_contra hcon
    have h1 := hF2 (ord.getD m 0) (by omega) hlt
    have := getD_inj_of_perm hperm hlt hmn h1
    omega

theorem stride_eq (dims ord : List Nat) (s E : Nat)
    (hperm : ord.Perm (List.range dims.length)) (hE : E ≤ dims.length)
    (hF1 : ∀ m, m < s → ord.getD m 0 = m)
    (hF2 : ∀ m, E ≤ m → m < dims.length → ord.getD m 0 = m)
    (hF3 : ∀ m, s ≤ m → m < E → dims.getD m 1 ≠ 1 → ∀ t, s ≤ t → t < m → dims.getD t 1 = 1)
    (i : Nat) (hi : i < dims.length) (hne : dims.getD (ord.getD i 0) 1 ≠ 1) :
    (dims.drop (ord.getD i 0 + 1)).prod = ((permuteOutShape dims ord).drop (i + 1)).prod := by
  have hlen : ord.length = dims.length := by rw [hperm.length_eq, List.length_range]
  by_cases hA : E ≤ i
  · rw [hF2 i hA hi,
      permuteOutShape_drop dims ord hperm (i + 1) (fun m h1 h2 => hF2 m (by omega) h2)]
  by_cases hB : i < s
  · rw [hF1 i hB]
    exact ((permuteOutShape_drop_perm dims ord hperm (i + 1)
      (fun m h1 => hF1 m (by omega))).prod_eq).symm
  have hks := block_closed hperm hF1 hF2 (by omega : s ≤ i) (by omega : i < E) hi
  have h1 : (dims.drop (ord.getD i 0 + 1)).prod = (dims.drop E).prod := by
    have h := prod_drop_of_ones dims (ord.getD i 0 + 1) (E - (ord.getD i 0 + 1)) (by
      intro m hm1 hm2
      by_contra hm
      exact hne (hF3 m (by omega) (by omega) hm (ord.getD i 0) hks.1 (by omega)))
    rw [h]
    congr 2
    omega
  have h2 : ((permuteOutShape dims ord).drop (i + 1)).prod =
      ((permuteOutShape dims ord).drop E).prod := by
    have h := prod_drop_of_ones (permuteOutShape dims ord) (i + 1) (E - (i + 1)) (by
      intro m hm1 hm2
      have hmn : m < dims.length := by omega
      rw [permuteOutShape_getD dims ord (by omega : m < ord.length)]
      have hms := block_closed hperm hF1 hF2 (by omega : s ≤ m) (by omega : m < E) hmn
      have hneq : ord.getD m 0 ≠ ord.getD i 0 := by
        intro heq
        have := getD_inj_of_perm hperm hmn hi heq
        omega
      by_contra hm
      rcases Nat.lt_or_gt_of_ne hneq with hlt | hgt
      · exact hm (hF3 (ord.getD i 0) hks.1 hks.2 hne (ord.getD m 0) hms.1 hlt)
      · exact hne (hF3 (ord.getD m 0) hms.1 hms.2 hm (ord.getD i 0) hks.1 hgt))
    rw [h]
    congr 2
    omega
  rw [h1, h2, permuteOutShape_drop dims ord hperm E hF2]

theorem permuteSource_eq (dims ord : List Nat) (s E : Nat)
    (hperm : ord.Perm (List.range dims.length)) (hE : E ≤ dims.length)
    (hF1 : ∀ m, m < s → ord.getD m 0 = m)
    (hF2 : ∀ m, E ≤ m → m < dims.length → ord.getD m 0 = m)
    (hF3 : ∀ m, s ≤ m → m < E → dims.getD m 1 ≠ 1 → ∀ t, s ≤ t → t < m → dims.getD t 1 = 1)
    (p : Nat) (hp : p < dims.prod) : permuteSource dims ord p = p := by
  have hlen : ord.length = dims.length := by rw [hperm.length_eq, List.length_range]
  have hnd : ord.Nodup := (hperm.nodup_iff).2 (List.nodup_range _)
  have hout := permuteOutShape_perm dims ord hperm
  have hpo : p < (permuteOutShape dims ord).prod := by rw [hout.prod_eq]; exact hp
  have holen : (permuteOutShape dims ord).length = dims.length := by
    rw [hout.length_eq]
  have hin := unravel_inShape _ p hpo
  have hjlen : (unravel (permuteOutShape dims ord) p).length = dims.length := by
    rw [unravel_length, holen]
  have hrm := rowMajor_unravel _ p hpo
  unfold permuteSource
  dsimp only
  generalize hj : unravel (permuteOutShape dims ord) p = j at hin hjlen hrm
  rw [rowMajor_eq_sum dims _ (by simp)]
  conv_rhs => rw [← hrm, rowMajor_eq_sum _ j (by rw [hjlen, holen]), holen]
  have hsum : ((List.range dims.length).map fun k =>
      ((List.range dims.length).map fun k => j.getD (ord.indexOf k) 0).getD k 0 *
        (dims.drop (k + 1)).prod).sum =
      (ord.map fun k => j.getD (ord.indexOf k) 0 * (dims.drop (k + 1)).prod).sum := by
    rw [← (hperm.map _).sum_eq]
    congr 1
    apply List.map_congr_left
    intro k hk
    have hk' : k < dims.length := List.mem_range.1 ((hperm.mem_iff).1 hk)
    rw [List.getD_eq_getElem _ _ (by simpa using hk'), List.getElem_map, List.getElem_range]
  have hmap : ∀ F : Nat → Nat, ord.map F =
      (List.range dims.length).map (fun i => F (ord.getD i 0)) := by
    intro F
    conv_lhs => rw [← map_range_getD ord 0]
    rw [List.map_map, hlen]
    rfl
  rw [hsum, hmap]
  congr 1
  apply List.map_congr_left
  intro i hi
  have hi' : i < dims.length := List.mem_range.1 hi
  have hidx : ord.indexOf (ord.getD i 0) = i := by
    rw [List.getD_eq_getElem _ _ (by omega : i < ord.length)]
    exact List.indexOf_getElem hnd i (by omega)
  show j.getD (ord.indexOf (ord.getD i 0)) 0 * (dims.drop (ord.getD i 0 + 1)).prod =
    j.getD i 0 * ((permuteOutShape dims ord).drop (i + 1)).prod
  rw [hidx]
  by_cases hone : dims.getD (ord.getD i 0) 1 = 1
  · have hji : j.getD i 0 = 0 := by
      have hij : i < j.length := by omega
      have hio : i < (permuteOutShape dims ord).length := by omega
      have hlt : j[i] < (permuteOutShape dims ord)[i] :=
        (List.forall₂_iff_get.1 hin).2 i hij hio
      rw [← List.getD_eq_getElem (permuteOutShape dims ord) 1 (by omega),
        permuteOutShape_getD dims ord (by omega : i < ord.length), hone] at hlt
      rw [List.getD_eq_getElem _ _ (by omega : i < j.length)]
      omega
    rw [hji, Nat.zero_mul, Nat.zero_mul]
  · rw [stride_eq dims ord s E hperm hE hF1 hF2 hF3 i hi' hone]

theorem PermuteOp.canonicalize.scanStart_total (order : List Int) (n : Nat)
    (hlen : n ≤ order.length) :
    ∀ fuel st, n ≤ st + fuel →
      ∃ s, PermuteOp.canonicalize.scanStart order n fuel st = some s := by
  intro fuel
  induction fuel with
  | zero =>
    intro st h
    rw [PermuteOp.canonicalize.scanStart, if_neg (by omega)]
    exact ⟨st, rfl⟩
  | succ fuel ih =>
    intro st h
    rw [PermuteOp.canonicalize.scanStart]
    by_cases hlt : st < n
    · rw [if_pos hlt, List.getElem?_eq_getElem (by omega : st < order.length)]
      dsimp only
      split
      · exact ih (st + 1) (by omega)
      · exact ⟨st, rfl⟩
    · rw [if_neg hlt]
      exact ⟨st, rfl⟩

theorem PermuteOp.canonicalize.scanEnd_total (order : List Int) (start : Nat) :
    ∀ (fuel : Nat) (e : Int), e < (order.length : Int) → e ≤ (start : Int) + (fuel : Int) →
      ∃ r, PermuteOp.canonicalize.scanEnd order start fuel e = some r := by
  intro fuel
  induction fuel with
  | zero =>
    intro e _ h
    rw [PermuteOp.canonicalize.scanEnd, if_neg (by omega)]
    exact ⟨e, rfl⟩
  | succ fuel ih =>
    intro e hlen h
    rw [PermuteOp.canonicalize.scanEnd]
    by_cases hgt : e > (start : Int)
    · rw [if_pos hgt, List.getElem?_eq_getElem (by omega : e.toNat < order.length)]
      dsimp only
      by_cases hq : e = order[e.toNat]
      · rw [if_pos hq]
        exact ih (e - 1) (by omega) (by omega)
      · rw [if_neg hq]
        exact ⟨e, rfl⟩
    · rw [if_neg hgt]
      exact ⟨e, rfl⟩

theorem one_le_prod_int (l : List Int) (h : ∀ x ∈ l, 1 ≤ x) : 1 ≤ l.prod := by
  induction l with
  | nil => simp
  | cons a l ih =>
    rw [List.prod_cons]
    have ha : 1 ≤ a := h a (List.mem_cons_self _ _)
    have hl : 1 ≤ l.prod := ih (fun x hx => h x (List.mem_cons_of_mem _ hx))
    nlinarith

theorem PermuteOp.canonicalize.check_total (shape : List Int) (hpos : ∀ d ∈ shape, 1 ≤ d) :
    ∀ (fuel index : Nat) (e sum : Int), e < (shape.length : Int) →
      e + 1 ≤ (index : Int) + (fuel : Int) → 1 ≤ sum →
      sum * (shape.drop index).prod ≤ 9223372036854775807 →
      ∃ r, PermuteOp.canonicalize.check shape fuel index e sum = some r := by
  intro fuel
  induction fuel with
  | zero =>
    intro index e sum _ h _ _
    rw [PermuteOp.canonicalize.check, if_neg (by omega)]
    exact ⟨true, rfl⟩
  | succ fuel ih =>
    intro index e sum hlen h hsum hbound
    rw [PermuteOp.canonicalize.check]
    by_cases hle : (index : Int) ≤ e
    · have hidx : index < shape.length := by omega
      rw [if_pos hle, List.getElem?_eq_getElem hidx]
      dsimp only
      rw [List.drop_eq_getElem_cons hidx, List.prod_cons] at hbound
      have hd : 1 ≤ shape[index] := hpos _ (List.getElem_mem _)
      have hrest : 1 ≤ (shape.drop (index + 1)).prod :=
        one_le_prod_int _ (fun x hx => hpos x (List.mem_of_mem_drop hx))
      have hs1 : 1 ≤ sum * shape[index] := by nlinarith
      have hs2 : sum * shape[index] ≤ 9223372036854775807 := by nlinarith
      rw [if_neg (by omega)]
      split
      · exact ⟨false, rfl⟩
      · exact ih (index + 1) e (sum * shape[index]) hlen (by omega) hs1 (by
          rw [mul_assoc]
          exact hbound)
    · rw [if_neg hle]
      exact ⟨true, rfl⟩

theorem canonicalize_success {g g' : TpuGraph} {op input : Nat} {o : TpuOp}
    (ho : g.op op = some o) (hin : o.operands[0]? = some input)
    (h : PermuteOp.canonicalize g op = .success g') :
    ∃ start e,
      PermuteOp.canonicalize.scanStart o.order (g.shape input).length
        (g.shape input).length 0 = some start ∧
      PermuteOp.canonicalize.scanEnd o.order start (g.shape input).length
        (((g.shape input).length : Int) - 1) = some e ∧
      PermuteOp.canonicalize.check (g.shape input) (g.shape input).length start e 1 =
        some true ∧
      g' = ((g.create { kind := .Reshape, operands := [input], type := o.type }).1.replaceAllUsesWith
        op g.length).eraseOp op := by
  unfold PermuteOp.canonicalize at h
  rw [ho] at h
  dsimp only at h
  rw [hin] at h
  dsimp only at h
  cases hs : PermuteOp.canonicalize.scanStart o.order (g.shape input).length
      (g.shape input).length 0 with
  | none =>
    rw [hs] at h
    cases h
  | some start =>
    rw [hs] at h
    dsimp only at h
    cases he : PermuteOp.canonicalize.scanEnd o.order start (g.shape input).length
        (((g.shape input).length : Int) - 1) with
    | none =>
      rw [he] at h
      cases h
    | some e =>
      rw [he] at h
      dsimp only at h
      cases hc : PermuteOp.canonicalize.check (g.shape input) (g.shape input).length start e 1 with
      | none =>
        rw [hc] at h
        cases h
      | some r =>
        rw [hc] at h
        cases r with
        | false => cases h
        | true =>
          dsimp only at h
          cases h
          exact ⟨start, e, rfl, he, hc, rfl⟩

theorem getD_of_cast_getElem? {ord : List Nat} {m : Nat}
    (h : (ord.map Int.ofNat)[m]? = some (m : Int)) : ord.getD m 0 = m := by
  rw [List.getElem?_map] at h
  cases hm : ord[m]? with
  | none =>
    rw [hm] at h
    cases h
  | some x =>
    rw [hm] at h
    simp only [Option.map_some', Option.some.injEq] at h
    have hx : x = m := Int.ofNat.inj h
    rw [List.getD_eq_getElem?_getD, hm, hx]
    rfl

theorem cast_getElem?_eq_one {dims : List Nat} {m : Nat} (hm : m < dims.length) :
    (dims.map Int.ofNat)[m]? = some 1 ↔ dims.getD m 1 = 1 := by
  rw [List.getElem?_map, List.getElem?_eq_getElem hm, List.getD_eq_getElem _ _ hm]
  simp only [Option.map_some', Option.some.injEq]
  constructor
  · intro h
    exact Int.ofNat.inj h
  · intro h
    rw [h]
    rfl

theorem PermuteOp.canonicalize.scanStart_exit (order : List Int) (n : Nat) :
    ∀ fuel st s, PermuteOp.canonicalize.scanStart order n fuel st = some s → s < n →
      order[s]? ≠ some (s : Int) := by
  intro fuel
  induction fuel with
  | zero =>
    intro st s h hlt
    rw [PermuteOp.canonicalize.scanStart] at h
    split at h
    · cases h
    · cases h
      omega
  | succ fuel ih =>
    intro st s h hlt
    rw [PermuteOp.canonicalize.scanStart] at h
    by_cases hst : st < n
    · rw [if_pos hst] at h
      cases ho : order[st]? with
      | none =>
        rw [ho] at h
        cases h
      | some o =>
        rw [ho] at h
        dsimp only at h
        by_cases heq : (st : Int) = o
        · rw [if_pos heq] at h
          exact ih (st + 1) s h hlt
        · rw [if_neg heq] at h
          cases h
          rw [ho]
          intro hcon
          cases hcon
          exact heq rfl
    · rw [if_neg hst] at h
      cases h
      omega

theorem PermuteOp.canonicalize.scanEnd_exit (order : List Int) (start : Nat) :
    ∀ fuel e0 e, PermuteOp.canonicalize.scanEnd order start fuel e0 = some e →
      (start : Int) ≤ e0 → (start : Int) ≤ e ∧ ((start : Int) < e → order[e.toNat]? ≠ some e) := by
  intro fuel
  induction fuel with
  | zero =>
    intro e0 e h hle
    rw [PermuteOp.canonicalize.scanEnd] at h
    split at h
    · cases h
    · cases h
      exact ⟨hle, fun hlt => by omega⟩
  | succ fuel ih =>
    intro e0 e h hle
    rw [PermuteOp.canonicalize.scanEnd] at h
    by_cases hgt : e0 > (start : Int)
    · rw [if_pos hgt] at h
      cases ho : order[e0.toNat]? with
      | none =>
        rw [ho] at h
        cases h
      | some o =>
        rw [ho] at h
        dsimp only at h
        by_cases heq : e0 = o
        · rw [if_pos heq] at h
          exact ih (e0 - 1) e h (by omega)
        · rw [if_neg heq] at h
          cases h
          refine ⟨hle, fun _ => ?_⟩
          rw [ho]
          intro hcon
          cases hcon
          exact heq rfl
    · rw [if_neg hgt] at h
      cases h
      exact ⟨hle, fun hlt => by omega⟩

theorem PermuteOp.canonicalize.check_true (shape : List Int) (hpos : ∀ d ∈ shape, 1 ≤ d) :
    ∀ (fuel index : Nat) (e sum : Int), e < (shape.length : Int) →
      e + 1 ≤ (index : Int) + (fuel : Int) → 1 ≤ sum →
      sum * (shape.drop index).prod ≤ 9223372036854775807 →
      (∀ m, index ≤ m → (m : Int) ≤ e → shape[m]? ≠ some 1 →
        sum = 1 ∧ ∀ t, index ≤ t → t < m → shape[t]? = some 1) →
      PermuteOp.canonicalize.check shape fuel index e sum = some true := by
  intro fuel
  induction fuel with
  | zero =>
    intro index e sum _ h _ _ _
    rw [PermuteOp.canonicalize.check, if_neg (by omega)]
  | succ fuel ih =>
    intro index e sum hlen h hsum hbound hQ
    rw [PermuteOp.canonicalize.check]
    by_cases hle : (index : Int) ≤ e
    · have hidx : index < shape.length := by omega
      rw [if_pos hle, List.getElem?_eq_getElem hidx]
      dsimp only
      rw [List.drop_eq_getElem_cons hidx, List.prod_cons] at hbound
      have hd : 1 ≤ shape[index] := hpos _ (List.getElem_mem _)
      have hrest : 1 ≤ (shape.drop (index + 1)).prod :=
        one_le_prod_int _ (fun x hx => hpos x (List.mem_of_mem_drop hx))
      have hs1 : 1 ≤ sum * shape[index] := by nlinarith
      have hs2 : sum * shape[index] ≤ 9223372036854775807 := by nlinarith
      rw [if_neg (by omega)]
      have hcond : ¬ (shape[index] ≠ 1 ∧ sum * shape[index] ≠ shape[index]) := by
        rintro ⟨h1, h2⟩
        have hsum1 := (hQ index (le_refl index) hle (by
          rw [List.getElem?_eq_getElem hidx]
          intro hcon
          exact h1 (Option.some.inj hcon))).1
        rw [hsum1, one_mul] at h2
        exact h2 rfl
      rw [if_neg hcond]
      refine ih (index + 1) e (sum * shape[index]) hlen (by omega) hs1 (by
        rw [mul_assoc]
        exact hbound) ?_
      intro m hm1 hm2 hne
      obtain ⟨hsum1, hall⟩ := hQ m (by omega) hm2 hne
      have hdi := hall index (le_refl index) (by omega)
      rw [List.getElem?_eq_getElem hidx] at hdi
      have hd1 : shape[index] = 1 := Option.some.inj hdi
      refine ⟨by rw [hsum1, hd1, one_mul], ?_⟩
      intro t ht1 ht2
      exact hall t (by omega) ht2
    · rw [if_neg hle]

theorem canonicalize_block (dims ord : List Nat) (start : Nat) (e : Int)
    (hperm : ord.Perm (List.range dims.length)) (hpos : ∀ d ∈ dims, 1 ≤ d)
    (hs : PermuteOp.canonicalize.scanStart (ord.map Int.ofNat) dims.length dims.length 0 =
      some start)
    (he : PermuteOp.canonicalize.scanEnd (ord.map Int.ofNat) start dims.length
      ((dims.length : Int) - 1) = some e)
    (hc : PermuteOp.canonicalize.check (dims.map Int.ofNat) dims.length start e 1 = some true) :
    ∀ p, p < dims.prod → permuteSource dims ord p = p := by
  obtain ⟨_, _, hs3⟩ := PermuteOp.canonicalize.scanStart_spec _ _ _ _ _ hs
  obtain ⟨he1, he2⟩ := PermuteOp.canonicalize.scanEnd_spec _ _ _ _ _ he
  have hpos' : ∀ d ∈ dims.map Int.ofNat, (1 : Int) ≤ d := by
    intro d hd
    obtain ⟨x, hx, rfl⟩ := List.mem_map.1 hd
    have := hpos x hx
    show (1 : Int) ≤ (x : Int)
    omega
  have hF3 := PermuteOp.canonicalize.check_spec _ hpos' _ _ _ _ (le_refl 1) hc
  refine permuteSource_eq dims ord start (e + 1).toNat hperm (by omega) ?_ ?_ ?_
  · intro m hm
    exact getD_of_cast_getElem? (hs3 m (Nat.zero_le m) hm)
  · intro m hm1 hm2
    exact getD_of_cast_getElem? (he2 m (by omega) (by omega))
  · intro m hm1 hm2 hne t ht1 ht2
    have hmn : m < dims.length := by omega
    have h := (hF3 m hm1 (by omega)
      (fun h1 => hne ((cast_getElem?_eq_one hmn).1 h1))).2 t ht1 ht2
    exact (cast_getElem?_eq_one (by omega)).1 h

theorem permuteData_eq {α : Type} (dims ord : List Nat) (data : List α)
    (hdata : data.length = dims.prod)
    (h : ∀ p, p < dims.prod → permuteSource dims ord p = p) :
    permuteData dims ord data = data := by
  unfold permuteData
  have hc : (List.range dims.prod).filterMap (fun p => data[permuteSource dims ord p]?) =
      (List.range dims.prod).filterMap (fun p => data[p]?) := by
    apply List.filterMap_congr
    intro p hp
    rw [h p (List.mem_range.1 hp)]
  rw [hc, ← hdata]
  exact filterMap_range_getElem? data

theorem pos_of_prod_ne_zero (dims : List Nat) (h : dims.prod ≠ 0) : ∀ d ∈ dims, 1 ≤ d := by
  intro d hd
  rcases Nat.eq_zero_or_pos d with h0 | h0
  · exact absurd (List.prod_eq_zero (h0 ▸ hd)) h
  · exact h0

theorem cast_getElem?_of_getD {ord : List Nat} {m : Nat} (hm : m < ord.length)
    (h : ord.getD m 0 = m) : (ord.map Int.ofNat)[m]? = some (m : Int) := by
  rw [List.getD_eq_getElem _ _ hm] at h
  rw [List.getElem?_map, List.getElem?_eq_getElem hm, h]
  rfl

theorem canonicalize_check_iff (dims ord : List Nat) (hperm : ord.Perm (List.range dims.length))
    (hne : dims.prod ≠ 0) (hmax : dims.prod ≤ 9223372036854775807) :
    ∃ start e r,
      PermuteOp.canonicalize.scanStart (ord.map Int.ofNat) dims.length dims.length 0 =
        some start ∧
      PermuteOp.canonicalize.scanEnd (ord.map Int.ofNat) start dims.length
        ((dims.length : Int) - 1) = some e ∧
      PermuteOp.canonicalize.check (dims.map Int.ofNat) dims.length start e 1 = some r ∧
      (r = true ↔ AtMostOneBetweenMoved dims ord) := by
  have hlen : ord.length = dims.length := by rw [hperm.length_eq, List.length_range]
  have hpos := pos_of_prod_ne_zero dims hne
  obtain ⟨start, hs⟩ := PermuteOp.canonicalize.scanStart_total (ord.map Int.ofNat) dims.length
    (by rw [List.length_map, hlen]) dims.length 0 (by omega)
  obtain ⟨e, he⟩ := PermuteOp.canonicalize.scanEnd_total (ord.map Int.ofNat) start dims.length
    ((dims.length : Int) - 1) (by rw [List.length_map, hlen]; omega) (by omega)
  obtain ⟨he1, he2⟩ := PermuteOp.canonicalize.scanEnd_spec _ _ _ _ _ he
  obtain ⟨hs1, hs2, hs3⟩ := PermuteOp.canonicalize.scanStart_spec _ _ _ _ _ hs
  have hpos' : ∀ d ∈ dims.map Int.ofNat, (1 : Int) ≤ d := by
    intro d hd
    obtain ⟨x, hx, rfl⟩ := List.mem_map.1 hd
    have := hpos x hx
    show (1 : Int) ≤ (x : Int)
    omega
  have hbound : (1 : Int) * ((dims.map Int.ofNat).drop start).prod ≤ 9223372036854775807 := by
    rw [one_mul]
    have h1 : ((dims.map Int.ofNat).drop start).prod = (((dims.drop start).prod : Nat) : Int) := by
      rw [← List.map_drop]
      induction dims.drop start with
      | nil => rfl
      | cons a l ih =>
        rw [List.map_cons, List.prod_cons, List.prod_cons, ih]
        push_cast
        rfl
    have h2 : (dims.drop start).prod ≤ dims.prod := by
      conv_rhs => rw [← List.take_append_drop start dims, List.prod_append]
      have h3 : 1 ≤ (dims.take start).prod :=
        Nat.pos_of_ne_zero (fun h0 => by
          obtain h4 := List.prod_eq_zero_iff.1 h0
          have := hpos 0 (List.mem_of_mem_take h4)
          omega)
      exact Nat.le_mul_of_pos_left _ h3
    rw [h1]
    have h5 : (dims.drop start).prod ≤ 9223372036854775807 := le_trans h2 hmax
    exact_mod_cast h5
  have hl : e < ((dims.map Int.ofNat).length : Int) := by rw [List.length_map]; omega
  obtain ⟨r, hc⟩ := PermuteOp.canonicalize.check_total (dims.map Int.ofNat) hpos' dims.length
    start e 1 hl (by omega) (le_refl 1) hbound
  refine ⟨start, e, r, hs, he, hc, ?_, ?_⟩
  · intro hr
    rw [hr] at hc
    have hQ := PermuteOp.canonicalize.check_spec _ hpos' _ _ _ _ (le_refl 1) hc
    intro a b m1 m2 ha hb h1 h2 h3 hbn
    have hsa : start ≤ a := by
      by_contra hcon
      exact ha (getD_of_cast_getElem? (hs3 a (Nat.zero_le a) (by omega)))
    have hbe : (b : Int) ≤ e := by
      by_contra hcon
      exact hb (getD_of_cast_getElem? (he2 b (by omega) (by omega)))
    by_cases hm2 : dims.getD m2 1 = 1
    · exact Or.inr hm2
    · left
      have hne2 : (dims.map Int.ofNat)[m2]? ≠ some 1 := fun hcon =>
        hm2 ((cast_getElem?_eq_one (by omega)).1 hcon)
      exact (cast_getElem?_eq_one (by omega)).1
        ((hQ m2 (by omega) (by omega) hne2).2 m1 (by omega) h2)
  · intro hA
    have htrue := PermuteOp.canonicalize.check_true (dims.map Int.ofNat) hpos' dims.length
      start e 1 hl (by omega) (le_refl 1) hbound (by
        intro m hm1 hm2 hnem
        refine ⟨rfl, fun t ht1 ht2 => ?_⟩
        have hsn : start < dims.length := by omega
        have hse : (start : Int) < e := by omega
        have hx1 := PermuteOp.canonicalize.scanStart_exit _ _ _ _ _ hs hsn
        have hx2 := (PermuteOp.canonicalize.scanEnd_exit _ _ _ _ _ he (by omega)).2 hse
        have hen : e.toNat < dims.length := by omega
        have hee : ((e.toNat : Nat) : Int) = e := Int.toNat_of_nonneg (by omega)
        have ha : ord.getD start 0 ≠ start := fun hcon =>
          hx1 (cast_getElem?_of_getD (by omega) hcon)
        have hb : ord.getD e.toNat 0 ≠ e.toNat := fun hcon => by
          have := cast_getElem?_of_getD (by omega : e.toNat < ord.length) hcon
          rw [hee] at this
          exact hx2 this
        rcases hA start e.toNat t m ha hb ht1 ht2 (by omega) hen with h | h
        · exact (cast_getElem?_eq_one (by omega)).2 h
        · exact absurd ((cast_getElem?_eq_one (by omega)).2 h) hnem)
    rw [hc] at htrue
    exact Option.some.inj htrue

/-- C28: let `op` be a permute of a tensor of shape `dims` by `ord`, a
permutation of the axes `0 .. rank-1`.  Whenever `canonicalize` replaces it by a
reshape (returns success), the permute maps every row-major position to
itself, so for every tensor of that shape the row-major element sequence of the
permuted tensor is that of the input, which is what the reshape yields; the
graph then holds a reshape with the permute's input and result type in place
of the permute.  The loops of the embedding end, and the check is the one the
sentence describes: when no dimension is zero and the number of elements fits
in `int64_t`, `canonicalize` returns success if at most one dimension between
the first and the last moved axis has an extent other than 1, and otherwise
returns failure with the graph as it was. -/
theorem canonicalize_reshape_same_data {α : Type} (g : TpuGraph) (op input : Nat) (o : TpuOp)
    (dims ord : List Nat) (ho : g.op op = some o) (hin : o.operands[0]? = some input)
    (hshape : g.shape input = dims.map Int.ofNat) (hord : o.order = ord.map Int.ofNat)
    (hperm : ord.Perm (List.range dims.length)) :
    (∀ g', PermuteOp.canonicalize g op = .success g' →
      (∀ p, p < dims.prod → permuteSource dims ord p = p) ∧
      (∀ data : List α, data.length = dims.prod → permuteData dims ord data = data) ∧
      g' = ((g.create { kind := .Reshape, operands := [input], type := o.type }).1.replaceAllUsesWith
        op g.length).eraseOp op) ∧
    (dims.prod ≠ 0 → dims.prod ≤ 9223372036854775807 →
      (AtMostOneBetweenMoved dims ord ∧ ∃ g', PermuteOp.canonicalize g op = .success g') ∨
      (¬ AtMostOneBetweenMoved dims ord ∧ PermuteOp.canonicalize g op = .failure g)) := by
  have hn : (g.shape input).length = dims.length := by rw [hshape, List.length_map]
  constructor
  · intro g' h
    obtain ⟨start, e, hs, he, hc, hg'⟩ := canonicalize_success ho hin h
    rw [hn, hord] at hs he
    rw [hn, hshape] at hc
    have hsrc : ∀ p, p < dims.prod → permuteSource dims ord p = p := by
      intro p hp
      have hne : dims.prod ≠ 0 := by omega
      exact canonicalize_block dims ord start e hperm (pos_of_prod_ne_zero dims hne) hs he hc p hp
    exact ⟨hsrc, fun data hdata => permuteData_eq dims ord data hdata hsrc, hg'⟩
  · intro hne hmax
    obtain ⟨start, e, r, hs, he, hc, hiff⟩ := canonicalize_check_iff dims ord hperm hne hmax
    have hrun : PermuteOp.canonicalize g op =
        match PermuteOp.canonicalize.check (dims.map Int.ofNat) dims.length start e 1 with
        | none => .undefined
        | some false => .failure g
        | some true => .success (((g.create { kind := .Reshape, operands := [input],
                                              type := o.type }).1.replaceAllUsesWith
            op g.length).eraseOp op) := by
      unfold PermuteOp.canonicalize
      rw [ho]
      dsimp only
      rw [hin]
      dsimp only
      rw [hn, hord, hs]
      dsimp only
      rw [he]
      dsimp only
      rw [hshape]
      rfl
    rw [hc] at hrun
    cases r with
    | false =>
      right
      exact ⟨fun hA => Bool.noConfusion (hiff.2 hA), hrun⟩
    | true =>
      left
      exact ⟨hiff.1 rfl, _, hrun⟩

theorem canonicalize_reshape_same_data_witness :
    (∃ g', PermuteOp.canonicalize permuteUnitGraph 2 = .success g') ∧
    permuteData [4, 3, 28, 1] [0, 1, 3, 2] (List.range 336) = List.range 336 := by
  have h := @canonicalize_reshape_same_data Nat permuteUnitGraph 2 0
    { kind := .Permute, operands := [0, 1], order := [0, 1, 3, 2],
      type := { shape := [4, 3, 1, 28], elem := .plain .f16 } }
    [4, 3, 28, 1] [0, 1, 3, 2] rfl rfl rfl rfl (by decide)
  have hs := canonicalize_example.1
  exact ⟨⟨_, hs⟩, (h.1 _ hs).2.1 (List.range 336) (by simp)⟩

end TpuMlir
